import Mathlib

/-!
CTest build handler: line classification, context windows and report quotas

A shallow embedding of `Source/CTest/cmCTestBuildHandler.cxx`, and of `CheckGraph` of
`Source/cmGeneratorExpressionDAGChecker.cxx`.

* `std::string`, `char const*` and `std::deque<char>` values are lists of characters;
  a `char const*` read as a C string stops at the first NUL (`c_str`).  A character
  stands for the bytes of its UTF-8 encoding: `std::string::size()` and the `length`
  argument of `ProcessBuffer` count bytes (`string_size`).  A chunk that ends inside the
  encoding of a character is not represented; the queue joins the bytes of the chunks
  before a line is taken from it.
* `int` members (`TotalErrors`, `MaxErrors`, ...) are integers.  Inside `ProcessBuffer` a
  total is incremented only while it is below its maximum, so no increment overflows.
  The line number that `atoi` reads from the text of an event is converted to `int`.
  `size_t` members are natural numbers; the counters that are incremented without a
  bound wrap at `2 ^ 64`.
* Classes that are not part of these sources (`cmsys::RegularExpression`,
  `cmStringReplaceHelper`, `cmFileTimeCache`, `cmsys::Directory`, `cmXMLWriter`,
  `cmSystemTools`, `cmCTest`, `cmUVProcessChain`, `cmCTestLaunchReporter`) enter as
  parameters: a regular expression is its `find` function, the XML writer is the list of
  elements written to it, a directory is the list of its file names, the process chain is
  the list of decoded chunks it delivers together with its final status.  A chunk is taken
  as the read callback hands it to `ProcessBuffer`: after every NUL was replaced by a
  newline and `cmProcessOutput` (not part of these sources either) has decoded the text.
* Where a statement is about the built-in pattern tables, the patterns are read by a
  model of `cmsys::RegularExpression` (`regparse`, `regmatch`, `regfind`) and the colour
  escape sequences are removed by a model of the `cmStringReplaceHelper` that
  `ProcessHandler` builds (`RemoveColor`).
* The progress ticks and the build log stream written by `ProcessBuffer` are output
  only and are left out.
* A DAG checker is given with the finite chain of its ancestors, which its `Parent`
  pointers form.
-/

namespace CTestBuild

/-! ## Data model -/

/-- A string: the sequence of its characters. -/
abbrev Str := List Char

/-- The C string that starts at the beginning of the buffer `v`: the characters before
the first NUL. -/
def c_str (v : List Char) : Str :=
  v.takeWhile (fun c => c != '\x00')

/-- Stand-in for `cmsys::RegularExpression`: `find s` is `none` when `find(s)` returns
false; otherwise it carries the sub-expression matches, `match(n)` being its value at `n`. -/
structure RegularExpression where
  find : Str → Option (Nat → Str)

/-- Entry of `ErrorWarningFileLineRegex` (`cmCTestCompileErrorWarningRex`). -/
structure cmCTestCompileErrorWarningRex where
  FileIndex : Nat
  LineIndex : Nat
  RegularExpression : RegularExpression

/-- Result of `ProcessSingleLine` (the `b_*_LINE` constants). -/
inductive LineType where
  | b_REGULAR_LINE
  | b_WARNING_LINE
  | b_ERROR_LINE
deriving DecidableEq, Repr

/-- One recorded error or warning (`cmCTestBuildErrorWarning`). -/
structure cmCTestBuildErrorWarning where
  Error : Bool
  LogLine : Int
  Text : Str
  SourceFile : Str
  SourceFileTail : Str
  LineNumber : Int
  PreContext : Str
  PostContext : Str
deriving DecidableEq, Repr

/-- The members of `cmCTestBuildHandler` that the build-log processing reads or writes.
`LastErrorOrWarning` is the iterator into `ErrorsAndWarnings`, kept as its position;
`ErrorsAndWarnings.end()` is the position `ErrorsAndWarnings.length`.  The four vectors
of pattern strings are empty in a handler that was just constructed. -/
structure cmCTestBuildHandler where
  UseCTestLaunch : Bool
  CTestLaunchDir : Str
  ColorRemover : Str → Str
  ErrorMatchRegex : List RegularExpression
  ErrorExceptionRegex : List RegularExpression
  WarningMatchRegex : List RegularExpression
  WarningExceptionRegex : List RegularExpression
  ErrorWarningFileLineRegex : List cmCTestCompileErrorWarningRex
  BuildProcessingQueue : List Char
  BuildProcessingErrorQueue : List Char
  BuildOutputLogSize : Nat
  OutputLineCounter : Nat
  ErrorsAndWarnings : List cmCTestBuildErrorWarning
  LastErrorOrWarning : Nat
  PostContextCount : Nat
  MaxPreContext : Nat
  MaxPostContext : Nat
  PreContext : List Str
  TotalErrors : Int
  TotalWarnings : Int
  ErrorQuotaReached : Bool
  WarningQuotaReached : Bool
  MaxErrors : Int
  MaxWarnings : Int
  CustomErrorMatches : List Str := []
  CustomErrorExceptions : List Str := []
  CustomWarningMatches : List Str := []
  CustomWarningExceptions : List Str := []

/-- Which of the two character queues a `ProcessBuffer` call works on (its `queue`
argument): the one of standard output or the one of standard error. -/
inductive QueueSel where
  | BuildProcessingQueue
  | BuildProcessingErrorQueue
deriving DecidableEq, Repr

/-- The queue a `QueueSel` points to. -/
def cmCTestBuildHandler.queue (h : cmCTestBuildHandler) : QueueSel → List Char
  | .BuildProcessingQueue => h.BuildProcessingQueue
  | .BuildProcessingErrorQueue => h.BuildProcessingErrorQueue

/-- Store `q` into the queue a `QueueSel` points to. -/
def cmCTestBuildHandler.setQueue (h : cmCTestBuildHandler) (sel : QueueSel) (q : List Char) :
    cmCTestBuildHandler :=
  match sel with
  | .BuildProcessingQueue => { h with BuildProcessingQueue := q }
  | .BuildProcessingErrorQueue => { h with BuildProcessingErrorQueue := q }

/-- `std::string::size()`: the number of bytes of the text, every character being held
in its UTF-8 encoding. -/
def string_size : Str → Nat
  | [] => 0
  | c :: cs => c.utf8Size + string_size cs

/-- A `size_t` value converted by `static_cast<int>`. -/
def static_cast_int (n : Nat) : Int :=
  ((n + 2 ^ 31) % 2 ^ 32 : Nat) - 2 ^ 31

/-! ## ProcessSingleLine -/

/-- The scan `for (rx : rules) if (rx.find(line)) { ...; break; }`: whether it reaches a
rule that matches. -/
def scanRules (line : Str) : List RegularExpression → Bool
  | [] => false
  | rx :: rest => if (rx.find line).isSome then true else scanRules line rest

/-- `cmCTestBuildHandler::ProcessSingleLine`. -/
def ProcessSingleLine (h : cmCTestBuildHandler) (data : Str) : LineType :=
  if h.UseCTestLaunch then
    -- No log scraping when using launchers.
    LineType.b_REGULAR_LINE
  else
    -- Ignore ANSI color codes when checking for errors and warnings.
    let input := data
    let line := h.ColorRemover input
    let errorLine :=
      if !h.ErrorQuotaReached then
        let errorLine := scanRules (c_str line) h.ErrorMatchRegex
        if scanRules (c_str line) h.ErrorExceptionRegex then false else errorLine
      else false
    let warningLine :=
      if !h.WarningQuotaReached then
        let warningLine := scanRules (c_str line) h.WarningMatchRegex
        if scanRules (c_str line) h.WarningExceptionRegex then false else warningLine
      else false
    if errorLine then LineType.b_ERROR_LINE
    else if warningLine then LineType.b_WARNING_LINE
    else LineType.b_REGULAR_LINE

/-! ## ProcessBuffer -/

/-- The quota check at the top of every iteration of the line loop of `ProcessBuffer`. -/
def CheckQuota (h : cmCTestBuildHandler) : cmCTestBuildHandler :=
  let h := if h.TotalWarnings >= h.MaxWarnings then { h with WarningQuotaReached := true } else h
  if h.TotalErrors >= h.MaxErrors then { h with ErrorQuotaReached := true } else h

/-- Apply `f` to the element at position `n`, if there is one (a write through an
iterator). -/
def modifyAt {α : Type} (f : α → α) : Nat → List α → List α
  | _, [] => []
  | 0, x :: xs => f x :: xs
  | n + 1, x :: xs => x :: modifyAt f n xs

/-- The body of the line loop of `ProcessBuffer` once an end of line was found (and after
the quota check): `CurrentProcessingLine` holds the characters before the newline. -/
def ProcessBufferLine (h : cmCTestBuildHandler) (CurrentProcessingLine : List Char) :
    cmCTestBuildHandler :=
  let line := c_str CurrentProcessingLine
  -- Process the line
  let lineType := ProcessSingleLine h line
  -- Depending on the line type, produce error or warning, or nothing
  let found := lineType != LineType.b_REGULAR_LINE
  let errorwarning_Error := lineType == LineType.b_ERROR_LINE
  let h :=
    match lineType with
    | LineType.b_WARNING_LINE => { h with TotalWarnings := h.TotalWarnings + 1 }
    | LineType.b_ERROR_LINE => { h with TotalErrors := h.TotalErrors + 1 }
    | LineType.b_REGULAR_LINE => h
  let h :=
    if found then
      -- This is an error or warning, so generate report
      let errorwarning : cmCTestBuildErrorWarning :=
        { Error := errorwarning_Error
          LogLine := static_cast_int ((h.OutputLineCounter + 1) % 2 ^ 64)
          Text := line
          SourceFile := []
          SourceFileTail := []
          LineNumber := 0
          -- Copy pre-context to report
          PreContext := h.PreContext.foldl (fun acc pc => acc ++ (pc ++ ['\n'])) []
          PostContext := [] }
      -- Store report
      { h with
        PreContext := []
        ErrorsAndWarnings := h.ErrorsAndWarnings ++ [errorwarning]
        LastErrorOrWarning := (h.ErrorsAndWarnings ++ [errorwarning]).length - 1
        PostContextCount := 0 }
    else if h.ErrorsAndWarnings ≠ [] ∧ h.LastErrorOrWarning ≠ h.ErrorsAndWarnings.length ∧
        h.PostContextCount < h.MaxPostContext then
      -- This is not an error or warning.
      -- So, figure out if this is a post-context line
      let count := h.PostContextCount + 1
      { h with
        PostContextCount := count
        ErrorsAndWarnings :=
          modifyAt
            (fun ew =>
              { ew with
                PostContext :=
                  ew.PostContext ++ line ++ (if count < h.MaxPostContext then ['\n'] else []) })
            h.LastErrorOrWarning h.ErrorsAndWarnings }
    else
      -- Otherwise store pre-context for the next error
      let pre := h.PreContext ++ [line]
      { h with
        PreContext :=
          if pre.length > h.MaxPreContext then pre.drop (pre.length - h.MaxPreContext)
          else pre }
  { h with OutputLineCounter := (h.OutputLineCounter + 1) % 2 ^ 64 }

/-- The line loop of `ProcessBuffer` on the queue it was given: as long as the queue
holds a newline, check the quotas, process the line before it and erase it; the last
iteration checks the quotas, finds no newline and leaves the loop. -/
def ProcessBufferLoop (h : cmCTestBuildHandler) (queue : List Char) :
    cmCTestBuildHandler × List Char :=
  match hq : queue.span (fun c => c != '\n') with
  | (_, []) => (CheckQuota h, queue)
  | (CurrentProcessingLine, _ :: rest) =>
    ProcessBufferLoop (ProcessBufferLine (CheckQuota h) CurrentProcessingLine) rest
termination_by queue.length
decreasing_by
  have h1 := List.takeWhile_append_dropWhile (fun c => c != '\n') queue
  rw [List.span_eq_take_drop] at hq
  have h2 := congrArg List.length h1
  simp only [Prod.mk.injEq] at hq
  rw [hq.1, hq.2] at h2
  simp only [List.length_append, List.length_cons] at h2
  omega

/-- `cmCTestBuildHandler::ProcessBuffer(data, length, tick, tick_len, ofs, queue)`: append
the chunk to the queue, then run the line loop.  `length` is the size of the chunk in
bytes. -/
def ProcessBuffer (h : cmCTestBuildHandler) (data : List Char) (queue : QueueSel) :
    cmCTestBuildHandler :=
  let q := h.queue queue ++ data
  let h := { h with BuildOutputLogSize := (h.BuildOutputLogSize + string_size data) % 2 ^ 64 }
  let r := ProcessBufferLoop h q
  r.1.setQueue queue r.2

/-- The handler with other contents of the two character queues and another size of the
output seen so far; the line loop reads none of the three. -/
def withQueues (h : cmCTestBuildHandler) (out err : List Char) (size : Nat) :
    cmCTestBuildHandler :=
  { h with BuildProcessingQueue := out, BuildProcessingErrorQueue := err,
           BuildOutputLogSize := size }

/-- The text made of the given lines, each followed by a newline. -/
def unlines (ls : List Str) : List Char :=
  (ls.map (fun l => l ++ ['\n'])).flatten

/-- The iterations of the line loop of `ProcessBuffer` for the given lines, in order:
each one checks the quotas and then runs the body of the loop on its line. -/
def ProcessLines (h : cmCTestBuildHandler) (ls : List (List Char)) : cmCTestBuildHandler :=
  ls.foldl (fun h cur => ProcessBufferLine (CheckQuota h) cur) h

/-- The number of lines of a text: the newlines in it, and one more when it ends in a
line that has no newline after it. -/
def lineCount (text : Str) : Nat :=
  text.count '\n' + (if text.getLast? = none ∨ text.getLast? = some '\n' then 0 else 1)

/-- The two handlers have the same settings: mode, colour remover, rules and maxima. -/
def SameSettings (h g : cmCTestBuildHandler) : Prop :=
  g.UseCTestLaunch = h.UseCTestLaunch ∧ g.ColorRemover = h.ColorRemover ∧
  g.ErrorMatchRegex = h.ErrorMatchRegex ∧ g.ErrorExceptionRegex = h.ErrorExceptionRegex ∧
  g.WarningMatchRegex = h.WarningMatchRegex ∧
  g.WarningExceptionRegex = h.WarningExceptionRegex ∧
  g.MaxErrors = h.MaxErrors ∧ g.MaxWarnings = h.MaxWarnings ∧
  g.MaxPreContext = h.MaxPreContext ∧ g.MaxPostContext = h.MaxPostContext

/-- What the line loop maintains about the context windows: the pre-context buffer holds
at most `MaxPreContext` lines, none of them with a newline; every event has contexts
within the maxima; the iterator `LastErrorOrWarning` stands at the last event; and while
the post-context of the last event is still open, it holds one newline per line taken. -/
def ContextInv (h : cmCTestBuildHandler) : Prop :=
  h.PreContext.length ≤ h.MaxPreContext ∧
  (∀ l ∈ h.PreContext, '\n' ∉ l) ∧
  (∀ ev ∈ h.ErrorsAndWarnings,
    lineCount ev.PreContext ≤ h.MaxPreContext ∧
    (ev.PostContext = [] ∨ ev.PostContext.count '\n' + 1 ≤ h.MaxPostContext)) ∧
  (h.ErrorsAndWarnings ≠ [] → h.LastErrorOrWarning + 1 = h.ErrorsAndWarnings.length) ∧
  (∀ ev, h.ErrorsAndWarnings.getLast? = some ev → h.PostContextCount < h.MaxPostContext →
    ev.PostContext.count '\n' = h.PostContextCount)

/-- From `a` to `b` no event of the given kind (`true` for Error, `false` for Warning) was
recorded: the events of `a` keep their kinds in `b`, and those that `b` has in addition
are all of the other kind. -/
def NoNewEvent (kind : Bool) (a b : cmCTestBuildHandler) : Prop :=
  ∃ k, b.ErrorsAndWarnings.map (fun ev => ev.Error) =
    a.ErrorsAndWarnings.map (fun ev => ev.Error) ++ List.replicate k (!kind)

/-- The last `n` of the lines (all of them when there are fewer). -/
def lastLines (n : Nat) (ls : List Str) : List Str :=
  ls.drop (ls.length - n)

/-- The text that the post-context of an event gains from the lines taken into it, when
`count` lines were taken before: each line, followed by a newline unless it is the
`MaxPostContext`-th line of the post-context. -/
def joinPost (MaxPostContext : Nat) : Nat → List Str → Str
  | _, [] => []
  | count, l :: ls =>
    l ++ (if count + 1 < MaxPostContext then ['\n'] else []) ++
      joinPost MaxPostContext (count + 1) ls

/-- The handler `g` classifies every line as the handler `h` does, at the next iteration
of the line loop. -/
def SameClassifier (h g : cmCTestBuildHandler) : Prop :=
  ∀ data, ProcessSingleLine (CheckQuota g) data = ProcessSingleLine (CheckQuota h) data

/-- The block "Initialize building structures" of `RunMakeCommand`, which starts a run. -/
def InitializeBuildingStructures (h : cmCTestBuildHandler) : cmCTestBuildHandler :=
  { h with
    BuildProcessingQueue := []
    OutputLineCounter := 0
    ErrorsAndWarnings := []
    TotalErrors := 0
    TotalWarnings := 0
    BuildOutputLogSize := 0
    WarningQuotaReached := false
    ErrorQuotaReached := false }

/-- The read callbacks of `RunMakeCommand`: every decoded chunk of either stream is
handed to `ProcessBuffer` together with the queue of its stream, in the order of arrival. -/
def ReadChunks (h : cmCTestBuildHandler) (chunks : List (QueueSel × List Char)) :
    cmCTestBuildHandler :=
  chunks.foldl (fun h c => ProcessBuffer h c.2 c.1) h

/-! ## GenerateXMLLogScraped -/

/-- The functions of `cmSystemTools` used by the report whose result depends on the
platform and on the file system. -/
structure cmSystemTools where
  ConvertToUnixSlashes : Str → Str
  ToNormalizedPathOnDisk : Str → Str

/-- Whether `pat` occurs in the string (`std::string::find(pat) != npos`). -/
def hasSubstr (pat : Str) : Str → Bool
  | [] => pat.isPrefixOf []
  | c :: cs => pat.isPrefixOf (c :: cs) || hasSubstr pat cs

/-- Position of the first occurrence of the character (`std::string::find(ch)`), `none`
being `npos`. -/
def findChar (ch : Char) : Str → Option Nat
  | [] => none
  | c :: cs => if c = ch then some 0 else (findChar ch cs).map (fun p => p + 1)

/-- Left-to-right replacement of the occurrences of `replace`; `skip` characters of an
occurrence that was just replaced are still to be passed over. -/
def replaceFrom (replace with_ : Str) : Nat → Str → Str
  | _, [] => []
  | skip + 1, _ :: cs => replaceFrom replace with_ skip cs
  | 0, c :: cs =>
    if replace.isPrefixOf (c :: cs) then with_ ++ replaceFrom replace with_ (replace.length - 1) cs
    else c :: replaceFrom replace with_ 0 cs

/-- Modelled from the spec: `cmSystemTools::ReplaceString(source, replace, with)` is not
part of these sources; it replaces every occurrence of `replace` in `source`, from left to
right and without overlap, and leaves `source` alone when `replace` is empty. -/
def ReplaceString (source replace with_ : Str) : Str :=
  if replace = [] then source else replaceFrom replace with_ 0 source

/-- The C library function `strtol` in base 10, as `atoi` calls it: optional white space,
an optional sign, then the leading decimal digits; a value outside the range of `long`
(64 bits) is replaced by the nearest bound of that range. -/
def strtol (s : Str) : Int :=
  let s := s.dropWhile (fun c => c = ' ' || c = '\t' || c = '\n' || c = '\x0b' || c = '\x0c' || c = '\r')
  let neg := s.head? = some '-'
  let s := if s.head? = some '-' ∨ s.head? = some '+' then s.drop 1 else s
  let n : Int := (s.takeWhile Char.isDigit).foldl (fun acc c => 10 * acc + (c.toNat - 48 : Nat)) 0
  let v := if neg then -n else n
  if v < -(2 ^ 63) then -(2 ^ 63) else if v > 2 ^ 63 - 1 then 2 ^ 63 - 1 else v

/-- The C library function `atoi`, which is `(int) strtol(s, NULL, 10)` in the GNU C
library: the value of `strtol` converted to the 32 bits of an `int`.  The digits of a
number below `2 ^ 31` give that number; `2147483648` gives `-2147483648`. -/
def atoi (s : Str) : Int :=
  (strtol s + 2 ^ 31) % 2 ^ 32 - 2 ^ 31

/-- One `Error` or `Warning` element as `GenerateXMLLogScraped` writes it: the name of
the element, its child elements in the order written (an absent child is `none`) and
the pieces of text written into `PostContext`, one per `Content` call. -/
structure XMLBuildEvent where
  Name : Str
  BuildLogLine : Int
  Text : Str
  SourceFile : Option Str
  SourceFileTail : Option Str
  SourceLineNumber : Option Int
  PreContext : Str
  PostContext : List Str
  RepeatCount : Str
deriving DecidableEq, Repr

/-- The notice written after the post-context of the last reported error or warning. -/
def MaximumReachedNotice : Str :=
  "\nThe maximum number of reported warnings or errors has been reached!!!\n".toList

/-- The loop over `ErrorWarningFileLineRegex` in `GenerateXMLLogScraped`: the first rule
that finds a match in the text sets `SourceFile` and `LineNumber`. -/
def ExtractSourceLocation (st : cmSystemTools) (srcdir : Str) :
    List cmCTestCompileErrorWarningRex → cmCTestBuildErrorWarning → cmCTestBuildErrorWarning
  | [], cm => cm
  | rit :: rest, cm =>
    match rit.RegularExpression.find cm.Text with
    | some re_match =>
      let SourceFile := re_match rit.FileIndex
      -- At this point we need to make this->SourceFile relative to
      -- the source root of the project, so cvs links will work
      let SourceFile := st.ConvertToUnixSlashes SourceFile
      let SourceFile :=
        if hasSubstr "/.../".toList SourceFile then
          let SourceFile := ReplaceString SourceFile "/.../".toList []
          match findChar '/' SourceFile with
          -- substr(p + 1, size() - p): the count is more than what follows `p`
          | some p => (SourceFile.drop (p + 1)).take (SourceFile.length - p)
          | none => SourceFile
        else
          -- make sure it is a full path with the correct case
          let SourceFile := st.ToNormalizedPathOnDisk SourceFile
          ReplaceString SourceFile srcdir []
      { cm with SourceFile := SourceFile, LineNumber := atoi (re_match rit.LineIndex) }
    | none => ExtractSourceLocation st srcdir rest cm

/-- The element that `GenerateXMLLogScraped` writes for the event `cm`, whose source
location was looked up already; `numErrorsAllowed` and `numWarningsAllowed` are the
allowances left after this event. -/
def WriteBuildEvent (cm : cmCTestBuildErrorWarning) (numErrorsAllowed numWarningsAllowed : Int) :
    XMLBuildEvent :=
  let location := decide (cm.SourceFile ≠ [] ∧ cm.LineNumber >= 0)
  { Name := if cm.Error then "Error".toList else "Warning".toList
    BuildLogLine := cm.LogLine
    Text := cm.Text
    SourceFile := if location then some cm.SourceFile else none
    SourceFileTail :=
      if location && decide (cm.SourceFileTail ≠ []) then some cm.SourceFileTail else none
    SourceLineNumber := if location then some cm.LineNumber else none
    PreContext := cm.PreContext
    -- is this the last warning or error, if so notify
    PostContext :=
      if (cm.Error = true ∧ numErrorsAllowed = 0) ∨ (cm.Error = false ∧ numWarningsAllowed = 0) then
        [cm.PostContext, MaximumReachedNotice]
      else [cm.PostContext]
    RepeatCount := "0".toList }

/-- The loop of `GenerateXMLLogScraped` from the position of the iterator onwards, with
the current values of `numErrorsAllowed` and `numWarningsAllowed`: the elements written
and the events as the loop leaves them (the loop fills in `SourceFile` and `LineNumber`
of the events it reports). -/
def GenerateXMLLogScrapedLoop (st : cmSystemTools) (srcdir : Str)
    (rules : List cmCTestCompileErrorWarningRex) :
    List cmCTestBuildErrorWarning → Int → Int →
      List XMLBuildEvent × List cmCTestBuildErrorWarning
  | [], _, _ => ([], [])
  | cm :: rest, numErrorsAllowed, numWarningsAllowed =>
    if numErrorsAllowed ≠ 0 ∨ numWarningsAllowed ≠ 0 then
      if (cm.Error = true ∧ numErrorsAllowed ≠ 0) ∨ (cm.Error = false ∧ numWarningsAllowed ≠ 0) then
        let numErrorsAllowed := if cm.Error then numErrorsAllowed - 1 else numErrorsAllowed
        let numWarningsAllowed := if cm.Error then numWarningsAllowed else numWarningsAllowed - 1
        let cm := ExtractSourceLocation st srcdir rules cm
        let element := WriteBuildEvent cm numErrorsAllowed numWarningsAllowed
        let r := GenerateXMLLogScrapedLoop st srcdir rules rest numErrorsAllowed numWarningsAllowed
        (element :: r.1, cm :: r.2)
      else
        let r := GenerateXMLLogScrapedLoop st srcdir rules rest numErrorsAllowed numWarningsAllowed
        (r.1, cm :: r.2)
    else ([], cm :: rest)

/-- `cmCTestBuildHandler::GenerateXMLLogScraped`: the `Error` and `Warning` elements
written to the XML writer, and the handler afterwards.  `srcdir` is the configured
`SourceDirectory`. -/
def GenerateXMLLogScraped (st : cmSystemTools) (srcdir : Str) (h : cmCTestBuildHandler) :
    List XMLBuildEvent × cmCTestBuildHandler :=
  -- only report the first 50 warnings and first 50 errors
  let r := GenerateXMLLogScrapedLoop st srcdir h.ErrorWarningFileLineRegex h.ErrorsAndWarnings
    h.MaxErrors h.MaxWarnings
  (r.1, { h with ErrorsAndWarnings := r.2 })

/-- The element `x` reports the event `cm`: it is named after the kind of the event and
carries its log line, text, pre-context and, as first piece of text, its post-context. -/
def XMLBuildEvent.Reports (x : XMLBuildEvent) (cm : cmCTestBuildErrorWarning) : Prop :=
  x.Name = (if cm.Error then "Error".toList else "Warning".toList) ∧
  x.BuildLogLine = cm.LogLine ∧ x.Text = cm.Text ∧ x.PreContext = cm.PreContext ∧
  x.PostContext.head? = some cm.PostContext

/-- The notice that the maximum was reached follows the post-context in the element. -/
def XMLBuildEvent.Notice (x : XMLBuildEvent) : Prop :=
  x.PostContext.drop 1 = [MaximumReachedNotice]

instance XMLBuildEvent.instDecidableNotice (x : XMLBuildEvent) : Decidable x.Notice := by
  unfold XMLBuildEvent.Notice
  infer_instance

/-- The number of events of the given kind (`true` for Error, `false` for Warning). -/
def countKind (kind : Bool) (ew : List cmCTestBuildErrorWarning) : Nat :=
  (ew.filter (fun cm => cm.Error == kind)).length

/-- The number of elements with the given name. -/
def countName (name : Str) (out : List XMLBuildEvent) : Nat :=
  (out.filter (fun x => x.Name == name)).length

/-- The words of the specification, "keeps at most MaxErrors errors and MaxWarnings
warnings, first-seen-first-kept": going through the events in order, with `seen` the
events gone through so far, an Error is kept when fewer than `MaxErrors` Errors were seen
before it and a Warning when fewer than `MaxWarnings` Warnings were seen before it. -/
def firstSeenFirstKept (MaxErrors MaxWarnings : Int) (seen : List cmCTestBuildErrorWarning) :
    List cmCTestBuildErrorWarning → List cmCTestBuildErrorWarning
  | [] => []
  | cm :: rest =>
    (if (countKind cm.Error seen : Int) < (if cm.Error then MaxErrors else MaxWarnings) then [cm]
      else []) ++
    firstSeenFirstKept MaxErrors MaxWarnings (seen ++ [cm]) rest

/-! ## Launcher fragments -/

/-- Stand-in for `cmFileTimeCache`, of which only `Compare` is used: `Compare l r` is
`none` when `Compare(l, r, &result)` returns false (no comparison available) and
`some result` when it returns true. -/
structure cmFileTimeCache where
  Compare : Str → Str → Option Int

/-- Modelled from the spec: `cmFileTimeCache` is not part of these sources.  Every path has
a modification time, or none when it cannot be determined; two paths can be compared when
both times are known, with result `-1`, `0` or `1` as the first is older, as old or newer. -/
def cmFileTimeCache.ofTimes (mtime : Str → Option Nat) : cmFileTimeCache :=
  { Compare := fun l r =>
      match mtime l, mtime r with
      | some a, some b => some (if a < b then -1 else if a = b then 0 else 1)
      | _, _ => none }

/-- `cmCTestBuildHandler::FragmentCompare::operator()`. -/
def FragmentCompare (FTC : cmFileTimeCache) (l r : Str) : Bool :=
  -- Order files by modification time.  Use lexicographic order
  -- among files with the same time.
  match FTC.Compare l r with
  | some result => if result ≠ 0 then decide (result < 0) else decide (l < r)
  | none => decide (l < r)

/-- `cmCTestBuildHandler::IsLaunchedErrorFile`: `error-{hash}.xml`. -/
def IsLaunchedErrorFile (fname : Str) : Bool :=
  "error-".toList.isPrefixOf fname && ".xml".toList.isSuffixOf fname

/-- `cmCTestBuildHandler::IsLaunchedWarningFile`: `warning-{hash}.xml`. -/
def IsLaunchedWarningFile (fname : Str) : Bool :=
  "warning-".toList.isPrefixOf fname && ".xml".toList.isSuffixOf fname

/-- `std::set<std::string, Compare>::insert` on the set given by its elements in
iteration order: the element goes before the first one it precedes, and is dropped when
the set holds an equivalent one. -/
def setInsert (comp : Str → Str → Bool) (x : Str) : List Str → List Str
  | [] => [x]
  | y :: ys =>
    if comp x y then x :: y :: ys
    else if comp y x then y :: setInsert comp x ys
    else y :: ys

/-- The loop of `GenerateXMLLaunched` over the files of the launch directory, from the
current file onwards. -/
def IdentifyFragments (FTC : cmFileTimeCache) :
    List Str → Int → Int → List Str → cmCTestBuildHandler → List Str × cmCTestBuildHandler
  | [], _, _, fragments, h => (fragments, h)
  | fname :: rest, numErrorsAllowed, numWarningsAllowed, fragments, h =>
    if IsLaunchedErrorFile fname = true ∧ numErrorsAllowed ≠ 0 then
      IdentifyFragments FTC rest (numErrorsAllowed - 1) numWarningsAllowed
        (setInsert (FragmentCompare FTC) (h.CTestLaunchDir ++ '/' :: fname) fragments)
        { h with TotalErrors := h.TotalErrors + 1 }
    else if IsLaunchedWarningFile fname = true ∧ numWarningsAllowed ≠ 0 then
      IdentifyFragments FTC rest numErrorsAllowed (numWarningsAllowed - 1)
        (setInsert (FragmentCompare FTC) (h.CTestLaunchDir ++ '/' :: fname) fragments)
        { h with TotalWarnings := h.TotalWarnings + 1 }
    else IdentifyFragments FTC rest numErrorsAllowed numWarningsAllowed fragments h

/-- `cmCTestBuildHandler::GenerateXMLLaunched`: the fragment files copied into the XML
file, in order, and the handler afterwards.  `launchDir` lists the files of the directory
`CTestLaunchDir` in the order in which `cmsys::Directory` gives them. -/
def GenerateXMLLaunched (FTC : cmFileTimeCache) (launchDir : List Str) (h : cmCTestBuildHandler) :
    List Str × cmCTestBuildHandler :=
  if h.CTestLaunchDir = [] then ([], h)
  else
    -- only report the first 50 warnings and first 50 errors
    IdentifyFragments FTC launchDir h.MaxErrors h.MaxWarnings [] h

/-- The words of the specification for launcher mode, "sorts candidates by (modification
time, filename) ascending ...; takes at most MaxErrors error fragments and MaxWarnings
warning fragments in that order", for the fragments of one kind: the candidates of that
kind in ascending order, cut at the maximum of that kind. -/
def sortedThenQuota (FTC : cmFileTimeCache) (dir : Str) (launchDir : List Str)
    (isKind : Str → Bool) (max : Int) : List Str :=
  (((launchDir.filter isKind).map (fun fname => dir ++ '/' :: fname)).insertionSort
    (fun l r => FragmentCompare FTC l r = true)).take max.toNat

/-! ## Sample rules and handlers -/

/-- A regular expression without special characters: it is found where the text
`pat` occurs, and its match number 0 is `pat`. -/
def literalRegex (pat : String) : RegularExpression :=
  { find := fun s => if hasSubstr pat.toList s then some (fun _ => pat.toList) else none }

/-- A handler in log-scrape mode before its first run, with one literal rule in each of
the four lists and a colour remover that leaves its input alone. -/
def sampleHandler : cmCTestBuildHandler :=
  { UseCTestLaunch := false
    CTestLaunchDir := []
    ColorRemover := fun s => s
    ErrorMatchRegex := [literalRegex "error"]
    ErrorExceptionRegex := [literalRegex "note"]
    WarningMatchRegex := [literalRegex "warning"]
    WarningExceptionRegex := [literalRegex "Makefile"]
    ErrorWarningFileLineRegex := []
    BuildProcessingQueue := []
    BuildProcessingErrorQueue := []
    BuildOutputLogSize := 0
    OutputLineCounter := 0
    ErrorsAndWarnings := []
    LastErrorOrWarning := 0
    PostContextCount := 0
    MaxPreContext := 2
    MaxPostContext := 1
    PreContext := []
    TotalErrors := 0
    TotalWarnings := 0
    ErrorQuotaReached := false
    WarningQuotaReached := false
    MaxErrors := 1
    MaxWarnings := 1 }

/-- The sample handler in launcher mode. -/
def sampleLaunchHandler : cmCTestBuildHandler :=
  { sampleHandler with UseCTestLaunch := true, CTestLaunchDir := "/b".toList }

/-- Stand-ins for the path functions that leave every path as it is. -/
def sampleSystemTools : cmSystemTools :=
  { ConvertToUnixSlashes := fun s => s, ToNormalizedPathOnDisk := fun s => s }

/-- An event as `ProcessBuffer` records it, with empty contexts. -/
def sampleEvent (Error : Bool) (LogLine : Int) (Text : String) : cmCTestBuildErrorWarning :=
  { Error := Error, LogLine := LogLine, Text := Text.toList, SourceFile := [],
    SourceFileTail := [], LineNumber := 0, PreContext := [], PostContext := [] }

/-- The sample handler (`MaxErrors = 1`, `MaxWarnings = 1`) after a run that recorded a
Warning, two Errors and a second Warning. -/
def sampleReportHandler : cmCTestBuildHandler :=
  { sampleHandler with
    ErrorsAndWarnings :=
      [sampleEvent false 1 "a.c:1: warning: w", sampleEvent true 2 "a.c:2: error: e",
        sampleEvent true 3 "a.c:3: error: f", sampleEvent false 4 "a.c:4: warning: x"]
    LastErrorOrWarning := 3
    TotalErrors := 2
    TotalWarnings := 2 }

/-- Modification times of three fragment files: the first is newer than the third, the
time of the second cannot be determined. -/
def sampleTimes (path : Str) : Option Nat :=
  if path = "/b/error-1.xml".toList then some 5
  else if path = "/b/error-3.xml".toList then some 1
  else none

/-- The state of a run of a handler after the given chunks were read: `RunMakeCommand`
initializes the building structures and the read callbacks process the chunks. -/
def RunState (h : cmCTestBuildHandler) (chunks : List (QueueSel × List Char)) :
    cmCTestBuildHandler :=
  ReadChunks (InitializeBuildingStructures h) chunks

/-- The sample handler with maxima that let several events and context lines through:
`MaxErrors = 5`, `MaxWarnings = 5`, `MaxPreContext = 2`, `MaxPostContext = 2`. -/
def sampleWindowHandler : cmCTestBuildHandler :=
  { sampleHandler with MaxErrors := 5, MaxWarnings := 5, MaxPostContext := 2 }

/-- Some rule of the list matches the line. -/
def Matches (rules : List RegularExpression) (line : Str) : Prop :=
  ∃ rx ∈ rules, (rx.find line).isSome = true

instance Matches.instDecidable (rules : List RegularExpression) (line : Str) :
    Decidable (Matches rules line) := by
  unfold Matches
  infer_instance

/-- What the line loop keeps in launcher mode: the mode, the number of events and the
two totals. -/
def LauncherInv (n : Nat) (e w : Int) (g : cmCTestBuildHandler) : Prop :=
  g.UseCTestLaunch = true ∧ g.ErrorsAndWarnings.length = n ∧ g.TotalErrors = e ∧
    g.TotalWarnings = w

/-! ## The rule lists of ProcessHandler -/

/-- The built-in table `cmCTestErrorMatches`. -/
def cmCTestErrorMatches : List String :=
  ["^[Bb]us [Ee]rror",
   "^[Ss]egmentation [Vv]iolation",
   "^[Ss]egmentation [Ff]ault",
   ":.*[Pp]ermission [Dd]enied",
   "([^ :]+):([0-9]+): ([^ \\t])",
   "([^:]+): error[ \\t]*[0-9]+[ \\t]*:",
   "^Error ([0-9]+):",
   "^Fatal",
   "^Error: ",
   "^Error ",
   "[0-9] ERROR: ",
   "^\"[^\"]+\", line [0-9]+: [^Ww]",
   "^cc[^C]*CC: ERROR File = ([^,]+), Line = ([0-9]+)",
   "^ld([^:])*:([ \\t])*ERROR([^:])*:",
   "^ild:([ \\t])*\\(undefined symbol\\)",
   "([^ :]+) : (error|fatal error|catastrophic error)",
   "([^:]+): (Error:|error|undefined reference|multiply defined)",
   "([^:]+)\\(([^\\)]+)\\) ?: (error|fatal error|catastrophic error)",
   "^fatal error C[0-9]+:",
   ": syntax error ",
   "^collect2: ld returned 1 exit status",
   "ld terminated with signal",
   "Unsatisfied symbol",
   "^Unresolved:",
   "Undefined symbol",
   "^Undefined[ \\t]+first referenced",
   "^CMake Error.*:",
   ":[ \\t]cannot find",
   ":[ \\t]can't find",
   ": \\*\\*\\* No rule to make target [`'].*\\'.  Stop",
   ": \\*\\*\\* No targets specified and no makefile found",
   ": Invalid loader fixup for symbol",
   ": Invalid fixups exist",
   ": Can't find library for",
   ": internal link edit command failed",
   ": Unrecognized option [`'].*\\'",
   "\", line [0-9]+\\.[0-9]+: [0-9]+-[0-9]+ \\([^WI]\\)",
   "ld: 0706-006 Cannot find or open library file: -l ",
   "ild: \\(argument error\\) can't find library argument ::",
   "^could not be found and will not be loaded.",
   "s:616 string too big",
   "make: Fatal error: ",
   "ld: 0711-993 Error occurred while writing to the output file:",
   "ld: fatal: ",
   "final link failed:",
   "make: \\*\\*\\*.*Error",
   "make\\[.*\\]: \\*\\*\\*.*Error",
   "\\*\\*\\* Error code",
   "nternal error:",
   "Makefile:[0-9]+: \\*\\*\\* .*  Stop\\.",
   ": No such file or directory",
   ": Invalid argument",
   "^The project cannot be built\\.",
   "^\\[ERROR\\]",
   "^Command .* failed with exit code",
   "lcc: \"([^\"]+)\", (line|строка) ([0-9]+): (error|ошибка)"]

/-- The built-in table `cmCTestErrorExceptions`. -/
def cmCTestErrorExceptions : List String :=
  ["instantiated from ",
   "candidates are:",
   ": warning",
   ": WARNING",
   ": \\(Warning\\)",
   ": note",
   "Note:",
   "makefile:",
   "Makefile:",
   ":[ \\t]+Where:",
   "([^ :]+):([0-9]+): Warning",
   "------ Build started: .* ------"]

/-- The built-in table `cmCTestWarningMatches`. -/
def cmCTestWarningMatches : List String :=
  ["([^ :]+):([0-9]+): warning:",
   "([^ :]+):([0-9]+): note:",
   "^cc[^C]*CC: WARNING File = ([^,]+), Line = ([0-9]+)",
   "^ld([^:])*:([ \\t])*WARNING([^:])*:",
   "([^:]+): warning ([0-9]+):",
   "^\"[^\"]+\", line [0-9]+: [Ww](arning|arnung)",
   "([^:]+): warning[ \\t]*[0-9]+[ \\t]*:",
   "^(Warning|Warnung) ([0-9]+):",
   "^(Warning|Warnung)[ :]",
   "WARNING: ",
   "([^ :]+) : warning",
   "([^:]+): warning",
   "\", line [0-9]+\\.[0-9]+: [0-9]+-[0-9]+ \\([WI]\\)",
   "^cxx: Warning:",
   ".*file: .* has no symbols",
   "([^ :]+):([0-9]+): (Warning|Warnung)",
   "\\([0-9]*\\): remark #[0-9]*",
   "\".*\", line [0-9]+: remark\\([0-9]*\\):",
   "cc-[0-9]* CC: REMARK File = .*, Line = [0-9]*",
   "^CMake Warning.*:",
   "^\\[WARNING\\]",
   "lcc: \"([^\"]+)\", (line|строка) ([0-9]+): (warning|предупреждение)"]

/-- The built-in table `cmCTestWarningExceptions`. -/
def cmCTestWarningExceptions : List String :=
  ["/usr/.*/X11/Xlib\\.h:[0-9]+: war.*: ANSI C\\+\\+ forbids declaration",
   "/usr/.*/X11/Xutil\\.h:[0-9]+: war.*: ANSI C\\+\\+ forbids declaration",
   "/usr/.*/X11/XResource\\.h:[0-9]+: war.*: ANSI C\\+\\+ forbids declaration",
   "WARNING 84 :",
   "WARNING 47 :",
   "makefile:",
   "Makefile:",
   "warning:  Clock skew detected.  Your build may be incomplete.",
   "/usr/openwin/include/GL/[^:]+:",
   "bind_at_load",
   "XrmQGetResource",
   "IceFlush",
   "warning LNK4089: all references to [^ \\t]+ discarded by .OPT:REF",
   "ld32: WARNING 85: definition of dataKey in",
   "cc: warning 422: Unknown option \"\\+b",
   "_with_warning_C"]

/-- An entry of the table `cmCTestWarningErrorFileLine`
(`cmCTestBuildCompileErrorWarningRex`). -/
structure cmCTestBuildCompileErrorWarningRex where
  RegularExpressionString : String
  FileIndex : Nat
  LineIndex : Nat

/-- The built-in table `cmCTestWarningErrorFileLine`. -/
def cmCTestWarningErrorFileLine : List cmCTestBuildCompileErrorWarningRex :=
  [{ RegularExpressionString := "^Warning W[0-9]+ ([a-zA-Z.\\:/0-9_+ ~-]+) ([0-9]+):",
     FileIndex := 1, LineIndex := 2 },
   { RegularExpressionString := "^([a-zA-Z./0-9_+ ~-]+):([0-9]+):",
     FileIndex := 1, LineIndex := 2 },
   { RegularExpressionString := "^([a-zA-Z.\\:/0-9_+ ~-]+)\\(([0-9]+)\\)",
     FileIndex := 1, LineIndex := 2 },
   { RegularExpressionString := "^[0-9]+>([a-zA-Z.\\:/0-9_+ ~-]+)\\(([0-9]+)\\)",
     FileIndex := 1, LineIndex := 2 },
   { RegularExpressionString := "^([a-zA-Z./0-9_+ ~-]+)\\(([0-9]+)\\)",
     FileIndex := 1, LineIndex := 2 },
   { RegularExpressionString := "\"([a-zA-Z./0-9_+ ~-]+)\", line ([0-9]+)",
     FileIndex := 1, LineIndex := 2 },
   { RegularExpressionString := "File = ([a-zA-Z./0-9_+ ~-]+), Line = ([0-9]+)",
     FileIndex := 1, LineIndex := 2 },
   { RegularExpressionString := "lcc: \"([^\"]+)\", (line|строка) ([0-9]+): (error|ошибка|warning|предупреждение)",
     FileIndex := 1, LineIndex := 3 }]

/-- Stand-in for the construction of a `cmsys::RegularExpression` from a pattern:
`compile s` is `none` when `compile(s)` returns false. -/
structure RegexCompiler where
  compile : Str → Option RegularExpression

/-- The constructor `cmsys::RegularExpression(std::string const&)`: a pattern that does not
compile gives an expression that finds nothing. -/
def RegexCompiler.construct (rc : RegexCompiler) (s : Str) : RegularExpression :=
  match rc.compile s with
  | some rx => rx
  | none => { find := fun _ => none }

/-- Stand-in for the two functions of `cmCTest` that `PopulateCustomVectors` calls, for a
fixed makefile: each takes the name of the variable and the current value of the member
and gives the value the member has afterwards. -/
structure cmCTest where
  PopulateCustomVector : Str → List Str → List Str
  PopulateCustomInteger : Str → Int → Int

/-- The conversion `static_cast<size_t>(n)` of an `int`. -/
def static_cast_size_t (n : Int) : Nat :=
  (n % 2 ^ 64).toNat

/-- `cmCTestBuildHandler::PopulateCustomVectors`.  The record of the user-specified
warning rules for the launchers at its end is left out. -/
def PopulateCustomVectors (ctest : cmCTest) (h : cmCTestBuildHandler) : cmCTestBuildHandler :=
  let h := { h with
    CustomErrorMatches :=
      ctest.PopulateCustomVector "CTEST_CUSTOM_ERROR_MATCH".toList h.CustomErrorMatches
    CustomErrorExceptions :=
      ctest.PopulateCustomVector "CTEST_CUSTOM_ERROR_EXCEPTION".toList h.CustomErrorExceptions
    CustomWarningMatches :=
      ctest.PopulateCustomVector "CTEST_CUSTOM_WARNING_MATCH".toList h.CustomWarningMatches
    CustomWarningExceptions :=
      ctest.PopulateCustomVector "CTEST_CUSTOM_WARNING_EXCEPTION".toList
        h.CustomWarningExceptions
    MaxErrors :=
      ctest.PopulateCustomInteger "CTEST_CUSTOM_MAXIMUM_NUMBER_OF_ERRORS".toList h.MaxErrors
    MaxWarnings :=
      ctest.PopulateCustomInteger "CTEST_CUSTOM_MAXIMUM_NUMBER_OF_WARNINGS".toList
        h.MaxWarnings }
  let n := ctest.PopulateCustomInteger "CTEST_CUSTOM_ERROR_PRE_CONTEXT".toList (-1)
  let h := if n ≠ -1 then { h with MaxPreContext := static_cast_size_t n } else h
  let n := ctest.PopulateCustomInteger "CTEST_CUSTOM_ERROR_POST_CONTEXT".toList (-1)
  if n ≠ -1 then { h with MaxPostContext := static_cast_size_t n } else h

/-- The macro `cmCTestBuildHandlerPopulateRegexVector(strings, regexes)`: the vector of
expressions is cleared and receives one expression per string, in order. -/
def cmCTestBuildHandlerPopulateRegexVector (rc : RegexCompiler) (strings : List Str) :
    List RegularExpression :=
  strings.map rc.construct

/-- The parts of `cmCTestBuildHandler::ProcessHandler` that set up the rules: the loop
over `cmCTestWarningErrorFileLine` at its start, which keeps the entries that compile,
and the block "Create lists of regular expression strings ..." with the four macro calls
that follow it. -/
def ProcessHandlerRules (rc : RegexCompiler) (h : cmCTestBuildHandler) : cmCTestBuildHandler :=
  let h := { h with
    ErrorWarningFileLineRegex :=
      h.ErrorWarningFileLineRegex ++
        cmCTestWarningErrorFileLine.filterMap
          (fun (entry : cmCTestBuildCompileErrorWarningRex) =>
            (rc.compile entry.RegularExpressionString.toList).map
              (fun rx : RegularExpression =>
                ({ FileIndex := entry.FileIndex, LineIndex := entry.LineIndex,
                   RegularExpression := rx } : cmCTestCompileErrorWarningRex))) }
  -- Create lists of regular expression strings for errors, error exceptions,
  -- warnings and warning exceptions.
  let h := { h with
    CustomErrorMatches := h.CustomErrorMatches ++ cmCTestErrorMatches.map String.toList
    CustomErrorExceptions := h.CustomErrorExceptions ++ cmCTestErrorExceptions.map String.toList
    CustomWarningMatches := h.CustomWarningMatches ++ cmCTestWarningMatches.map String.toList
    CustomWarningExceptions :=
      h.CustomWarningExceptions ++ cmCTestWarningExceptions.map String.toList }
  -- Pre-compile regular expressions objects for all regular expressions
  { h with
    ErrorMatchRegex := cmCTestBuildHandlerPopulateRegexVector rc h.CustomErrorMatches
    ErrorExceptionRegex := cmCTestBuildHandlerPopulateRegexVector rc h.CustomErrorExceptions
    WarningMatchRegex := cmCTestBuildHandlerPopulateRegexVector rc h.CustomWarningMatches
    WarningExceptionRegex :=
      cmCTestBuildHandlerPopulateRegexVector rc h.CustomWarningExceptions }

/-- A project configuration that defines each of the four custom pattern variables with
one pattern (the name of the variable in lower case) and none of the integers. -/
def sampleCTest : cmCTest :=
  { PopulateCustomVector := fun name _ => [name.map Char.toLower]
    PopulateCustomInteger := fun _ n => n }

/-- A regular-expression compiler for patterns without special characters. -/
def literalCompiler : RegexCompiler :=
  { compile := fun s => some (literalRegex (String.mk s)) }

/-- The words of the specification, "built-in patterns registered first, project-supplied
custom patterns appended after", for one list of patterns. -/
def BuiltinsFirst (builtin : List String) (custom l : List Str) : Prop :=
  l = builtin.map String.toList ++ custom

instance BuiltinsFirst.instDecidable (builtin : List String) (custom l : List Str) :
    Decidable (BuiltinsFirst builtin custom l) := by
  unfold BuiltinsFirst
  infer_instance

/-! ## The colour remover -/

/-- The characters of the class `[0-9;]`. -/
def isColorParameter (c : Char) : Bool :=
  c.isDigit || c == ';'

/-- The length of the match of the expression `"\x1b\\[[0-9;]*m"` at the start of the
string, when there is one: ESC, `[`, digits and semicolons, `m`. -/
def colorCodeLength : Str → Option Nat
  | '\x1b' :: '[' :: rest =>
    match rest.dropWhile isColorParameter with
    | 'm' :: _ => some ((rest.takeWhile isColorParameter).length + 3)
    | _ => none
  | _ => none

/-- The scan of `cmStringReplaceHelper::Replace` with an empty replacement; `skip`
characters of a match that was just found are still to be passed over. -/
def removeColorFrom : Nat → Str → Str
  | _, [] => []
  | skip + 1, _ :: cs => removeColorFrom skip cs
  | 0, c :: cs =>
    match colorCodeLength (c :: cs) with
    | some n => removeColorFrom (n - 1) cs
    | none => c :: removeColorFrom 0 cs

/-- Modelled from the spec: `cmStringReplaceHelper` is not part of these sources.  The
helper that `ProcessHandler` builds from the expression `"\x1b\\[[0-9;]*m"` and the
replacement `""` strips the ANSI colour escape sequences: going through the input once
from left to right, every match of the expression is left out of the output. -/
def RemoveColor (input : Str) : Str :=
  removeColorFrom 0 input

/-- An ANSI colour escape sequence starts somewhere in the string. -/
def HasColor : Str → Bool
  | [] => false
  | c :: cs => (colorCodeLength (c :: cs)).isSome || HasColor cs

/-- The sample handler with the colour remover that `ProcessHandler` installs. -/
def sampleColorHandler : cmCTestBuildHandler :=
  { sampleHandler with ColorRemover := RemoveColor }

/-! ## RunMakeCommand -/

/-- The constructor of `cmCTestBuildHandler::LaunchHelper`, as far as it changes the
handler: without a tag the launchers are switched off, with a tag the directory of the
launcher fragments is computed.  (It also removes and creates that directory and sets
the environment of the build.) -/
def LaunchHelper (tag binaryDir : Str) (h : cmCTestBuildHandler) : cmCTestBuildHandler :=
  if tag = [] then
    -- This is not for a dashboard submission, so there is no XML.
    -- Skip enabling the launchers.
    { h with UseCTestLaunch := false }
  else
    -- Compute a directory in which to store launcher fragments.
    { h with CTestLaunchDir := binaryDir ++ "/Testing/".toList ++ tag ++ "/Build".toList }

/-- The values of `cmUVProcessChain::ExceptionCode` that `RunMakeCommand` tells apart;
`Other` stands for the values that reach `default:`. -/
inductive ExceptionCode where
  | None
  | Spawn
  | Other
deriving DecidableEq, Repr

/-- Stand-in for the process chain as `RunMakeCommand` observes it: the decoded chunks
that the read callbacks receive while the loop runs, in the order of arrival, whether the
chain has finished when the loop is left, and the status of the process. -/
structure cmUVProcessChain where
  chunks : List (QueueSel × List Char)
  Finished : Bool
  ExitStatus : Int
  TermSignal : Int
  GetException : ExceptionCode × Str

/-- The conversion `static_cast<int>(status.ExitStatus)` of the 64-bit exit status. -/
def static_cast_int_of_int64 (x : Int) : Int :=
  (x + 2 ^ 31) % 2 ^ 32 - 2 ^ 31

/-- The top-level launcher report that `RunMakeCommand` has `cmCTestLaunchReporter`
write, with the members it sets. -/
structure cmCTestLaunchReporter where
  RealArgs : List Str
  ExitCode : Int
deriving DecidableEq, Repr

/-- What a call of `RunMakeCommand` leaves: the value it returns, the handler, the value
behind the pointer `retVal` (`none` for a null pointer) and the launcher report it had
written, if any. -/
structure RunMakeCommandResult where
  result : Bool
  handler : cmCTestBuildHandler
  retVal : Option Int
  reporter : Option cmCTestLaunchReporter

/-- The part of `RunMakeCommand` that reads the output: the launch helper, the block
"Initialize building structures", the chunks handed to `ProcessBuffer` by the read
callbacks, and the two closing calls `ProcessBuffer(nullptr, 0, ...)`. -/
def ReadOutput (h : cmCTestBuildHandler) (tag binaryDir : Str)
    (chunks : List (QueueSel × List Char)) : cmCTestBuildHandler :=
  let h := LaunchHelper tag binaryDir h
  let h := ReadChunks (InitializeBuildingStructures h) chunks
  let h := ProcessBuffer h [] QueueSel.BuildProcessingQueue
  ProcessBuffer h [] QueueSel.BuildProcessingErrorQueue

/-- The event that `RunMakeCommand` records for a non-zero return value. -/
def NonZeroReturnWarning (args : List Str) : cmCTestBuildErrorWarning :=
  { LineNumber := 0
    LogLine := 1
    Text := "*** WARNING non-zero return value in ctest from: ".toList ++ args.headD []
    PreContext := []
    PostContext := []
    Error := false
    SourceFile := []
    SourceFileTail := [] }

/-- The event that `RunMakeCommand` records when the process could not be spawned. -/
def SpawnError (reason : Str) : cmCTestBuildErrorWarning :=
  { LineNumber := 0
    LogLine := 1
    Text := "*** ERROR executing: ".toList ++ reason
    PreContext := []
    PostContext := []
    Error := true
    SourceFile := []
    SourceFileTail := [] }

/-- `cmCTestBuildHandler::RunMakeCommand`.  `args` is the parsed command, `tag` and
`binaryDir` are the current tag and the binary directory of the `cmCTest` object,
`retVal` is the value behind the pointer of that name (`none` for a null pointer),
`chain` is what the process chain delivers and `launchDir` lists the files of
`CTestLaunchDir` at the end of the build. -/
def RunMakeCommand (h : cmCTestBuildHandler) (args : List Str) (tag binaryDir : Str)
    (retVal : Option Int) (chain : cmUVProcessChain) (launchDir : List Str) :
    RunMakeCommandResult :=
  if args = [] then { result := false, handler := h, retVal := retVal, reporter := none }
  else
    let h := ReadOutput h tag binaryDir chain.chunks
    if chain.Finished then
      match chain.GetException.1 with
      | ExceptionCode.None =>
        match retVal with
        | some _ =>
          let retVal := static_cast_int_of_int64 chain.ExitStatus
          -- if a non zero return value
          if retVal ≠ 0 then
            -- If there was an error running command, report that on the
            -- dashboard.
            if h.UseCTestLaunch then
              -- For launchers, do not record this top-level error if other
              -- more granular build errors have already been captured.
              let launcherXMLFound := launchDir.any (fun fname => ".xml".toList.isSuffixOf fname)
              if !launcherXMLFound then
                { result := true, handler := h, retVal := some retVal,
                  reporter := some { RealArgs := args, ExitCode := retVal } }
              else { result := true, handler := h, retVal := some retVal, reporter := none }
            else
              { result := true
                handler :=
                  { h with
                    ErrorsAndWarnings := h.ErrorsAndWarnings ++ [NonZeroReturnWarning args]
                    TotalWarnings := h.TotalWarnings + 1 }
                retVal := some retVal
                reporter := none }
          else { result := true, handler := h, retVal := some retVal, reporter := none }
        | none => { result := true, handler := h, retVal := none, reporter := none }
      | ExceptionCode.Spawn =>
        -- If there was an error running command, report that on the dashboard.
        { result := true
          handler :=
            { h with
              ErrorsAndWarnings := h.ErrorsAndWarnings ++ [SpawnError chain.GetException.2]
              TotalErrors := h.TotalErrors + 1 }
          retVal := retVal
          reporter := none }
      | ExceptionCode.Other =>
        { result := true, handler := h, retVal := retVal.map (fun _ => chain.TermSignal),
          reporter := none }
    else { result := true, handler := h, retVal := retVal, reporter := none }

/-! ## The report of ProcessHandler -/

/-- Position of the last occurrence of the character at or before `pos`
(`std::string::rfind(ch, pos)`), `none` being `npos`. -/
def rfindChar (ch : Char) (s : Str) (pos : Nat) : Option Nat :=
  match findChar ch (s.take (pos + 1)).reverse with
  | some k => some ((s.take (pos + 1)).length - 1 - k)
  | none => none

/-- The computation of `SimplifySourceDir` and `SimplifyBuildDir` in `ProcessHandler`
from the configured directory: for a directory name of more than 20 bytes, the name of
its parent directory with a slash at the end; empty otherwise.  The position given to
`rfind` and the one it returns are counted in characters here and in bytes in the code;
both stand for the same place of the text, the slash being one byte that occurs in the
encoding of no other character, and `size() - 2` being the last byte of the character
before the slash that was appended. -/
def SimplifyDir (configured : Str) : Str :=
  if string_size configured > 20 then
    let srcdir := configured ++ ['/']
    match rfindChar '/' srcdir (srcdir.length - 2) with
    | some cc => srcdir.take (cc + 1)
    | none => []
  else []

/-- One of the two loops "Cleanups strings in the errors and warnings list" of
`ProcessHandler`. -/
def CleanupStrings (SimplifyDir : Str) (ew : List cmCTestBuildErrorWarning) :
    List cmCTestBuildErrorWarning :=
  if SimplifyDir ≠ [] then
    ew.map (fun evit =>
      { evit with
        Text := ReplaceString evit.Text (c_str SimplifyDir) "/.../".toList
        PreContext := ReplaceString evit.PreContext (c_str SimplifyDir) "/.../".toList
        PostContext := ReplaceString evit.PostContext (c_str SimplifyDir) "/.../".toList })
  else ew

/-- The body of the report: the fragment files copied in launcher mode, or the elements
written in log-scrape mode. -/
inductive ReportBody where
  | Launched (fragments : List Str)
  | LogScraped (elements : List XMLBuildEvent)
deriving DecidableEq, Repr

/-- The part of `ProcessHandler` after the build: the source and binary tree
substitutions, the cleanup of the strings of the events, and the body of the XML file,
written by `GenerateXMLLaunched` or by `GenerateXMLLogScraped`.  `SourceDirectory` and
`BuildDirectory` are the configured directories, `launchDir` lists the files of
`CTestLaunchDir`. -/
def ProcessHandlerReport (st : cmSystemTools) (FTC : cmFileTimeCache) (launchDir : List Str)
    (SourceDirectory BuildDirectory : Str) (h : cmCTestBuildHandler) :
    ReportBody × cmCTestBuildHandler :=
  -- Determine source and binary tree substitutions to simplify the output.
  let SimplifySourceDir := SimplifyDir SourceDirectory
  let SimplifyBuildDir := SimplifyDir BuildDirectory
  -- Cleanups strings in the errors and warnings list.
  let h := { h with ErrorsAndWarnings := CleanupStrings SimplifySourceDir h.ErrorsAndWarnings }
  let h := { h with ErrorsAndWarnings := CleanupStrings SimplifyBuildDir h.ErrorsAndWarnings }
  -- Generate XML output
  if h.UseCTestLaunch then
    let r := GenerateXMLLaunched FTC launchDir h
    (ReportBody.Launched r.1, r.2)
  else
    let r := GenerateXMLLogScraped st SourceDirectory h
    (ReportBody.LogScraped r.1, r.2)
/-- A process chain that delivers the given chunks and then reports a normal exit with
the given exit status. -/
def sampleChain (chunks : List (QueueSel × List Char)) (ExitStatus : Int) : cmUVProcessChain :=
  { chunks := chunks, Finished := true, ExitStatus := ExitStatus, TermSignal := 0,
    GetException := (ExceptionCode.None, []) }

/-- A process chain for a command that could not be spawned. -/
def sampleSpawnFailure (reason : String) : cmUVProcessChain :=
  { chunks := [], Finished := true, ExitStatus := 0, TermSignal := 0,
    GetException := (ExceptionCode.Spawn, reason.toList) }

/-- The sample handler in log-scrape mode with `MaxErrors = 0`. -/
def sampleHandlerNoErrors : cmCTestBuildHandler :=
  { sampleHandler with MaxErrors := 0 }

/-- The sample handler with the default maxima, `MaxErrors = 50` and `MaxWarnings = 50`. -/
def sampleQuotaHandler : cmCTestBuildHandler :=
  { sampleHandler with MaxErrors := 50, MaxWarnings := 50 }

/-- Sixty lines, each of which the Error rule and the Warning rule of the sample handler
match and neither exception. -/
def sixtyErrorLines : List Str :=
  List.replicate 60 "a.c:1: error: warning".toList

/-! ## Regular expressions

`cmsys::RegularExpression` is not part of these sources.  This section models it: the
pattern syntax (`regparse`), the backtracking matcher (`regmatch`) and the search for the
leftmost match (`regfind`).  The names follow the functions of the class.  The model goes
through the text character by character and the class byte by byte; the two agree where
every `.` and every bracket expression meets characters of one byte, as in the lines that
the statements below give to it. -/

/-- Modelled from the spec: the tree of a compiled regular expression, with the nodes of
the program that `cmsys::RegularExpression::compile` builds.  Characters are given by
their codes; a character class lists the ranges of codes it holds. -/
inductive Regex where
  | NOTHING
  | BOL
  | EOL
  | ANY
  | ANYOF (ranges : List (Nat × Nat))
  | ANYBUT (ranges : List (Nat × Nat))
  | EXACTLY (text : List Nat)
  | OPEN (no : Nat) (r : Regex)
  | BRANCH (a b : Regex)
  | CONCAT (a b : Regex)
  | STAR (r : Regex)
  | PLUS (r : Regex)
  | OPTIONAL (r : Regex)
deriving DecidableEq, Repr

/-- Whether the code `c` is the code of the character `ch`. -/
def isChar (c : Nat) (ch : Char) : Bool :=
  Nat.beq c ch.toNat

/-- The characters that end a run of ordinary characters in a pattern (`META`). -/
def isMeta (c : Nat) : Bool :=
  isChar c '^' || isChar c '$' || isChar c '.' || isChar c '[' || isChar c '(' ||
    isChar c ')' || isChar c '|' || isChar c '?' || isChar c '+' || isChar c '*' ||
    isChar c '\\'

/-- The repetition operators (`ISMULT`). -/
def isMult (c : Nat) : Bool :=
  isChar c '*' || isChar c '+' || isChar c '?'

/-- Modelled from the spec: the loop over the inside of a character class, after the
optional `^` and the optional leading `]` or `-`: `prev` is the character of the pattern
before the current one.  A `-` between two characters adds the codes after the first up
to the second.  The result is the class and the pattern after the closing bracket. -/
def regclass : Nat → List Nat → List (Nat × Nat) → Option (List (Nat × Nat) × List Nat)
  | _, [], _ => none
  | prev, c :: rest, acc =>
    if isChar c ']' then some (acc, rest)
    else if isChar c '-' then
      match rest with
      | [] => none
      | e :: rest2 =>
        if isChar e ']' then some (acc ++ [(c, c)], rest2)
        else if Nat.ble (e + 2) (prev + 1) then none
        else regclass e rest2 (acc ++ [(prev + 1, e)])
    else regclass c rest (acc ++ [(c, c)])

/-- What a parsing function returns: the tree, whether it has width (`HASWIDTH`), the
rest of the pattern and the number of the next parenthesis. -/
structure Parsed where
  tree : Regex
  hasWidth : Bool
  rest : List Nat
  npar : Nat

/-- The parsing functions of `compile`. -/
inductive ParseLevel where
  | reg (paren : Bool)
  | branches
  | regbranch
  | regpiece
  | regatom

/-- Modelled from the spec: the recursive descent of `compile`, with the level of the
grammar as an argument:
`reg` parses a whole expression (in parentheses when `paren` is set), that is branches
separated by `|`; `regbranch` parses pieces up to the end of the pattern, a `|` or a
`)`; `regpiece` parses an atom with an optional `*`, `+` or `?`; `regatom` parses one
character, class or parenthesized expression.  `fuel` bounds the depth of the descent. -/
def regparse : Nat → ParseLevel → List Nat → Nat → Option Parsed
  | 0, _, _, _ => none
  | fuel + 1, ParseLevel.reg paren, s, npar =>
    match regparse fuel ParseLevel.branches s (if paren then npar + 1 else npar) with
    | none => none
    | some ⟨tree, width, rest, npar2⟩ =>
      if paren then
        match rest with
        | c :: rest => if isChar c ')' then some ⟨Regex.OPEN npar tree, width, rest, npar2⟩ else none
        | [] => none
      else
        match rest with
        | [] => some ⟨tree, width, [], npar2⟩
        | _ :: _ => none
  | fuel + 1, ParseLevel.branches, s, npar =>
    match regparse fuel ParseLevel.regbranch s npar with
    | none => none
    | some ⟨btree, bwidth, brest, bnpar⟩ =>
      match brest with
      | [] => some ⟨btree, bwidth, [], bnpar⟩
      | c :: rest =>
        if isChar c '|' then
          match regparse fuel ParseLevel.branches rest bnpar with
          | none => none
          | some ⟨tree, width, rest2, npar2⟩ =>
            some ⟨Regex.BRANCH btree tree, bwidth && width, rest2, npar2⟩
        else some ⟨btree, bwidth, c :: rest, bnpar⟩
  | fuel + 1, ParseLevel.regbranch, s, npar =>
    match s with
    | [] => some ⟨Regex.NOTHING, false, [], npar⟩
    | c :: rest =>
      if isChar c '|' || isChar c ')' then some ⟨Regex.NOTHING, false, c :: rest, npar⟩
      else
        match regparse fuel ParseLevel.regpiece (c :: rest) npar with
        | none => none
        | some ⟨ptree, pwidth, prest, pnpar⟩ =>
          match regparse fuel ParseLevel.regbranch prest pnpar with
          | none => none
          | some ⟨btree, bwidth, brest, bnpar⟩ =>
            some ⟨match btree with
                  | Regex.NOTHING => ptree
                  | _ => Regex.CONCAT ptree btree,
              pwidth || bwidth, brest, bnpar⟩
  | fuel + 1, ParseLevel.regpiece, s, npar =>
    match regparse fuel ParseLevel.regatom s npar with
    | none => none
    | some ⟨atree, awidth, arest, anpar⟩ =>
      match arest with
      | [] => some ⟨atree, awidth, [], anpar⟩
      | op :: rest =>
        if isMult op then
          if !awidth && !isChar op '?' then none
          else if (match rest with
              | c :: _ => isMult c
              | [] => false) then none
          else if isChar op '*' then some ⟨Regex.STAR atree, false, rest, anpar⟩
          else if isChar op '+' then some ⟨Regex.PLUS atree, true, rest, anpar⟩
          else some ⟨Regex.OPTIONAL atree, false, rest, anpar⟩
        else some ⟨atree, awidth, op :: rest, anpar⟩
  | fuel + 1, ParseLevel.regatom, s, npar =>
    match s with
    | [] => none
    | c :: rest =>
      if isChar c '^' then some ⟨Regex.BOL, false, rest, npar⟩
      else if isChar c '$' then some ⟨Regex.EOL, false, rest, npar⟩
      else if isChar c '.' then some ⟨Regex.ANY, true, rest, npar⟩
      else if isChar c '[' then
        match rest with
        | [] => none
        | c1 :: rest1 =>
          if isChar c1 '^' then
            match rest1 with
            | [] => none
            | c2 :: rest2 =>
              if isChar c2 ']' || isChar c2 '-' then
                match regclass c2 rest2 [(c2, c2)] with
                | none => none
                | some (cls, after) => some ⟨Regex.ANYBUT cls, true, after, npar⟩
              else
                match regclass c1 rest1 [] with
                | none => none
                | some (cls, after) => some ⟨Regex.ANYBUT cls, true, after, npar⟩
          else if isChar c1 ']' || isChar c1 '-' then
            match regclass c1 rest1 [(c1, c1)] with
            | none => none
            | some (cls, after) => some ⟨Regex.ANYOF cls, true, after, npar⟩
          else
            match regclass c rest [] with
            | none => none
            | some (cls, after) => some ⟨Regex.ANYOF cls, true, after, npar⟩
      else if isChar c '(' then regparse fuel (ParseLevel.reg true) rest npar
      else if isChar c '|' || isChar c ')' || isMult c then none
      else if isChar c '\\' then
        match rest with
        | [] => none
        | e :: rest1 => some ⟨Regex.EXACTLY [e], true, rest1, npar⟩
      else
        let run := (c :: rest).takeWhile (fun x => !isMeta x)
        let after := (c :: rest).dropWhile (fun x => !isMeta x)
        match run, after with
        | _ :: _ :: _, e :: _ =>
          if isMult e then
            some ⟨Regex.EXACTLY run.dropLast, true, run.getLast?.toList ++ after, npar⟩
          else some ⟨Regex.EXACTLY run, true, after, npar⟩
        | _, _ => some ⟨Regex.EXACTLY run, true, after, npar⟩

/-- The tree for a pattern (`compile`), `none` when the pattern is not accepted. -/
def regcomp (pattern : List Char) : Option Regex :=
  match regparse (4 * pattern.length + 8) (ParseLevel.reg false) (pattern.map Char.toNat) 1 with
  | some p => some p.tree
  | none => none

/-- Whether a character code belongs to a class given by ranges of codes. -/
def inClass : List (Nat × Nat) → Nat → Bool
  | [], _ => false
  | r :: ranges, c => (Nat.ble r.1 c && Nat.ble c r.2) || inClass ranges c

/-- The input after the given text, when the input starts with it. -/
def dropPrefix? : List Nat → List Nat → Option (List Nat)
  | [], s => some s
  | _ :: _, [] => none
  | p :: ps, c :: cs => if Nat.beq p c then dropPrefix? ps cs else none

/-- The state of a match attempt: the position in the input, the input from there on
and the sub-expressions closed so far, the latest first, each with its number, its start
and its end. -/
structure MatchState where
  pos : Nat
  rest : List Nat
  subexpr : List (Nat × Nat × Nat)

/-- Greedy repetition: as many matches of the operand as possible first, then fewer.
An operand that `compile` accepts under `*` or `+` has width, so each round moves on in
the input, and `fuel` rounds are enough when `fuel` is the length of the input left. -/
def regrepeat (operand : MatchState → (MatchState → Option MatchState) → Option MatchState) :
    Nat → MatchState → (MatchState → Option MatchState) → Option MatchState
  | 0, s, next => next s
  | fuel + 1, s, next =>
    match operand s
        (fun s' => if Nat.ble (s.pos + 1) s'.pos then regrepeat operand fuel s' next else none) with
    | some r => some r
    | none => next s

/-- Modelled from the spec: the function `regmatch`, which matches the tree at the
current position and then what follows it (`next`), with backtracking. -/
def regmatch : Regex → MatchState → (MatchState → Option MatchState) → Option MatchState
  | Regex.NOTHING, s, next => next s
  | Regex.BOL, s, next => if Nat.beq s.pos 0 then next s else none
  | Regex.EOL, s, next =>
    match s.rest with
    | [] => next s
    | _ :: _ => none
  | Regex.ANY, s, next =>
    match s.rest with
    | [] => none
    | _ :: rest => next { s with pos := s.pos + 1, rest := rest }
  | Regex.ANYOF ranges, s, next =>
    match s.rest with
    | [] => none
    | c :: rest => if inClass ranges c then next { s with pos := s.pos + 1, rest := rest } else none
  | Regex.ANYBUT ranges, s, next =>
    match s.rest with
    | [] => none
    | c :: rest => if inClass ranges c then none else next { s with pos := s.pos + 1, rest := rest }
  | Regex.EXACTLY text, s, next =>
    match dropPrefix? text s.rest with
    | some rest => next { s with pos := s.pos + text.length, rest := rest }
    | none => none
  | Regex.OPEN no r, s, next =>
    regmatch r s (fun s' => next { s' with subexpr := (no, s.pos, s'.pos) :: s'.subexpr })
  | Regex.BRANCH a b, s, next =>
    match regmatch a s next with
    | some r => some r
    | none => regmatch b s next
  | Regex.CONCAT a b, s, next => regmatch a s (fun s' => regmatch b s' next)
  | Regex.STAR r, s, next => regrepeat (regmatch r) s.rest.length s next
  | Regex.PLUS r, s, next =>
    regmatch r s (fun s' => regrepeat (regmatch r) s'.rest.length s' next)
  | Regex.OPTIONAL r, s, next =>
    match regmatch r s next with
    | some x => some x
    | none => next s

/-- The function `regtry`: a match attempt at one position of the input. -/
def regtry (prog : Regex) (pos : Nat) (rest : List Nat) : Option (List (Nat × Nat × Nat)) :=
  match regmatch prog { pos := pos, rest := rest, subexpr := [] } (fun s => some s) with
  | some s => some ((0, pos, s.pos) :: s.subexpr)
  | none => none

/-- Modelled from the spec: the loop of `find` over the positions of the input, from
left to right; the first position with a match wins. -/
def regfind (prog : Regex) : Nat → List Nat → Option (List (Nat × Nat × Nat))
  | pos, [] => regtry prog pos []
  | pos, c :: rest =>
    match regtry prog pos (c :: rest) with
    | some m => some m
    | none => regfind prog (pos + 1) rest

/-- The sub-expression match number `n` (`match(n)`): the part of the input between the
start and the end of the latest sub-expression with that number, empty when there is
none. -/
def regsubexpr (input : List Char) : List (Nat × Nat × Nat) → Nat → List Char
  | [], _ => []
  | e :: subexpr, n =>
    if Nat.beq e.1 n then (input.drop e.2.1).take (e.2.2 - e.2.1)
    else regsubexpr input subexpr n

/-- Modelled from the spec: `cmsys::RegularExpression` is not part of these sources.
Patterns are regular expressions in the syntax of that class (`^`, `$`, `.`, `[...]`,
`(...)`, `|`, `*`, `+`, `?` and `\` before a character taken literally); `find` looks for
the leftmost match by backtracking, with greedy repetition and the alternatives of a `|`
tried in order, and the sub-expression matches are the parts of the input matched by the
parentheses, numbered by their opening.  Characters are compared by their codes. -/
def cmsysRegularExpression : RegexCompiler :=
  { compile := fun pattern =>
      match regcomp pattern with
      | some prog =>
        some { find := fun input =>
          match regfind prog 0 (input.map Char.toNat) with
          | some subexpr => some (regsubexpr input subexpr)
          | none => none }
      | none => none }

/-- The handler of the scenarios: log-scrape mode, the colour remover and the built-in
rules that `ProcessHandler` installs, no custom patterns, `MaxErrors = 1`,
`MaxWarnings = 1`, `MaxPreContext = 2` and `MaxPostContext = 1`. -/
def builtinHandler : cmCTestBuildHandler :=
  ProcessHandlerRules cmsysRegularExpression
    { sampleColorHandler with
      ErrorMatchRegex := [], ErrorExceptionRegex := [], WarningMatchRegex := [],
      WarningExceptionRegex := [] }

/-- The stream of the scenario: a warning, a line of context and an error. -/
def scenarioStream : List Char :=
  "a.c:10: warning: unused variable\nmore context\nb.c:20: error: fail\n".toList

/-- The events of the scenario: a Warning from line 1 with the second line as
post-context, and an Error from line 3 without context. -/
def scenarioEvents : List cmCTestBuildErrorWarning :=
  [{ Error := false, LogLine := 1, Text := "a.c:10: warning: unused variable".toList,
     SourceFile := [], SourceFileTail := [], LineNumber := 0, PreContext := [],
     PostContext := "more context".toList },
   { Error := true, LogLine := 3, Text := "b.c:20: error: fail".toList,
     SourceFile := [], SourceFileTail := [], LineNumber := 0, PreContext := [],
     PostContext := [] }]

/-- The block of `GenerateXMLLogScraped` that makes the extracted file name relative to
the source root, for the file name `SourceFile` as the rule matched it. -/
def RelativeSourceFile (st : cmSystemTools) (srcdir : Str) (SourceFile : Str) : Str :=
  let SourceFile := st.ConvertToUnixSlashes SourceFile
  if hasSubstr "/.../".toList SourceFile then
    let SourceFile := ReplaceString SourceFile "/.../".toList []
    match findChar '/' SourceFile with
    -- substr(p + 1, size() - p): the count is more than what follows `p`
    | some p => (SourceFile.drop (p + 1)).take (SourceFile.length - p)
    | none => SourceFile
  else
    -- make sure it is a full path with the correct case
    let SourceFile := st.ToNormalizedPathOnDisk SourceFile
    ReplaceString SourceFile srcdir []

/-- An event whose text names a file under the source root, after the cleanup of
`ProcessHandler` has put the placeholder in the place of the root. -/
def samplePlaceholderEvent : cmCTestBuildErrorWarning :=
  { Error := true, LogLine := 1, Text := "/.../proj/src/x.c:3: error: e".toList,
    SourceFile := [], SourceFileTail := [], LineNumber := 0, PreContext := [],
    PostContext := [] }

/-- A line that names a file in a directory `work` of a source tree whose root,
`/work/my-long-project-name`, lies in a directory of the same name. -/
def nestedRootLine : Str :=
  "/work/my-long-project-name/work/x.c:3: error: e".toList

/-! ## The DAG checker of generator expressions -/

/-- The values of `cmGeneratorExpressionDAGChecker::Result` that occur in
`cmGeneratorExpressionDAGChecker.cxx`. -/
inductive DAGCheckerResult where
  | DAG
  | SELF_REFERENCE
  | CYCLIC_REFERENCE
  | ALREADY_SEEN
deriving DecidableEq, Repr

/-- The members of `cmGeneratorExpressionDAGChecker` that `CheckGraph` reads.  A checker
is given with the chain of its ancestors: `top` is a checker whose `Parent` is null,
`child` one whose `Parent` points to the given checker.  `Target` is the address of the
target, `Property` the name of the property.  Two ancestors of a checker are the same
object exactly when they are equal as values, a checker being longer than each of its
ancestors (`ancestors_ne`). -/
inductive cmGeneratorExpressionDAGChecker where
  | top (Target : Nat) (Property : Str)
  | child (Parent : cmGeneratorExpressionDAGChecker) (Target : Nat) (Property : Str)
deriving DecidableEq, Repr

/-- The member `Parent`; `none` is the null pointer. -/
def cmGeneratorExpressionDAGChecker.Parent :
    cmGeneratorExpressionDAGChecker → Option cmGeneratorExpressionDAGChecker
  | .top _ _ => none
  | .child p _ _ => some p

/-- The member `Target`. -/
def cmGeneratorExpressionDAGChecker.Target : cmGeneratorExpressionDAGChecker → Nat
  | .top t _ => t
  | .child _ t _ => t

/-- The member `Property`. -/
def cmGeneratorExpressionDAGChecker.Property : cmGeneratorExpressionDAGChecker → Str
  | .top _ p => p
  | .child _ _ p => p

/-- The loop of `cmGeneratorExpressionDAGChecker::CheckGraph` from an iteration in which
`parent` is not null: the test of the pair, and then the step `parent = parent->Parent`. -/
def CheckGraphLoop (this : cmGeneratorExpressionDAGChecker) :
    cmGeneratorExpressionDAGChecker → DAGCheckerResult
  | .top t p =>
    if this.Target = t ∧ this.Property = p then
      if some (cmGeneratorExpressionDAGChecker.top t p) = this.Parent then
        DAGCheckerResult.SELF_REFERENCE
      else DAGCheckerResult.CYCLIC_REFERENCE
    else DAGCheckerResult.DAG
  | .child parent t p =>
    if this.Target = t ∧ this.Property = p then
      if some (cmGeneratorExpressionDAGChecker.child parent t p) = this.Parent then
        DAGCheckerResult.SELF_REFERENCE
      else DAGCheckerResult.CYCLIC_REFERENCE
    else CheckGraphLoop this parent

/-- `cmGeneratorExpressionDAGChecker::CheckGraph`. -/
def CheckGraph (this : cmGeneratorExpressionDAGChecker) : DAGCheckerResult :=
  match this.Parent with
  | none => DAGCheckerResult.DAG
  | some parent => CheckGraphLoop this parent

/-- The ancestors of a checker, the immediate parent first. -/
def ancestors : cmGeneratorExpressionDAGChecker → List cmGeneratorExpressionDAGChecker
  | .top _ _ => []
  | .child p _ _ => p :: ancestors p

/-- The checker `a` has the same (Target, Property) pair as the checker `this`. -/
def samePair (this a : cmGeneratorExpressionDAGChecker) : Bool :=
  decide (this.Target = a.Target ∧ this.Property = a.Property)

/-- The number of steps from the immediate parent up to the nearest of the given ancestors
that has the same (Target, Property) pair as `this`: `some 0` when it is the immediate
parent, `none` when no ancestor has the pair. -/
def nearestSamePair (this : cmGeneratorExpressionDAGChecker) :
    List cmGeneratorExpressionDAGChecker → Option Nat
  | [] => none
  | a :: rest => if samePair this a then some 0 else (nearestSamePair this rest).map (· + 1)

/-- The number of checkers in the chain that ends in the given one. -/
def chainLength : cmGeneratorExpressionDAGChecker → Nat
  | .top _ _ => 1
  | .child p _ _ => chainLength p + 1

/-- The sample handler with a second rule in each of the four lists. -/
def sampleTwoRuleHandler : cmCTestBuildHandler :=
  { sampleHandler with
    ErrorMatchRegex := [literalRegex "error", literalRegex "fatal"]
    ErrorExceptionRegex := [literalRegex "note", literalRegex "ignored"]
    WarningMatchRegex := [literalRegex "warning", literalRegex "deprecated"]
    WarningExceptionRegex := [literalRegex "Makefile", literalRegex "jobserver"] }

/-- The totals agree with the event sequence: `TotalErrors` is the number of events of
kind Error and `TotalWarnings` the number of events of kind Warning. -/
def TotalsInv (h : cmCTestBuildHandler) : Prop :=
  h.TotalErrors = countKind true h.ErrorsAndWarnings ∧
  h.TotalWarnings = countKind false h.ErrorsAndWarnings

/-- The comparison of the modification times of two paths as `cmFileTimeCache::Compare`
gives it: the first file is not newer than the second.  False when `Compare` returns
false, that is, when a time cannot be determined. -/
def TimeLE (FTC : cmFileTimeCache) (l r : Str) : Bool :=
  match FTC.Compare l r with
  | some result => decide (result ≤ 0)
  | none => false

/-- The lexicographic order on (modification time, path): the first file is older, or the
two files are equally old and the first path is the smaller string. -/
def TimePathLess (FTC : cmFileTimeCache) (l r : Str) : Prop :=
  (TimeLE FTC l r = true ∧ TimeLE FTC r l = false) ∨
  (TimeLE FTC l r = true ∧ TimeLE FTC r l = true ∧ l < r)

/-- The paths of the fragment files among the files of the launch directory: those that
`IsLaunchedErrorFile` or `IsLaunchedWarningFile` accepts, as `GenerateXMLLaunched` builds
their paths. -/
def FragmentFiles (dir : Str) (launchDir : List Str) : List Str :=
  (launchDir.filter (fun fname => IsLaunchedErrorFile fname || IsLaunchedWarningFile fname)).map
    (fun fname => dir ++ '/' :: fname)

/-- The paths that the loop of `GenerateXMLLaunched` hands to `fragments.insert`, in the
order of the calls: the same loop as `IdentifyFragments`, recording the arguments. -/
def InsertedFragments (dir : Str) : List Str → Int → Int → List Str
  | [], _, _ => []
  | fname :: rest, numErrorsAllowed, numWarningsAllowed =>
    if IsLaunchedErrorFile fname = true ∧ numErrorsAllowed ≠ 0 then
      (dir ++ '/' :: fname) :: InsertedFragments dir rest (numErrorsAllowed - 1) numWarningsAllowed
    else if IsLaunchedWarningFile fname = true ∧ numWarningsAllowed ≠ 0 then
      (dir ++ '/' :: fname) :: InsertedFragments dir rest numErrorsAllowed (numWarningsAllowed - 1)
    else InsertedFragments dir rest numErrorsAllowed numWarningsAllowed

/-- The paths that a call of `GenerateXMLLaunched` selects, that is, inserts into the
fragment set: none when `CTestLaunchDir` is empty. -/
def SelectedFragments (launchDir : List Str) (h : cmCTestBuildHandler) : List Str :=
  if h.CTestLaunchDir = [] then []
  else InsertedFragments h.CTestLaunchDir launchDir h.MaxErrors h.MaxWarnings

/-- Modification times that are all known: `error-1.xml` was modified at time 5, every
other file at time 1. -/
def sampleKnownTimes (path : Str) : Option Nat :=
  if path = "/b/error-1.xml".toList then some 5 else some 1

/-- A listing of the launch directory with two error fragments, a warning fragment and a
file that is no fragment. -/
def sampleLaunchDir : List Str :=
  ["error-1.xml".toList, "notes.txt".toList, "warning-2.xml".toList, "error-3.xml".toList]

/-- The sample handler in launcher mode with `MaxErrors = 5` and `MaxWarnings = 5`. -/
def sampleLaunchWindowHandler : cmCTestBuildHandler :=
  { sampleLaunchHandler with MaxErrors := 5, MaxWarnings := 5 }

/-! ## The lines of the two streams -/

/-- The lines that the line loop of `ProcessBuffer` takes from the queue it was given, in
order: the values of `CurrentProcessingLine` (before the NUL is pushed at its end), one
for each iteration that finds a newline.  It is the loop of `ProcessBufferLoop` without
the handler. -/
def ExtractedLines (queue : List Char) : List (List Char) :=
  match hq : queue.span (fun c => c != '\n') with
  | (_, []) => []
  | (CurrentProcessingLine, _ :: rest) => CurrentProcessingLine :: ExtractedLines rest
termination_by queue.length
decreasing_by
  have h1 := List.takeWhile_append_dropWhile (fun c => c != '\n') queue
  rw [List.span_eq_take_drop] at hq
  have h2 := congrArg List.length h1
  simp only [Prod.mk.injEq] at hq
  rw [hq.1, hq.2] at h2
  simp only [List.length_append, List.length_cons] at h2
  omega

/-- The lines extracted by the calls of `ProcessBuffer` for the given chunks, each with
the stream from whose queue it was taken, in the order of extraction: a call extracts the
lines of the queue of its stream, as the calls before left it, followed by the chunk. -/
def ReadChunksLines (h : cmCTestBuildHandler) :
    List (QueueSel × List Char) → List (QueueSel × List Char)
  | [] => []
  | c :: cs =>
    (ExtractedLines (h.queue c.1 ++ c.2)).map (fun l => (c.1, l)) ++
      ReadChunksLines (ProcessBuffer h c.2 c.1) cs

/-- The two closing calls `ProcessBuffer(nullptr, 0, ...)` of `RunMakeCommand`, as chunks
without data. -/
def ClosingCalls : List (QueueSel × List Char) :=
  [(QueueSel.BuildProcessingQueue, []), (QueueSel.BuildProcessingErrorQueue, [])]

/-- The lines extracted in a call of `RunMakeCommand`, by the read callbacks and by the
two closing calls of `ProcessBuffer`. -/
def RunLines (h : cmCTestBuildHandler) (tag binaryDir : Str)
    (chunks : List (QueueSel × List Char)) : List (QueueSel × List Char) :=
  ReadChunksLines (InitializeBuildingStructures (LaunchHelper tag binaryDir h))
    (chunks ++ ClosingCalls)

/-- The bytes that the chunks bring on one stream, concatenated. -/
def StreamBytes (q : QueueSel) (chunks : List (QueueSel × List Char)) : List Char :=
  ((chunks.filter (fun c => c.1 == q)).map Prod.snd).flatten

/-- The lines taken from the queue of one stream, among the lines extracted. -/
def LinesOfStream (q : QueueSel) (lines : List (QueueSel × List Char)) : List (List Char) :=
  (lines.filter (fun c => c.1 == q)).map Prod.snd

/-- The handler without what belongs to the streams (the two queues and the size of the
output), after a quota check: what the calls of `ProcessBuffer` for the two streams
share. -/
def SharedState (h : cmCTestBuildHandler) : cmCTestBuildHandler :=
  CheckQuota (withQueues h [] [] 0)

/-- The data up to and including its last newline; nothing when it has no newline. -/
def upToLastNewline : List Char → List Char
  | [] => []
  | c :: cs => if '\n' ∈ c :: cs then c :: upToLastNewline cs else []

/-- The chunks of a run without the unterminated last line of the stream `q`: a chunk of
that stream after which the stream brings no further newline is cut after its last
newline (and is left without data when it has none).  The calls of `ProcessBuffer` stay
the same in number and order. -/
def dropPartialLine (q : QueueSel) : List (QueueSel × List Char) → List (QueueSel × List Char)
  | [] => []
  | c :: cs =>
    if c.1 = q ∧ '\n' ∉ StreamBytes q cs then (c.1, upToLastNewline c.2) :: dropPartialLine q cs
    else c :: dropPartialLine q cs

/-- Standard output brings one error line; standard error brings nothing. -/
def sampleChunksQuiet : List (QueueSel × List Char) :=
  [(QueueSel.BuildProcessingQueue, "a.c:1: error: e\n".toList)]

/-- Standard output brings the same error line, after standard error has brought a line
that no rule matches. -/
def sampleChunksNoise : List (QueueSel × List Char) :=
  [(QueueSel.BuildProcessingErrorQueue, "noise\n".toList),
    (QueueSel.BuildProcessingQueue, "a.c:1: error: e\n".toList)]

/-- Standard output brings a warning line and then, in two chunks, an unterminated line
that the Error rule would match; standard error brings a line in between. -/
def samplePartialChunks : List (QueueSel × List Char) :=
  [(QueueSel.BuildProcessingQueue, "a.c:1: warning: w\nb.c:2: err".toList),
    (QueueSel.BuildProcessingErrorQueue, "x\n".toList),
    (QueueSel.BuildProcessingQueue, "or: e".toList)]

/-! ## Theorems -/

theorem scanRules_iff (line : Str) (rules : List RegularExpression) :
    scanRules line rules = true ↔ Matches rules line := by
  induction rules with
  | nil => simp [scanRules, Matches]
  | cons rx rest ih =>
    unfold scanRules
    by_cases hrx : (rx.find line).isSome = true
    · simp [hrx, Matches]
    · simp only [hrx, if_false, Bool.false_eq_true]
      rw [ih]
      simp [Matches, hrx]

/-- The result of `ProcessSingleLine` outside launcher mode, in terms of the rules that
match the colour-stripped line and of the two quota flags. -/
theorem ProcessSingleLine_scrape (h : cmCTestBuildHandler) (data : Str)
    (hl : h.UseCTestLaunch = false) :
    ProcessSingleLine h data =
      if h.ErrorQuotaReached = false ∧
          Matches h.ErrorMatchRegex (c_str (h.ColorRemover data)) ∧
          ¬ Matches h.ErrorExceptionRegex (c_str (h.ColorRemover data)) then
        LineType.b_ERROR_LINE
      else if h.WarningQuotaReached = false ∧
          Matches h.WarningMatchRegex (c_str (h.ColorRemover data)) ∧
          ¬ Matches h.WarningExceptionRegex (c_str (h.ColorRemover data)) then
        LineType.b_WARNING_LINE
      else LineType.b_REGULAR_LINE := by
  simp only [← scanRules_iff]
  unfold ProcessSingleLine
  simp only [hl, Bool.false_eq_true, if_false]
  cases h.ErrorQuotaReached <;> cases h.WarningQuotaReached <;>
    cases scanRules (c_str (h.ColorRemover data)) h.ErrorMatchRegex <;>
    cases scanRules (c_str (h.ColorRemover data)) h.ErrorExceptionRegex <;>
    cases scanRules (c_str (h.ColorRemover data)) h.WarningMatchRegex <;>
    cases scanRules (c_str (h.ColorRemover data)) h.WarningExceptionRegex <;> simp

/-- C1. Outside launcher mode and with both quotas open, `ProcessSingleLine` returns
Error exactly when some ErrorMatch rule matches the colour-stripped line and no
ErrorException rule does; otherwise Warning exactly when some WarningMatch rule matches
and no WarningException rule does; otherwise Regular.  A line that passes both the error
and the warning procedure is an Error. -/
theorem ProcessSingleLine_open_quotas (h : cmCTestBuildHandler) (data : Str)
    (hl : h.UseCTestLaunch = false) (he : h.ErrorQuotaReached = false)
    (hw : h.WarningQuotaReached = false) :
    (ProcessSingleLine h data = LineType.b_ERROR_LINE ↔
      (Matches h.ErrorMatchRegex (c_str (h.ColorRemover data)) ∧
        ¬ Matches h.ErrorExceptionRegex (c_str (h.ColorRemover data)))) ∧
    (ProcessSingleLine h data = LineType.b_WARNING_LINE ↔
      ¬ (Matches h.ErrorMatchRegex (c_str (h.ColorRemover data)) ∧
          ¬ Matches h.ErrorExceptionRegex (c_str (h.ColorRemover data))) ∧
        (Matches h.WarningMatchRegex (c_str (h.ColorRemover data)) ∧
          ¬ Matches h.WarningExceptionRegex (c_str (h.ColorRemover data)))) ∧
    (ProcessSingleLine h data = LineType.b_REGULAR_LINE ↔
      ¬ (Matches h.ErrorMatchRegex (c_str (h.ColorRemover data)) ∧
          ¬ Matches h.ErrorExceptionRegex (c_str (h.ColorRemover data))) ∧
        ¬ (Matches h.WarningMatchRegex (c_str (h.ColorRemover data)) ∧
          ¬ Matches h.WarningExceptionRegex (c_str (h.ColorRemover data)))) ∧
    ((Matches h.ErrorMatchRegex (c_str (h.ColorRemover data)) ∧
        ¬ Matches h.ErrorExceptionRegex (c_str (h.ColorRemover data))) →
      (Matches h.WarningMatchRegex (c_str (h.ColorRemover data)) ∧
        ¬ Matches h.WarningExceptionRegex (c_str (h.ColorRemover data))) →
      ProcessSingleLine h data = LineType.b_ERROR_LINE) := by
  rw [ProcessSingleLine_scrape h data hl]
  simp only [he, hw, true_and]
  by_cases hE : Matches h.ErrorMatchRegex (c_str (h.ColorRemover data)) ∧
      ¬ Matches h.ErrorExceptionRegex (c_str (h.ColorRemover data))
  · simp [hE]
  · by_cases hW : Matches h.WarningMatchRegex (c_str (h.ColorRemover data)) ∧
        ¬ Matches h.WarningExceptionRegex (c_str (h.ColorRemover data))
    · simp [hE, hW]
    · simp [hE, hW]

/-- C1 at a line that matches the error rule and the warning rule of `sampleHandler`
and neither exception: it is an Error. -/
theorem ProcessSingleLine_open_quotas_witness :
    sampleHandler.UseCTestLaunch = false ∧ sampleHandler.ErrorQuotaReached = false ∧
    sampleHandler.WarningQuotaReached = false ∧
    ProcessSingleLine sampleHandler "a.c:1: error: warning".toList = LineType.b_ERROR_LINE ∧
    (ProcessSingleLine sampleHandler "a.c:1: error: warning".toList = LineType.b_ERROR_LINE ↔
      (Matches sampleHandler.ErrorMatchRegex
          (c_str (sampleHandler.ColorRemover "a.c:1: error: warning".toList)) ∧
        ¬ Matches sampleHandler.ErrorExceptionRegex
          (c_str (sampleHandler.ColorRemover "a.c:1: error: warning".toList)))) :=
  ⟨rfl, rfl, rfl, by decide,
    (ProcessSingleLine_open_quotas sampleHandler "a.c:1: error: warning".toList rfl rfl rfl).1⟩

/-! ### C8: a line that matches an Error rule and an Error exception -/

/-- C8 as stated fails in launcher mode: the line below matches the Error rule, the Error
exception and the Warning rule of `sampleLaunchHandler`, matches no Warning exception,
and the warning quota is open, yet `ProcessSingleLine` returns Regular, not Warning. -/
theorem ProcessSingleLine_exception_launcher_counterexample :
    Matches sampleLaunchHandler.ErrorMatchRegex
      (c_str (sampleLaunchHandler.ColorRemover "note: error: warning".toList)) ∧
    Matches sampleLaunchHandler.ErrorExceptionRegex
      (c_str (sampleLaunchHandler.ColorRemover "note: error: warning".toList)) ∧
    sampleLaunchHandler.WarningQuotaReached = false ∧
    Matches sampleLaunchHandler.WarningMatchRegex
      (c_str (sampleLaunchHandler.ColorRemover "note: error: warning".toList)) ∧
    ¬ Matches sampleLaunchHandler.WarningExceptionRegex
      (c_str (sampleLaunchHandler.ColorRemover "note: error: warning".toList)) ∧
    ProcessSingleLine sampleLaunchHandler "note: error: warning".toList ≠
      LineType.b_WARNING_LINE ∧
    ProcessSingleLine sampleLaunchHandler "note: error: warning".toList =
      LineType.b_REGULAR_LINE := by
  decide

/-- C8, amended. For a line that matches some ErrorMatch rule and some ErrorException
rule, `ProcessSingleLine` never returns Error and returns what it would return with empty
Error rule lists; outside launcher mode that is Warning exactly when the warning quota is
open and the Warning rules accept the line (a WarningMatch rule matches and no
WarningException rule does), and Regular otherwise; in launcher mode it is Regular. -/
theorem ProcessSingleLine_error_exception (h : cmCTestBuildHandler) (data : Str)
    (_hm : Matches h.ErrorMatchRegex (c_str (h.ColorRemover data)))
    (hx : Matches h.ErrorExceptionRegex (c_str (h.ColorRemover data))) :
    ProcessSingleLine h data ≠ LineType.b_ERROR_LINE ∧
    ProcessSingleLine h data =
      ProcessSingleLine { h with ErrorMatchRegex := [], ErrorExceptionRegex := [] } data ∧
    (h.UseCTestLaunch = false →
      (ProcessSingleLine h data = LineType.b_WARNING_LINE ↔
        (h.WarningQuotaReached = false ∧
          Matches h.WarningMatchRegex (c_str (h.ColorRemover data)) ∧
          ¬ Matches h.WarningExceptionRegex (c_str (h.ColorRemover data)))) ∧
      (ProcessSingleLine h data = LineType.b_REGULAR_LINE ↔
        ¬ (h.WarningQuotaReached = false ∧
          Matches h.WarningMatchRegex (c_str (h.ColorRemover data)) ∧
          ¬ Matches h.WarningExceptionRegex (c_str (h.ColorRemover data))))) ∧
    (h.UseCTestLaunch = true → ProcessSingleLine h data = LineType.b_REGULAR_LINE) := by
  by_cases hl' : h.UseCTestLaunch = true
  · simp [ProcessSingleLine, hl']
  · have hl : h.UseCTestLaunch = false := by simpa using hl'
    have h1 := ProcessSingleLine_scrape h data hl
    have h2 := ProcessSingleLine_scrape
      { h with ErrorMatchRegex := [], ErrorExceptionRegex := [] } data hl
    have hno : ¬ Matches ([] : List RegularExpression) (c_str (h.ColorRemover data)) := by
      simp [Matches]
    simp only [hx, not_true_eq_false, and_false, if_false] at h1
    simp only [hno, false_and, and_false, if_false] at h2
    rw [h2, h1]
    by_cases hW : h.WarningQuotaReached = false ∧
        Matches h.WarningMatchRegex (c_str (h.ColorRemover data)) ∧
        ¬ Matches h.WarningExceptionRegex (c_str (h.ColorRemover data))
    · simp [hW, hl]
    · simp [hW, hl]

/-- C8 (amended) at a line that matches the Error rule, the Error exception and the
Warning rule of `sampleHandler`: the result is Warning. -/
theorem ProcessSingleLine_error_exception_witness :
    Matches sampleHandler.ErrorMatchRegex
      (c_str (sampleHandler.ColorRemover "note: error: warning".toList)) ∧
    Matches sampleHandler.ErrorExceptionRegex
      (c_str (sampleHandler.ColorRemover "note: error: warning".toList)) ∧
    ProcessSingleLine sampleHandler "note: error: warning".toList = LineType.b_WARNING_LINE ∧
    ProcessSingleLine sampleHandler "note: error: warning".toList ≠ LineType.b_ERROR_LINE :=
  ⟨by decide, by decide, by decide,
    (ProcessSingleLine_error_exception sampleHandler "note: error: warning".toList
      (by decide) (by decide)).1⟩

/-! ### C4 and C5: the quotas of GenerateXMLLogScraped -/

theorem ExtractSourceLocation_frame (st : cmSystemTools) (srcdir : Str)
    (rules : List cmCTestCompileErrorWarningRex) (cm : cmCTestBuildErrorWarning) :
    (ExtractSourceLocation st srcdir rules cm).Error = cm.Error ∧
    (ExtractSourceLocation st srcdir rules cm).LogLine = cm.LogLine ∧
    (ExtractSourceLocation st srcdir rules cm).Text = cm.Text ∧
    (ExtractSourceLocation st srcdir rules cm).PreContext = cm.PreContext ∧
    (ExtractSourceLocation st srcdir rules cm).PostContext = cm.PostContext := by
  induction rules with
  | nil => simp [ExtractSourceLocation]
  | cons rit rest ih =>
    unfold ExtractSourceLocation
    cases hfind : rit.RegularExpression.find cm.Text with
    | none => simpa using ih
    | some m => simp

theorem countKind_append (kind : Bool) (a b : List cmCTestBuildErrorWarning) :
    countKind kind (a ++ b) = countKind kind a + countKind kind b := by
  simp [countKind]

theorem countKind_singleton (kind : Bool) (cm : cmCTestBuildErrorWarning) :
    countKind kind [cm] = if cm.Error = kind then 1 else 0 := by
  by_cases hk : cm.Error = kind <;> simp [countKind, hk]

/-- Once both allowances are used up, nothing more is kept. -/
theorem firstSeenFirstKept_exhausted (MaxErrors MaxWarnings : Int)
    (l seen : List cmCTestBuildErrorWarning)
    (hE : MaxErrors ≤ countKind true seen) (hW : MaxWarnings ≤ countKind false seen) :
    firstSeenFirstKept MaxErrors MaxWarnings seen l = [] := by
  induction l generalizing seen with
  | nil => rfl
  | cons cm rest ih =>
    unfold firstSeenFirstKept
    have hE' : MaxErrors ≤ countKind true (seen ++ [cm]) := by
      rw [countKind_append]; push_cast; omega
    have hW' : MaxWarnings ≤ countKind false (seen ++ [cm]) := by
      rw [countKind_append]; push_cast; omega
    rw [ih _ hE' hW']
    cases hk : cm.Error
    · simp; omega
    · simp; omega

/-- The loop of `GenerateXMLLogScraped` reports the events that `firstSeenFirstKept`
keeps, when its allowances are what the events seen so far leave of the maxima. -/
theorem GenerateXMLLogScrapedLoop_reports (st : cmSystemTools) (srcdir : Str)
    (rules : List cmCTestCompileErrorWarningRex) (MaxErrors MaxWarnings : Int)
    (l seen : List cmCTestBuildErrorWarning) (nE nW : Int)
    (hE : nE = max 0 (MaxErrors - countKind true seen))
    (hW : nW = max 0 (MaxWarnings - countKind false seen)) :
    List.Forall₂ XMLBuildEvent.Reports
      (GenerateXMLLogScrapedLoop st srcdir rules l nE nW).1
      (firstSeenFirstKept MaxErrors MaxWarnings seen l) := by
  induction l generalizing seen nE nW with
  | nil => simp [GenerateXMLLogScrapedLoop, firstSeenFirstKept]
  | cons cm rest ih =>
    have hfr := ExtractSourceLocation_frame st srcdir rules cm
    unfold GenerateXMLLogScrapedLoop
    by_cases hopen : nE ≠ 0 ∨ nW ≠ 0
    · rw [if_pos hopen]
      cases hk : cm.Error
      · -- a Warning
        have hE' : nE = max 0 (MaxErrors - countKind true (seen ++ [cm])) := by
          rw [countKind_append, countKind_singleton]; simp [hk, hE]
        by_cases hnW : nW = 0
        · have hW' : nW = max 0 (MaxWarnings - countKind false (seen ++ [cm])) := by
            rw [countKind_append, countKind_singleton]; simp [hk]; omega
          have hnot : ¬ ((countKind false seen : Int) < MaxWarnings) := by omega
          simp only [hnW, hk, Bool.false_eq_true, false_and, ne_eq, not_true_eq_false, and_false,
            or_self, if_false]
          unfold firstSeenFirstKept
          simp only [hk, Bool.false_eq_true, if_false, hnot, List.nil_append]
          exact ih _ _ _ hE' (hnW ▸ hW')
        · have hW' : nW - 1 = max 0 (MaxWarnings - countKind false (seen ++ [cm])) := by
            rw [countKind_append, countKind_singleton]; simp [hk]; omega
          have hyes : (countKind false seen : Int) < MaxWarnings := by omega
          simp only [hk, Bool.false_eq_true, false_and, ne_eq, hnW, not_false_eq_true, and_self,
            or_true, if_true, if_false]
          unfold firstSeenFirstKept
          simp only [hk, Bool.false_eq_true, if_false, hyes, if_true, List.singleton_append]
          refine List.Forall₂.cons ?_ (ih _ _ _ hE' hW')
          simp [XMLBuildEvent.Reports, WriteBuildEvent, hfr, hk]
          split <;> simp
      · -- an Error
        have hW' : nW = max 0 (MaxWarnings - countKind false (seen ++ [cm])) := by
          rw [countKind_append, countKind_singleton]; simp [hk, hW]
        by_cases hnE : nE = 0
        · have hE' : nE = max 0 (MaxErrors - countKind true (seen ++ [cm])) := by
            rw [countKind_append, countKind_singleton]; simp [hk]; omega
          have hnot : ¬ ((countKind true seen : Int) < MaxErrors) := by omega
          simp only [hnE, hk, ne_eq, not_true_eq_false, and_false, Bool.true_eq_false, false_and,
            or_self, if_false]
          unfold firstSeenFirstKept
          simp only [hk, if_true, hnot, if_false, List.nil_append]
          exact ih _ _ _ (hnE ▸ hE') hW'
        · have hE' : nE - 1 = max 0 (MaxErrors - countKind true (seen ++ [cm])) := by
            rw [countKind_append, countKind_singleton]; simp [hk]; omega
          have hyes : (countKind true seen : Int) < MaxErrors := by omega
          simp only [hk, ne_eq, hnE, not_false_eq_true, and_self, true_or, if_true]
          unfold firstSeenFirstKept
          simp only [hk, if_true, hyes, List.singleton_append]
          refine List.Forall₂.cons ?_ (ih _ _ _ hE' hW')
          simp [XMLBuildEvent.Reports, WriteBuildEvent, hfr, hk]
          split <;> simp
    · rw [if_neg hopen]
      have h0 : nE = 0 ∧ nW = 0 := by
        constructor <;> by_contra hne <;> exact hopen (by simp [hne])
      rw [firstSeenFirstKept_exhausted MaxErrors MaxWarnings (cm :: rest) seen (by omega) (by omega)]
      exact List.Forall₂.nil

theorem firstSeenFirstKept_sublist (MaxErrors MaxWarnings : Int)
    (l seen : List cmCTestBuildErrorWarning) :
    (firstSeenFirstKept MaxErrors MaxWarnings seen l).Sublist l := by
  induction l generalizing seen with
  | nil => simp [firstSeenFirstKept]
  | cons cm rest ih =>
    unfold firstSeenFirstKept
    have ih' := ih (seen ++ [cm])
    by_cases hlt : (countKind cm.Error seen : Int) < (if cm.Error then MaxErrors else MaxWarnings)
    · rw [if_pos hlt]
      exact List.Sublist.cons₂ cm ih'
    · rw [if_neg hlt]
      exact List.Sublist.cons cm ih'

/-- Of each kind, `firstSeenFirstKept` keeps the first events up to what is left of the
maximum of that kind. -/
theorem firstSeenFirstKept_filter (MaxErrors MaxWarnings : Int) (kind : Bool)
    (l seen : List cmCTestBuildErrorWarning) :
    (firstSeenFirstKept MaxErrors MaxWarnings seen l).filter (fun cm => cm.Error == kind) =
      (l.filter (fun cm => cm.Error == kind)).take
        ((if kind then MaxErrors else MaxWarnings) - countKind kind seen).toNat := by
  induction l generalizing seen with
  | nil => simp [firstSeenFirstKept]
  | cons cm rest ih =>
    unfold firstSeenFirstKept
    rw [List.filter_append, ih (seen ++ [cm]), countKind_append, countKind_singleton]
    by_cases hk : cm.Error = kind
    · subst hk
      simp only [if_true, List.filter_cons, beq_self_eq_true]
      by_cases hlt : (countKind cm.Error seen : Int) < (if cm.Error then MaxErrors else MaxWarnings)
      · simp only [hlt, if_true, List.filter_cons, beq_self_eq_true, List.singleton_append]
        have hsucc : ((if cm.Error = true then MaxErrors else MaxWarnings) -
            (countKind cm.Error seen : Int)).toNat =
            ((if cm.Error = true then MaxErrors else MaxWarnings) -
              ((countKind cm.Error seen + 1 : Nat) : Int)).toNat + 1 := by
          push_cast; omega
        rw [hsucc, List.take_succ_cons]
        simp
      · simp only [hlt, if_false, List.filter_nil, List.nil_append]
        have h0 : ((if cm.Error = true then MaxErrors else MaxWarnings) -
            (countKind cm.Error seen : Int)).toNat = 0 := by omega
        have h1 : ((if cm.Error = true then MaxErrors else MaxWarnings) -
            ((countKind cm.Error seen + 1 : Nat) : Int)).toNat = 0 := by push_cast; omega
        rw [h0, h1]; simp
    · have hk' : (cm.Error == kind) = false := by simpa using hk
      simp only [hk, if_false, Nat.add_zero, List.filter_cons, hk']
      by_cases hlt : (countKind cm.Error seen : Int) < (if cm.Error then MaxErrors else MaxWarnings)
      · simp [hlt, hk', hk]
      · simp [hlt]

theorem take_min_length {α : Type} (n : Nat) (l : List α) :
    l.take (min n l.length) = l.take n := by
  by_cases hn : n ≤ l.length
  · rw [Nat.min_eq_left hn]
  · rw [Nat.min_eq_right (by omega), List.take_of_length_le (le_refl _),
      List.take_of_length_le (by omega)]

/-- Elements that report events are named after the kinds of the events. -/
theorem countName_of_reports (out : List XMLBuildEvent) (kept : List cmCTestBuildErrorWarning)
    (hr : List.Forall₂ XMLBuildEvent.Reports out kept) :
    countName "Error".toList out = countKind true kept ∧
    countName "Warning".toList out = countKind false kept := by
  induction hr with
  | nil => simp [countName, countKind]
  | @cons x cm out kept hx _ ih =>
    have hname := hx.1
    simp only [countName, countKind] at ih ⊢
    cases hk : cm.Error
    · rw [hk] at hname
      have h1 : (x.Name == "Error".toList) = false := by rw [hname]; decide
      have h2 : (x.Name == "Warning".toList) = true := by rw [hname]; decide
      have e1 : (cm.Error == true) = false := by rw [hk]; rfl
      have e2 : (cm.Error == false) = true := by rw [hk]; rfl
      simp only [List.filter_cons, h1, h2, e1, e2, Bool.false_eq_true, if_false, if_true,
        List.length_cons]
      exact ⟨ih.1, by rw [ih.2]⟩
    · rw [hk] at hname
      have h1 : (x.Name == "Error".toList) = true := by rw [hname]; decide
      have h2 : (x.Name == "Warning".toList) = false := by rw [hname]; decide
      have e1 : (cm.Error == true) = true := by rw [hk]; rfl
      have e2 : (cm.Error == false) = false := by rw [hk]; rfl
      simp only [List.filter_cons, h1, h2, e1, e2, Bool.false_eq_true, if_false, if_true,
        List.length_cons]
      exact ⟨by rw [ih.1], ih.2⟩

/-- C4. For non-negative `MaxErrors` and `MaxWarnings`, `GenerateXMLLogScraped` writes one
element for each event kept first-seen-first-kept and no other, in the order of the
events: the kept events are a subsequence of the recorded ones, the Errors among them are
the first `min MaxErrors (number of Errors)` Errors and the Warnings among them the first
`min MaxWarnings (number of Warnings)` Warnings. -/
theorem GenerateXMLLogScraped_first_kept (st : cmSystemTools) (srcdir : Str)
    (h : cmCTestBuildHandler) (hE : 0 ≤ h.MaxErrors) (hW : 0 ≤ h.MaxWarnings) :
    List.Forall₂ XMLBuildEvent.Reports (GenerateXMLLogScraped st srcdir h).1
      (firstSeenFirstKept h.MaxErrors h.MaxWarnings [] h.ErrorsAndWarnings) ∧
    (firstSeenFirstKept h.MaxErrors h.MaxWarnings [] h.ErrorsAndWarnings).Sublist
      h.ErrorsAndWarnings ∧
    (firstSeenFirstKept h.MaxErrors h.MaxWarnings [] h.ErrorsAndWarnings).filter
        (fun cm => cm.Error == true) =
      (h.ErrorsAndWarnings.filter (fun cm => cm.Error == true)).take
        (min h.MaxErrors.toNat (countKind true h.ErrorsAndWarnings)) ∧
    (firstSeenFirstKept h.MaxErrors h.MaxWarnings [] h.ErrorsAndWarnings).filter
        (fun cm => cm.Error == false) =
      (h.ErrorsAndWarnings.filter (fun cm => cm.Error == false)).take
        (min h.MaxWarnings.toNat (countKind false h.ErrorsAndWarnings)) ∧
    countName "Error".toList (GenerateXMLLogScraped st srcdir h).1 =
      min h.MaxErrors.toNat (countKind true h.ErrorsAndWarnings) ∧
    countName "Warning".toList (GenerateXMLLogScraped st srcdir h).1 =
      min h.MaxWarnings.toNat (countKind false h.ErrorsAndWarnings) := by
  have hrep : List.Forall₂ XMLBuildEvent.Reports (GenerateXMLLogScraped st srcdir h).1
      (firstSeenFirstKept h.MaxErrors h.MaxWarnings [] h.ErrorsAndWarnings) := by
    unfold GenerateXMLLogScraped
    exact GenerateXMLLogScrapedLoop_reports st srcdir h.ErrorWarningFileLineRegex h.MaxErrors
      h.MaxWarnings h.ErrorsAndWarnings [] h.MaxErrors h.MaxWarnings
      (by simp [countKind, hE]) (by simp [countKind, hW])
  have hfE := firstSeenFirstKept_filter h.MaxErrors h.MaxWarnings true h.ErrorsAndWarnings []
  have hfW := firstSeenFirstKept_filter h.MaxErrors h.MaxWarnings false h.ErrorsAndWarnings []
  simp only [if_true, Bool.false_eq_true, if_false, countKind, List.filter_nil, List.length_nil,
    Nat.cast_zero, sub_zero] at hfE hfW
  have hcount := countName_of_reports _ _ hrep
  refine ⟨hrep, firstSeenFirstKept_sublist _ _ _ _, ?_, ?_, ?_, ?_⟩
  · rw [hfE, countKind, take_min_length]
  · rw [hfW, countKind, take_min_length]
  · rw [hcount.1, countKind, hfE, List.length_take, countKind]
  · rw [hcount.2, countKind, hfW, List.length_take, countKind]

/-- C4 on the sample report: with both maxima 1, of two Errors and two Warnings one
element of each name is written. -/
theorem GenerateXMLLogScraped_first_kept_witness :
    0 ≤ sampleReportHandler.MaxErrors ∧ 0 ≤ sampleReportHandler.MaxWarnings ∧
    (GenerateXMLLogScraped sampleSystemTools [] sampleReportHandler).1.map
        (fun x => (x.Name, x.BuildLogLine)) = [("Warning".toList, 1), ("Error".toList, 2)] ∧
    countName "Error".toList (GenerateXMLLogScraped sampleSystemTools [] sampleReportHandler).1 =
      min sampleReportHandler.MaxErrors.toNat
        (countKind true sampleReportHandler.ErrorsAndWarnings) :=
  ⟨by decide, by decide, by decide,
    (GenerateXMLLogScraped_first_kept sampleSystemTools [] sampleReportHandler
      (by decide) (by decide)).2.2.2.2.1⟩

theorem WriteBuildEvent_notice (cm : cmCTestBuildErrorWarning) (nE nW : Int) :
    (WriteBuildEvent cm nE nW).Notice ↔
      (cm.Error = true ∧ nE = 0) ∨ (cm.Error = false ∧ nW = 0) := by
  unfold XMLBuildEvent.Notice WriteBuildEvent
  by_cases hc : (cm.Error = true ∧ nE = 0) ∨ (cm.Error = false ∧ nW = 0)
  · simp only [hc, if_true, List.drop_succ_cons, List.drop_zero]
  · simp only [hc, if_false, List.drop_succ_cons, List.drop_zero, iff_false]
    exact fun hcontra => List.noConfusion hcontra

theorem countName_cons (name : Str) (x : XMLBuildEvent) (out : List XMLBuildEvent) :
    countName name (x :: out) = (if x.Name = name then 1 else 0) + countName name out := by
  by_cases hx : x.Name = name
  · simp [countName, List.filter_cons, hx]; omega
  · simp [countName, List.filter_cons, hx]

theorem countName_nil (name : Str) : countName name [] = 0 := rfl

theorem error_ne_warning : "Error".toList ≠ "Warning".toList := by decide

/-- Every element the loop writes is of a kind whose allowance was not used up. -/
theorem GenerateXMLLogScrapedLoop_names (st : cmSystemTools) (srcdir : Str)
    (rules : List cmCTestCompileErrorWarningRex) (l : List cmCTestBuildErrorWarning)
    (nE nW : Int) :
    ∀ x ∈ (GenerateXMLLogScrapedLoop st srcdir rules l nE nW).1,
      (x.Name = "Error".toList ∧ nE ≠ 0) ∨ (x.Name = "Warning".toList ∧ nW ≠ 0) := by
  induction l generalizing nE nW with
  | nil => simp [GenerateXMLLogScrapedLoop]
  | cons cm rest ih =>
    have hfr := (ExtractSourceLocation_frame st srcdir rules cm).1
    unfold GenerateXMLLogScrapedLoop
    by_cases hopen : nE ≠ 0 ∨ nW ≠ 0
    · rw [if_pos hopen]
      by_cases hkeep : (cm.Error = true ∧ nE ≠ 0) ∨ (cm.Error = false ∧ nW ≠ 0)
      · rw [if_pos hkeep]
        intro x hx
        simp only [List.mem_cons] at hx
        rcases hx with hx | hx
        · subst hx
          rcases hkeep with ⟨hk, hn⟩ | ⟨hk, hn⟩
          · left; exact ⟨by simp [WriteBuildEvent, hfr, hk], hn⟩
          · right; exact ⟨by simp [WriteBuildEvent, hfr, hk], hn⟩
        · rcases ih _ _ x hx with ⟨hname, hn⟩ | ⟨hname, hn⟩
          · left
            refine ⟨hname, ?_⟩
            rcases hkeep with ⟨hk, hn'⟩ | ⟨hk, _⟩
            · exact hn'
            · simpa [hk] using hn
          · right
            refine ⟨hname, ?_⟩
            rcases hkeep with ⟨hk, _⟩ | ⟨hk, hn'⟩
            · simpa [hk] using hn
            · exact hn'
      · rw [if_neg hkeep]
        exact ih _ _
    · rw [if_neg hopen]
      simp

/-- One step of the loop of `GenerateXMLLogScraped`: the loop has ended, or the event is
passed over, or an Error element is written and the allowance of Errors goes down by one,
or a Warning element is written and the allowance of Warnings goes down by one. -/
theorem GenerateXMLLogScrapedLoop_cons (st : cmSystemTools) (srcdir : Str)
    (rules : List cmCTestCompileErrorWarningRex) (cm : cmCTestBuildErrorWarning)
    (rest : List cmCTestBuildErrorWarning) (nE nW : Int) :
    (GenerateXMLLogScrapedLoop st srcdir rules (cm :: rest) nE nW).1 = [] ∨
    (GenerateXMLLogScrapedLoop st srcdir rules (cm :: rest) nE nW).1 =
      (GenerateXMLLogScrapedLoop st srcdir rules rest nE nW).1 ∨
    (∃ e, (GenerateXMLLogScrapedLoop st srcdir rules (cm :: rest) nE nW).1 =
        e :: (GenerateXMLLogScrapedLoop st srcdir rules rest (nE - 1) nW).1 ∧
      e.Name = "Error".toList ∧ nE ≠ 0 ∧ (e.Notice ↔ nE - 1 = 0) ∧ cm.Error = true) ∨
    (∃ e, (GenerateXMLLogScrapedLoop st srcdir rules (cm :: rest) nE nW).1 =
        e :: (GenerateXMLLogScrapedLoop st srcdir rules rest nE (nW - 1)).1 ∧
      e.Name = "Warning".toList ∧ nW ≠ 0 ∧ (e.Notice ↔ nW - 1 = 0) ∧ cm.Error = false) := by
  have hfr := (ExtractSourceLocation_frame st srcdir rules cm).1
  have hstep : (GenerateXMLLogScrapedLoop st srcdir rules (cm :: rest) nE nW).1 =
      if nE ≠ 0 ∨ nW ≠ 0 then
        if (cm.Error = true ∧ nE ≠ 0) ∨ (cm.Error = false ∧ nW ≠ 0) then
          WriteBuildEvent (ExtractSourceLocation st srcdir rules cm)
              (if cm.Error then nE - 1 else nE) (if cm.Error then nW else nW - 1) ::
            (GenerateXMLLogScrapedLoop st srcdir rules rest
              (if cm.Error then nE - 1 else nE) (if cm.Error then nW else nW - 1)).1
        else (GenerateXMLLogScrapedLoop st srcdir rules rest nE nW).1
      else [] := by
    rw [GenerateXMLLogScrapedLoop]
    split_ifs <;> rfl
  rw [hstep]
  by_cases hopen : nE ≠ 0 ∨ nW ≠ 0
  · rw [if_pos hopen]
    by_cases hkeep : (cm.Error = true ∧ nE ≠ 0) ∨ (cm.Error = false ∧ nW ≠ 0)
    · rw [if_pos hkeep]
      rcases hkeep with ⟨hk, hn⟩ | ⟨hk, hn⟩
      · right; right; left
        refine ⟨WriteBuildEvent (ExtractSourceLocation st srcdir rules cm) (nE - 1) nW,
          by simp only [hk, if_true], by simp [WriteBuildEvent, hfr, hk], hn, ?_, hk⟩
        rw [WriteBuildEvent_notice, hfr]
        simp [hk]
      · right; right; right
        refine ⟨WriteBuildEvent (ExtractSourceLocation st srcdir rules cm) nE (nW - 1),
          by simp only [hk, Bool.false_eq_true, if_false],
          by simp [WriteBuildEvent, hfr, hk], hn, ?_, hk⟩
        rw [WriteBuildEvent_notice, hfr]
        simp [hk]
    · rw [if_neg hkeep]
      right; left; rfl
  · rw [if_neg hopen]
    left; rfl

/-- In the loop of `GenerateXMLLogScraped` an element carries the notice exactly when
the elements of its name written up to and including it are as many as the allowance
the loop started with, and no element of that name follows it. -/
theorem GenerateXMLLogScrapedLoop_notice (st : cmSystemTools) (srcdir : Str)
    (rules : List cmCTestCompileErrorWarningRex) (l : List cmCTestBuildErrorWarning)
    (nE nW : Int) (pre : List XMLBuildEvent) (x : XMLBuildEvent) (post : List XMLBuildEvent)
    (hout : (GenerateXMLLogScrapedLoop st srcdir rules l nE nW).1 = pre ++ x :: post) :
    (x.Notice ↔
      (x.Name = "Error".toList ∧ (countName "Error".toList (pre ++ [x]) : Int) = nE) ∨
      (x.Name = "Warning".toList ∧ (countName "Warning".toList (pre ++ [x]) : Int) = nW)) ∧
    (x.Notice → ∀ y ∈ post, y.Name ≠ x.Name) := by
  have hWE : ¬ ("Warning".toList = "Error".toList) := fun hc => error_ne_warning hc.symm
  induction l generalizing nE nW pre with
  | nil => simp [GenerateXMLLogScrapedLoop] at hout
  | cons cm rest ih =>
    rcases GenerateXMLLogScrapedLoop_cons st srcdir rules cm rest nE nW with
      hnil | hskip | ⟨e, hcons, hname, hn, hnot, _⟩ | ⟨e, hcons, hname, hn, hnot, _⟩
    · rw [hnil] at hout
      simp at hout
    · rw [hskip] at hout
      exact ih _ _ pre hout
    · -- an Error element is written
      rw [hcons] at hout
      cases pre with
      | nil =>
        simp only [List.nil_append, List.cons.injEq] at hout
        obtain ⟨hx, hpost⟩ := hout
        subst hx
        have hnames := GenerateXMLLogScrapedLoop_names st srcdir rules rest (nE - 1) nW
        rw [hpost] at hnames
        constructor
        · rw [hnot]
          simp only [hname, true_and, error_ne_warning, false_and, or_false, List.nil_append,
            countName_cons, if_true, countName_nil]
          push_cast
          constructor <;> intro hh <;> omega
        · intro h0 y hy hyname
          rcases hnames y hy with ⟨_, hyE⟩ | ⟨hyW, _⟩
          · exact hyE (hnot.mp h0)
          · rw [hname] at hyname
            exact error_ne_warning (hyname.symm.trans hyW)
      | cons e' pre' =>
        simp only [List.cons_append, List.cons.injEq] at hout
        obtain ⟨he, hrest⟩ := hout
        have ih' := ih _ _ pre' hrest
        refine ⟨?_, ih'.2⟩
        subst he
        rw [ih'.1, List.cons_append, countName_cons, countName_cons, hname]
        simp only [if_true, error_ne_warning, if_false, Nat.cast_add, Nat.cast_zero,
          Nat.cast_one, zero_add]
        constructor <;> rintro (⟨hn, hc⟩ | ⟨hn, hc⟩)
        · exact Or.inl ⟨hn, by omega⟩
        · exact Or.inr ⟨hn, hc⟩
        · exact Or.inl ⟨hn, by omega⟩
        · exact Or.inr ⟨hn, hc⟩
    · -- a Warning element is written
      rw [hcons] at hout
      cases pre with
      | nil =>
        simp only [List.nil_append, List.cons.injEq] at hout
        obtain ⟨hx, hpost⟩ := hout
        subst hx
        have hnames := GenerateXMLLogScrapedLoop_names st srcdir rules rest nE (nW - 1)
        rw [hpost] at hnames
        constructor
        · rw [hnot]
          simp only [hname, true_and, hWE, false_and, false_or, List.nil_append,
            countName_cons, if_true, countName_nil]
          push_cast
          constructor <;> intro hh <;> omega
        · intro h0 y hy hyname
          rcases hnames y hy with ⟨hyE, _⟩ | ⟨_, hyW⟩
          · rw [hname] at hyname
            exact hWE (hyname.symm.trans hyE)
          · exact hyW (hnot.mp h0)
      | cons e' pre' =>
        simp only [List.cons_append, List.cons.injEq] at hout
        obtain ⟨he, hrest⟩ := hout
        have ih' := ih _ _ pre' hrest
        refine ⟨?_, ih'.2⟩
        subst he
        rw [ih'.1, List.cons_append, countName_cons, countName_cons, hname]
        simp only [if_true, hWE, if_false, Nat.cast_add, Nat.cast_zero,
          Nat.cast_one, zero_add]
        constructor <;> rintro (⟨hn, hc⟩ | ⟨hn, hc⟩)
        · exact Or.inl ⟨hn, hc⟩
        · exact Or.inr ⟨hn, by omega⟩
        · exact Or.inl ⟨hn, hc⟩
        · exact Or.inr ⟨hn, by omega⟩

/-- The loop writes at most as many elements of a name as there are events of that kind. -/
theorem GenerateXMLLogScrapedLoop_count_le (st : cmSystemTools) (srcdir : Str)
    (rules : List cmCTestCompileErrorWarningRex) (l : List cmCTestBuildErrorWarning)
    (nE nW : Int) :
    countName "Error".toList (GenerateXMLLogScrapedLoop st srcdir rules l nE nW).1 ≤
      countKind true l ∧
    countName "Warning".toList (GenerateXMLLogScrapedLoop st srcdir rules l nE nW).1 ≤
      countKind false l := by
  have hWE : ¬ ("Warning".toList = "Error".toList) := fun hc => error_ne_warning hc.symm
  induction l generalizing nE nW with
  | nil => simp [GenerateXMLLogScrapedLoop, countName, countKind]
  | cons cm rest ih =>
    have hc : ∀ kind, countKind kind (cm :: rest) =
        (if cm.Error = kind then 1 else 0) + countKind kind rest := by
      intro kind
      have := countKind_append kind [cm] rest
      rw [countKind_singleton] at this
      simpa using this
    rcases GenerateXMLLogScrapedLoop_cons st srcdir rules cm rest nE nW with
      hnil | hskip | ⟨e, hcons, hname, _, _, hk⟩ | ⟨e, hcons, hname, _, _, hk⟩
    · rw [hnil]
      simp [countName]
    · rw [hskip, hc, hc]
      have := ih nE nW
      constructor <;> omega
    · rw [hcons, countName_cons, countName_cons, hname, hc, hc, hk]
      have := ih (nE - 1) nW
      simp only [if_true, error_ne_warning, if_false, Bool.true_eq_false]
      constructor <;> omega
    · rw [hcons, countName_cons, countName_cons, hname, hc, hc, hk]
      have := ih nE (nW - 1)
      simp only [if_true, hWE, if_false, Bool.false_eq_true]
      constructor <;> omega

theorem countName_append (name : Str) (a b : List XMLBuildEvent) :
    countName name (a ++ b) = countName name a + countName name b := by
  simp [countName]

/-- C5. In log-scrape mode an element written by `GenerateXMLLogScraped` carries the
notice "maximum number of reported warnings or errors has been reached" after its
post-context exactly when it is the `MaxErrors`-th Error element or the `MaxWarnings`-th
Warning element written; it is then the last element of its kind; and when there are
fewer events of a kind than its maximum, no element of that kind carries the notice. -/
theorem GenerateXMLLogScraped_notice (st : cmSystemTools) (srcdir : Str)
    (h : cmCTestBuildHandler) (pre : List XMLBuildEvent) (x : XMLBuildEvent)
    (post : List XMLBuildEvent)
    (hout : (GenerateXMLLogScraped st srcdir h).1 = pre ++ x :: post) :
    (x.Notice ↔
      (x.Name = "Error".toList ∧
        (countName "Error".toList (pre ++ [x]) : Int) = h.MaxErrors) ∨
      (x.Name = "Warning".toList ∧
        (countName "Warning".toList (pre ++ [x]) : Int) = h.MaxWarnings)) ∧
    (x.Notice → ∀ y ∈ post, y.Name ≠ x.Name) ∧
    ((countKind true h.ErrorsAndWarnings : Int) < h.MaxErrors →
      x.Name = "Error".toList → ¬ x.Notice) ∧
    ((countKind false h.ErrorsAndWarnings : Int) < h.MaxWarnings →
      x.Name = "Warning".toList → ¬ x.Notice) := by
  have hWE : ¬ ("Warning".toList = "Error".toList) := fun hc => error_ne_warning hc.symm
  unfold GenerateXMLLogScraped at hout
  simp only at hout
  have hmain := GenerateXMLLogScrapedLoop_notice st srcdir h.ErrorWarningFileLineRegex
    h.ErrorsAndWarnings h.MaxErrors h.MaxWarnings pre x post hout
  have hle := GenerateXMLLogScrapedLoop_count_le st srcdir h.ErrorWarningFileLineRegex
    h.ErrorsAndWarnings h.MaxErrors h.MaxWarnings
  rw [hout] at hle
  have hsplit : ∀ name, countName name (pre ++ x :: post) =
      countName name (pre ++ [x]) + countName name post := by
    intro name
    rw [show pre ++ x :: post = (pre ++ [x]) ++ post by simp, countName_append]
  rw [hsplit, hsplit] at hle
  refine ⟨hmain.1, hmain.2, ?_, ?_⟩
  · intro hlt hname hnot
    rcases hmain.1.mp hnot with ⟨_, hc⟩ | ⟨hname', _⟩
    · omega
    · exact hWE (hname'.symm.trans hname)
  · intro hlt hname hnot
    rcases hmain.1.mp hnot with ⟨hname', _⟩ | ⟨_, hc⟩
    · exact error_ne_warning (hname'.symm.trans hname)
    · omega

/-- C5 on the sample report (both maxima 1): the Error element, second element written,
is the first Error element and carries the notice. -/
theorem GenerateXMLLogScraped_notice_witness :
    (GenerateXMLLogScraped sampleSystemTools [] sampleReportHandler).1 =
      [WriteBuildEvent (sampleEvent false 1 "a.c:1: warning: w") 1 0] ++
        WriteBuildEvent (sampleEvent true 2 "a.c:2: error: e") 0 0 :: [] ∧
    (WriteBuildEvent (sampleEvent true 2 "a.c:2: error: e") 0 0).Notice :=
  ⟨by decide,
    (GenerateXMLLogScraped_notice sampleSystemTools [] sampleReportHandler
      [WriteBuildEvent (sampleEvent false 1 "a.c:1: warning: w") 1 0]
      (WriteBuildEvent (sampleEvent true 2 "a.c:2: error: e") 0 0) [] (by decide)).1.mpr
      (Or.inl ⟨by decide, by decide⟩)⟩

/-! ### C6: the order of the launcher fragments -/

/-- C6 as stated fails: when the modification time of a fragment cannot be determined,
`FragmentCompare` is not transitive.  `error-1.xml` sorts before `error-2.xml` and
`error-2.xml` before `error-3.xml` (by name, the time of `error-2.xml` being unknown), but
`error-1.xml` does not sort before `error-3.xml`, which is older. -/
theorem FragmentCompare_not_transitive :
    FragmentCompare (cmFileTimeCache.ofTimes sampleTimes)
      "/b/error-1.xml".toList "/b/error-2.xml".toList = true ∧
    FragmentCompare (cmFileTimeCache.ofTimes sampleTimes)
      "/b/error-2.xml".toList "/b/error-3.xml".toList = true ∧
    FragmentCompare (cmFileTimeCache.ofTimes sampleTimes)
      "/b/error-1.xml".toList "/b/error-3.xml".toList = false := by
  decide

/-- `FragmentCompare` on two paths whose modification times are known. -/
theorem FragmentCompare_ofTimes (mtime : Str → Option Nat) (l r : Str) (a b : Nat)
    (hl : mtime l = some a) (hr : mtime r = some b) :
    FragmentCompare (cmFileTimeCache.ofTimes mtime) l r = true ↔ a < b ∨ (a = b ∧ l < r) := by
  unfold FragmentCompare cmFileTimeCache.ofTimes
  simp only [hl, hr]
  rcases Nat.lt_trichotomy a b with hab | hab | hab
  · simp [hab]
  · subst hab
    simp
  · have h1 : ¬ a < b := by omega
    have h2 : ¬ a = b := by omega
    simp [h1, h2]

/-- `FragmentCompare` when one of the two modification times is unknown. -/
theorem FragmentCompare_unknown (mtime : Str → Option Nat) (l r : Str)
    (hn : mtime l = none ∨ mtime r = none) :
    FragmentCompare (cmFileTimeCache.ofTimes mtime) l r = true ↔ l < r := by
  unfold FragmentCompare cmFileTimeCache.ofTimes
  rcases hn with hn | hn
  · simp [hn]
  · cases hl : mtime l <;> simp [hn]

/-- A path never sorts before itself, two paths never sort before each other, and of two
distinct paths one sorts before the other, whatever is known of the modification times. -/
theorem FragmentCompare_asymm_total (mtime : Str → Option Nat) :
    (∀ l, FragmentCompare (cmFileTimeCache.ofTimes mtime) l l = false) ∧
    (∀ l r, FragmentCompare (cmFileTimeCache.ofTimes mtime) l r = true →
      FragmentCompare (cmFileTimeCache.ofTimes mtime) r l = false) ∧
    (∀ l r, l ≠ r → FragmentCompare (cmFileTimeCache.ofTimes mtime) l r = true ∨
      FragmentCompare (cmFileTimeCache.ofTimes mtime) r l = true) := by
  have key : ∀ l r, (FragmentCompare (cmFileTimeCache.ofTimes mtime) l r = true ↔ l < r) ∨
      ∃ a b, mtime l = some a ∧ mtime r = some b := by
    intro l r
    cases hl : mtime l with
    | none => exact Or.inl (FragmentCompare_unknown mtime l r (Or.inl hl))
    | some a =>
      cases hr : mtime r with
      | none => exact Or.inl (FragmentCompare_unknown mtime l r (Or.inr hr))
      | some b => exact Or.inr ⟨a, b, rfl, rfl⟩
  refine ⟨?_, ?_, ?_⟩
  · intro l
    rw [Bool.eq_false_iff]
    intro hc
    rcases key l l with hk | ⟨a, b, ha, hb⟩
    · exact lt_irrefl l (hk.mp hc)
    · have hab : a = b := by rw [ha] at hb; exact Option.some.inj hb
      rcases (FragmentCompare_ofTimes mtime l l a b ha hb).mp hc with h1 | ⟨_, h2⟩
      · omega
      · exact lt_irrefl l h2
  · intro l r hlr
    rw [Bool.eq_false_iff]
    intro hrl
    rcases key l r with hk | ⟨a, b, ha, hb⟩
    · rcases key r l with hk' | ⟨a, b, ha, hb⟩
      · exact lt_asymm (hk.mp hlr) (hk'.mp hrl)
      · rcases (FragmentCompare_ofTimes mtime l r b a hb ha).mp hlr with h1 | ⟨h1, h2⟩
        · rcases (FragmentCompare_ofTimes mtime r l a b ha hb).mp hrl with h3 | ⟨h3, h4⟩
          · omega
          · omega
        · rcases (FragmentCompare_ofTimes mtime r l a b ha hb).mp hrl with h3 | ⟨h3, h4⟩
          · omega
          · exact lt_asymm h2 h4
    · rcases (FragmentCompare_ofTimes mtime l r a b ha hb).mp hlr with h1 | ⟨h1, h2⟩
      · rcases (FragmentCompare_ofTimes mtime r l b a hb ha).mp hrl with h3 | ⟨h3, h4⟩
        · omega
        · omega
      · rcases (FragmentCompare_ofTimes mtime r l b a hb ha).mp hrl with h3 | ⟨h3, h4⟩
        · omega
        · exact lt_asymm h2 h4
  · intro l r hne
    rcases key l r with hk | ⟨a, b, ha, hb⟩
    · rcases key r l with hk' | ⟨a, b, ha, hb⟩
      · rcases lt_trichotomy l r with h1 | h1 | h1
        · exact Or.inl (hk.mpr h1)
        · exact absurd h1 hne
        · exact Or.inr (hk'.mpr h1)
      · rw [FragmentCompare_ofTimes mtime l r b a hb ha, FragmentCompare_ofTimes mtime r l a b ha hb]
        rcases lt_trichotomy l r with h1 | h1 | h1
        · rcases Nat.lt_trichotomy a b with h2 | h2 | h2
          · exact Or.inr (Or.inl h2)
          · exact Or.inl (Or.inr ⟨h2.symm, h1⟩)
          · exact Or.inl (Or.inl h2)
        · exact absurd h1 hne
        · rcases Nat.lt_trichotomy a b with h2 | h2 | h2
          · exact Or.inr (Or.inl h2)
          · exact Or.inr (Or.inr ⟨h2, h1⟩)
          · exact Or.inl (Or.inl h2)
    · rw [FragmentCompare_ofTimes mtime l r a b ha hb, FragmentCompare_ofTimes mtime r l b a hb ha]
      rcases lt_trichotomy l r with h1 | h1 | h1
      · rcases Nat.lt_trichotomy a b with h2 | h2 | h2
        · exact Or.inl (Or.inl h2)
        · exact Or.inl (Or.inr ⟨h2, h1⟩)
        · exact Or.inr (Or.inl h2)
      · exact absurd h1 hne
      · rcases Nat.lt_trichotomy a b with h2 | h2 | h2
        · exact Or.inl (Or.inl h2)
        · exact Or.inr (Or.inr ⟨h2.symm, h1⟩)
        · exact Or.inr (Or.inl h2)

/-- Among paths whose modification times are known `FragmentCompare` is transitive. -/
theorem FragmentCompare_trans (mtime : Str → Option Nat) (l r t : Str) (a b c : Nat)
    (hl : mtime l = some a) (hr : mtime r = some b) (ht : mtime t = some c)
    (hlr : FragmentCompare (cmFileTimeCache.ofTimes mtime) l r = true)
    (hrt : FragmentCompare (cmFileTimeCache.ofTimes mtime) r t = true) :
    FragmentCompare (cmFileTimeCache.ofTimes mtime) l t = true := by
  rw [FragmentCompare_ofTimes mtime _ _ _ _ hl hr] at hlr
  rw [FragmentCompare_ofTimes mtime _ _ _ _ hr ht] at hrt
  rw [FragmentCompare_ofTimes mtime _ _ _ _ hl ht]
  rcases hlr with h1 | ⟨h1, h2⟩ <;> rcases hrt with h3 | ⟨h3, h4⟩
  · exact Or.inl (by omega)
  · exact Or.inl (by omega)
  · exact Or.inl (by omega)
  · exact Or.inr ⟨by omega, lt_trans h2 h4⟩

/-- C6, amended. `FragmentCompare` is irreflexive, asymmetric and compares any two
distinct paths, whatever is known of the modification times; among fragments whose
modification times can be determined it is also transitive, hence a strict total order:
the fragment with the earlier modification time sorts first, and fragments with equal
modification times sort by ascending file name. -/
theorem FragmentCompare_strict_total_order (mtime : Str → Option Nat) :
    (∀ l, FragmentCompare (cmFileTimeCache.ofTimes mtime) l l = false) ∧
    (∀ l r, FragmentCompare (cmFileTimeCache.ofTimes mtime) l r = true →
      FragmentCompare (cmFileTimeCache.ofTimes mtime) r l = false) ∧
    (∀ l r, l ≠ r → FragmentCompare (cmFileTimeCache.ofTimes mtime) l r = true ∨
      FragmentCompare (cmFileTimeCache.ofTimes mtime) r l = true) ∧
    (∀ l r t, (mtime l).isSome = true → (mtime r).isSome = true → (mtime t).isSome = true →
      FragmentCompare (cmFileTimeCache.ofTimes mtime) l r = true →
      FragmentCompare (cmFileTimeCache.ofTimes mtime) r t = true →
      FragmentCompare (cmFileTimeCache.ofTimes mtime) l t = true) ∧
    (∀ l r a b, mtime l = some a → mtime r = some b →
      (FragmentCompare (cmFileTimeCache.ofTimes mtime) l r = true ↔
        a < b ∨ (a = b ∧ l < r))) := by
  obtain ⟨hirr, hasym, htot⟩ := FragmentCompare_asymm_total mtime
  refine ⟨hirr, hasym, htot, ?_, ?_⟩
  · intro l r t hl hr ht hlr hrt
    obtain ⟨a, ha⟩ := Option.isSome_iff_exists.mp hl
    obtain ⟨b, hb⟩ := Option.isSome_iff_exists.mp hr
    obtain ⟨c, hc⟩ := Option.isSome_iff_exists.mp ht
    exact FragmentCompare_trans mtime l r t a b c ha hb hc hlr hrt
  · intro l r a b ha hb
    exact FragmentCompare_ofTimes mtime l r a b ha hb

/-! ### C7: the quotas of GenerateXMLLaunched -/

theorem IsLaunchedErrorFile_not_warning (fname : Str) (he : IsLaunchedErrorFile fname = true) :
    IsLaunchedWarningFile fname = false := by
  unfold IsLaunchedErrorFile at he
  unfold IsLaunchedWarningFile
  cases fname with
  | nil => simp [List.isPrefixOf] at he
  | cons c cs =>
    have hc : c = 'e' := by
      simp only [Bool.and_eq_true] at he
      have h1 := he.1
      simp [String.toList, List.isPrefixOf] at h1
      exact h1.1.symm
    subst hc
    simp [String.toList, List.isPrefixOf]

/-- When any two distinct elements are comparable, `setInsert` adds the element to the
set: it drops it only if the set holds it already. -/
theorem mem_setInsert (comp : Str → Str → Bool)
    (hconn : ∀ a b, a ≠ b → comp a b = true ∨ comp b a = true) (x p : Str) (l : List Str) :
    p ∈ setInsert comp x l ↔ p = x ∨ p ∈ l := by
  induction l with
  | nil => simp [setInsert]
  | cons y ys ih =>
    unfold setInsert
    by_cases h1 : comp x y = true
    · simp [h1]
    · by_cases h2 : comp y x = true
      · simp only [h1, h2, if_true, if_false, List.mem_cons, ih, Bool.false_eq_true]
        tauto
      · have hxy : x = y := by
          by_contra hne
          rcases hconn x y hne with h | h
          · exact h1 h
          · exact h2 h
        subst hxy
        simp [h1]

theorem IsLaunchedWarningFile_not_error (fname : Str) (hw : IsLaunchedWarningFile fname = true) :
    IsLaunchedErrorFile fname = false := by
  cases he : IsLaunchedErrorFile fname with
  | false => rfl
  | true => rw [IsLaunchedErrorFile_not_warning fname he] at hw; exact absurd hw (by decide)

/-- The fragments that the scan of the launch directory leaves in the set: those that
were in it, the first `numErrorsAllowed` error files and the first `numWarningsAllowed`
warning files of the listing. -/
theorem mem_IdentifyFragments (FTC : cmFileTimeCache)
    (hconn : ∀ a b, a ≠ b → FragmentCompare FTC a b = true ∨ FragmentCompare FTC b a = true)
    (files : List Str) (nE nW : Int) (fragments : List Str) (h : cmCTestBuildHandler)
    (hE : 0 ≤ nE) (hW : 0 ≤ nW) (p : Str) :
    p ∈ (IdentifyFragments FTC files nE nW fragments h).1 ↔
      p ∈ fragments ∨
      ∃ fname, p = h.CTestLaunchDir ++ '/' :: fname ∧
        (fname ∈ (files.filter IsLaunchedErrorFile).take nE.toNat ∨
          fname ∈ (files.filter IsLaunchedWarningFile).take nW.toNat) := by
  induction files generalizing nE nW fragments h with
  | nil => simp [IdentifyFragments]
  | cons f rest ih =>
    unfold IdentifyFragments
    by_cases h1 : IsLaunchedErrorFile f = true ∧ nE ≠ 0
    · rw [if_pos h1]
      have hw := IsLaunchedErrorFile_not_warning f h1.1
      have hsucc : nE.toNat = (nE - 1).toNat + 1 := by omega
      rw [ih (nE - 1) nW _ _ (by omega) hW, mem_setInsert _ hconn, hsucc]
      simp only [List.filter_cons, h1.1, if_true, hw, Bool.false_eq_true, if_false,
        List.take_succ_cons, List.mem_cons]
      constructor
      · rintro ((hp | hp) | ⟨g, hg, hg'⟩)
        · exact Or.inr ⟨f, hp, Or.inl (Or.inl rfl)⟩
        · exact Or.inl hp
        · rcases hg' with hg' | hg'
          · exact Or.inr ⟨g, hg, Or.inl (Or.inr hg')⟩
          · exact Or.inr ⟨g, hg, Or.inr hg'⟩
      · rintro (hp | ⟨g, hg, (hg' | hg') | hg'⟩)
        · exact Or.inl (Or.inr hp)
        · subst hg'
          exact Or.inl (Or.inl hg)
        · exact Or.inr ⟨g, hg, Or.inl hg'⟩
        · exact Or.inr ⟨g, hg, Or.inr hg'⟩
    · rw [if_neg h1]
      by_cases h2 : IsLaunchedWarningFile f = true ∧ nW ≠ 0
      · rw [if_pos h2]
        have he := IsLaunchedWarningFile_not_error f h2.1
        have hsucc : nW.toNat = (nW - 1).toNat + 1 := by omega
        rw [ih nE (nW - 1) _ _ hE (by omega), mem_setInsert _ hconn, hsucc]
        simp only [List.filter_cons, h2.1, if_true, he, Bool.false_eq_true, if_false,
          List.take_succ_cons, List.mem_cons]
        constructor
        · rintro ((hp | hp) | ⟨g, hg, hg'⟩)
          · exact Or.inr ⟨f, hp, Or.inr (Or.inl rfl)⟩
          · exact Or.inl hp
          · rcases hg' with hg' | hg'
            · exact Or.inr ⟨g, hg, Or.inl hg'⟩
            · exact Or.inr ⟨g, hg, Or.inr (Or.inr hg')⟩
        · rintro (hp | ⟨g, hg, hg' | (hg' | hg')⟩)
          · exact Or.inl (Or.inr hp)
          · exact Or.inr ⟨g, hg, Or.inl hg'⟩
          · subst hg'
            exact Or.inl (Or.inl hg)
          · exact Or.inr ⟨g, hg, Or.inr hg'⟩
      · rw [if_neg h2, ih nE nW _ _ hE hW]
        have hEtake : (List.filter IsLaunchedErrorFile (f :: rest)).take nE.toNat =
            (List.filter IsLaunchedErrorFile rest).take nE.toNat := by
          by_cases he : IsLaunchedErrorFile f = true
          · have h0 : nE = 0 := by
              by_contra hne
              exact h1 ⟨he, hne⟩
            simp [h0]
          · simp [List.filter_cons, he]
        have hWtake : (List.filter IsLaunchedWarningFile (f :: rest)).take nW.toNat =
            (List.filter IsLaunchedWarningFile rest).take nW.toNat := by
          by_cases hw : IsLaunchedWarningFile f = true
          · have h0 : nW = 0 := by
              by_contra hne
              exact h2 ⟨hw, hne⟩
            simp [h0]
          · simp [List.filter_cons, hw]
        rw [hEtake, hWtake]

/-- `setInsert` adds nothing but the element inserted. -/
theorem mem_setInsert_imp (comp : Str → Str → Bool) (x p : Str) (l : List Str)
    (hp : p ∈ setInsert comp x l) : p = x ∨ p ∈ l := by
  induction l with
  | nil => simpa [setInsert] using hp
  | cons y ys ih =>
    unfold setInsert at hp
    by_cases h1 : comp x y = true
    · rw [if_pos h1] at hp
      simpa using hp
    · rw [if_neg h1] at hp
      by_cases h2 : comp y x = true
      · rw [if_pos h2] at hp
        rcases List.mem_cons.mp hp with hp | hp
        · exact Or.inr (by simp [hp])
        · rcases ih hp with h | h
          · exact Or.inl h
          · exact Or.inr (by simp [h])
      · rw [if_neg h2] at hp
        exact Or.inr hp

/-- Inserting into a set whose elements are in ascending order keeps them in ascending
order, when the comparison is transitive on the elements concerned. -/
theorem pairwise_setInsert (comp : Str → Str → Bool) (S : Str → Prop)
    (htrans : ∀ a b c, S a → S b → S c → comp a b = true → comp b c = true → comp a c = true)
    (x : Str) (l : List Str) (hx : S x) (hl : ∀ y ∈ l, S y)
    (hp : l.Pairwise (fun a b => comp a b = true)) :
    (setInsert comp x l).Pairwise (fun a b => comp a b = true) := by
  induction l with
  | nil => simp [setInsert]
  | cons y ys ih =>
    have hy : S y := hl y (by simp)
    have hys : ∀ z ∈ ys, S z := fun z hz => hl z (by simp [hz])
    rw [List.pairwise_cons] at hp
    unfold setInsert
    by_cases h1 : comp x y = true
    · rw [if_pos h1]
      refine List.Pairwise.cons ?_ (List.Pairwise.cons hp.1 hp.2)
      intro z hz
      rcases List.mem_cons.mp hz with hz | hz
      · rw [hz]; exact h1
      · exact htrans x y z hx hy (hys z hz) h1 (hp.1 z hz)
    · rw [if_neg h1]
      by_cases h2 : comp y x = true
      · rw [if_pos h2]
        refine List.Pairwise.cons ?_ (ih hys hp.2)
        intro z hz
        have hmem : z = x ∨ z ∈ ys := mem_setInsert_imp comp x z ys hz
        rcases hmem with hz' | hz'
        · rw [hz']; exact h2
        · exact hp.1 z hz'
      · rw [if_neg h2]
        exact List.Pairwise.cons hp.1 hp.2

/-- The scan of the launch directory keeps the set in ascending order, when the
comparison is transitive on the paths concerned. -/
theorem pairwise_IdentifyFragments (FTC : cmFileTimeCache) (S : Str → Prop)
    (htrans : ∀ a b c, S a → S b → S c → FragmentCompare FTC a b = true →
      FragmentCompare FTC b c = true → FragmentCompare FTC a c = true)
    (files : List Str) (nE nW : Int) (fragments : List Str) (h : cmCTestBuildHandler)
    (hfiles : ∀ fname ∈ files, S (h.CTestLaunchDir ++ '/' :: fname))
    (hfr : ∀ p ∈ fragments, S p)
    (hp : fragments.Pairwise (fun a b => FragmentCompare FTC a b = true)) :
    (IdentifyFragments FTC files nE nW fragments h).1.Pairwise
      (fun a b => FragmentCompare FTC a b = true) := by
  induction files generalizing nE nW fragments h with
  | nil => simpa [IdentifyFragments] using hp
  | cons f rest ih =>
    have hf : S (h.CTestLaunchDir ++ '/' :: f) := hfiles f (by simp)
    have hrest : ∀ fname ∈ rest, S (h.CTestLaunchDir ++ '/' :: fname) :=
      fun fname hm => hfiles fname (by simp [hm])
    have hins : ∀ p ∈ setInsert (FragmentCompare FTC) (h.CTestLaunchDir ++ '/' :: f) fragments,
        S p := by
      intro p hpm
      rcases mem_setInsert_imp _ _ _ _ hpm with hx | hx
      · rw [hx]; exact hf
      · exact hfr p hx
    have hpw := pairwise_setInsert (FragmentCompare FTC) S htrans
      (h.CTestLaunchDir ++ '/' :: f) fragments hf hfr hp
    unfold IdentifyFragments
    by_cases h1 : IsLaunchedErrorFile f = true ∧ nE ≠ 0
    · rw [if_pos h1]
      exact ih _ _ _ _ hrest hins hpw
    · rw [if_neg h1]
      by_cases h2 : IsLaunchedWarningFile f = true ∧ nW ≠ 0
      · rw [if_pos h2]
        exact ih _ _ _ _ hrest hins hpw
      · rw [if_neg h2]
        exact ih _ _ _ _ hrest hfr hp

/-- C7 as stated fails: the quotas are applied in the order of the directory listing,
before the fragments are sorted.  With `MaxErrors = 1` and a listing that gives
`error-1.xml` (modified at time 5) before `error-3.xml` (modified at time 1),
`GenerateXMLLaunched` emits `error-1.xml`, while the first error fragment in ascending
order of (modification time, file name) is `error-3.xml`. -/
theorem GenerateXMLLaunched_sorted_quota_counterexample :
    (GenerateXMLLaunched (cmFileTimeCache.ofTimes sampleTimes)
        ["error-1.xml".toList, "error-3.xml".toList] sampleLaunchHandler).1 =
      ["/b/error-1.xml".toList] ∧
    sortedThenQuota (cmFileTimeCache.ofTimes sampleTimes) sampleLaunchHandler.CTestLaunchDir
        ["error-1.xml".toList, "error-3.xml".toList] IsLaunchedErrorFile
        sampleLaunchHandler.MaxErrors =
      ["/b/error-3.xml".toList] := by
  decide

/-- C7, amended. In launcher mode, for non-negative maxima, `GenerateXMLLaunched` applies
the quotas in the order of the directory listing: the fragments it emits are the first
`min MaxErrors (number of error files)` error files and the first
`min MaxWarnings (number of warning files)` warning files of the listing; and when the
modification times of the listed files can be determined, the emitted fragments appear in
ascending order of (modification time, file name). -/
theorem GenerateXMLLaunched_listing_quota (mtime : Str → Option Nat) (launchDir : List Str)
    (h : cmCTestBuildHandler) (hdir : h.CTestLaunchDir ≠ [])
    (hE : 0 ≤ h.MaxErrors) (hW : 0 ≤ h.MaxWarnings) :
    (∀ p, p ∈ (GenerateXMLLaunched (cmFileTimeCache.ofTimes mtime) launchDir h).1 ↔
      ∃ fname, p = h.CTestLaunchDir ++ '/' :: fname ∧
        (fname ∈ (launchDir.filter IsLaunchedErrorFile).take
            (min h.MaxErrors.toNat (launchDir.filter IsLaunchedErrorFile).length) ∨
          fname ∈ (launchDir.filter IsLaunchedWarningFile).take
            (min h.MaxWarnings.toNat (launchDir.filter IsLaunchedWarningFile).length))) ∧
    ((∀ fname ∈ launchDir, (mtime (h.CTestLaunchDir ++ '/' :: fname)).isSome = true) →
      (GenerateXMLLaunched (cmFileTimeCache.ofTimes mtime) launchDir h).1.Pairwise
        (fun a b => FragmentCompare (cmFileTimeCache.ofTimes mtime) a b = true)) := by
  unfold GenerateXMLLaunched
  rw [if_neg hdir]
  constructor
  · intro p
    rw [mem_IdentifyFragments _ (FragmentCompare_asymm_total mtime).2.2 launchDir h.MaxErrors
      h.MaxWarnings [] h hE hW p, take_min_length, take_min_length]
    simp
  · intro hknown
    refine pairwise_IdentifyFragments (cmFileTimeCache.ofTimes mtime)
      (fun p => (mtime p).isSome = true) ?_ launchDir h.MaxErrors h.MaxWarnings [] h hknown
      (by simp) List.Pairwise.nil
    intro a b c ha hb hc hab hbc
    obtain ⟨ta, hta⟩ := Option.isSome_iff_exists.mp ha
    obtain ⟨tb, htb⟩ := Option.isSome_iff_exists.mp hb
    obtain ⟨tc, htc⟩ := Option.isSome_iff_exists.mp hc
    exact FragmentCompare_trans mtime a b c ta tb tc hta htb htc hab hbc

/-- C7 (amended) on the listing of the counterexample: the one fragment emitted is the
first error file of the listing. -/
theorem GenerateXMLLaunched_listing_quota_witness :
    sampleLaunchHandler.CTestLaunchDir ≠ [] ∧ 0 ≤ sampleLaunchHandler.MaxErrors ∧
    0 ≤ sampleLaunchHandler.MaxWarnings ∧
    "/b/error-1.xml".toList ∈ (GenerateXMLLaunched (cmFileTimeCache.ofTimes sampleTimes)
      ["error-1.xml".toList, "error-3.xml".toList] sampleLaunchHandler).1 :=
  ⟨by decide, by decide, by decide,
    ((GenerateXMLLaunched_listing_quota sampleTimes
      ["error-1.xml".toList, "error-3.xml".toList] sampleLaunchHandler
      (by decide) (by decide) (by decide)).1 "/b/error-1.xml".toList).mpr
      ⟨"error-1.xml".toList, by decide, Or.inl (by decide)⟩⟩

/-! ### The line loop of ProcessBuffer -/

/-- The event that `ProcessBuffer` records for a line that is an error or a warning. -/
theorem ProcessBufferLine_event (h : cmCTestBuildHandler) (cur : List Char)
    (hev : ProcessSingleLine h (c_str cur) ≠ LineType.b_REGULAR_LINE) :
    ProcessBufferLine h cur =
      { h with
        TotalErrors :=
          if ProcessSingleLine h (c_str cur) = LineType.b_ERROR_LINE then h.TotalErrors + 1
          else h.TotalErrors
        TotalWarnings :=
          if ProcessSingleLine h (c_str cur) = LineType.b_ERROR_LINE then h.TotalWarnings
          else h.TotalWarnings + 1
        PreContext := []
        ErrorsAndWarnings := h.ErrorsAndWarnings ++
          [{ Error := decide (ProcessSingleLine h (c_str cur) = LineType.b_ERROR_LINE)
             LogLine := static_cast_int ((h.OutputLineCounter + 1) % 2 ^ 64)
             Text := c_str cur
             SourceFile := []
             SourceFileTail := []
             LineNumber := 0
             PreContext := h.PreContext.foldl (fun acc pc => acc ++ (pc ++ ['\n'])) []
             PostContext := [] }]
        LastErrorOrWarning := h.ErrorsAndWarnings.length
        PostContextCount := 0
        OutputLineCounter := (h.OutputLineCounter + 1) % 2 ^ 64 } := by
  have h3 : ProcessSingleLine h (c_str cur) = LineType.b_WARNING_LINE ∨
      ProcessSingleLine h (c_str cur) = LineType.b_ERROR_LINE := by
    cases hl : ProcessSingleLine h (c_str cur) with
    | b_REGULAR_LINE => exact absurd hl hev
    | b_WARNING_LINE => simp
    | b_ERROR_LINE => simp
  unfold ProcessBufferLine
  rcases h3 with hl | hl
  · simp [hl]
  · simp [hl]

/-- A regular line that is taken into the post-context of the last event. -/
theorem ProcessBufferLine_post (h : cmCTestBuildHandler) (cur : List Char)
    (hreg : ProcessSingleLine h (c_str cur) = LineType.b_REGULAR_LINE)
    (hc : h.ErrorsAndWarnings ≠ [] ∧ h.LastErrorOrWarning ≠ h.ErrorsAndWarnings.length ∧
      h.PostContextCount < h.MaxPostContext) :
    ProcessBufferLine h cur =
      { h with
        PostContextCount := h.PostContextCount + 1
        ErrorsAndWarnings :=
          modifyAt
            (fun ew =>
              { ew with
                PostContext :=
                  ew.PostContext ++ c_str cur ++
                    (if h.PostContextCount + 1 < h.MaxPostContext then ['\n'] else []) })
            h.LastErrorOrWarning h.ErrorsAndWarnings
        OutputLineCounter := (h.OutputLineCounter + 1) % 2 ^ 64 } := by
  unfold ProcessBufferLine
  simp only [hreg, bne_self_eq_false, Bool.false_eq_true, if_false]
  rw [if_pos hc]

/-- A regular line that is stored as pre-context for the next event. -/
theorem ProcessBufferLine_pre (h : cmCTestBuildHandler) (cur : List Char)
    (hreg : ProcessSingleLine h (c_str cur) = LineType.b_REGULAR_LINE)
    (hc : ¬ (h.ErrorsAndWarnings ≠ [] ∧ h.LastErrorOrWarning ≠ h.ErrorsAndWarnings.length ∧
      h.PostContextCount < h.MaxPostContext)) :
    ProcessBufferLine h cur =
      { h with
        PreContext :=
          if (h.PreContext ++ [c_str cur]).length > h.MaxPreContext then
            (h.PreContext ++ [c_str cur]).drop
              ((h.PreContext ++ [c_str cur]).length - h.MaxPreContext)
          else h.PreContext ++ [c_str cur]
        OutputLineCounter := (h.OutputLineCounter + 1) % 2 ^ 64 } := by
  unfold ProcessBufferLine
  simp only [hreg, bne_self_eq_false, Bool.false_eq_true, if_false]
  rw [if_neg hc]

theorem span_newline_line (l rest : List Char) (hl : '\n' ∉ l) :
    (l ++ '\n' :: rest).span (fun c => c != '\n') = (l, '\n' :: rest) := by
  induction l with
  | nil => simp [List.span, List.span.loop]
  | cons c cs ih =>
    have hc : c ≠ '\n' := fun hc => hl (by simp [hc])
    have hcs : '\n' ∉ cs := fun hm => hl (by simp [hm])
    rw [List.span_eq_take_drop] at ih ⊢
    have ih' := ih hcs
    simp only [Prod.mk.injEq] at ih'
    simp [List.takeWhile_cons, List.dropWhile_cons, hc, ih'.1, ih'.2]

theorem span_newline_none (t : List Char) (ht : '\n' ∉ t) :
    t.span (fun c => c != '\n') = (t, []) := by
  induction t with
  | nil => simp [List.span, List.span.loop]
  | cons c cs ih =>
    have hc : c ≠ '\n' := fun hc => ht (by simp [hc])
    have hcs : '\n' ∉ cs := fun hm => ht (by simp [hm])
    rw [List.span_eq_take_drop] at ih ⊢
    have ih' := ih hcs
    simp only [Prod.mk.injEq] at ih'
    simp [List.takeWhile_cons, List.dropWhile_cons, hc, ih'.1, ih'.2]

/-- The line loop on a queue that starts with a complete line. -/
theorem ProcessBufferLoop_line (h : cmCTestBuildHandler) (l rest : List Char) (hl : '\n' ∉ l) :
    ProcessBufferLoop h (l ++ '\n' :: rest) =
      ProcessBufferLoop (ProcessBufferLine (CheckQuota h) l) rest := by
  rw [ProcessBufferLoop]
  split
  · rename_i x heq
    rw [span_newline_line l rest hl] at heq
    simp at heq
  · rename_i cur c rest' heq
    rw [span_newline_line l rest hl] at heq
    simp only [Prod.mk.injEq, List.cons.injEq] at heq
    obtain ⟨h1, _, h3⟩ := heq
    rw [h1, h3]

/-- The line loop on a queue without a newline. -/
theorem ProcessBufferLoop_tail (h : cmCTestBuildHandler) (t : List Char) (ht : '\n' ∉ t) :
    ProcessBufferLoop h t = (CheckQuota h, t) := by
  rw [ProcessBufferLoop]
  split
  · rfl
  · rename_i cur c rest' heq
    rw [span_newline_none t ht] at heq
    simp at heq

theorem unlines_cons (l : Str) (ls : List Str) :
    unlines (l :: ls) = l ++ '\n' :: unlines ls := by
  simp [unlines]

theorem unlines_append (a b : List Str) : unlines (a ++ b) = unlines a ++ unlines b := by
  simp [unlines]

/-- The line loop processes the complete lines of the queue in order and leaves what
follows the last newline. -/
theorem ProcessBufferLoop_unlines (h : cmCTestBuildHandler) (ls : List Str) (t : List Char)
    (hls : ∀ l ∈ ls, '\n' ∉ l) (ht : '\n' ∉ t) :
    ProcessBufferLoop h (unlines ls ++ t) = (CheckQuota (ProcessLines h ls), t) := by
  induction ls generalizing h with
  | nil => simpa [unlines, ProcessLines] using ProcessBufferLoop_tail h t ht
  | cons l ls ih =>
    rw [unlines_cons, List.append_assoc, List.cons_append,
      ProcessBufferLoop_line h l _ (hls l (by simp)),
      ih _ (fun l' hl' => hls l' (by simp [hl']))]
    rfl

/-- Every queue is a sequence of complete lines followed by a rest without newline. -/
theorem exists_unlines (q : List Char) :
    ∃ ls t, q = unlines ls ++ t ∧ (∀ l ∈ ls, '\n' ∉ l) ∧ '\n' ∉ t := by
  induction q with
  | nil => exact ⟨[], [], by simp [unlines], by simp, by simp⟩
  | cons c cs ih =>
    obtain ⟨ls, t, hq, hls, ht⟩ := ih
    by_cases hc : c = '\n'
    · refine ⟨[] :: ls, t, ?_, ?_, ht⟩
      · rw [unlines_cons, hq, hc]; rfl
      · intro l hl
        rcases List.mem_cons.mp hl with hl | hl
        · rw [hl]; simp
        · exact hls l hl
    · cases ls with
      | nil =>
        refine ⟨[], c :: t, ?_, by simp, ?_⟩
        · rw [hq]; simp [unlines]
        · intro hm
          rcases List.mem_cons.mp hm with hm | hm
          · exact hc hm.symm
          · exact ht hm
      | cons l ls' =>
        refine ⟨(c :: l) :: ls', t, ?_, ?_, ht⟩
        · rw [hq, unlines_cons, unlines_cons]; rfl
        · intro l' hl'
          rcases List.mem_cons.mp hl' with hl' | hl'
          · rw [hl']
            intro hm
            rcases List.mem_cons.mp hm with hm | hm
            · exact hc hm.symm
            · exact hls l (by simp) hm
          · exact hls l' (by simp [hl'])

theorem ProcessSingleLine_withQueues (h : cmCTestBuildHandler) (out err : List Char) (size : Nat)
    (data : Str) : ProcessSingleLine (withQueues h out err size) data = ProcessSingleLine h data :=
  rfl

theorem CheckQuota_withQueues (h : cmCTestBuildHandler) (out err : List Char) (size : Nat) :
    CheckQuota (withQueues h out err size) = withQueues (CheckQuota h) out err size := by
  unfold CheckQuota withQueues
  by_cases h1 : h.TotalWarnings ≥ h.MaxWarnings <;> by_cases h2 : h.TotalErrors ≥ h.MaxErrors <;>
    simp [h1, h2]

theorem ProcessBufferLine_withQueues (h : cmCTestBuildHandler) (out err : List Char) (size : Nat)
    (cur : List Char) :
    ProcessBufferLine (withQueues h out err size) cur =
      withQueues (ProcessBufferLine h cur) out err size := by
  by_cases hev : ProcessSingleLine h (c_str cur) ≠ LineType.b_REGULAR_LINE
  · rw [ProcessBufferLine_event (withQueues h out err size) cur hev,
      ProcessBufferLine_event h cur hev]
    rfl
  · have hreg : ProcessSingleLine h (c_str cur) = LineType.b_REGULAR_LINE := by
      simpa using hev
    by_cases hc : h.ErrorsAndWarnings ≠ [] ∧ h.LastErrorOrWarning ≠ h.ErrorsAndWarnings.length ∧
        h.PostContextCount < h.MaxPostContext
    · rw [ProcessBufferLine_post (withQueues h out err size) cur hreg hc,
        ProcessBufferLine_post h cur hreg hc]
      rfl
    · rw [ProcessBufferLine_pre (withQueues h out err size) cur hreg hc,
        ProcessBufferLine_pre h cur hreg hc]
      rfl

theorem ProcessLines_withQueues (h : cmCTestBuildHandler) (out err : List Char) (size : Nat)
    (ls : List (List Char)) :
    ProcessLines (withQueues h out err size) ls = withQueues (ProcessLines h ls) out err size := by
  induction ls generalizing h with
  | nil => rfl
  | cons l ls ih =>
    simp only [ProcessLines, List.foldl_cons] at ih ⊢
    rw [CheckQuota_withQueues, ProcessBufferLine_withQueues, ih]

/-- `ProcessBuffer` in terms of the complete lines of the queue after the chunk was
appended: the lines are processed in order, the quotas are checked once more, and the
rest of the queue stays for the next call. -/
theorem ProcessBuffer_eq (h : cmCTestBuildHandler) (data : List Char) (q : QueueSel)
    (ls : List Str) (t : List Char) (hq : h.queue q ++ data = unlines ls ++ t)
    (hls : ∀ l ∈ ls, '\n' ∉ l) (ht : '\n' ∉ t) :
    ProcessBuffer h data q =
      (withQueues (CheckQuota (ProcessLines h ls)) h.BuildProcessingQueue
        h.BuildProcessingErrorQueue ((h.BuildOutputLogSize + string_size data) % 2 ^ 64)).setQueue q t := by
  unfold ProcessBuffer
  simp only [hq]
  rw [ProcessBufferLoop_unlines _ ls t hls ht]
  have hw : { h with BuildOutputLogSize := (h.BuildOutputLogSize + string_size data) % 2 ^ 64 } =
      withQueues h h.BuildProcessingQueue h.BuildProcessingErrorQueue
        ((h.BuildOutputLogSize + string_size data) % 2 ^ 64) := rfl
  rw [hw, ProcessLines_withQueues, CheckQuota_withQueues]

/-! ### Settings are not touched by the line loop -/

theorem SameSettings.refl_settings (h : cmCTestBuildHandler) : SameSettings h h := by
  simp [SameSettings]

theorem SameSettings.trans_settings {a b c : cmCTestBuildHandler} (h1 : SameSettings a b)
    (h2 : SameSettings b c) : SameSettings a c := by
  unfold SameSettings at *
  obtain ⟨a1, a2, a3, a4, a5, a6, a7, a8, a9, a10⟩ := h1
  obtain ⟨b1, b2, b3, b4, b5, b6, b7, b8, b9, b10⟩ := h2
  exact ⟨b1.trans a1, b2.trans a2, b3.trans a3, b4.trans a4, b5.trans a5, b6.trans a6,
    b7.trans a7, b8.trans a8, b9.trans a9, b10.trans a10⟩

theorem SameSettings_CheckQuota (h : cmCTestBuildHandler) : SameSettings h (CheckQuota h) := by
  unfold CheckQuota SameSettings
  by_cases h1 : h.TotalWarnings ≥ h.MaxWarnings <;> by_cases h2 : h.TotalErrors ≥ h.MaxErrors <;>
    simp [h1, h2]

theorem SameSettings_ProcessBufferLine (h : cmCTestBuildHandler) (cur : List Char) :
    SameSettings h (ProcessBufferLine h cur) := by
  by_cases hev : ProcessSingleLine h (c_str cur) ≠ LineType.b_REGULAR_LINE
  · rw [ProcessBufferLine_event h cur hev]
    simp [SameSettings]
  · have hreg : ProcessSingleLine h (c_str cur) = LineType.b_REGULAR_LINE := by
      simpa using hev
    by_cases hc : h.ErrorsAndWarnings ≠ [] ∧ h.LastErrorOrWarning ≠ h.ErrorsAndWarnings.length ∧
        h.PostContextCount < h.MaxPostContext
    · rw [ProcessBufferLine_post h cur hreg hc]
      simp [SameSettings]
    · rw [ProcessBufferLine_pre h cur hreg hc]
      simp [SameSettings]

theorem SameSettings_ProcessLines (h : cmCTestBuildHandler) (ls : List (List Char)) :
    SameSettings h (ProcessLines h ls) := by
  induction ls generalizing h with
  | nil => exact SameSettings.refl_settings h
  | cons l ls ih =>
    simp only [ProcessLines, List.foldl_cons] at ih ⊢
    exact ((SameSettings_CheckQuota h).trans_settings (SameSettings_ProcessBufferLine _ l)).trans_settings (ih _)

theorem SameSettings_withQueues (h : cmCTestBuildHandler) (out err : List Char) (size : Nat) :
    SameSettings h (withQueues h out err size) := by
  simp [SameSettings, withQueues]

theorem SameSettings_setQueue (h : cmCTestBuildHandler) (q : QueueSel) (t : List Char) :
    SameSettings h (h.setQueue q t) := by
  cases q <;> simp [SameSettings, cmCTestBuildHandler.setQueue]

theorem SameSettings_ProcessBuffer (h : cmCTestBuildHandler) (data : List Char) (q : QueueSel) :
    SameSettings h (ProcessBuffer h data q) := by
  obtain ⟨ls, t, hq, hls, ht⟩ := exists_unlines (h.queue q ++ data)
  rw [ProcessBuffer_eq h data q ls t hq hls ht]
  exact (((SameSettings_ProcessLines h ls).trans_settings (SameSettings_CheckQuota _)).trans_settings
    (SameSettings_withQueues _ _ _ _)).trans_settings (SameSettings_setQueue _ _ _)

theorem SameSettings_ReadChunks (h : cmCTestBuildHandler) (chunks : List (QueueSel × List Char)) :
    SameSettings h (ReadChunks h chunks) := by
  induction chunks generalizing h with
  | nil => exact SameSettings.refl_settings h
  | cons c cs ih =>
    simp only [ReadChunks, List.foldl_cons] at ih ⊢
    exact (SameSettings_ProcessBuffer h c.2 c.1).trans_settings (ih _)

theorem SameSettings_Initialize (h : cmCTestBuildHandler) :
    SameSettings h (InitializeBuildingStructures h) := by
  simp [SameSettings, InitializeBuildingStructures]

/-! ### C3: the sizes of the context windows -/

theorem eq_nil_or_snoc {α : Type} (l : List α) : l = [] ∨ ∃ init x, l = init ++ [x] := by
  rcases List.eq_nil_or_concat l with hnil | ⟨init, x, hl⟩
  · exact Or.inl hnil
  · exact Or.inr ⟨init, x, by rw [hl, List.concat_eq_append]⟩

theorem c_str_no_newline (cur : List Char) (hcur : '\n' ∉ cur) : '\n' ∉ c_str cur :=
  fun hm => hcur ((List.takeWhile_sublist _).subset hm)

theorem foldl_pre_eq (ls : List Str) (init : Str) :
    ls.foldl (fun acc pc => acc ++ (pc ++ ['\n'])) init = init ++ unlines ls := by
  induction ls generalizing init with
  | nil => simp [unlines]
  | cons l ls ih =>
    rw [List.foldl_cons, ih, unlines_cons]
    simp

theorem count_newline_unlines (ls : List Str) (hls : ∀ l ∈ ls, '\n' ∉ l) :
    (unlines ls).count '\n' = ls.length := by
  induction ls with
  | nil => simp [unlines]
  | cons l ls ih =>
    have h0 : l.count '\n' = 0 := List.count_eq_zero.mpr (hls l (by simp))
    rw [unlines_cons, List.count_append, List.count_cons_self, h0,
      ih (fun l' hl' => hls l' (by simp [hl']))]
    simp

theorem getLast?_unlines (ls : List Str) :
    (unlines ls).getLast? = none ∨ (unlines ls).getLast? = some '\n' := by
  rcases eq_nil_or_snoc ls with hnil | ⟨init, l, hl⟩
  · left; rw [hnil]; rfl
  · right
    rw [hl, unlines_append]
    have : unlines [l] = l ++ ['\n'] := by simp [unlines]
    rw [this, ← List.append_assoc, List.getLast?_concat]

theorem lineCount_unlines (ls : List Str) (hls : ∀ l ∈ ls, '\n' ∉ l) :
    lineCount (unlines ls) = ls.length := by
  unfold lineCount
  rw [count_newline_unlines ls hls, if_pos (getLast?_unlines ls)]
  rfl

theorem lineCount_le_count_succ (text : Str) : lineCount text ≤ text.count '\n' + 1 := by
  unfold lineCount
  split <;> omega

theorem lineCount_nil : lineCount [] = 0 := by
  simp [lineCount]

theorem modifyAt_last {α : Type} (f : α → α) (init : List α) (x : α) :
    modifyAt f init.length (init ++ [x]) = init ++ [f x] := by
  induction init with
  | nil => rfl
  | cons a as ih => simp [modifyAt, ih]

theorem ContextInv_CheckQuota (h : cmCTestBuildHandler) (hinv : ContextInv h) :
    ContextInv (CheckQuota h) := by
  unfold CheckQuota
  by_cases h1 : h.TotalWarnings ≥ h.MaxWarnings <;> by_cases h2 : h.TotalErrors ≥ h.MaxErrors <;>
    simpa [h1, h2, ContextInv] using hinv

/-- The body of the line loop keeps the context windows within the maxima. -/
theorem ContextInv_ProcessBufferLine (h : cmCTestBuildHandler) (cur : List Char)
    (hcur : '\n' ∉ cur) (hinv : ContextInv h) : ContextInv (ProcessBufferLine h cur) := by
  obtain ⟨hlen, hnl, hev, hlast, hpost⟩ := hinv
  have hline := c_str_no_newline cur hcur
  have hline0 : (c_str cur).count '\n' = 0 := List.count_eq_zero.mpr hline
  by_cases hevt : ProcessSingleLine h (c_str cur) ≠ LineType.b_REGULAR_LINE
  · rw [ProcessBufferLine_event h cur hevt]
    refine ⟨by simp, by simp, ?_, ?_, ?_⟩
    · intro ev hm
      simp only [List.mem_append, List.mem_singleton] at hm
      rcases hm with hm | hm
      · exact hev ev hm
      · subst hm
        simp only [foldl_pre_eq, List.nil_append, true_or, and_true]
        rw [lineCount_unlines _ hnl]
        exact hlen
    · intro _
      simp
    · intro ev hm _
      simp only [List.getLast?_concat, Option.some.injEq] at hm
      subst hm
      simp
  · have hreg : ProcessSingleLine h (c_str cur) = LineType.b_REGULAR_LINE := by
      simpa using hevt
    by_cases hc : h.ErrorsAndWarnings ≠ [] ∧ h.LastErrorOrWarning ≠ h.ErrorsAndWarnings.length ∧
        h.PostContextCount < h.MaxPostContext
    · rw [ProcessBufferLine_post h cur hreg hc]
      obtain ⟨hne, _, hlt⟩ := hc
      have hidx := hlast hne
      rcases eq_nil_or_snoc h.ErrorsAndWarnings with hnil | ⟨init, last, hEW⟩
      · exact absurd hnil hne
      · have hLEW : h.LastErrorOrWarning = init.length := by
          rw [hEW] at hidx
          simp at hidx
          exact hidx
        have hcount : last.PostContext.count '\n' = h.PostContextCount :=
          hpost last (by rw [hEW, List.getLast?_concat]) hlt
        have hmod : modifyAt
            (fun ew : cmCTestBuildErrorWarning =>
              { ew with
                PostContext :=
                  ew.PostContext ++ c_str cur ++
                    (if h.PostContextCount + 1 < h.MaxPostContext then ['\n'] else []) })
            h.LastErrorOrWarning h.ErrorsAndWarnings =
            init ++ [{ last with
                PostContext :=
                  last.PostContext ++ c_str cur ++
                    (if h.PostContextCount + 1 < h.MaxPostContext then ['\n'] else []) }] := by
          rw [hLEW, hEW, modifyAt_last]
        rw [hmod]
        have hnew : (last.PostContext ++ c_str cur ++
            (if h.PostContextCount + 1 < h.MaxPostContext then ['\n'] else [])).count '\n' =
            h.PostContextCount + (if h.PostContextCount + 1 < h.MaxPostContext then 1 else 0) := by
          rw [List.count_append, List.count_append, hcount, hline0]
          split <;> simp
        refine ⟨hlen, hnl, ?_, ?_, ?_⟩
        · intro ev hm
          simp only [List.mem_append, List.mem_singleton] at hm
          rcases hm with hm | hm
          · exact hev ev (by rw [hEW]; simp [hm])
          · subst hm
            refine ⟨(hev last (by rw [hEW]; simp)).1, Or.inr ?_⟩
            show (last.PostContext ++ c_str cur ++
              (if h.PostContextCount + 1 < h.MaxPostContext then ['\n'] else [])).count '\n' + 1 ≤
              h.MaxPostContext
            rw [hnew]
            split <;> omega
        · intro _
          show h.LastErrorOrWarning + 1 = (init ++ [_]).length
          rw [hLEW]
          simp
        · intro ev hm hlt'
          simp only [List.getLast?_concat, Option.some.injEq] at hm
          subst hm
          show (last.PostContext ++ c_str cur ++
            (if h.PostContextCount + 1 < h.MaxPostContext then ['\n'] else [])).count '\n' =
            h.PostContextCount + 1
          rw [hnew]
          have hlt'' : h.PostContextCount + 1 < h.MaxPostContext := hlt'
          simp [hlt'']
    · rw [ProcessBufferLine_pre h cur hreg hc]
      refine ⟨?_, ?_, hev, hlast, hpost⟩
      · show (if (h.PreContext ++ [c_str cur]).length > h.MaxPreContext then
            (h.PreContext ++ [c_str cur]).drop
              ((h.PreContext ++ [c_str cur]).length - h.MaxPreContext)
          else h.PreContext ++ [c_str cur]).length ≤ h.MaxPreContext
        split
        · rw [List.length_drop]; omega
        · omega
      · intro l hm
        have hm' : l ∈ h.PreContext ++ [c_str cur] := by
          change l ∈ (if (h.PreContext ++ [c_str cur]).length > h.MaxPreContext then
            (h.PreContext ++ [c_str cur]).drop
              ((h.PreContext ++ [c_str cur]).length - h.MaxPreContext)
          else h.PreContext ++ [c_str cur]) at hm
          split at hm
          · exact List.mem_of_mem_drop hm
          · exact hm
        simp only [List.mem_append, List.mem_singleton] at hm'
        rcases hm' with hm' | hm'
        · exact hnl l hm'
        · rw [hm']; exact hline

theorem ContextInv_ProcessLines (h : cmCTestBuildHandler) (ls : List (List Char))
    (hls : ∀ l ∈ ls, '\n' ∉ l) (hinv : ContextInv h) : ContextInv (ProcessLines h ls) := by
  induction ls generalizing h with
  | nil => exact hinv
  | cons l ls ih =>
    simp only [ProcessLines, List.foldl_cons] at ih ⊢
    exact ih _ (fun l' hl' => hls l' (by simp [hl']))
      (ContextInv_ProcessBufferLine _ l (hls l (by simp)) (ContextInv_CheckQuota h hinv))

theorem ContextInv_ProcessBuffer (h : cmCTestBuildHandler) (data : List Char) (q : QueueSel)
    (hinv : ContextInv h) : ContextInv (ProcessBuffer h data q) := by
  obtain ⟨ls, t, hq, hls, ht⟩ := exists_unlines (h.queue q ++ data)
  rw [ProcessBuffer_eq h data q ls t hq hls ht]
  have h1 := ContextInv_CheckQuota _ (ContextInv_ProcessLines h ls hls hinv)
  cases q <;> exact h1

theorem ContextInv_ReadChunks (h : cmCTestBuildHandler) (chunks : List (QueueSel × List Char))
    (hinv : ContextInv h) : ContextInv (ReadChunks h chunks) := by
  induction chunks generalizing h with
  | nil => exact hinv
  | cons c cs ih =>
    simp only [ReadChunks, List.foldl_cons] at ih ⊢
    exact ih _ (ContextInv_ProcessBuffer h c.2 c.1 hinv)

/-- C3. In a run that starts with an empty pre-context buffer (as the constructor leaves
it), whatever chunks arrive on the two streams and whatever `MaxPreContext` and
`MaxPostContext` are, every event that `ProcessBuffer` has recorded has a pre-context of
at most `MaxPreContext` lines and a post-context of at most `MaxPostContext` lines (a
non-empty post-context even has fewer than `MaxPostContext` newlines). -/
theorem ProcessBuffer_context_bounds (h : cmCTestBuildHandler)
    (chunks : List (QueueSel × List Char)) (hpre : h.PreContext = []) :
    ∀ ev ∈ (ReadChunks (InitializeBuildingStructures h) chunks).ErrorsAndWarnings,
      lineCount ev.PreContext ≤ h.MaxPreContext ∧
      lineCount ev.PostContext ≤ h.MaxPostContext ∧
      (ev.PostContext = [] ∨ ev.PostContext.count '\n' + 1 ≤ h.MaxPostContext) := by
  have hinit : ContextInv (InitializeBuildingStructures h) := by
    simp [ContextInv, InitializeBuildingStructures, hpre]
  have hinv := ContextInv_ReadChunks _ chunks hinit
  have hset := (SameSettings_Initialize h).trans_settings (SameSettings_ReadChunks _ chunks)
  obtain ⟨_, _, _, _, _, _, _, _, hMpre, hMpost⟩ := hset
  intro ev hm
  obtain ⟨h1, h2⟩ := hinv.2.2.1 ev hm
  rw [hMpre] at h1
  rw [hMpost] at h2
  refine ⟨h1, ?_, h2⟩
  rcases h2 with h2 | h2
  · rw [h2, lineCount_nil]; omega
  · exact (lineCount_le_count_succ _).trans h2

/-- C3 on a run of the sample handler with chunks on both streams. -/
theorem ProcessBuffer_context_bounds_witness :
    sampleHandler.PreContext = [] ∧
    ∀ ev ∈ (ReadChunks (InitializeBuildingStructures sampleHandler)
        [(QueueSel.BuildProcessingQueue, "one\ntwo\nthree\na.c:1: warn".toList),
          (QueueSel.BuildProcessingErrorQueue, "ld: error: x\nmore\n".toList),
          (QueueSel.BuildProcessingQueue, "ing: w\nafter\nlater\n".toList)]).ErrorsAndWarnings,
      lineCount ev.PreContext ≤ sampleHandler.MaxPreContext ∧
      lineCount ev.PostContext ≤ sampleHandler.MaxPostContext ∧
      (ev.PostContext = [] ∨ ev.PostContext.count '\n' + 1 ≤ sampleHandler.MaxPostContext) :=
  ⟨rfl, ProcessBuffer_context_bounds sampleHandler _ rfl⟩

/-! ### C2: the quotas of ProcessBuffer -/

/-- With the error quota reached `ProcessSingleLine` returns no Error and does not depend
on the Error rules. -/
theorem ProcessSingleLine_error_quota (h : cmCTestBuildHandler) (data : Str)
    (hq : h.ErrorQuotaReached = true) :
    ProcessSingleLine h data ≠ LineType.b_ERROR_LINE ∧
    ∀ M X, ProcessSingleLine { h with ErrorMatchRegex := M, ErrorExceptionRegex := X } data =
      ProcessSingleLine h data := by
  constructor
  · by_cases hl : h.UseCTestLaunch = true
    · simp [ProcessSingleLine, hl]
    · rw [ProcessSingleLine_scrape h data (by simpa using hl)]
      simp only [hq, Bool.true_eq_false, false_and, if_false]
      split <;> simp
  · intro M X
    unfold ProcessSingleLine
    simp only [hq]
    rfl

theorem CheckQuota_fields (h : cmCTestBuildHandler) :
    (CheckQuota h).TotalErrors = h.TotalErrors ∧ (CheckQuota h).TotalWarnings = h.TotalWarnings ∧
    (CheckQuota h).ErrorsAndWarnings = h.ErrorsAndWarnings ∧
    ((CheckQuota h).ErrorQuotaReached = true ↔
      (h.ErrorQuotaReached = true ∨ h.MaxErrors ≤ h.TotalErrors)) ∧
    ((CheckQuota h).WarningQuotaReached = true ↔
      (h.WarningQuotaReached = true ∨ h.MaxWarnings ≤ h.TotalWarnings)) := by
  unfold CheckQuota
  by_cases h1 : h.TotalWarnings ≥ h.MaxWarnings <;> by_cases h2 : h.TotalErrors ≥ h.MaxErrors <;>
    simp [h1, h2]

theorem map_modifyAt_Error (f : cmCTestBuildErrorWarning → cmCTestBuildErrorWarning)
    (hf : ∀ ev, (f ev).Error = ev.Error) (n : Nat) (l : List cmCTestBuildErrorWarning) :
    (modifyAt f n l).map (fun ev => ev.Error) = l.map (fun ev => ev.Error) := by
  induction l generalizing n with
  | nil => cases n <;> rfl
  | cons x xs ih =>
    cases n with
    | zero => simp [modifyAt, hf]
    | succ n => simp [modifyAt, ih]

/-- What the body of the line loop does to the totals, to the kinds of the events and to
the quota flags. -/
theorem ProcessBufferLine_totals (g : cmCTestBuildHandler) (cur : List Char) :
    (ProcessBufferLine g cur).TotalErrors =
      g.TotalErrors + (if ProcessSingleLine g (c_str cur) = LineType.b_ERROR_LINE then 1 else 0) ∧
    (ProcessBufferLine g cur).TotalWarnings =
      g.TotalWarnings +
        (if ProcessSingleLine g (c_str cur) = LineType.b_WARNING_LINE then 1 else 0) ∧
    (ProcessBufferLine g cur).ErrorsAndWarnings.map (fun ev => ev.Error) =
      g.ErrorsAndWarnings.map (fun ev => ev.Error) ++
        (if ProcessSingleLine g (c_str cur) = LineType.b_REGULAR_LINE then []
          else [decide (ProcessSingleLine g (c_str cur) = LineType.b_ERROR_LINE)]) ∧
    (ProcessBufferLine g cur).ErrorQuotaReached = g.ErrorQuotaReached ∧
    (ProcessBufferLine g cur).WarningQuotaReached = g.WarningQuotaReached := by
  by_cases hev : ProcessSingleLine g (c_str cur) ≠ LineType.b_REGULAR_LINE
  · rw [ProcessBufferLine_event g cur hev]
    have h3 : ProcessSingleLine g (c_str cur) = LineType.b_WARNING_LINE ∨
        ProcessSingleLine g (c_str cur) = LineType.b_ERROR_LINE := by
      cases hl : ProcessSingleLine g (c_str cur) with
      | b_REGULAR_LINE => exact absurd hl hev
      | b_WARNING_LINE => simp
      | b_ERROR_LINE => simp
    rcases h3 with hl | hl <;> simp [hl]
  · have hreg : ProcessSingleLine g (c_str cur) = LineType.b_REGULAR_LINE := by
      simpa using hev
    by_cases hc : g.ErrorsAndWarnings ≠ [] ∧ g.LastErrorOrWarning ≠ g.ErrorsAndWarnings.length ∧
        g.PostContextCount < g.MaxPostContext
    · rw [ProcessBufferLine_post g cur hreg hc]
      have hmap := map_modifyAt_Error
        (fun ew : cmCTestBuildErrorWarning =>
          { ew with
            PostContext :=
              ew.PostContext ++ c_str cur ++
                (if g.PostContextCount + 1 < g.MaxPostContext then ['\n'] else []) })
        (fun _ => rfl) g.LastErrorOrWarning g.ErrorsAndWarnings
      simp only [hreg, hmap]
      simp
    · rw [ProcessBufferLine_pre g cur hreg hc]
      simp [hreg]

/-- `ProcessBuffer` runs the iterations of the line loop for some complete lines, checks
the quotas once more and stores the queue and the size of the output. -/
theorem ProcessBuffer_exists (h : cmCTestBuildHandler) (data : List Char) (q : QueueSel) :
    ∃ ls out err size, (∀ l ∈ ls, '\n' ∉ l) ∧
      ProcessBuffer h data q = withQueues (CheckQuota (ProcessLines h ls)) out err size := by
  obtain ⟨ls, t, hq, hls, ht⟩ := exists_unlines (h.queue q ++ data)
  rw [ProcessBuffer_eq h data q ls t hq hls ht]
  cases q
  · exact ⟨ls, t, h.BuildProcessingErrorQueue, _, hls, rfl⟩
  · exact ⟨ls, h.BuildProcessingQueue, t, _, hls, rfl⟩

/-- A property that the quota check and the body of the line loop maintain, and that does
not depend on the queues, holds throughout a run. -/
theorem ReadChunks_preserves (Q : cmCTestBuildHandler → Prop)
    (hQw : ∀ h out err size, Q h → Q (withQueues h out err size))
    (hQc : ∀ h, Q h → Q (CheckQuota h))
    (hQl : ∀ h cur, '\n' ∉ cur → Q h → Q (ProcessBufferLine (CheckQuota h) cur))
    (h : cmCTestBuildHandler) (chunks : List (QueueSel × List Char)) (hQ : Q h) :
    Q (ReadChunks h chunks) := by
  have hlines : ∀ (ls : List (List Char)) (h : cmCTestBuildHandler),
      (∀ l ∈ ls, '\n' ∉ l) → Q h → Q (ProcessLines h ls) := by
    intro ls
    induction ls with
    | nil => intro h _ hQ; exact hQ
    | cons l ls ih =>
      intro h hls hQ
      simp only [ProcessLines, List.foldl_cons] at ih ⊢
      exact ih _ (fun l' hl' => hls l' (by simp [hl'])) (hQl h l (hls l (by simp)) hQ)
  induction chunks generalizing h with
  | nil => exact hQ
  | cons c cs ih =>
    simp only [ReadChunks, List.foldl_cons] at ih ⊢
    apply ih
    obtain ⟨ls, out, err, size, hls, heq⟩ := ProcessBuffer_exists h c.2 c.1
    rw [heq]
    exact hQw _ _ _ _ (hQc _ (hlines ls h hls hQ))

theorem NoNewEvent.refl_events (kind : Bool) (a : cmCTestBuildHandler) : NoNewEvent kind a a :=
  ⟨0, by simp⟩

/-- Once `TotalErrors` has reached `MaxErrors`, the rest of the run leaves `TotalErrors`
alone and records no Error. -/
theorem ReadChunks_errors_closed (a : cmCTestBuildHandler)
    (chunks : List (QueueSel × List Char)) (hR : a.MaxErrors ≤ a.TotalErrors) :
    (ReadChunks a chunks).TotalErrors = a.TotalErrors ∧ NoNewEvent true a (ReadChunks a chunks) := by
  have key := ReadChunks_preserves
    (fun h => h.MaxErrors = a.MaxErrors ∧ h.TotalErrors = a.TotalErrors ∧ NoNewEvent true a h)
    (fun _ _ _ _ hq => hq) ?_ ?_ a chunks ⟨rfl, rfl, NoNewEvent.refl_events true a⟩
  · exact key.2
  · intro h ⟨h1, h2, h3⟩
    obtain ⟨hT1, _, hEW, _, _⟩ := CheckQuota_fields h
    refine ⟨(SameSettings_CheckQuota h).2.2.2.2.2.2.1.trans h1, hT1.trans h2, ?_⟩
    unfold NoNewEvent at *
    rw [hEW]
    exact h3
  · intro h cur _ ⟨h1, h2, ⟨k, h3⟩⟩
    obtain ⟨hT1, _, hEW, hE, _⟩ := CheckQuota_fields h
    have hflag : (CheckQuota h).ErrorQuotaReached = true := hE.mpr (Or.inr (by omega))
    have hne := (ProcessSingleLine_error_quota (CheckQuota h) (c_str cur) hflag).1
    obtain ⟨hT, _, hmap, _, _⟩ := ProcessBufferLine_totals (CheckQuota h) cur
    have hs := (SameSettings_CheckQuota h).trans_settings (SameSettings_ProcessBufferLine (CheckQuota h) cur)
    refine ⟨hs.2.2.2.2.2.2.1.trans h1, ?_, ?_⟩
    · rw [hT, if_neg hne, hT1, h2]
      simp
    · unfold NoNewEvent
      rw [hmap, hEW, h3]
      by_cases hreg : ProcessSingleLine (CheckQuota h) (c_str cur) = LineType.b_REGULAR_LINE
      · exact ⟨k, by simp [hreg]⟩
      · refine ⟨k + 1, ?_⟩
        simp [hreg, hne, List.replicate_succ']

theorem SameSettings_RunState (h : cmCTestBuildHandler) (chunks : List (QueueSel × List Char)) :
    SameSettings h (RunState h chunks) :=
  (SameSettings_Initialize h).trans_settings (SameSettings_ReadChunks _ chunks)

theorem CheckQuota_error_rules (h : cmCTestBuildHandler) (M X : List RegularExpression) :
    CheckQuota { h with ErrorMatchRegex := M, ErrorExceptionRegex := X } =
      { CheckQuota h with ErrorMatchRegex := M, ErrorExceptionRegex := X } := by
  unfold CheckQuota
  by_cases h1 : h.TotalWarnings ≥ h.MaxWarnings <;> by_cases h2 : h.TotalErrors ≥ h.MaxErrors <;>
    simp [h1, h2]

theorem c_str_of_no_nul (l : List Char) (hl : '\x00' ∉ l) : c_str l = l := by
  unfold c_str
  rw [List.takeWhile_eq_self_iff]
  intro c hc
  have : c ≠ '\x00' := fun h0 => hl (h0 ▸ hc)
  simpa using this

/-- `ProcessSingleLine` looks at the mode, the colour remover, the rules and the two quota
flags only. -/
theorem ProcessSingleLine_congr (h g : cmCTestBuildHandler) (hs : SameSettings h g)
    (hE : g.ErrorQuotaReached = h.ErrorQuotaReached)
    (hW : g.WarningQuotaReached = h.WarningQuotaReached) (data : Str) :
    ProcessSingleLine g data = ProcessSingleLine h data := by
  obtain ⟨h1, h2, h3, h4, h5, h6, _, _, _, _⟩ := hs
  unfold ProcessSingleLine
  rw [h1, h2, h3, h4, h5, h6, hE, hW]

/-- After a regular line the next lines are classified as before. -/
theorem SameClassifier_regular (h : cmCTestBuildHandler) (cur : List Char)
    (hreg : ProcessSingleLine (CheckQuota h) (c_str cur) = LineType.b_REGULAR_LINE) :
    SameClassifier h (ProcessBufferLine (CheckQuota h) cur) := by
  intro data
  obtain ⟨hT1, hT2, _, hE, hW⟩ := CheckQuota_fields h
  obtain ⟨hT1', hT2', _, hE', hW'⟩ := CheckQuota_fields (ProcessBufferLine (CheckQuota h) cur)
  obtain ⟨hTe, hTw, _, hFe, hFw⟩ := ProcessBufferLine_totals (CheckQuota h) cur
  have hs1 := SameSettings_CheckQuota h
  have hs2 := SameSettings_ProcessBufferLine (CheckQuota h) cur
  have hs3 := SameSettings_CheckQuota (ProcessBufferLine (CheckQuota h) cur)
  rw [hreg] at hTe hTw
  simp only [reduceCtorEq, if_false, add_zero] at hTe hTw
  apply ProcessSingleLine_congr _ _ (hs2.trans_settings hs3)
  · rw [Bool.eq_iff_iff, hE', hFe, hTe, hs2.2.2.2.2.2.2.1]
    constructor
    · rintro (h1 | h1)
      · exact h1
      · exact hE.mpr (Or.inr (by rw [← hT1, ← hs1.2.2.2.2.2.2.1]; exact h1))
    · intro h1
      exact Or.inl h1
  · rw [Bool.eq_iff_iff, hW', hFw, hTw, hs2.2.2.2.2.2.2.2.1]
    constructor
    · rintro (h1 | h1)
      · exact h1
      · exact hW.mpr (Or.inr (by rw [← hT2, ← hs1.2.2.2.2.2.2.2.1]; exact h1))
    · intro h1
      exact Or.inl h1

theorem SameClassifier.refl_classifier (h : cmCTestBuildHandler) : SameClassifier h h := fun _ => rfl

theorem SameClassifier.trans_classifier {a b c : cmCTestBuildHandler} (h1 : SameClassifier a b)
    (h2 : SameClassifier b c) : SameClassifier a c :=
  fun data => (h2 data).trans (h1 data)

theorem lastLines_step (n : Nat) (l : List Str) (x : Str) :
    (if (l ++ [x]).length > n then (l ++ [x]).drop ((l ++ [x]).length - n) else l ++ [x]) =
      lastLines n (l ++ [x]) := by
  unfold lastLines
  split
  · rfl
  · rename_i hle
    have : (l ++ [x]).length - n = 0 := by omega
    rw [this, List.drop_zero]

theorem lastLines_of_le (n : Nat) (l : List Str) (hl : l.length ≤ n) : lastLines n l = l := by
  unfold lastLines
  have : l.length - n = 0 := by omega
  rw [this, List.drop_zero]

theorem lastLines_length_le (n : Nat) (l : List Str) : (lastLines n l).length ≤ n := by
  unfold lastLines
  rw [List.length_drop]
  omega

theorem lastLines_lastLines_append (n : Nat) (l m : List Str) :
    lastLines n (lastLines n l ++ m) = lastLines n (l ++ m) := by
  unfold lastLines
  by_cases hl : l.length ≤ n
  · have : l.length - n = 0 := by omega
    rw [this, List.drop_zero]
  · have hlen : (l.drop (l.length - n)).length = n := by rw [List.length_drop]; omega
    rw [List.length_append, hlen, List.length_append]
    by_cases hm : m.length ≤ n
    · have e1 : n + m.length - n ≤ (l.drop (l.length - n)).length := by omega
      have e2 : l.length + m.length - n ≤ l.length := by omega
      rw [List.drop_append_of_le_length e1, List.drop_append_of_le_length e2, List.drop_drop]
      congr 2
      omega
    · have e1 : (l.drop (l.length - n)).length ≤ n + m.length - n := by omega
      have e2 : l.length ≤ l.length + m.length - n := by omega
      rw [List.drop_append_eq_append_drop, List.drop_append_eq_append_drop,
        List.drop_eq_nil_of_le e1, List.drop_eq_nil_of_le e2, hlen]
      congr 2
      omega

theorem CheckQuota_context (h : cmCTestBuildHandler) :
    (CheckQuota h).PreContext = h.PreContext ∧
    (CheckQuota h).LastErrorOrWarning = h.LastErrorOrWarning ∧
    (CheckQuota h).PostContextCount = h.PostContextCount ∧
    (CheckQuota h).ErrorsAndWarnings = h.ErrorsAndWarnings ∧
    (CheckQuota h).MaxPreContext = h.MaxPreContext ∧
    (CheckQuota h).MaxPostContext = h.MaxPostContext ∧
    (CheckQuota h).OutputLineCounter = h.OutputLineCounter := by
  unfold CheckQuota
  by_cases h1 : h.TotalWarnings ≥ h.MaxWarnings <;> by_cases h2 : h.TotalErrors ≥ h.MaxErrors <;>
    simp [h1, h2]

/-- Regular lines that are not taken into a post-context go to the pre-context buffer,
which keeps the last `MaxPreContext` of them. -/
theorem ProcessLines_pre (g : cmCTestBuildHandler) (rs : List Str)
    (hc : ¬ (g.ErrorsAndWarnings ≠ [] ∧ g.LastErrorOrWarning ≠ g.ErrorsAndWarnings.length ∧
      g.PostContextCount < g.MaxPostContext))
    (hP : g.PreContext.length ≤ g.MaxPreContext)
    (hclean : ∀ r ∈ rs, '\x00' ∉ r)
    (hreg : ∀ r ∈ rs, ProcessSingleLine (CheckQuota g) r = LineType.b_REGULAR_LINE) :
    (ProcessLines g rs).ErrorsAndWarnings = g.ErrorsAndWarnings ∧
    (ProcessLines g rs).PreContext = lastLines g.MaxPreContext (g.PreContext ++ rs) ∧
    (ProcessLines g rs).LastErrorOrWarning = g.LastErrorOrWarning ∧
    (ProcessLines g rs).PostContextCount = g.PostContextCount ∧
    SameSettings g (ProcessLines g rs) ∧ SameClassifier g (ProcessLines g rs) := by
  induction rs generalizing g with
  | nil =>
    refine ⟨rfl, ?_, rfl, rfl, SameSettings.refl_settings g, SameClassifier.refl_classifier g⟩
    show g.PreContext = lastLines _ (g.PreContext ++ [])
    rw [List.append_nil, lastLines_of_le _ _ hP]
  | cons r rest ih =>
    obtain ⟨hq1, hq2, hq3, hq4, hq5, hq6, _⟩ := CheckQuota_context g
    have hr : c_str r = r := c_str_of_no_nul r (hclean r (by simp))
    have hregr : ProcessSingleLine (CheckQuota g) (c_str r) = LineType.b_REGULAR_LINE := by
      rw [hr]; exact hreg r (by simp)
    have hc' : ¬ ((CheckQuota g).ErrorsAndWarnings ≠ [] ∧
        (CheckQuota g).LastErrorOrWarning ≠ (CheckQuota g).ErrorsAndWarnings.length ∧
        (CheckQuota g).PostContextCount < (CheckQuota g).MaxPostContext) := by
      rw [hq2, hq3, hq4, hq6]; exact hc
    have hstep := ProcessBufferLine_pre (CheckQuota g) r hregr hc'
    have hsame := SameClassifier_regular g r hregr
    have hset := (SameSettings_CheckQuota g).trans_settings (SameSettings_ProcessBufferLine (CheckQuota g) r)
    have hEW : (ProcessBufferLine (CheckQuota g) r).ErrorsAndWarnings = g.ErrorsAndWarnings := by
      rw [hstep]; exact hq4
    have hLEW : (ProcessBufferLine (CheckQuota g) r).LastErrorOrWarning = g.LastErrorOrWarning := by
      rw [hstep]; exact hq2
    have hPCC : (ProcessBufferLine (CheckQuota g) r).PostContextCount = g.PostContextCount := by
      rw [hstep]; exact hq3
    have hPre : (ProcessBufferLine (CheckQuota g) r).PreContext =
        lastLines g.MaxPreContext (g.PreContext ++ [r]) := by
      rw [hstep]
      show (if ((CheckQuota g).PreContext ++ [c_str r]).length > (CheckQuota g).MaxPreContext then
          ((CheckQuota g).PreContext ++ [c_str r]).drop
            (((CheckQuota g).PreContext ++ [c_str r]).length - (CheckQuota g).MaxPreContext)
        else (CheckQuota g).PreContext ++ [c_str r]) = _
      rw [lastLines_step, hq1, hq5, hr]
    have hMpre := hset.2.2.2.2.2.2.2.2.1
    have hMpost := hset.2.2.2.2.2.2.2.2.2
    have ih' := ih (ProcessBufferLine (CheckQuota g) r)
      (by rw [hEW, hLEW, hPCC, hMpost]; exact hc)
      (by rw [hPre, hMpre]; exact lastLines_length_le _ _)
      (fun r' hr' => hclean r' (by simp [hr']))
      (fun r' hr' => by rw [hsame r']; exact hreg r' (by simp [hr']))
    obtain ⟨i1, i2, i3, i4, i5, i6⟩ := ih'
    have hfold : ProcessLines g (r :: rest) = ProcessLines (ProcessBufferLine (CheckQuota g) r) rest :=
      rfl
    rw [hfold]
    refine ⟨i1.trans hEW, ?_, i3.trans hLEW, i4.trans hPCC, hset.trans_settings i5, hsame.trans_classifier i6⟩
    rw [i2, hPre, hMpre, lastLines_lastLines_append]
    simp

/-- Regular lines after an event: the first ones fill what is left of the post-context of
the event, the others go to the pre-context buffer. -/
theorem ProcessLines_post (g : cmCTestBuildHandler) (rs : List Str)
    (init : List cmCTestBuildErrorWarning) (ev : cmCTestBuildErrorWarning)
    (hEW : g.ErrorsAndWarnings = init ++ [ev]) (hLEW : g.LastErrorOrWarning = init.length)
    (hP : g.PreContext.length ≤ g.MaxPreContext)
    (hclean : ∀ r ∈ rs, '\x00' ∉ r)
    (hreg : ∀ r ∈ rs, ProcessSingleLine (CheckQuota g) r = LineType.b_REGULAR_LINE) :
    (ProcessLines g rs).ErrorsAndWarnings =
      init ++ [{ ev with
        PostContext := ev.PostContext ++
          joinPost g.MaxPostContext g.PostContextCount
            (rs.take (g.MaxPostContext - g.PostContextCount)) }] ∧
    (ProcessLines g rs).PreContext =
      lastLines g.MaxPreContext
        (g.PreContext ++ rs.drop (g.MaxPostContext - g.PostContextCount)) ∧
    SameSettings g (ProcessLines g rs) ∧ SameClassifier g (ProcessLines g rs) := by
  induction rs generalizing g ev with
  | nil =>
    refine ⟨?_, ?_, SameSettings.refl_settings g, SameClassifier.refl_classifier g⟩
    · show g.ErrorsAndWarnings = _
      rw [hEW]
      simp [joinPost]
    · show g.PreContext = lastLines _ (g.PreContext ++ [].drop _)
      rw [List.drop_nil, List.append_nil, lastLines_of_le _ _ hP]
  | cons r rest ih =>
    by_cases hlt : g.PostContextCount < g.MaxPostContext
    · obtain ⟨hq1, hq2, hq3, hq4, hq5, hq6, _⟩ := CheckQuota_context g
      have hr : c_str r = r := c_str_of_no_nul r (hclean r (by simp))
      have hregr : ProcessSingleLine (CheckQuota g) (c_str r) = LineType.b_REGULAR_LINE := by
        rw [hr]; exact hreg r (by simp)
      have hc' : (CheckQuota g).ErrorsAndWarnings ≠ [] ∧
          (CheckQuota g).LastErrorOrWarning ≠ (CheckQuota g).ErrorsAndWarnings.length ∧
          (CheckQuota g).PostContextCount < (CheckQuota g).MaxPostContext := by
        rw [hq2, hq3, hq4, hq6, hEW, hLEW]
        refine ⟨by simp, by simp, hlt⟩
      have hstep := ProcessBufferLine_post (CheckQuota g) r hregr hc'
      have hsame := SameClassifier_regular g r hregr
      have hset := (SameSettings_CheckQuota g).trans_settings
        (SameSettings_ProcessBufferLine (CheckQuota g) r)
      have hMpre := hset.2.2.2.2.2.2.2.2.1
      have hMpost := hset.2.2.2.2.2.2.2.2.2
      have hEW1 : (ProcessBufferLine (CheckQuota g) r).ErrorsAndWarnings =
          init ++ [{ ev with
            PostContext := ev.PostContext ++ r ++
              (if g.PostContextCount + 1 < g.MaxPostContext then ['\n'] else []) }] := by
        rw [hstep]
        show modifyAt _ (CheckQuota g).LastErrorOrWarning (CheckQuota g).ErrorsAndWarnings = _
        rw [hq2, hq4, hEW, hLEW, modifyAt_last, hq3, hq6, hr]
      have hLEW1 : (ProcessBufferLine (CheckQuota g) r).LastErrorOrWarning = init.length := by
        rw [hstep]; exact hq2.trans hLEW
      have hPCC1 : (ProcessBufferLine (CheckQuota g) r).PostContextCount =
          g.PostContextCount + 1 := by
        rw [hstep]
        show (CheckQuota g).PostContextCount + 1 = _
        rw [hq3]
      have hPre1 : (ProcessBufferLine (CheckQuota g) r).PreContext = g.PreContext := by
        rw [hstep]; exact hq1
      have ih' := ih (ProcessBufferLine (CheckQuota g) r) _ hEW1 hLEW1
        (by rw [hPre1, hMpre]; exact hP)
        (fun r' hr' => hclean r' (by simp [hr']))
        (fun r' hr' => by rw [hsame r']; exact hreg r' (by simp [hr']))
      obtain ⟨i1, i2, i3, i4⟩ := ih'
      have hfold : ProcessLines g (r :: rest) =
          ProcessLines (ProcessBufferLine (CheckQuota g) r) rest := rfl
      have hsucc : g.MaxPostContext - g.PostContextCount =
          (g.MaxPostContext - (g.PostContextCount + 1)) + 1 := by omega
      rw [hfold]
      refine ⟨?_, ?_, hset.trans_settings i3, hsame.trans_classifier i4⟩
      · rw [i1, hMpost, hPCC1, hsucc, List.take_succ_cons]
        simp [joinPost, List.append_assoc]
      · rw [i2, hMpre, hMpost, hPCC1, hPre1, hsucc, List.drop_succ_cons]
    · have h0 : g.MaxPostContext - g.PostContextCount = 0 := by omega
      have hpre := ProcessLines_pre g (r :: rest) (fun hc => hlt hc.2.2) hP hclean hreg
      obtain ⟨p1, p2, _, _, p5, p6⟩ := hpre
      refine ⟨?_, ?_, p5, p6⟩
      · rw [p1, hEW, h0]
        simp [joinPost]
      · rw [p2, h0, List.drop_zero]

/-! ### A stream that arrives in chunks -/

theorem CheckQuota_idem (h : cmCTestBuildHandler) : CheckQuota (CheckQuota h) = CheckQuota h := by
  unfold CheckQuota
  by_cases h1 : h.TotalWarnings ≥ h.MaxWarnings <;> by_cases h2 : h.TotalErrors ≥ h.MaxErrors <;>
    simp [h1, h2]

theorem ProcessLines_append (h : cmCTestBuildHandler) (a b : List (List Char)) :
    ProcessLines h (a ++ b) = ProcessLines (ProcessLines h a) b := by
  simp [ProcessLines, List.foldl_append]

theorem CheckQuota_ProcessLines_CheckQuota (h : cmCTestBuildHandler) (ls : List (List Char)) :
    CheckQuota (ProcessLines (CheckQuota h) ls) = CheckQuota (ProcessLines h ls) := by
  cases ls with
  | nil => exact CheckQuota_idem h
  | cons l ls =>
    show CheckQuota (ProcessLines (ProcessBufferLine (CheckQuota (CheckQuota h)) l) ls) =
      CheckQuota (ProcessLines (ProcessBufferLine (CheckQuota h) l) ls)
    rw [CheckQuota_idem]

/-- A text is cut into complete lines and a rest in one way only. -/
theorem unlines_unique (a b : List Str) (ta tb : List Char)
    (ha : ∀ l ∈ a, '\n' ∉ l) (hb : ∀ l ∈ b, '\n' ∉ l) (hta : '\n' ∉ ta) (htb : '\n' ∉ tb)
    (heq : unlines a ++ ta = unlines b ++ tb) : a = b ∧ ta = tb := by
  induction a generalizing b with
  | nil =>
    cases b with
    | nil => exact ⟨rfl, by simpa [unlines] using heq⟩
    | cons m b' =>
      exfalso
      apply hta
      have : unlines [] ++ ta = ta := by simp [unlines]
      rw [← this, heq, unlines_cons]
      simp
  | cons l a' ih =>
    cases b with
    | nil =>
      exfalso
      apply htb
      have : unlines [] ++ tb = tb := by simp [unlines]
      rw [← this, ← heq, unlines_cons]
      simp
    | cons m b' =>
      rw [unlines_cons, unlines_cons, List.append_assoc, List.append_assoc,
        List.cons_append, List.cons_append] at heq
      have h1 := span_newline_line l (unlines a' ++ ta) (ha l (by simp))
      have h2 := span_newline_line m (unlines b' ++ tb) (hb m (by simp))
      rw [heq, h2] at h1
      simp only [Prod.mk.injEq, List.cons.injEq, true_and] at h1
      obtain ⟨hlm, hrest⟩ := h1
      obtain ⟨hab, ht⟩ := ih b' (fun l' hl' => ha l' (by simp [hl']))
        (fun l' hl' => hb l' (by simp [hl'])) hrest.symm
      exact ⟨by rw [hlm, hab], ht⟩

/-- The chunks of one stream, read one after the other, have the effect of the line loop
on the complete lines of the queue followed by the chunks. -/
theorem ReadChunks_single (s : cmCTestBuildHandler) (q : QueueSel) (c : List Char)
    (cs : List (List Char)) (ls : List Str) (t : List Char)
    (hq : s.queue q ++ (c :: cs).flatten = unlines ls ++ t)
    (hls : ∀ l ∈ ls, '\n' ∉ l) (ht : '\n' ∉ t) :
    ∃ out err size, ReadChunks s ((c :: cs).map (fun d => (q, d))) =
      withQueues (CheckQuota (ProcessLines s ls)) out err size := by
  induction cs generalizing s c ls with
  | nil =>
    have hq' : s.queue q ++ c = unlines ls ++ t := by simpa using hq
    show ∃ out err size, ProcessBuffer s c q = _
    rw [ProcessBuffer_eq s c q ls t hq' hls ht]
    cases q
    · exact ⟨t, s.BuildProcessingErrorQueue, _, rfl⟩
    · exact ⟨s.BuildProcessingQueue, t, _, rfl⟩
  | cons c2 cs' ih =>
    obtain ⟨ls1, t1, hq1, hls1, ht1⟩ := exists_unlines (s.queue q ++ c)
    have hstep := ProcessBuffer_eq s c q ls1 t1 hq1 hls1 ht1
    obtain ⟨o1, e1, hform, hqueue⟩ : ∃ o1 e1,
        ProcessBuffer s c q = withQueues (CheckQuota (ProcessLines s ls1)) o1 e1
          ((s.BuildOutputLogSize + string_size c) % 2 ^ 64) ∧
        (ProcessBuffer s c q).queue q = t1 := by
      rw [hstep]
      cases q
      · exact ⟨t1, s.BuildProcessingErrorQueue, rfl, rfl⟩
      · exact ⟨s.BuildProcessingQueue, t1, rfl, rfl⟩
    obtain ⟨ls2, t2, hq2, hls2, ht2⟩ := exists_unlines (t1 ++ (c2 :: cs').flatten)
    have hall : unlines (ls1 ++ ls2) ++ t2 = unlines ls ++ t := by
      rw [unlines_append, List.append_assoc, ← hq2, ← List.append_assoc, ← hq1, ← hq]
      simp
    have hmem : ∀ l ∈ ls1 ++ ls2, '\n' ∉ l := by
      intro l hl
      rcases List.mem_append.mp hl with hl | hl
      · exact hls1 l hl
      · exact hls2 l hl
    obtain ⟨hlseq, htt⟩ := unlines_unique (ls1 ++ ls2) ls t2 t hmem hls ht2 ht hall
    obtain ⟨out, err, size, hih⟩ := ih (ProcessBuffer s c q) c2 ls2
      (by rw [hqueue, ← htt]; exact hq2) hls2
    refine ⟨out, err, size, ?_⟩
    show ReadChunks (ProcessBuffer s c q) ((c2 :: cs').map (fun d => (q, d))) = _
    rw [hih, hform, ProcessLines_withQueues, CheckQuota_withQueues,
      CheckQuota_ProcessLines_CheckQuota, ← hlseq, ProcessLines_append]
    rfl

theorem unlines_ne_nil (ls : List Str) (l : Str) : unlines (ls ++ [l]) ≠ [] := by
  rw [unlines_append]
  simp [unlines]

theorem lastLines_min (n : Nat) (ls : List Str) :
    lastLines (min n ls.length) ls = lastLines n ls := by
  unfold lastLines
  congr 1
  omega

/-- C10. In a run that starts with an empty pre-context buffer, let a stream bring `k`
regular lines and then a line that is an error or a warning, in chunks cut anywhere.
The event recorded for that line is the first event of the run, and its pre-context is
made of the last `min MaxPreContext k` of the regular lines, in their order, each
followed by a newline; the pre-context buffer is empty once the event is recorded. -/
theorem PreContext_of_first_event (h : cmCTestBuildHandler) (q : QueueSel) (rs : List Str)
    (e : Str) (chunks : List (List Char))
    (hpre : h.PreContext = [])
    (hq : (InitializeBuildingStructures h).queue q = [])
    (hlines : ∀ l ∈ rs ++ [e], '\n' ∉ l ∧ '\x00' ∉ l)
    (hreg : ∀ r ∈ rs,
      ProcessSingleLine (CheckQuota (InitializeBuildingStructures h)) r =
        LineType.b_REGULAR_LINE)
    (hev : ProcessSingleLine (CheckQuota (InitializeBuildingStructures h)) e ≠
      LineType.b_REGULAR_LINE)
    (hchunks : chunks.flatten = unlines (rs ++ [e])) :
    ∃ ev, (RunState h (chunks.map (fun d => (q, d)))).ErrorsAndWarnings = [ev] ∧
      ev.Text = e ∧
      ev.PreContext = unlines (lastLines (min h.MaxPreContext rs.length) rs) ∧
      (RunState h (chunks.map (fun d => (q, d)))).PreContext = [] := by
  cases chunks with
  | nil => exact absurd hchunks.symm (unlines_ne_nil rs e)
  | cons c cs =>
    have hls : ∀ l ∈ rs ++ [e], '\n' ∉ l := fun l hl => (hlines l hl).1
    obtain ⟨out, err, size, hrun⟩ := ReadChunks_single (InitializeBuildingStructures h) q c cs
      (rs ++ [e]) [] (by rw [hq, hchunks]; simp) hls (by simp)
    have hs0 := SameSettings_Initialize h
    -- the regular lines
    have hpre0 := ProcessLines_pre (InitializeBuildingStructures h) rs
      (fun hc => hc.1 rfl) (by simp [InitializeBuildingStructures, hpre])
      (fun r hr => (hlines r (by simp [hr])).2) hreg
    obtain ⟨p1, p2, _, _, p5, p6⟩ := hpre0
    -- the line of the event
    have he : c_str e = e := c_str_of_no_nul e (hlines e (by simp)).2
    have hevt : ProcessSingleLine (CheckQuota (ProcessLines (InitializeBuildingStructures h) rs))
        (c_str e) ≠ LineType.b_REGULAR_LINE := by
      rw [he, p6 e]; exact hev
    have hstep := ProcessBufferLine_event _ e hevt
    obtain ⟨hq1, _, _, hq4, _, _, _⟩ :=
      CheckQuota_context (ProcessLines (InitializeBuildingStructures h) rs)
    have hsplit : ProcessLines (InitializeBuildingStructures h) (rs ++ [e]) =
        ProcessBufferLine (CheckQuota (ProcessLines (InitializeBuildingStructures h) rs)) e := by
      rw [ProcessLines_append]; rfl
    obtain ⟨hc1, _, _, hc4, _, _, _⟩ :=
      CheckQuota_context (ProcessLines (InitializeBuildingStructures h) (rs ++ [e]))
    have hEWrun : (RunState h ((c :: cs).map (fun d => (q, d)))).ErrorsAndWarnings =
        (ProcessLines (InitializeBuildingStructures h) (rs ++ [e])).ErrorsAndWarnings := by
      unfold RunState
      rw [hrun]
      exact hc4
    have hPrerun : (RunState h ((c :: cs).map (fun d => (q, d)))).PreContext =
        (ProcessLines (InitializeBuildingStructures h) (rs ++ [e])).PreContext := by
      unfold RunState
      rw [hrun]
      exact hc1
    rw [hEWrun, hPrerun, hsplit, hstep]
    refine ⟨_, by rw [hq4, p1]; rfl, he, ?_, rfl⟩
    show List.foldl (fun acc pc => acc ++ (pc ++ ['\n'])) []
      (CheckQuota (ProcessLines (InitializeBuildingStructures h) rs)).PreContext = _
    rw [foldl_pre_eq, hq1, p2, lastLines_min]
    simp [InitializeBuildingStructures, hpre]

/-- C10 on the sample handler (`MaxPreContext = 2`): three regular lines and a warning
arrive in two chunks, the first of which ends inside a line. -/
theorem PreContext_of_first_event_witness :
    sampleHandler.PreContext = [] ∧
    (∀ l ∈ ["one".toList, "two".toList, "three".toList] ++ ["a.c:1: warning: w".toList],
      '\n' ∉ l ∧ '\x00' ∉ l) ∧
    ["one\ntw".toList, "o\nthree\na.c:1: warning: w\n".toList].flatten =
      unlines (["one".toList, "two".toList, "three".toList] ++ ["a.c:1: warning: w".toList]) ∧
    ∃ ev, (RunState sampleHandler
        (["one\ntw".toList, "o\nthree\na.c:1: warning: w\n".toList].map
          (fun d => (QueueSel.BuildProcessingQueue, d)))).ErrorsAndWarnings = [ev] ∧
      ev.Text = "a.c:1: warning: w".toList ∧
      ev.PreContext = unlines (lastLines (min sampleHandler.MaxPreContext
        ["one".toList, "two".toList, "three".toList].length)
        ["one".toList, "two".toList, "three".toList]) ∧
      (RunState sampleHandler
        (["one\ntw".toList, "o\nthree\na.c:1: warning: w\n".toList].map
          (fun d => (QueueSel.BuildProcessingQueue, d)))).PreContext = [] :=
  ⟨rfl, by decide, by decide,
    PreContext_of_first_event sampleHandler QueueSel.BuildProcessingQueue
      ["one".toList, "two".toList, "three".toList] "a.c:1: warning: w".toList
      ["one\ntw".toList, "o\nthree\na.c:1: warning: w\n".toList]
      rfl rfl (by decide) (by decide) (by decide) (by decide)⟩

theorem joinPost_lt (M c : Nat) (ls : List Str) (hlt : c + ls.length < M) :
    joinPost M c ls = unlines ls := by
  induction ls generalizing c with
  | nil => simp [joinPost, unlines]
  | cons l ls ih =>
    have h1 : c + 1 < M := by simp only [List.length_cons] at hlt; omega
    have h2 : c + 1 + ls.length < M := by simp only [List.length_cons] at hlt; omega
    rw [joinPost, if_pos h1, ih (c + 1) h2, unlines_cons]
    simp

theorem joinPost_eq (M c : Nat) (ls : List Str) (heq : c + ls.length = M) :
    joinPost M c ls = List.intercalate ['\n'] ls := by
  induction ls generalizing c with
  | nil => simp [joinPost, List.intercalate]
  | cons l ls ih =>
    cases ls with
    | nil =>
      have h1 : ¬ (c + 1 < M) := by simp only [List.length_cons, List.length_nil] at heq; omega
      simp [joinPost, h1, List.intercalate]
    | cons l2 ls2 =>
      have h1 : c + 1 < M := by simp only [List.length_cons] at heq; omega
      have h2 : c + 1 + (l2 :: ls2).length = M := by simp only [List.length_cons] at heq ⊢; omega
      rw [joinPost, if_pos h1, ih (c + 1) h2]
      simp [List.intercalate, List.intersperse]

/-- The text of a post-context that was empty, after `k` regular lines offered to it. -/
theorem joinPost_take (M : Nat) (rs : List Str) :
    joinPost M 0 (rs.take M) =
      if rs.length < M then unlines rs else List.intercalate ['\n'] (rs.take M) := by
  by_cases hlt : rs.length < M
  · rw [if_pos hlt, List.take_of_length_le (by omega)]
    exact joinPost_lt M 0 rs (by omega)
  · rw [if_neg hlt]
    exact joinPost_eq M 0 (rs.take M) (by rw [List.length_take]; omega)

theorem lastLines_drop (n m : Nat) (rs : List Str) :
    lastLines n (rs.drop m) = lastLines (min n (rs.length - min rs.length m)) rs := by
  unfold lastLines
  rw [List.drop_drop, List.length_drop]
  by_cases hm : m ≤ rs.length
  · congr 1
    omega
  · rw [List.drop_eq_nil_of_le (by omega), List.drop_eq_nil_of_le (by omega)]

theorem ProcessSingleLine_setQueue (h : cmCTestBuildHandler) (q : QueueSel) (t : List Char)
    (data : Str) : ProcessSingleLine (h.setQueue q t) data = ProcessSingleLine h data := by
  cases q <;> rfl

/-- C9. Let a stream bring a line that is an error or a warning, then `k` regular lines,
then another line that is an error or a warning, in chunks cut anywhere.  The two events
recorded are consecutive; the post-context of the earlier one holds the first
`min k MaxPostContext` of the regular lines (each followed by a newline, except the
`MaxPostContext`-th) and the pre-context of the later one holds lines after those only,
namely the last `min MaxPreContext (k - min k MaxPostContext)` of the regular lines, each
followed by a newline.  The two windows have no line in common, and when
`k ≤ MaxPostContext` the pre-context of the later event is empty. -/
theorem contexts_between_events (s : cmCTestBuildHandler) (q : QueueSel) (e1 : Str)
    (rs : List Str) (e2 : Str) (chunks : List (List Char))
    (hq : s.queue q = [])
    (hlines : ∀ l ∈ e1 :: rs ++ [e2], '\n' ∉ l ∧ '\x00' ∉ l)
    (hev1 : ProcessSingleLine (CheckQuota s) e1 ≠ LineType.b_REGULAR_LINE)
    (hreg : ∀ r ∈ rs,
      ProcessSingleLine (ProcessBuffer s (e1 ++ ['\n']) q) r = LineType.b_REGULAR_LINE)
    (hev2 : ProcessSingleLine (ProcessBuffer s (e1 ++ ['\n']) q) e2 ≠ LineType.b_REGULAR_LINE)
    (hchunks : chunks.flatten = unlines (e1 :: rs ++ [e2])) :
    ∃ ev1 ev2,
      (ReadChunks s (chunks.map (fun d => (q, d)))).ErrorsAndWarnings =
        s.ErrorsAndWarnings ++ [ev1, ev2] ∧
      ev1.Text = e1 ∧ ev2.Text = e2 ∧
      ev1.PostContext = joinPost s.MaxPostContext 0 (rs.take (min rs.length s.MaxPostContext)) ∧
      ev1.PostContext =
        (if rs.length < s.MaxPostContext then unlines rs
          else List.intercalate ['\n'] (rs.take s.MaxPostContext)) ∧
      ev2.PreContext = unlines (lastLines s.MaxPreContext (rs.drop s.MaxPostContext)) ∧
      ev2.PreContext =
        unlines (lastLines
          (min s.MaxPreContext (rs.length - min rs.length s.MaxPostContext)) rs) ∧
      (∃ between, rs = rs.take (min rs.length s.MaxPostContext) ++ between ++
        lastLines (min s.MaxPreContext (rs.length - min rs.length s.MaxPostContext)) rs) ∧
      (rs.length ≤ s.MaxPostContext → ev2.PreContext = []) := by
  cases chunks with
  | nil =>
    have := unlines_ne_nil (e1 :: rs) e2
    exact absurd hchunks.symm this
  | cons c cs =>
    have hls : ∀ l ∈ e1 :: rs ++ [e2], '\n' ∉ l := fun l hl => (hlines l hl).1
    obtain ⟨out, err, size, hrun⟩ := ReadChunks_single s q c cs (e1 :: rs ++ [e2]) []
      (by rw [hq, hchunks]; simp) hls (by simp)
    -- the line of the first event
    have he1 : c_str e1 = e1 := c_str_of_no_nul e1 (hlines e1 (by simp)).2
    have he2 : c_str e2 = e2 := c_str_of_no_nul e2 (hlines e2 (by simp)).2
    have hstep1 := ProcessBufferLine_event (CheckQuota s) e1 (by rw [he1]; exact hev1)
    obtain ⟨_, _, _, hs4, _, _, _⟩ := CheckQuota_context s
    have hset1 := (SameSettings_CheckQuota s).trans_settings (SameSettings_ProcessBufferLine (CheckQuota s) e1)
    have hMpre1 := hset1.2.2.2.2.2.2.2.2.1
    have hMpost1 := hset1.2.2.2.2.2.2.2.2.2
    -- the state in which the lines after it are classified
    have hbuf : ∀ data, ProcessSingleLine (ProcessBuffer s (e1 ++ ['\n']) q) data =
        ProcessSingleLine (CheckQuota (ProcessBufferLine (CheckQuota s) e1)) data := by
      intro data
      rw [ProcessBuffer_eq s (e1 ++ ['\n']) q [e1] []
        (by rw [hq]; simp [unlines]) (fun l hl => by
          rw [List.mem_singleton.mp hl]; exact (hlines e1 (by simp)).1) (by simp),
        ProcessSingleLine_setQueue]
      rfl
    -- the regular lines
    have hpost := ProcessLines_post (ProcessBufferLine (CheckQuota s) e1) rs s.ErrorsAndWarnings
      { Error := decide (ProcessSingleLine (CheckQuota s) (c_str e1) = LineType.b_ERROR_LINE)
        LogLine := static_cast_int (((CheckQuota s).OutputLineCounter + 1) % 2 ^ 64)
        Text := c_str e1
        SourceFile := []
        SourceFileTail := []
        LineNumber := 0
        PreContext := (CheckQuota s).PreContext.foldl (fun acc pc => acc ++ (pc ++ ['\n'])) []
        PostContext := [] }
      (by rw [hstep1, ← hs4])
      (by rw [hstep1]; exact congrArg List.length hs4)
      (by rw [hstep1]; exact Nat.zero_le _)
      (fun r hr => (hlines r (by simp [hr])).2)
      (fun r hr => by rw [← hbuf r]; exact hreg r hr)
    obtain ⟨p1, p2, p3, p4⟩ := hpost
    have hPCC1 : (ProcessBufferLine (CheckQuota s) e1).PostContextCount = 0 := by rw [hstep1]
    have hPre1 : (ProcessBufferLine (CheckQuota s) e1).PreContext = [] := by rw [hstep1]
    rw [hMpost1, hPCC1, Nat.sub_zero] at p1 p2
    rw [hMpre1, hPre1, List.nil_append] at p2
    -- the line of the second event
    have hevt2 : ProcessSingleLine
        (CheckQuota (ProcessLines (ProcessBufferLine (CheckQuota s) e1) rs)) (c_str e2) ≠
        LineType.b_REGULAR_LINE := by
      rw [he2, p4 e2, ← hbuf e2]; exact hev2
    have hstep2 := ProcessBufferLine_event _ e2 hevt2
    obtain ⟨hg1, _, _, hg4, _, _, _⟩ :=
      CheckQuota_context (ProcessLines (ProcessBufferLine (CheckQuota s) e1) rs)
    have hsplit : ProcessLines s (e1 :: rs ++ [e2]) =
        ProcessBufferLine
          (CheckQuota (ProcessLines (ProcessBufferLine (CheckQuota s) e1) rs)) e2 := by
      show ProcessLines (ProcessBufferLine (CheckQuota s) e1) (rs ++ [e2]) = _
      rw [ProcessLines_append]; rfl
    obtain ⟨_, _, _, hc4, _, _, _⟩ := CheckQuota_context (ProcessLines s (e1 :: rs ++ [e2]))
    have hEWrun : (ReadChunks s ((c :: cs).map (fun d => (q, d)))).ErrorsAndWarnings =
        (ProcessLines s (e1 :: rs ++ [e2])).ErrorsAndWarnings := by
      rw [hrun]; exact hc4
    have htake : rs.take (min rs.length s.MaxPostContext) = rs.take s.MaxPostContext := by
      rw [Nat.min_comm]; exact take_min_length _ _
    have hPre2 : List.foldl (fun acc pc => acc ++ (pc ++ ['\n'])) []
        (CheckQuota (ProcessLines (ProcessBufferLine (CheckQuota s) e1) rs)).PreContext =
        unlines (lastLines s.MaxPreContext (rs.drop s.MaxPostContext)) := by
      rw [foldl_pre_eq, hg1, p2, List.nil_append]
    rw [hEWrun, hsplit, hstep2]
    refine ⟨_, _, by rw [hg4, p1, List.append_assoc]; rfl, he1, he2, ?_, ?_, hPre2, ?_, ?_, ?_⟩
    · show [] ++ joinPost _ 0 _ = _
      rw [List.nil_append, htake]
    · show [] ++ joinPost _ 0 _ = _
      rw [List.nil_append, joinPost_take]
    · show List.foldl (fun acc pc => acc ++ (pc ++ ['\n'])) [] _ = _
      rw [hPre2, lastLines_drop]
    · refine ⟨(rs.drop (min rs.length s.MaxPostContext)).take
        (rs.length - min rs.length s.MaxPostContext -
          min s.MaxPreContext (rs.length - min rs.length s.MaxPostContext)), ?_⟩
      unfold lastLines
      have e1' : rs.length - min s.MaxPreContext (rs.length - min rs.length s.MaxPostContext) =
          min rs.length s.MaxPostContext +
            (rs.length - min rs.length s.MaxPostContext -
              min s.MaxPreContext (rs.length - min rs.length s.MaxPostContext)) := by omega
      rw [e1', ← List.drop_drop, List.append_assoc, List.take_append_drop, List.take_append_drop]
    · intro hk
      show List.foldl (fun acc pc => acc ++ (pc ++ ['\n'])) [] _ = _
      rw [hPre2, List.drop_eq_nil_of_le hk]
      simp [lastLines, unlines]

/-- C9 on the sample handler with `MaxPostContext = 2` and `MaxPreContext = 2`: between a
warning and an error five regular lines arrive; the first two are the post-context of the
warning and the last two the pre-context of the error. -/
theorem contexts_between_events_witness :
    (InitializeBuildingStructures sampleWindowHandler).queue QueueSel.BuildProcessingQueue = [] ∧
    (∀ l ∈ "a.c:1: warning".toList ::
        ["r1".toList, "r2".toList, "r3".toList, "r4".toList, "r5".toList] ++
        ["b: error".toList], '\n' ∉ l ∧ '\x00' ∉ l) ∧
    ∃ ev1 ev2,
      (ReadChunks (InitializeBuildingStructures sampleWindowHandler)
        (["a.c:1: warning\nr1\nr".toList, "2\nr3\nr4\nr5\nb: error\n".toList].map
          (fun d => (QueueSel.BuildProcessingQueue, d)))).ErrorsAndWarnings =
        (InitializeBuildingStructures sampleWindowHandler).ErrorsAndWarnings ++ [ev1, ev2] ∧
      ev1.PostContext = "r1\nr2".toList ∧ ev2.PreContext = "r4\nr5\n".toList := by
  refine ⟨rfl, by decide, ?_⟩
  obtain ⟨ev1, ev2, h1, _, _, _, h5, h6, _, _, _⟩ :=
    contexts_between_events (InitializeBuildingStructures sampleWindowHandler)
      QueueSel.BuildProcessingQueue "a.c:1: warning".toList
      ["r1".toList, "r2".toList, "r3".toList, "r4".toList, "r5".toList] "b: error".toList
      ["a.c:1: warning\nr1\nr".toList, "2\nr3\nr4\nr5\nb: error\n".toList]
      rfl (by decide) (by decide)
      (by
        rw [ProcessBuffer_eq _ _ _ ["a.c:1: warning".toList] [] (by decide) (by decide)
          (by decide)]
        decide)
      (by
        rw [ProcessBuffer_eq _ _ _ ["a.c:1: warning".toList] [] (by decide) (by decide)
          (by decide)]
        decide)
      (by decide)
  exact ⟨ev1, ev2, h1, h5.trans (by decide), h6.trans (by decide)⟩

/-! ### C11: launcher mode -/

theorem length_modifyAt {α : Type} (f : α → α) (n : Nat) (l : List α) :
    (modifyAt f n l).length = l.length := by
  induction l generalizing n with
  | nil => cases n <;> rfl
  | cons x xs ih =>
    cases n with
    | zero => rfl
    | succ n => simp [modifyAt, ih]

theorem ProcessSingleLine_launcher (h : cmCTestBuildHandler) (hl : h.UseCTestLaunch = true)
    (data : Str) : ProcessSingleLine h data = LineType.b_REGULAR_LINE := by
  unfold ProcessSingleLine
  simp [hl]


theorem LauncherInv_ProcessBufferLine (n : Nat) (e w : Int) (g : cmCTestBuildHandler)
    (cur : List Char) (hg : LauncherInv n e w g) : LauncherInv n e w (ProcessBufferLine g cur) := by
  obtain ⟨hl, hn, he, hw⟩ := hg
  have hreg := ProcessSingleLine_launcher g hl (c_str cur)
  by_cases hc : g.ErrorsAndWarnings ≠ [] ∧ g.LastErrorOrWarning ≠ g.ErrorsAndWarnings.length ∧
      g.PostContextCount < g.MaxPostContext
  · rw [ProcessBufferLine_post g cur hreg hc]
    exact ⟨hl, by simp [length_modifyAt, hn], he, hw⟩
  · rw [ProcessBufferLine_pre g cur hreg hc]
    exact ⟨hl, hn, he, hw⟩

theorem LauncherInv_CheckQuota (n : Nat) (e w : Int) (g : cmCTestBuildHandler)
    (hg : LauncherInv n e w g) : LauncherInv n e w (CheckQuota g) := by
  obtain ⟨hl, hn, he, hw⟩ := hg
  have hf := CheckQuota_fields g
  exact ⟨(SameSettings_CheckQuota g).1.trans hl, by rw [hf.2.2.1]; exact hn,
    hf.1.trans he, hf.2.1.trans hw⟩

theorem LauncherInv_ReadChunks (n : Nat) (e w : Int) (g : cmCTestBuildHandler)
    (chunks : List (QueueSel × List Char)) (hg : LauncherInv n e w g) :
    LauncherInv n e w (ReadChunks g chunks) :=
  ReadChunks_preserves (LauncherInv n e w) (fun _ _ _ _ hQ => hQ)
    (fun g hQ => LauncherInv_CheckQuota n e w g hQ)
    (fun g cur _ hQ => LauncherInv_ProcessBufferLine n e w _ cur (LauncherInv_CheckQuota n e w g hQ))
    g chunks hg

/-- C11. In launcher mode `ProcessSingleLine` returns Regular for every line, whatever the
rule lists and the quota flags of the handler are.  Hence `ProcessBuffer` creates no event
and leaves `TotalErrors` and `TotalWarnings` as they are, for every chunk on either queue;
and at every point of a run (after the reset of `RunMakeCommand` and any chunks read so
far) the event sequence is empty before and after the call, the totals are zero. -/
theorem ProcessBuffer_launcher (h : cmCTestBuildHandler) (hl : h.UseCTestLaunch = true) :
    (∀ data, ProcessSingleLine h data = LineType.b_REGULAR_LINE) ∧
    (∀ data q,
      (ProcessBuffer h data q).ErrorsAndWarnings.length = h.ErrorsAndWarnings.length ∧
      (ProcessBuffer h data q).TotalErrors = h.TotalErrors ∧
      (ProcessBuffer h data q).TotalWarnings = h.TotalWarnings) ∧
    (∀ chunks data q,
      (ProcessBuffer (RunState h chunks) data q).ErrorsAndWarnings =
        (RunState h chunks).ErrorsAndWarnings ∧
      (ProcessBuffer (RunState h chunks) data q).TotalErrors = (RunState h chunks).TotalErrors ∧
      (ProcessBuffer (RunState h chunks) data q).TotalWarnings =
        (RunState h chunks).TotalWarnings ∧
      (RunState h chunks).ErrorsAndWarnings = [] ∧
      (RunState h chunks).TotalErrors = 0 ∧ (RunState h chunks).TotalWarnings = 0) := by
  refine ⟨ProcessSingleLine_launcher h hl, ?_, ?_⟩
  · intro data q
    have := LauncherInv_ReadChunks _ _ _ h [(q, data)] ⟨hl, rfl, rfl, rfl⟩
    exact ⟨this.2.1, this.2.2.1, this.2.2.2⟩
  · intro chunks data q
    have h0 : LauncherInv 0 0 0 (InitializeBuildingStructures h) := ⟨hl, rfl, rfl, rfl⟩
    have h1 : LauncherInv 0 0 0 (RunState h chunks) := LauncherInv_ReadChunks _ _ _ _ chunks h0
    have h2 : LauncherInv 0 0 0 (ProcessBuffer (RunState h chunks) data q) :=
      LauncherInv_ReadChunks _ _ _ _ [(q, data)] h1
    have e1 := List.length_eq_zero.mp h1.2.1
    have e2 := List.length_eq_zero.mp h2.2.1
    exact ⟨by rw [e1, e2], by rw [h1.2.2.1, h2.2.2.1], by rw [h1.2.2.2, h2.2.2.2], e1,
      h1.2.2.1, h1.2.2.2⟩

/-- C11 on the sample handler in launcher mode: a chunk with a line that the Error rule
matches and a line that the Warning rule matches. -/
theorem ProcessBuffer_launcher_witness :
    sampleLaunchHandler.UseCTestLaunch = true ∧
    ProcessSingleLine sampleLaunchHandler "a.c:1: error: e".toList = LineType.b_REGULAR_LINE ∧
    (ProcessBuffer (RunState sampleLaunchHandler []) "a.c:1: error: e\nwarning\n".toList
        QueueSel.BuildProcessingQueue).ErrorsAndWarnings =
      (RunState sampleLaunchHandler []).ErrorsAndWarnings ∧
    (RunState sampleLaunchHandler []).ErrorsAndWarnings = [] :=
  ⟨rfl, (ProcessBuffer_launcher sampleLaunchHandler rfl).1 "a.c:1: error: e".toList,
    ((ProcessBuffer_launcher sampleLaunchHandler rfl).2.2 [] "a.c:1: error: e\nwarning\n".toList
      QueueSel.BuildProcessingQueue).1,
    ((ProcessBuffer_launcher sampleLaunchHandler rfl).2.2 [] "a.c:1: error: e\nwarning\n".toList
      QueueSel.BuildProcessingQueue).2.2.2.1⟩

/-! ### The scan of a launch directory without fragments -/

theorem IdentifyFragments_none (FTC : cmFileTimeCache) (launchDir : List Str)
    (hdir : ∀ f ∈ launchDir, IsLaunchedErrorFile f = false ∧ IsLaunchedWarningFile f = false)
    (nE nW : Int) (fragments : List Str) (h : cmCTestBuildHandler) :
    IdentifyFragments FTC launchDir nE nW fragments h = (fragments, h) := by
  induction launchDir with
  | nil => rfl
  | cons f rest ih =>
    have hf := hdir f (by simp)
    rw [IdentifyFragments]
    simp only [hf.1, hf.2, Bool.false_eq_true, false_and, if_false]
    exact ih (fun g hg => hdir g (by simp [hg]))

/-! ### C14: the order of built-in and custom patterns -/

/-- C14, counterexample.  With one custom pattern per list, each of the four lists starts
with the custom pattern and continues with the built-in ones: no list has its built-in
patterns first. -/
theorem ProcessHandlerRules_builtin_first_counterexample :
    (ProcessHandlerRules literalCompiler
        (PopulateCustomVectors sampleCTest sampleHandler)).CustomErrorMatches =
      "ctest_custom_error_match".toList :: cmCTestErrorMatches.map String.toList ∧
    (ProcessHandlerRules literalCompiler
        (PopulateCustomVectors sampleCTest sampleHandler)).ErrorMatchRegex =
      ("ctest_custom_error_match".toList :: cmCTestErrorMatches.map String.toList).map
        literalCompiler.construct ∧
    ¬ BuiltinsFirst cmCTestErrorMatches ["ctest_custom_error_match".toList]
      (ProcessHandlerRules literalCompiler
        (PopulateCustomVectors sampleCTest sampleHandler)).CustomErrorMatches ∧
    ¬ BuiltinsFirst cmCTestErrorExceptions ["ctest_custom_error_exception".toList]
      (ProcessHandlerRules literalCompiler
        (PopulateCustomVectors sampleCTest sampleHandler)).CustomErrorExceptions ∧
    ¬ BuiltinsFirst cmCTestWarningMatches ["ctest_custom_warning_match".toList]
      (ProcessHandlerRules literalCompiler
        (PopulateCustomVectors sampleCTest sampleHandler)).CustomWarningMatches ∧
    ¬ BuiltinsFirst cmCTestWarningExceptions ["ctest_custom_warning_exception".toList]
      (ProcessHandlerRules literalCompiler
        (PopulateCustomVectors sampleCTest sampleHandler)).CustomWarningExceptions := by
  refine ⟨by decide, rfl, by decide, by decide, by decide, by decide⟩

/-- C14, as the code has it.  In each of the four rule lists used for classification the
patterns that `PopulateCustomVectors` stored (the project-supplied custom patterns) come
first and the built-in patterns are appended after them, in the order of their table; the
list of expressions has one expression per pattern string, in the same order. -/
theorem ProcessHandlerRules_custom_first (ctest : cmCTest) (rc : RegexCompiler)
    (h : cmCTestBuildHandler) :
    ((ProcessHandlerRules rc (PopulateCustomVectors ctest h)).CustomErrorMatches =
        ctest.PopulateCustomVector "CTEST_CUSTOM_ERROR_MATCH".toList h.CustomErrorMatches ++
          cmCTestErrorMatches.map String.toList ∧
      (ProcessHandlerRules rc (PopulateCustomVectors ctest h)).ErrorMatchRegex =
        (ctest.PopulateCustomVector "CTEST_CUSTOM_ERROR_MATCH".toList
            h.CustomErrorMatches).map rc.construct ++
          (cmCTestErrorMatches.map String.toList).map rc.construct) ∧
    ((ProcessHandlerRules rc (PopulateCustomVectors ctest h)).CustomErrorExceptions =
        ctest.PopulateCustomVector "CTEST_CUSTOM_ERROR_EXCEPTION".toList
            h.CustomErrorExceptions ++
          cmCTestErrorExceptions.map String.toList ∧
      (ProcessHandlerRules rc (PopulateCustomVectors ctest h)).ErrorExceptionRegex =
        (ctest.PopulateCustomVector "CTEST_CUSTOM_ERROR_EXCEPTION".toList
            h.CustomErrorExceptions).map rc.construct ++
          (cmCTestErrorExceptions.map String.toList).map rc.construct) ∧
    ((ProcessHandlerRules rc (PopulateCustomVectors ctest h)).CustomWarningMatches =
        ctest.PopulateCustomVector "CTEST_CUSTOM_WARNING_MATCH".toList
            h.CustomWarningMatches ++
          cmCTestWarningMatches.map String.toList ∧
      (ProcessHandlerRules rc (PopulateCustomVectors ctest h)).WarningMatchRegex =
        (ctest.PopulateCustomVector "CTEST_CUSTOM_WARNING_MATCH".toList
            h.CustomWarningMatches).map rc.construct ++
          (cmCTestWarningMatches.map String.toList).map rc.construct) ∧
    ((ProcessHandlerRules rc (PopulateCustomVectors ctest h)).CustomWarningExceptions =
        ctest.PopulateCustomVector "CTEST_CUSTOM_WARNING_EXCEPTION".toList
            h.CustomWarningExceptions ++
          cmCTestWarningExceptions.map String.toList ∧
      (ProcessHandlerRules rc (PopulateCustomVectors ctest h)).WarningExceptionRegex =
        (ctest.PopulateCustomVector "CTEST_CUSTOM_WARNING_EXCEPTION".toList
            h.CustomWarningExceptions).map rc.construct ++
          (cmCTestWarningExceptions.map String.toList).map rc.construct) := by
  have key : ∀ g : cmCTestBuildHandler,
      (ProcessHandlerRules rc g).CustomErrorMatches =
        g.CustomErrorMatches ++ cmCTestErrorMatches.map String.toList ∧
      (ProcessHandlerRules rc g).ErrorMatchRegex =
        (g.CustomErrorMatches ++ cmCTestErrorMatches.map String.toList).map rc.construct ∧
      (ProcessHandlerRules rc g).CustomErrorExceptions =
        g.CustomErrorExceptions ++ cmCTestErrorExceptions.map String.toList ∧
      (ProcessHandlerRules rc g).ErrorExceptionRegex =
        (g.CustomErrorExceptions ++ cmCTestErrorExceptions.map String.toList).map
          rc.construct ∧
      (ProcessHandlerRules rc g).CustomWarningMatches =
        g.CustomWarningMatches ++ cmCTestWarningMatches.map String.toList ∧
      (ProcessHandlerRules rc g).WarningMatchRegex =
        (g.CustomWarningMatches ++ cmCTestWarningMatches.map String.toList).map rc.construct ∧
      (ProcessHandlerRules rc g).CustomWarningExceptions =
        g.CustomWarningExceptions ++ cmCTestWarningExceptions.map String.toList ∧
      (ProcessHandlerRules rc g).WarningExceptionRegex =
        (g.CustomWarningExceptions ++ cmCTestWarningExceptions.map String.toList).map
          rc.construct :=
    fun g => ⟨rfl, rfl, rfl, rfl, rfl, rfl, rfl, rfl⟩
  have pop : (PopulateCustomVectors ctest h).CustomErrorMatches =
        ctest.PopulateCustomVector "CTEST_CUSTOM_ERROR_MATCH".toList h.CustomErrorMatches ∧
      (PopulateCustomVectors ctest h).CustomErrorExceptions =
        ctest.PopulateCustomVector "CTEST_CUSTOM_ERROR_EXCEPTION".toList
          h.CustomErrorExceptions ∧
      (PopulateCustomVectors ctest h).CustomWarningMatches =
        ctest.PopulateCustomVector "CTEST_CUSTOM_WARNING_MATCH".toList
          h.CustomWarningMatches ∧
      (PopulateCustomVectors ctest h).CustomWarningExceptions =
        ctest.PopulateCustomVector "CTEST_CUSTOM_WARNING_EXCEPTION".toList
          h.CustomWarningExceptions := by
    unfold PopulateCustomVectors
    simp only
    split_ifs <;> exact ⟨rfl, rfl, rfl, rfl⟩
  obtain ⟨k1, k2, k3, k4, k5, k6, k7, k8⟩ := key (PopulateCustomVectors ctest h)
  obtain ⟨p1, p2, p3, p4⟩ := pop
  rw [k1, k2, k3, k4, k5, k6, k7, k8, p1, p2, p3, p4]
  simp only [List.map_append, and_self]

/-! ### C12: colour escape sequences -/


theorem RemoveColor_plain (s : Str) (hs : HasColor s = false) : RemoveColor s = s := by
  unfold RemoveColor
  induction s with
  | nil => rfl
  | cons c cs ih =>
    unfold HasColor at hs
    simp only [Bool.or_eq_false_iff] at hs
    have h1 : colorCodeLength (c :: cs) = none := by
      cases hc : colorCodeLength (c :: cs) with
      | none => rfl
      | some n => rw [hc] at hs; simp at hs
    rw [removeColorFrom, h1]
    simp only
    rw [ih hs.2]

/-- C12, counterexample.  The line `er␛[␛[0mmror` loses the sequence `␛[0m`; what is left,
`er␛[mror`, holds a sequence again.  The Error rule `error` of the sample handler does not
match the line (it sees `er␛[mror`) but matches the line with its sequences removed (of
which it sees `error`). -/
theorem ProcessSingleLine_color_counterexample :
    sampleColorHandler.ColorRemover = RemoveColor ∧
    RemoveColor "er\x1b[\x1b[0mmror".toList = "er\x1b[mror".toList ∧
    ProcessSingleLine sampleColorHandler "er\x1b[\x1b[0mmror".toList =
      LineType.b_REGULAR_LINE ∧
    ProcessSingleLine sampleColorHandler (RemoveColor "er\x1b[\x1b[0mmror".toList) =
      LineType.b_ERROR_LINE := by
  refine ⟨rfl, by decide, by decide, by decide⟩

/-- C12, amended.  With the colour remover of `ProcessHandler`, a line and the same line
with its ANSI colour escape sequences removed get the same kind from `ProcessSingleLine`,
for every rule set, mode and quota state, provided that removing the sequences leaves a
text without escape sequences; in particular a plain line and every colorized form of it
classify identically. -/
theorem ProcessSingleLine_color (h : cmCTestBuildHandler) (data : Str)
    (hc : h.ColorRemover = RemoveColor) (hplain : HasColor (RemoveColor data) = false) :
    ProcessSingleLine h data = ProcessSingleLine h (RemoveColor data) ∧
    (∀ colorized, RemoveColor colorized = RemoveColor data →
      ProcessSingleLine h colorized = ProcessSingleLine h (RemoveColor data)) := by
  have key : ∀ a b, RemoveColor a = RemoveColor b →
      ProcessSingleLine h a = ProcessSingleLine h b := by
    intro a b hab
    unfold ProcessSingleLine
    simp only [hc, hab]
  have hidem : RemoveColor (RemoveColor data) = RemoveColor data :=
    RemoveColor_plain _ hplain
  exact ⟨key _ _ hidem.symm, fun c hcE => key _ _ (hcE.trans hidem.symm)⟩

/-- C12 on the sample handler: a colorized error line and its plain form. -/
theorem ProcessSingleLine_color_witness :
    sampleColorHandler.ColorRemover = RemoveColor ∧
    HasColor (RemoveColor "a.c:1: \x1b[01;31merror\x1b[0m: x".toList) = false ∧
    RemoveColor "a.c:1: \x1b[01;31merror\x1b[0m: x".toList = "a.c:1: error: x".toList ∧
    ProcessSingleLine sampleColorHandler "a.c:1: \x1b[01;31merror\x1b[0m: x".toList =
      ProcessSingleLine sampleColorHandler
        (RemoveColor "a.c:1: \x1b[01;31merror\x1b[0m: x".toList) :=
  ⟨rfl, by decide, by decide,
    (ProcessSingleLine_color sampleColorHandler "a.c:1: \x1b[01;31merror\x1b[0m: x".toList
      rfl (by decide)).1⟩

/-! ### C15: the build process cannot be spawned -/

theorem ProcessBuffer_nil (h : cmCTestBuildHandler) (q : QueueSel) (hq : '\n' ∉ h.queue q) :
    ProcessBuffer h [] q =
      withQueues (CheckQuota h) h.BuildProcessingQueue h.BuildProcessingErrorQueue
        (h.BuildOutputLogSize % 2 ^ 64) := by
  rw [ProcessBuffer_eq h [] q [] (h.queue q) (by simp [unlines]) (by simp) hq]
  cases q <;> rfl

theorem CheckQuota_queues (h : cmCTestBuildHandler) :
    (CheckQuota h).BuildProcessingQueue = h.BuildProcessingQueue ∧
    (CheckQuota h).BuildProcessingErrorQueue = h.BuildProcessingErrorQueue ∧
    (CheckQuota h).BuildOutputLogSize = h.BuildOutputLogSize := by
  unfold CheckQuota
  simp only
  split_ifs <;> exact ⟨rfl, rfl, rfl⟩

/-- Without output, and with no complete line left in the queue of standard error,
reading the output only resets the building structures and checks the quotas. -/
theorem ReadOutput_nil (h : cmCTestBuildHandler) (tag binaryDir : Str)
    (hq : '\n' ∉ h.BuildProcessingErrorQueue) :
    ReadOutput h tag binaryDir [] =
      CheckQuota (CheckQuota (InitializeBuildingStructures (LaunchHelper tag binaryDir h))) := by
  have hq0 : (InitializeBuildingStructures (LaunchHelper tag binaryDir h)).BuildProcessingErrorQueue
      = h.BuildProcessingErrorQueue := by
    unfold InitializeBuildingStructures LaunchHelper
    split_ifs <;> rfl
  have c1 := CheckQuota_queues (InitializeBuildingStructures (LaunchHelper tag binaryDir h))
  have c2 := CheckQuota_queues (CheckQuota (InitializeBuildingStructures
    (LaunchHelper tag binaryDir h)))
  have z1 : (InitializeBuildingStructures (LaunchHelper tag binaryDir h)).BuildProcessingQueue
      = [] := rfl
  have z2 : (InitializeBuildingStructures (LaunchHelper tag binaryDir h)).BuildOutputLogSize
      = 0 := rfl
  unfold ReadOutput ReadChunks
  simp only [List.foldl_nil]
  rw [ProcessBuffer_nil _ QueueSel.BuildProcessingQueue (by
    simp [cmCTestBuildHandler.queue, InitializeBuildingStructures])]
  rw [ProcessBuffer_nil _ QueueSel.BuildProcessingErrorQueue (by
    simp only [cmCTestBuildHandler.queue, withQueues]
    rw [hq0]; exact hq)]
  rw [CheckQuota_withQueues]
  simp only [withQueues, z1, z2]
  conv_rhs => rw [show CheckQuota (CheckQuota (InitializeBuildingStructures
      (LaunchHelper tag binaryDir h))) =
    withQueues (CheckQuota (CheckQuota (InitializeBuildingStructures
      (LaunchHelper tag binaryDir h))))
      (CheckQuota (CheckQuota (InitializeBuildingStructures
        (LaunchHelper tag binaryDir h)))).BuildProcessingQueue
      (CheckQuota (CheckQuota (InitializeBuildingStructures
        (LaunchHelper tag binaryDir h)))).BuildProcessingErrorQueue
      (CheckQuota (CheckQuota (InitializeBuildingStructures
        (LaunchHelper tag binaryDir h)))).BuildOutputLogSize from rfl]
  rw [c2.1, c2.2.1, c2.2.2, c1.1, c1.2.1, c1.2.2, z1, z2, hq0]
  rfl

theorem ReplaceString_nil (replace with_ : Str) : ReplaceString [] replace with_ = [] := by
  unfold ReplaceString
  split_ifs
  · rfl
  · rfl

theorem CleanupStrings_single (d : Str) (ev : cmCTestBuildErrorWarning)
    (hpre : ev.PreContext = []) (hpost : ev.PostContext = []) :
    ∃ t, CleanupStrings d [ev] = [{ ev with Text := t }] ∧
      (CleanupStrings d [ev]).map (fun e => e.Text) = [t] ∧ (d = [] → t = ev.Text) := by
  unfold CleanupStrings
  by_cases hd : d = []
  · simp only [hd, ne_eq, not_true_eq_false, if_false]
    exact ⟨ev.Text, rfl, rfl, fun _ => rfl⟩
  · rw [if_pos hd]
    simp only [List.map_cons, List.map_nil, hpre, hpost, ReplaceString_nil]
    refine ⟨_, ?_, rfl, fun h0 => absurd h0 hd⟩
    cases ev
    simp only at hpre hpost
    subst hpre hpost
    rfl

theorem GenerateXMLLogScrapedLoop_single_error (st : cmSystemTools) (srcdir : Str)
    (rules : List cmCTestCompileErrorWarningRex) (cm : cmCTestBuildErrorWarning)
    (nE nW : Int) (hk : cm.Error = true) (hn : nE ≠ 0) :
    (GenerateXMLLogScrapedLoop st srcdir rules [cm] nE nW).1 =
      [WriteBuildEvent (ExtractSourceLocation st srcdir rules cm) (nE - 1) nW] := by
  rw [GenerateXMLLogScrapedLoop]
  simp only [hk, hn, ne_eq, not_false_eq_true, true_or, and_self, if_true,
    GenerateXMLLogScrapedLoop]

/-- C15, counterexample.  The command cannot be spawned.  In launcher mode the Error event
is recorded and counted, but the body of the report is made of the fragment files only
and does not show it; in log-scrape mode with `MaxErrors = 0` no element is written. -/
theorem RunMakeCommand_spawn_failure_counterexample :
    (RunMakeCommand sampleLaunchHandler ["make".toList] "T".toList "/b".toList (some 0)
        (sampleSpawnFailure "no such file") []).handler.ErrorsAndWarnings =
      [SpawnError "no such file".toList] ∧
    (RunMakeCommand sampleLaunchHandler ["make".toList] "T".toList "/b".toList (some 0)
        (sampleSpawnFailure "no such file") []).handler.TotalErrors = 1 ∧
    (ProcessHandlerReport sampleSystemTools (cmFileTimeCache.ofTimes sampleTimes) [] [] []
        (RunMakeCommand sampleLaunchHandler ["make".toList] "T".toList "/b".toList (some 0)
          (sampleSpawnFailure "no such file") []).handler).1 = ReportBody.Launched [] ∧
    (RunMakeCommand sampleHandlerNoErrors ["make".toList] "T".toList "/b".toList (some 0)
        (sampleSpawnFailure "no such file") []).handler.ErrorsAndWarnings =
      [SpawnError "no such file".toList] ∧
    (ProcessHandlerReport sampleSystemTools (cmFileTimeCache.ofTimes sampleTimes) [] [] []
        (RunMakeCommand sampleHandlerNoErrors ["make".toList] "T".toList "/b".toList (some 0)
          (sampleSpawnFailure "no such file") []).handler).1 = ReportBody.LogScraped [] := by
  have e1 : RunMakeCommand sampleLaunchHandler ["make".toList] "T".toList "/b".toList (some 0)
      (sampleSpawnFailure "no such file") [] =
      { result := true
        handler :=
          { CheckQuota (CheckQuota (InitializeBuildingStructures
              (LaunchHelper "T".toList "/b".toList sampleLaunchHandler))) with
            ErrorsAndWarnings := [SpawnError "no such file".toList]
            TotalErrors := 1 }
        retVal := some 0
        reporter := none } := by
    unfold RunMakeCommand
    simp only [sampleSpawnFailure]
    rw [ReadOutput_nil _ _ _ (by decide)]
    rfl
  have e2 : RunMakeCommand sampleHandlerNoErrors ["make".toList] "T".toList "/b".toList (some 0)
      (sampleSpawnFailure "no such file") [] =
      { result := true
        handler :=
          { CheckQuota (CheckQuota (InitializeBuildingStructures
              (LaunchHelper "T".toList "/b".toList sampleHandlerNoErrors))) with
            ErrorsAndWarnings := [SpawnError "no such file".toList]
            TotalErrors := 1 }
        retVal := some 0
        reporter := none } := by
    unfold RunMakeCommand
    simp only [sampleSpawnFailure]
    rw [ReadOutput_nil _ _ _ (by decide)]
    rfl
  rw [e1, e2]
  refine ⟨rfl, rfl, by decide, rfl, by decide⟩

theorem SameSettings_ReadOutput (h : cmCTestBuildHandler) (tag binaryDir : Str)
    (chunks : List (QueueSel × List Char)) :
    SameSettings (LaunchHelper tag binaryDir h) (ReadOutput h tag binaryDir chunks) := by
  unfold ReadOutput
  exact (((SameSettings_Initialize _).trans_settings (SameSettings_ReadChunks _ _)).trans_settings
    (SameSettings_ProcessBuffer _ _ _)).trans_settings (SameSettings_ProcessBuffer _ _ _)

theorem LaunchHelper_maxima (h : cmCTestBuildHandler) (tag binaryDir : Str) :
    (LaunchHelper tag binaryDir h).MaxErrors = h.MaxErrors ∧
    (LaunchHelper tag binaryDir h).MaxWarnings = h.MaxWarnings := by
  unfold LaunchHelper
  split_ifs <;> exact ⟨rfl, rfl⟩

/-- C15, amended.  When the build process cannot be spawned (the chain has finished with
the exception `Spawn`), `RunMakeCommand` appends a single event to the events recorded
while the output was read: an Error with `LogLine` 1, empty contexts and the text
`*** ERROR executing: ` followed by the reason; `TotalErrors` grows by one.  In log-scrape
mode, when no event was recorded from the output and `MaxErrors` is not zero, the body of
the report consists of exactly one element, an `Error` element for that event, with its
text after the cleanup of the directory names. -/
theorem RunMakeCommand_spawn_failure (h : cmCTestBuildHandler) (args : List Str)
    (tag binaryDir : Str) (retVal : Option Int) (chain : cmUVProcessChain)
    (launchDir : List Str)
    (hargs : args ≠ []) (hfin : chain.Finished = true)
    (hexc : chain.GetException.1 = ExceptionCode.Spawn) :
    (∃ ev,
      (RunMakeCommand h args tag binaryDir retVal chain launchDir).handler.ErrorsAndWarnings =
        (ReadOutput h tag binaryDir chain.chunks).ErrorsAndWarnings ++ [ev] ∧
      ev.Error = true ∧ ev.LogLine = 1 ∧ ev.PreContext = [] ∧ ev.PostContext = [] ∧
      ev.Text = "*** ERROR executing: ".toList ++ chain.GetException.2) ∧
    (RunMakeCommand h args tag binaryDir retVal chain launchDir).handler.TotalErrors =
      (ReadOutput h tag binaryDir chain.chunks).TotalErrors + 1 ∧
    (RunMakeCommand h args tag binaryDir retVal chain launchDir).handler.TotalWarnings =
      (ReadOutput h tag binaryDir chain.chunks).TotalWarnings ∧
    (∀ (st : cmSystemTools) (FTC : cmFileTimeCache) (fragmentDir : List Str)
        (SourceDirectory BuildDirectory : Str),
      (ReadOutput h tag binaryDir chain.chunks).UseCTestLaunch = false →
      (ReadOutput h tag binaryDir chain.chunks).ErrorsAndWarnings = [] →
      h.MaxErrors ≠ 0 →
      ∃ x,
        (ProcessHandlerReport st FTC fragmentDir SourceDirectory BuildDirectory
          (RunMakeCommand h args tag binaryDir retVal chain launchDir).handler).1 =
          ReportBody.LogScraped [x] ∧
        x.Name = "Error".toList ∧ x.BuildLogLine = 1 ∧ x.PreContext = [] ∧
        x.PostContext.head? = some [] ∧
        (CleanupStrings (SimplifyDir BuildDirectory)
          (CleanupStrings (SimplifyDir SourceDirectory)
            [SpawnError chain.GetException.2])).map (fun e => e.Text) = [x.Text] ∧
        (SimplifyDir SourceDirectory = [] → SimplifyDir BuildDirectory = [] →
          x.Text = "*** ERROR executing: ".toList ++ chain.GetException.2)) := by
  have hr : RunMakeCommand h args tag binaryDir retVal chain launchDir =
      { result := true
        handler :=
          { ReadOutput h tag binaryDir chain.chunks with
            ErrorsAndWarnings :=
              (ReadOutput h tag binaryDir chain.chunks).ErrorsAndWarnings ++
                [SpawnError chain.GetException.2]
            TotalErrors := (ReadOutput h tag binaryDir chain.chunks).TotalErrors + 1 }
        retVal := retVal
        reporter := none } := by
    unfold RunMakeCommand
    simp only [hargs, if_false, hfin, if_true, hexc]
  rw [hr]
  refine ⟨⟨_, rfl, rfl, rfl, rfl, rfl, rfl⟩, rfl, rfl, ?_⟩
  intro st FTC fragmentDir SourceDirectory BuildDirectory hmode hnone hmax
  obtain ⟨t1, c1, _, c1t⟩ := CleanupStrings_single (SimplifyDir SourceDirectory)
    (SpawnError chain.GetException.2) rfl rfl
  obtain ⟨t2, c2, c2m, c2t⟩ := CleanupStrings_single (SimplifyDir BuildDirectory)
    { SpawnError chain.GetException.2 with Text := t1 } rfl rfl
  have hmax' : (ReadOutput h tag binaryDir chain.chunks).MaxErrors ≠ 0 := by
    rw [(SameSettings_ReadOutput h tag binaryDir chain.chunks).2.2.2.2.2.2.1,
      (LaunchHelper_maxima h tag binaryDir).1]
    exact hmax
  refine ⟨WriteBuildEvent (ExtractSourceLocation st SourceDirectory
      (ReadOutput h tag binaryDir chain.chunks).ErrorWarningFileLineRegex
      { SpawnError chain.GetException.2 with Text := t2 })
      ((ReadOutput h tag binaryDir chain.chunks).MaxErrors - 1)
      (ReadOutput h tag binaryDir chain.chunks).MaxWarnings, ?_, ?_, ?_, ?_, ?_, ?_, ?_⟩
  · unfold ProcessHandlerReport
    simp only [hmode, hnone, List.nil_append, c1, c2, Bool.false_eq_true, if_false]
    unfold GenerateXMLLogScraped
    simp only
    rw [GenerateXMLLogScrapedLoop_single_error _ _ _ _ _ _ rfl hmax']
  · simp [WriteBuildEvent, (ExtractSourceLocation_frame _ _ _ _).1, SpawnError]
  · simp [WriteBuildEvent, (ExtractSourceLocation_frame _ _ _ _).2.1, SpawnError]
  · simp [WriteBuildEvent, (ExtractSourceLocation_frame _ _ _ _).2.2.2.1, SpawnError]
  · have hp := (ExtractSourceLocation_frame st SourceDirectory
      (ReadOutput h tag binaryDir chain.chunks).ErrorWarningFileLineRegex
      { SpawnError chain.GetException.2 with Text := t2 }).2.2.2.2
    unfold WriteBuildEvent
    simp only [hp]
    split_ifs <;> rfl
  · rw [c1, c2m]
    simp [WriteBuildEvent, (ExtractSourceLocation_frame _ _ _ _).2.2.1]
  · intro hs hb
    have := c2t hb
    have := c1t hs
    simp [WriteBuildEvent, (ExtractSourceLocation_frame _ _ _ _).2.2.1, *, SpawnError]

/-- C15 on the sample handler in log-scrape mode (`MaxErrors = 1`), with short directory
names: the report has one `Error` element with the text of the spawn failure. -/
theorem RunMakeCommand_spawn_failure_witness :
    ["make".toList] ≠ [] ∧ (sampleSpawnFailure "no such file").Finished = true ∧
    (sampleSpawnFailure "no such file").GetException.1 = ExceptionCode.Spawn ∧
    (RunMakeCommand sampleHandler ["make".toList] "T".toList "/b".toList (some 0)
      (sampleSpawnFailure "no such file") []).handler.TotalErrors =
      (ReadOutput sampleHandler "T".toList "/b".toList
        (sampleSpawnFailure "no such file").chunks).TotalErrors + 1 ∧
    ∃ x,
      (ProcessHandlerReport sampleSystemTools (cmFileTimeCache.ofTimes sampleTimes) []
        "/s".toList "/b".toList
        (RunMakeCommand sampleHandler ["make".toList] "T".toList "/b".toList (some 0)
          (sampleSpawnFailure "no such file") []).handler).1 = ReportBody.LogScraped [x] ∧
      x.Name = "Error".toList ∧
      x.Text = "*** ERROR executing: no such file".toList := by
  have key := RunMakeCommand_spawn_failure sampleHandler ["make".toList] "T".toList
    "/b".toList (some 0) (sampleSpawnFailure "no such file") [] (by decide) rfl rfl
  have hs : ReadOutput sampleHandler "T".toList "/b".toList
      (sampleSpawnFailure "no such file").chunks =
      CheckQuota (CheckQuota (InitializeBuildingStructures
        (LaunchHelper "T".toList "/b".toList sampleHandler))) :=
    ReadOutput_nil _ _ _ (by decide)
  obtain ⟨x, hx1, hx2, _, _, _, _, hx7⟩ := key.2.2.2 sampleSystemTools
    (cmFileTimeCache.ofTimes sampleTimes) [] "/s".toList "/b".toList
    (by rw [hs]; rfl) (by rw [hs]; rfl) (by decide)
  exact ⟨by decide, rfl, rfl, key.2.1, x, hx1, hx2, hx7 (by decide) (by decide)⟩

/-! ### C16: a non-zero exit code -/

/-- C16. Let the process exit normally (the chain has finished without an exception)
and let `retVal` point to an `int`; the exit code that `RunMakeCommand` stores there is
the exit status, converted to `int`.  Compared with the state in which the output was
read: with a non-zero exit code in log-scrape mode exactly one event is appended, a
Warning with `LogLine` 1 and empty contexts, and `TotalWarnings` grows by one; with a
non-zero exit code in launcher mode no event is appended and the top-level launcher
report is written exactly when no file of the fragment directory has a name that ends
in `.xml`; with exit code zero nothing is recorded in either mode.  The mode is the one in
effect during the run, after the launch helper was set up. -/
theorem RunMakeCommand_exit_code (h : cmCTestBuildHandler) (args : List Str)
    (tag binaryDir : Str) (r0 : Int) (chain : cmUVProcessChain) (launchDir : List Str)
    (hargs : args ≠ []) (hfin : chain.Finished = true)
    (hexc : chain.GetException.1 = ExceptionCode.None) :
    (RunMakeCommand h args tag binaryDir (some r0) chain launchDir).retVal =
      some (static_cast_int_of_int64 chain.ExitStatus) ∧
    (-2 ^ 31 ≤ chain.ExitStatus → chain.ExitStatus < 2 ^ 31 →
      static_cast_int_of_int64 chain.ExitStatus = chain.ExitStatus) ∧
    (RunMakeCommand h args tag binaryDir (some r0) chain launchDir).handler.UseCTestLaunch =
      (ReadOutput h tag binaryDir chain.chunks).UseCTestLaunch ∧
    (static_cast_int_of_int64 chain.ExitStatus ≠ 0 →
      (ReadOutput h tag binaryDir chain.chunks).UseCTestLaunch = false →
      (∃ ev,
        (RunMakeCommand h args tag binaryDir (some r0) chain launchDir).handler.ErrorsAndWarnings =
          (ReadOutput h tag binaryDir chain.chunks).ErrorsAndWarnings ++ [ev] ∧
        ev.Error = false ∧ ev.LogLine = 1 ∧ ev.PreContext = [] ∧ ev.PostContext = [] ∧
        ev.Text = "*** WARNING non-zero return value in ctest from: ".toList ++ args.headD []) ∧
      (RunMakeCommand h args tag binaryDir (some r0) chain launchDir).handler.TotalWarnings =
        (ReadOutput h tag binaryDir chain.chunks).TotalWarnings + 1 ∧
      (RunMakeCommand h args tag binaryDir (some r0) chain launchDir).handler.TotalErrors =
        (ReadOutput h tag binaryDir chain.chunks).TotalErrors ∧
      (RunMakeCommand h args tag binaryDir (some r0) chain launchDir).reporter = none) ∧
    (static_cast_int_of_int64 chain.ExitStatus ≠ 0 →
      (ReadOutput h tag binaryDir chain.chunks).UseCTestLaunch = true →
      (RunMakeCommand h args tag binaryDir (some r0) chain launchDir).handler =
        ReadOutput h tag binaryDir chain.chunks ∧
      ((RunMakeCommand h args tag binaryDir (some r0) chain launchDir).reporter.isSome = true ↔
        ∀ fname ∈ launchDir, ".xml".toList.isSuffixOf fname = false)) ∧
    (static_cast_int_of_int64 chain.ExitStatus = 0 →
      (RunMakeCommand h args tag binaryDir (some r0) chain launchDir).handler =
        ReadOutput h tag binaryDir chain.chunks ∧
      (RunMakeCommand h args tag binaryDir (some r0) chain launchDir).reporter = none) := by
  refine ⟨?_, ?_, ?_, ?_, ?_, ?_⟩
  · unfold RunMakeCommand
    simp only [hargs, if_false, hfin, if_true, hexc]
    split_ifs <;> rfl
  · intro h1 h2
    unfold static_cast_int_of_int64
    omega
  · unfold RunMakeCommand
    simp only [hargs, if_false, hfin, if_true, hexc]
    split_ifs <;> rfl
  · intro hcode hmode
    have hr : RunMakeCommand h args tag binaryDir (some r0) chain launchDir =
        { result := true
          handler :=
            { ReadOutput h tag binaryDir chain.chunks with
              ErrorsAndWarnings :=
                (ReadOutput h tag binaryDir chain.chunks).ErrorsAndWarnings ++
                  [NonZeroReturnWarning args]
              TotalWarnings := (ReadOutput h tag binaryDir chain.chunks).TotalWarnings + 1 }
          retVal := some (static_cast_int_of_int64 chain.ExitStatus)
          reporter := none } := by
      unfold RunMakeCommand
      simp only [hargs, if_false, hfin, if_true, hexc, hcode, ne_eq, not_false_eq_true, hmode,
        Bool.false_eq_true]
    rw [hr]
    exact ⟨⟨_, rfl, rfl, rfl, rfl, rfl, rfl⟩, rfl, rfl, rfl⟩
  · intro hcode hmode
    unfold RunMakeCommand
    simp only [hargs, if_false, hfin, if_true, hexc, hcode, ne_eq, not_false_eq_true, hmode]
    by_cases hx : launchDir.any (fun fname => ".xml".toList.isSuffixOf fname) = true
    · simp only [hx, Bool.not_true, Bool.false_eq_true, if_false, Option.isSome_none,
        true_and]
      rw [List.any_eq_true] at hx
      obtain ⟨f, hf, hs⟩ := hx
      constructor
      · intro hc; exact absurd hc (by simp)
      · intro hall; rw [hall f hf] at hs; exact absurd hs (by simp)
    · have hx' : launchDir.any (fun fname => ".xml".toList.isSuffixOf fname) = false := by
        simpa using hx
      simp only [hx', Bool.not_false, if_true, Option.isSome_some, true_and, true_iff]
      intro f hf
      rw [List.any_eq_false] at hx'
      have := hx' f hf
      cases hb : ".xml".toList.isSuffixOf f with
      | false => rfl
      | true => exact absurd hb this
  · intro hcode
    unfold RunMakeCommand
    simp only [hargs, if_false, hfin, if_true, hexc, hcode, ne_eq, not_true_eq_false,
      and_self]

/-- C16 on the sample handler in log-scrape mode: the build prints one warning line and
exits with code 2. -/
theorem RunMakeCommand_exit_code_witness :
    ["make".toList] ≠ [] ∧
    (sampleChain [(QueueSel.BuildProcessingQueue, "a.c:1: warning: w\n".toList)] 2).Finished =
      true ∧
    (sampleChain [(QueueSel.BuildProcessingQueue, "a.c:1: warning: w\n".toList)]
      2).GetException.1 = ExceptionCode.None ∧
    static_cast_int_of_int64 2 = 2 ∧
    (RunMakeCommand sampleHandler ["make".toList] "T".toList "/b".toList (some 0)
      (sampleChain [(QueueSel.BuildProcessingQueue, "a.c:1: warning: w\n".toList)] 2)
      []).retVal = some (static_cast_int_of_int64 2) :=
  ⟨by decide, rfl, rfl, by decide,
    (RunMakeCommand_exit_code sampleHandler ["make".toList] "T".toList "/b".toList 0
      (sampleChain [(QueueSel.BuildProcessingQueue, "a.c:1: warning: w\n".toList)] 2)
      [] (by decide) rfl rfl).1⟩

/-! ### C18: sixty error lines with fifty errors allowed -/

/-- Lines that the Error rules accept, read while the Error quota has room for all of
them: every one of them is recorded as an Error. -/
theorem ProcessLines_error_lines (es : List (List Char)) (s : cmCTestBuildHandler)
    (hl : s.UseCTestLaunch = false) (hq : s.ErrorQuotaReached = false)
    (hroom : s.TotalErrors + es.length ≤ s.MaxErrors)
    (herr : ∀ l ∈ es, Matches s.ErrorMatchRegex (c_str (s.ColorRemover (c_str l))) ∧
      ¬ Matches s.ErrorExceptionRegex (c_str (s.ColorRemover (c_str l)))) :
    (ProcessLines s es).ErrorsAndWarnings.map (fun ev => ev.Error) =
      s.ErrorsAndWarnings.map (fun ev => ev.Error) ++ List.replicate es.length true ∧
    (ProcessLines s es).TotalErrors = s.TotalErrors + es.length ∧
    SameSettings s (ProcessLines s es) := by
  induction es generalizing s with
  | nil => exact ⟨by simp [ProcessLines], by simp [ProcessLines], SameSettings.refl_settings s⟩
  | cons l es ih =>
    have hs1 := SameSettings_CheckQuota s
    obtain ⟨f1, f2, f3, f4, _⟩ := CheckQuota_fields s
    have hlen : ((l :: es).length : Int) = (es.length : Int) + 1 := by simp
    have hq1 : (CheckQuota s).ErrorQuotaReached = false := by
      cases hc : (CheckQuota s).ErrorQuotaReached with
      | false => rfl
      | true =>
        rcases f4.mp hc with h1 | h1
        · rw [hq] at h1; exact absurd h1 (by simp)
        · omega
    have hE : ProcessSingleLine (CheckQuota s) (c_str l) = LineType.b_ERROR_LINE := by
      rw [ProcessSingleLine_scrape _ _ (hs1.1.trans hl)]
      rw [hs1.2.1, hs1.2.2.1, hs1.2.2.2.1]
      rw [if_pos ⟨hq1, herr l (by simp)⟩]
    have hstep := ProcessBufferLine_event (CheckQuota s) l (by rw [hE]; decide)
    simp only [hE, if_true, decide_True] at hstep
    have hsame : SameSettings s (ProcessBufferLine (CheckQuota s) l) :=
      hs1.trans_settings (SameSettings_ProcessBufferLine _ _)
    have hfold : ProcessLines s (l :: es) = ProcessLines (ProcessBufferLine (CheckQuota s) l) es :=
      rfl
    have ih' := ih (ProcessBufferLine (CheckQuota s) l) (hsame.1.trans hl)
      (by rw [hstep]; exact hq1)
      (by rw [hsame.2.2.2.2.2.2.1, hstep]; simp only [f1]; omega)
      (by
        intro l' hl'
        rw [hsame.2.1, hsame.2.2.1, hsame.2.2.2.1]
        exact herr l' (by simp [hl']))
    rw [hfold]
    refine ⟨?_, ?_, hsame.trans_settings ih'.2.2⟩
    · rw [ih'.1, hstep]
      simp only [List.map_append, List.map_cons, List.map_nil, f3, List.append_assoc,
        List.length_cons, List.replicate_succ, List.singleton_append]
    · rw [ih'.2.1, hstep]
      simp only [f1]
      omega

theorem GenerateXMLLogScrapedLoop_error_step (st : cmSystemTools) (srcdir : Str)
    (rules : List cmCTestCompileErrorWarningRex) (cm : cmCTestBuildErrorWarning)
    (rest : List cmCTestBuildErrorWarning) (nE nW : Int) (hk : cm.Error = true) (hn : nE ≠ 0) :
    (GenerateXMLLogScrapedLoop st srcdir rules (cm :: rest) nE nW).1 =
      WriteBuildEvent (ExtractSourceLocation st srcdir rules cm) (nE - 1) nW ::
        (GenerateXMLLogScrapedLoop st srcdir rules rest (nE - 1) nW).1 := by
  rw [GenerateXMLLogScrapedLoop]
  simp only [hk, hn, ne_eq, not_false_eq_true, true_or, and_self, if_true]

/-- Errors at the head of the event sequence, no more than the allowance for Errors: the
loop of `GenerateXMLLogScraped` writes one `Error` element for each of them. -/
theorem GenerateXMLLogScrapedLoop_error_prefix (st : cmSystemTools) (srcdir : Str)
    (rules : List cmCTestCompileErrorWarningRex) (E W : List cmCTestBuildErrorWarning)
    (nE nW : Int) (hE : ∀ e ∈ E, e.Error = true) (hn : (E.length : Int) ≤ nE) :
    ∃ xs, (GenerateXMLLogScrapedLoop st srcdir rules (E ++ W) nE nW).1 =
        xs ++ (GenerateXMLLogScrapedLoop st srcdir rules W (nE - E.length) nW).1 ∧
      xs.length = E.length ∧ ∀ x ∈ xs, x.Name = "Error".toList := by
  induction E generalizing nE with
  | nil => exact ⟨[], by simp, rfl, by simp⟩
  | cons e E ih =>
    have hlen : ((e :: E).length : Int) = (E.length : Int) + 1 := by simp
    have hk := hE e (by simp)
    have hn0 : nE ≠ 0 := by omega
    obtain ⟨xs, h1, h2, h3⟩ := ih (nE - 1) (fun e' he' => hE e' (by simp [he'])) (by omega)
    refine ⟨WriteBuildEvent (ExtractSourceLocation st srcdir rules e) (nE - 1) nW :: xs, ?_,
      by simp [h2], ?_⟩
    · rw [List.cons_append, GenerateXMLLogScrapedLoop_error_step _ _ _ _ _ _ _ hk hn0, h1, hlen]
      simp only [List.cons_append, List.cons.injEq, true_and, List.append_cancel_left_eq]
      congr 2
      omega
    · intro x hx
      rcases List.mem_cons.mp hx with hx | hx
      · rw [hx]
        simp [WriteBuildEvent, (ExtractSourceLocation_frame st srcdir rules e).1, hk]
      · exact h3 x hx

/-- In a log-scrape run, a stream that starts with `n = MaxErrors` lines accepted by the
Error rules leaves `TotalErrors = n`; the first `n` events are Errors and every event
after them is a Warning, however many lines follow and however the stream is cut into
chunks. -/
theorem RunState_error_lines (h : cmCTestBuildHandler) (q : QueueSel) (L : List Str)
    (chunks : List (List Char)) (n : Nat)
    (hl : h.UseCTestLaunch = false) (hmax : h.MaxErrors = n)
    (hq : (InitializeBuildingStructures h).queue q = [])
    (hn : n ≤ L.length) (hn0 : 0 < n)
    (hlines : ∀ l ∈ L, '\n' ∉ l ∧ '\x00' ∉ l)
    (herr : ∀ l ∈ L.take n, Matches h.ErrorMatchRegex (c_str (h.ColorRemover l)) ∧
      ¬ Matches h.ErrorExceptionRegex (c_str (h.ColorRemover l)))
    (hchunks : chunks.flatten = unlines L) :
    (RunState h (chunks.map (fun d => (q, d)))).TotalErrors = n ∧
    ∃ k, (RunState h (chunks.map (fun d => (q, d)))).ErrorsAndWarnings.map (fun ev => ev.Error) =
      List.replicate n true ++ List.replicate k false := by
  have hls : ∀ l ∈ L, '\n' ∉ l := fun l hl' => (hlines l hl').1
  have hsplit : L.take n ++ L.drop n = L := List.take_append_drop n L
  have hfirst : ∀ l ∈ L.take n, l ∈ L := fun l hl' => List.mem_of_mem_take hl'
  have hrest : ∀ l ∈ L.drop n, l ∈ L := fun l hl' => List.mem_of_mem_drop hl'
  -- the canonical state after the first `n` lines
  have hA := ProcessLines_error_lines (L.take n) (InitializeBuildingStructures h) hl rfl
    (by
      show (0 : Int) + ((L.take n).length : Int) ≤ h.MaxErrors
      rw [hmax, List.length_take]
      omega)
    (by
      intro l hl'
      rw [c_str_of_no_nul l (hlines l (hfirst l hl')).2]
      exact herr l hl')
  obtain ⟨hA1, hA2, _⟩ := hA
  have hlen : (L.take n).length = n := by rw [List.length_take]; omega
  rw [hlen] at hA1 hA2
  -- one chunk with the first `n` lines
  obtain ⟨o1, e1, z1, hone⟩ := ReadChunks_single (InitializeBuildingStructures h) q
    (unlines (L.take n)) [] (L.take n) [] (by rw [hq]; simp)
    (fun l hl' => hls l (hfirst l hl')) (by simp)
  -- two chunks: the first `n` lines, then the rest
  obtain ⟨o2, e2, z2, htwo⟩ := ReadChunks_single (InitializeBuildingStructures h) q
    (unlines (L.take n)) [unlines (L.drop n)] L [] (by
      rw [hq]
      simp only [List.flatten_cons, List.flatten_nil, List.append_nil, List.nil_append]
      rw [← unlines_append, hsplit]) hls (by simp)
  have happ : ReadChunks (InitializeBuildingStructures h)
      ([unlines (L.take n), unlines (L.drop n)].map (fun d => (q, d))) =
      ReadChunks (ReadChunks (InitializeBuildingStructures h)
        ([unlines (L.take n)].map (fun d => (q, d)))) [(q, unlines (L.drop n))] := by
    simp [ReadChunks]
  obtain ⟨c1, c2, c3, _⟩ := CheckQuota_fields (ProcessLines (InitializeBuildingStructures h)
    (L.take n))
  have hclosed := ReadChunks_errors_closed (ReadChunks (InitializeBuildingStructures h)
    ([unlines (L.take n)].map (fun d => (q, d)))) [(q, unlines (L.drop n))] (by
      rw [hone]
      show (CheckQuota (ProcessLines (InitializeBuildingStructures h) (L.take n))).MaxErrors ≤
        (CheckQuota (ProcessLines (InitializeBuildingStructures h) (L.take n))).TotalErrors
      rw [c1, hA2,
        ((SameSettings_ProcessLines _ _).trans_settings (SameSettings_CheckQuota _)).2.2.2.2.2.2.1]
      show h.MaxErrors ≤ (0 : Int) + n
      rw [hmax]; omega)
  rw [← happ, htwo, hone] at hclosed
  obtain ⟨hT, k, hk⟩ := hclosed
  -- any chunks
  have hne : chunks ≠ [] := by
    intro hc
    rw [hc] at hchunks
    cases L with
    | nil => simp at hn; omega
    | cons l L' =>
      rw [unlines_cons] at hchunks
      simp at hchunks
  obtain ⟨c, cs, hcs⟩ := List.exists_cons_of_ne_nil hne
  subst hcs
  obtain ⟨o3, e3, z3, hany⟩ := ReadChunks_single (InitializeBuildingStructures h) q c cs L []
    (by rw [hq, hchunks]; simp) hls (by simp)
  unfold RunState
  rw [hany]
  constructor
  · have : (CheckQuota (ProcessLines (InitializeBuildingStructures h) L)).TotalErrors =
        (CheckQuota (ProcessLines (InitializeBuildingStructures h) (L.take n))).TotalErrors := hT
    show (CheckQuota (ProcessLines (InitializeBuildingStructures h) L)).TotalErrors = n
    rw [this, c1, hA2]
    show (0 : Int) + n = n
    omega
  · refine ⟨k, ?_⟩
    have : (CheckQuota (ProcessLines (InitializeBuildingStructures h) L)).ErrorsAndWarnings.map
        (fun ev => ev.Error) =
      (CheckQuota (ProcessLines (InitializeBuildingStructures h)
        (L.take n))).ErrorsAndWarnings.map (fun ev => ev.Error) ++ List.replicate k (!true) := hk
    show (CheckQuota (ProcessLines (InitializeBuildingStructures h) L)).ErrorsAndWarnings.map
        (fun ev => ev.Error) = _
    rw [this, c3, hA1]
    simp [InitializeBuildingStructures]


theorem countName_all (name : Str) (xs : List XMLBuildEvent) (hx : ∀ x ∈ xs, x.Name = name) :
    countName name xs = xs.length := by
  induction xs with
  | nil => rfl
  | cons x xs ih =>
    rw [countName_cons, if_pos (hx x (by simp)), ih (fun y hy => hx y (by simp [hy]))]
    simp only [List.length_cons]
    omega

theorem countName_le_length (name : Str) (xs : List XMLBuildEvent) :
    countName name xs ≤ xs.length := by
  unfold countName
  exact List.length_filter_le _ _

set_option maxRecDepth 100000 in
/-- C18, counterexample.  Sixty lines that the Error rule matches are read with
`MaxErrors = 50`.  The last ten of them are recorded as Warnings, because the Warning rule
matches them too: they are still evaluated against the Warning rules.  Without the Warning
rule the same lines leave the fifty Errors only. -/
theorem sixty_error_lines_counterexample :
    sampleQuotaHandler.UseCTestLaunch = false ∧ sampleQuotaHandler.MaxErrors = 50 ∧
    sixtyErrorLines.length = 60 ∧
    (∀ l ∈ sixtyErrorLines,
      Matches sampleQuotaHandler.ErrorMatchRegex (c_str (sampleQuotaHandler.ColorRemover l)) ∧
      ¬ Matches sampleQuotaHandler.ErrorExceptionRegex
        (c_str (sampleQuotaHandler.ColorRemover l))) ∧
    (RunState sampleQuotaHandler
      [(QueueSel.BuildProcessingQueue, unlines sixtyErrorLines)]).ErrorsAndWarnings.map
        (fun ev => ev.Error) = List.replicate 50 true ++ List.replicate 10 false ∧
    (RunState { sampleQuotaHandler with WarningMatchRegex := [] }
      [(QueueSel.BuildProcessingQueue, unlines sixtyErrorLines)]).ErrorsAndWarnings.map
        (fun ev => ev.Error) = List.replicate 50 true := by
  have hq : ∀ g : cmCTestBuildHandler,
      (InitializeBuildingStructures g).queue QueueSel.BuildProcessingQueue ++
        unlines sixtyErrorLines = unlines sixtyErrorLines ++ [] := by
    intro g
    rw [show (InitializeBuildingStructures g).queue QueueSel.BuildProcessingQueue = [] from rfl,
      List.nil_append, List.append_nil]
  refine ⟨rfl, rfl, rfl, by decide, ?_, ?_⟩
  · show (ProcessBuffer (InitializeBuildingStructures sampleQuotaHandler)
      (unlines sixtyErrorLines) QueueSel.BuildProcessingQueue).ErrorsAndWarnings.map
        (fun ev => ev.Error) = _
    rw [ProcessBuffer_eq _ _ _ sixtyErrorLines [] (hq _) (by decide) (by decide)]
    decide
  · show (ProcessBuffer (InitializeBuildingStructures
      { sampleQuotaHandler with WarningMatchRegex := [] })
      (unlines sixtyErrorLines) QueueSel.BuildProcessingQueue).ErrorsAndWarnings.map
        (fun ev => ev.Error) = _
    rw [ProcessBuffer_eq _ _ _ sixtyErrorLines [] (hq _) (by decide) (by decide)]
    decide

/-- C18, amended.  In a log-scrape run with `MaxErrors = 50`, let a stream bring 60 lines
that each match an Error rule and no Error exception, in chunks cut anywhere.  Exactly 50
Error events are recorded, the first fifty events; whatever else is recorded is a Warning.
In the report the 50th element is the 50th `Error` element and carries the notice that
the maximum was reached; no element before it carries it and no `Error` element follows.
For the remaining 10 lines the Error rules are not evaluated: whatever is read after the
first fifty lines is classified as it would be with any other Error rules, never as
Error.  (The Warning rules are still evaluated while the Warning quota is open.) -/
theorem sixty_error_lines (h : cmCTestBuildHandler) (q : QueueSel) (ls : List Str)
    (chunks : List (List Char)) (st : cmSystemTools) (srcdir : Str)
    (hl : h.UseCTestLaunch = false) (hmax : h.MaxErrors = 50)
    (hq : (InitializeBuildingStructures h).queue q = [])
    (hlen : ls.length = 60)
    (hlines : ∀ l ∈ ls, '\n' ∉ l ∧ '\x00' ∉ l)
    (herr : ∀ l ∈ ls, Matches h.ErrorMatchRegex (c_str (h.ColorRemover l)) ∧
      ¬ Matches h.ErrorExceptionRegex (c_str (h.ColorRemover l)))
    (hchunks : chunks.flatten = unlines ls) :
    (RunState h (chunks.map (fun d => (q, d)))).TotalErrors = 50 ∧
    countKind true (RunState h (chunks.map (fun d => (q, d)))).ErrorsAndWarnings = 50 ∧
    (∃ k, (RunState h (chunks.map (fun d => (q, d)))).ErrorsAndWarnings.map
        (fun ev => ev.Error) = List.replicate 50 true ++ List.replicate k false) ∧
    (∃ pre x post,
      (GenerateXMLLogScraped st srcdir (RunState h (chunks.map (fun d => (q, d))))).1 =
        pre ++ x :: post ∧
      pre.length = 49 ∧ (∀ y ∈ pre, y.Name = "Error".toList ∧ ¬ y.Notice) ∧
      x.Name = "Error".toList ∧ x.Notice ∧ ∀ y ∈ post, y.Name ≠ "Error".toList) ∧
    (∀ j, j ≤ 10 → ∀ data,
      ProcessSingleLine
          (CheckQuota (RunState h [(q, unlines (ls.take (50 + j)))])) data ≠
        LineType.b_ERROR_LINE ∧
      ∀ M X,
        ProcessSingleLine
            (CheckQuota
              { RunState h [(q, unlines (ls.take (50 + j)))] with
                ErrorMatchRegex := M, ErrorExceptionRegex := X })
            data =
          ProcessSingleLine
            (CheckQuota (RunState h [(q, unlines (ls.take (50 + j)))])) data) := by
  obtain ⟨hT, k, hk⟩ := RunState_error_lines h q ls chunks 50 hl (by rw [hmax]; rfl) hq
    (by omega) (by omega) hlines (fun l hl' => herr l (List.mem_of_mem_take hl')) hchunks
  have hT' : (RunState h (chunks.map (fun d => (q, d)))).TotalErrors = 50 := by
    rw [hT]; rfl
  refine ⟨hT', ?_, ⟨k, hk⟩, ?_, ?_⟩
  · -- exactly fifty Errors
    unfold countKind
    have : ((RunState h (chunks.map (fun d => (q, d)))).ErrorsAndWarnings.filter
        (fun cm => cm.Error == true)).length =
        (((RunState h (chunks.map (fun d => (q, d)))).ErrorsAndWarnings.map
          (fun ev => ev.Error)).filter (fun b => b == true)).length := by
      rw [List.filter_map, List.length_map]
      rfl
    rw [this, hk]
    simp
  · -- the report
    have hsame := SameSettings_RunState h (chunks.map (fun d => (q, d)))
    have hlenE : (RunState h (chunks.map (fun d => (q, d)))).ErrorsAndWarnings.length =
        50 + k := by
      have := congrArg List.length hk
      rw [List.length_map, List.length_append, List.length_replicate,
        List.length_replicate] at this
      exact this
    have hsplit := List.take_append_drop 50
      (RunState h (chunks.map (fun d => (q, d)))).ErrorsAndWarnings
    have hEl : ((RunState h (chunks.map (fun d => (q, d)))).ErrorsAndWarnings.take 50).length
        = 50 := by
      rw [List.length_take]; omega
    have hE : ∀ e ∈ (RunState h (chunks.map (fun d => (q, d)))).ErrorsAndWarnings.take 50,
        e.Error = true := by
      intro e he
      have hm : e.Error ∈ ((RunState h (chunks.map (fun d => (q, d)))).ErrorsAndWarnings.take
          50).map (fun ev => ev.Error) := List.mem_map_of_mem _ he
      rw [List.map_take, hk, List.take_left' (List.length_replicate _ _)] at hm
      exact (List.mem_replicate.mp hm).2
    obtain ⟨xs, hxs, hxl, hxn⟩ := GenerateXMLLogScrapedLoop_error_prefix st srcdir
      (RunState h (chunks.map (fun d => (q, d)))).ErrorWarningFileLineRegex
      ((RunState h (chunks.map (fun d => (q, d)))).ErrorsAndWarnings.take 50)
      ((RunState h (chunks.map (fun d => (q, d)))).ErrorsAndWarnings.drop 50)
      (RunState h (chunks.map (fun d => (q, d)))).MaxErrors
      (RunState h (chunks.map (fun d => (q, d)))).MaxWarnings hE
      (by rw [hEl, hsame.2.2.2.2.2.2.1, hmax]; rfl)
    rw [hsplit, hEl] at hxs
    rw [hEl] at hxl
    rcases eq_nil_or_snoc xs with hnil | ⟨pre, x, hpx⟩
    · rw [hnil] at hxl; simp at hxl
    · subst hpx
      have hout : (GenerateXMLLogScrapedLoop st srcdir
          (RunState h (chunks.map (fun d => (q, d)))).ErrorWarningFileLineRegex
          (RunState h (chunks.map (fun d => (q, d)))).ErrorsAndWarnings
          (RunState h (chunks.map (fun d => (q, d)))).MaxErrors
          (RunState h (chunks.map (fun d => (q, d)))).MaxWarnings).1 =
          pre ++ x :: (GenerateXMLLogScrapedLoop st srcdir
            (RunState h (chunks.map (fun d => (q, d)))).ErrorWarningFileLineRegex
            ((RunState h (chunks.map (fun d => (q, d)))).ErrorsAndWarnings.drop 50)
            ((RunState h (chunks.map (fun d => (q, d)))).MaxErrors - (50 : Nat))
            (RunState h (chunks.map (fun d => (q, d)))).MaxWarnings).1 := by
        rw [hxs, List.append_assoc]; rfl
      have hpl : pre.length = 49 := by
        simp only [List.length_append, List.length_singleton] at hxl
        omega
      have hxname : x.Name = "Error".toList := hxn x (by simp)
      have hnot := GenerateXMLLogScrapedLoop_notice st srcdir _ _ _ _ pre x _ hout
      have hcount : countName "Error".toList (pre ++ [x]) = 50 := by
        rw [countName_all _ _ hxn, hxl]
      have hxN : x.Notice := by
        rw [hnot.1]
        left
        refine ⟨hxname, ?_⟩
        rw [hcount, hsame.2.2.2.2.2.2.1, hmax]
        rfl
      refine ⟨pre, x, _, hout, hpl, ?_, hxname, hxN, ?_⟩
      · intro y hy
        refine ⟨hxn y (by simp [hy]), ?_⟩
        obtain ⟨p1, p2, hp⟩ := List.append_of_mem hy
        have hout2 := hout
        rw [hp, List.append_assoc, List.cons_append] at hout2
        have hny := (GenerateXMLLogScrapedLoop_notice st srcdir _ _ _ _ p1 y _ hout2).1
        rw [hny]
        have hyname : y.Name = "Error".toList := hxn y (by simp [hy])
        have hle := countName_le_length "Error".toList (p1 ++ [y])
        have hpl2 : (p1 ++ [y]).length ≤ 49 := by
          rw [← hpl, hp]
          simp
        rintro (⟨_, hc⟩ | ⟨hc, _⟩)
        · rw [hsame.2.2.2.2.2.2.1, hmax] at hc
          have : (countName "Error".toList (p1 ++ [y]) : Int) ≤ 49 := by
            exact_mod_cast hle.trans hpl2
          omega
        · rw [hyname] at hc
          exact error_ne_warning hc
      · intro y hy
        have := hnot.2 hxN y hy
        rwa [hxname] at this
  · -- the Error rules are out of use after the first fifty lines
    intro j hj data
    have hL : ∀ l ∈ ls.take (50 + j), l ∈ ls := fun l hl' => List.mem_of_mem_take hl'
    obtain ⟨hTj, _⟩ := RunState_error_lines h q (ls.take (50 + j))
      [unlines (ls.take (50 + j))] 50 hl (by rw [hmax]; rfl) hq
      (by rw [List.length_take]; omega) (by omega)
      (fun l hl' => hlines l (hL l hl'))
      (fun l hl' => herr l (hL l (List.mem_of_mem_take hl'))) (by simp)
    have hTj' : (RunState h [(q, unlines (ls.take (50 + j)))]).TotalErrors = 50 := by
      have : (RunState h ([unlines (ls.take (50 + j))].map (fun d => (q, d)))).TotalErrors =
          ((50 : Nat) : Int) := hTj
      simpa using this
    have hsame := SameSettings_RunState h [(q, unlines (ls.take (50 + j)))]
    have hflag : (CheckQuota (RunState h [(q, unlines (ls.take (50 + j)))])).ErrorQuotaReached
        = true := by
      rw [(CheckQuota_fields _).2.2.2.1]
      right
      rw [hsame.2.2.2.2.2.2.1, hmax, hTj']
    have key := ProcessSingleLine_error_quota _ data hflag
    refine ⟨key.1, ?_⟩
    intro M X
    rw [CheckQuota_error_rules]
    exact key.2 M X


/-- C18 on the sample handler with `MaxErrors = 50`, for sixty lines that its Error rule
matches, read as one chunk. -/
theorem sixty_error_lines_witness :
    sampleQuotaHandler.UseCTestLaunch = false ∧ sampleQuotaHandler.MaxErrors = 50 ∧
    sixtyErrorLines.length = 60 ∧
    (∀ l ∈ sixtyErrorLines, '\n' ∉ l ∧ '\x00' ∉ l) ∧
    (∀ l ∈ sixtyErrorLines,
      Matches sampleQuotaHandler.ErrorMatchRegex (c_str (sampleQuotaHandler.ColorRemover l)) ∧
      ¬ Matches sampleQuotaHandler.ErrorExceptionRegex
        (c_str (sampleQuotaHandler.ColorRemover l))) ∧
    (RunState sampleQuotaHandler ([unlines sixtyErrorLines].map
      (fun d => (QueueSel.BuildProcessingQueue, d)))).TotalErrors = 50 ∧
    countKind true (RunState sampleQuotaHandler ([unlines sixtyErrorLines].map
      (fun d => (QueueSel.BuildProcessingQueue, d)))).ErrorsAndWarnings = 50 := by
  have key := sixty_error_lines sampleQuotaHandler QueueSel.BuildProcessingQueue
    sixtyErrorLines [unlines sixtyErrorLines] sampleSystemTools [] rfl rfl rfl rfl
    (by decide) (by decide)
    (by rw [List.flatten_cons, List.flatten_nil, List.append_nil])
  exact ⟨rfl, rfl, rfl, by decide, by decide, key.1, key.2.1⟩

/-! ### C17: the scenario of a warning, a context line and an error -/

set_option maxRecDepth 100000 in
/-- The line loop on the three lines of the scenario, with the built-in rules. -/
theorem ProcessLines_scenario :
    (CheckQuota (ProcessLines (InitializeBuildingStructures builtinHandler)
      ["a.c:10: warning: unused variable".toList, "more context".toList,
        "b.c:20: error: fail".toList])).ErrorsAndWarnings = scenarioEvents ∧
    (CheckQuota (ProcessLines (InitializeBuildingStructures builtinHandler)
      ["a.c:10: warning: unused variable".toList, "more context".toList,
        "b.c:20: error: fail".toList])).TotalWarnings = 1 ∧
    (CheckQuota (ProcessLines (InitializeBuildingStructures builtinHandler)
      ["a.c:10: warning: unused variable".toList, "more context".toList,
        "b.c:20: error: fail".toList])).TotalErrors = 1 := by
  decide!

set_option maxRecDepth 100000 in
/-- C17. With the built-in rules, no custom patterns, `MaxWarnings = 1`, `MaxErrors = 1`,
`MaxPreContext = 2` and `MaxPostContext = 1` in log-scrape mode, the stream
`a.c:10: warning: unused variable`, `more context`, `b.c:20: error: fail` fed to
`ProcessBuffer` in a fresh run yields exactly two events: a Warning with `LogLine` 1,
empty pre-context and post-context `more context`, then an Error with `LogLine` 3 and
empty contexts.  The same events result when the stream arrives on either queue cut into
chunks anywhere. -/
theorem ProcessBuffer_scenario :
    builtinHandler.UseCTestLaunch = false ∧ builtinHandler.MaxWarnings = 1 ∧
    builtinHandler.MaxErrors = 1 ∧ builtinHandler.MaxPreContext = 2 ∧
    builtinHandler.MaxPostContext = 1 ∧
    (ProcessBuffer (InitializeBuildingStructures builtinHandler) scenarioStream
      QueueSel.BuildProcessingQueue).ErrorsAndWarnings = scenarioEvents ∧
    (ProcessBuffer (InitializeBuildingStructures builtinHandler) scenarioStream
      QueueSel.BuildProcessingQueue).TotalWarnings = 1 ∧
    (ProcessBuffer (InitializeBuildingStructures builtinHandler) scenarioStream
      QueueSel.BuildProcessingQueue).TotalErrors = 1 ∧
    (∀ (q : QueueSel) (chunks : List (List Char)), chunks.flatten = scenarioStream →
      (RunState builtinHandler (chunks.map (fun d => (q, d)))).ErrorsAndWarnings =
        scenarioEvents) := by
  have hlines : scenarioStream =
      unlines ["a.c:10: warning: unused variable".toList, "more context".toList,
        "b.c:20: error: fail".toList] := by decide
  have hls : ∀ l ∈ ["a.c:10: warning: unused variable".toList, "more context".toList,
      "b.c:20: error: fail".toList], '\n' ∉ l := by decide
  obtain ⟨k1, k2, k3⟩ := ProcessLines_scenario
  have hone := ProcessBuffer_eq (InitializeBuildingStructures builtinHandler) scenarioStream
    QueueSel.BuildProcessingQueue _ [] (by
      rw [show (InitializeBuildingStructures builtinHandler).queue
        QueueSel.BuildProcessingQueue = [] from rfl, List.nil_append, List.append_nil]
      exact hlines) hls (by simp)
  refine ⟨rfl, rfl, rfl, rfl, rfl, ?_, ?_, ?_, ?_⟩
  · rw [hone]; exact k1
  · rw [hone]; exact k2
  · rw [hone]; exact k3
  · intro q chunks hchunks
    have hq : (InitializeBuildingStructures builtinHandler).queue q = [] := by
      cases q <;> rfl
    cases chunks with
    | nil => exact absurd hchunks.symm (by decide)
    | cons c cs =>
      obtain ⟨o, e, z, hrun⟩ := ReadChunks_single (InitializeBuildingStructures builtinHandler)
        q c cs _ [] (by rw [hq, hchunks, List.nil_append, List.append_nil]; exact hlines)
        hls (by simp)
      unfold RunState
      rw [hrun]
      exact k1

/-! ### C19 and C13: source-location extraction -/

/-- The rule at position `n` is the first one that finds a match in the text of the
event: `ExtractSourceLocation` takes the file name and the line number from its
sub-expression matches. -/
theorem ExtractSourceLocation_at (st : cmSystemTools) (srcdir : Str)
    (rules : List cmCTestCompileErrorWarningRex) (cm : cmCTestBuildErrorWarning) (n : Nat)
    (file line : Str)
    (hpre : ∀ r ∈ rules.take n, (r.RegularExpression.find cm.Text).isSome = false)
    (hfind : (rules[n]?).bind (fun r =>
      (r.RegularExpression.find cm.Text).map (fun m => (m r.FileIndex, m r.LineIndex))) =
        some (file, line)) :
    ExtractSourceLocation st srcdir rules cm =
      { cm with SourceFile := RelativeSourceFile st srcdir file, LineNumber := atoi line } := by
  induction rules generalizing n with
  | nil => simp at hfind
  | cons r rs ih =>
    cases n with
    | zero =>
      simp only [List.getElem?_cons_zero, Option.some_bind, Option.map_eq_some'] at hfind
      obtain ⟨m, hm, hfl⟩ := hfind
      simp only [Prod.mk.injEq] at hfl
      unfold ExtractSourceLocation
      simp only [hm, hfl.1, hfl.2]
      rfl
    | succ n =>
      have h0 := hpre r (by simp)
      have hnone : r.RegularExpression.find cm.Text = none := by
        cases hf : r.RegularExpression.find cm.Text with
        | none => rfl
        | some m => rw [hf] at h0; simp at h0
      unfold ExtractSourceLocation
      simp only [hnone]
      exact ih n (fun r' hr' => hpre r' (by simp [hr'])) (by simpa using hfind)


theorem replaceFrom_none (pat with_ : Str) (s : Str) (h : hasSubstr pat s = false) :
    replaceFrom pat with_ 0 s = s := by
  induction s with
  | nil => rfl
  | cons c cs ih =>
    unfold hasSubstr at h
    simp only [Bool.or_eq_false_iff] at h
    rw [replaceFrom]
    simp only [h.1, Bool.false_eq_true, if_false]
    rw [ih h.2]

/-- A line number that does not fit an `int` is not what `atoi` returns. -/
theorem atoi_out_of_range : atoi "2147483648".toList = -2147483648 := by decide

theorem findChar_append (ch : Char) (seg rest : Str) (hseg : ch ∉ seg) :
    findChar ch (seg ++ ch :: rest) = some seg.length := by
  induction seg with
  | nil => simp [findChar]
  | cons c cs ih =>
    have hc : c ≠ ch := fun h0 => hseg (by simp [h0])
    have hcs : ch ∉ cs := fun h0 => hseg (by simp [h0])
    have h1 : findChar ch (c :: (cs ++ ch :: rest)) =
        (findChar ch (cs ++ ch :: rest)).map (fun p => p + 1) := by
      rw [findChar, if_neg hc]
    rw [List.cons_append, h1, ih hcs]
    rfl

theorem hasSubstr_placeholder (s : Str) :
    hasSubstr "/.../".toList ("/.../".toList ++ s) = true := by
  have hp : "/.../".toList = ['/', '.', '.', '.', '/'] := rfl
  rw [hp]
  simp [hasSubstr, List.isPrefixOf]

theorem ReplaceString_placeholder (s : Str) (hs : hasSubstr "/.../".toList s = false) :
    ReplaceString ("/.../".toList ++ s) "/.../".toList [] = s := by
  have hp : "/.../".toList = ['/', '.', '.', '.', '/'] := rfl
  have key := replaceFrom_none "/.../".toList [] s hs
  rw [hp] at key ⊢
  simp [ReplaceString, replaceFrom, List.isPrefixOf, key]

/-- The block that makes a file name relative, on a path that starts with the
placeholder: the placeholder and the path segment after it are stripped, when the
placeholder does not occur a second time. -/
theorem RelativeSourceFile_placeholder (st : cmSystemTools) (srcdir file seg rest : Str)
    (hpath : st.ConvertToUnixSlashes file = "/.../".toList ++ seg ++ '/' :: rest)
    (hseg : '/' ∉ seg)
    (hrest : hasSubstr "/.../".toList (seg ++ '/' :: rest) = false) :
    RelativeSourceFile st srcdir file = rest := by
  unfold RelativeSourceFile
  simp only [hpath, List.append_assoc]
  rw [if_pos (hasSubstr_placeholder _), ReplaceString_placeholder _ hrest,
    findChar_append '/' seg rest hseg]
  simp only [List.drop_left']
  rw [show seg.length + 1 = (seg ++ ['/']).length by simp,
    show seg ++ '/' :: rest = (seg ++ ['/']) ++ rest by simp, List.drop_left]
  apply List.take_of_length_le
  simp only [List.length_append, List.length_cons, List.length_nil]
  omega


/-- Every element that the loop of `GenerateXMLLogScraped` writes is made from one of
the events, after its source location was looked up. -/
theorem GenerateXMLLogScrapedLoop_mem (st : cmSystemTools) (srcdir : Str)
    (rules : List cmCTestCompileErrorWarningRex) (l : List cmCTestBuildErrorWarning)
    (nE nW : Int) :
    ∀ x ∈ (GenerateXMLLogScrapedLoop st srcdir rules l nE nW).1,
      ∃ cm ∈ l, ∃ nE' nW',
        x = WriteBuildEvent (ExtractSourceLocation st srcdir rules cm) nE' nW' := by
  induction l generalizing nE nW with
  | nil => simp [GenerateXMLLogScrapedLoop]
  | cons cm rest ih =>
    intro x hx
    have hstep : (GenerateXMLLogScrapedLoop st srcdir rules (cm :: rest) nE nW).1 =
        if nE ≠ 0 ∨ nW ≠ 0 then
          if (cm.Error = true ∧ nE ≠ 0) ∨ (cm.Error = false ∧ nW ≠ 0) then
            WriteBuildEvent (ExtractSourceLocation st srcdir rules cm)
                (if cm.Error then nE - 1 else nE) (if cm.Error then nW else nW - 1) ::
              (GenerateXMLLogScrapedLoop st srcdir rules rest
                (if cm.Error then nE - 1 else nE) (if cm.Error then nW else nW - 1)).1
          else (GenerateXMLLogScrapedLoop st srcdir rules rest nE nW).1
        else [] := by
      rw [GenerateXMLLogScrapedLoop]
      split_ifs <;> rfl
    rw [hstep] at hx
    by_cases hopen : nE ≠ 0 ∨ nW ≠ 0
    · rw [if_pos hopen] at hx
      by_cases hkeep : (cm.Error = true ∧ nE ≠ 0) ∨ (cm.Error = false ∧ nW ≠ 0)
      · rw [if_pos hkeep] at hx
        rcases List.mem_cons.mp hx with hx | hx
        · exact ⟨cm, by simp, _, _, hx⟩
        · obtain ⟨cm', hcm', r⟩ := ih _ _ x hx
          exact ⟨cm', by simp [hcm'], r⟩
      · rw [if_neg hkeep] at hx
        obtain ⟨cm', hcm', r⟩ := ih _ _ x hx
        exact ⟨cm', by simp [hcm'], r⟩
    · rw [if_neg hopen] at hx
      simp at hx

set_option maxRecDepth 100000 in
/-- C13, the failing input.  The source directory `/work/my-long-project-name` makes
`/work/` the root to simplify.  In the text of an error in
`/work/my-long-project-name/work/x.c` the cleanup of `ProcessHandler` puts the
placeholder in two places; the path extracted is the placeholder, the segment
`my-long-project-name`, a slash and the rest `.../x.c`.  Where C13 has the placeholder and
the one segment after it stripped, `GenerateXMLLogScraped` removes both placeholders, is
left with `my-long-project-namex.c` and finds no slash to cut at: the source file it
records is `my-long-project-namex.c`, which names no file below the source root. -/
theorem GenerateXMLLogScraped_placeholder_failing_input :
    (RunState builtinHandler
      [(QueueSel.BuildProcessingQueue, nestedRootLine ++ ['\n'])]).ErrorsAndWarnings.map
        (fun ev => (ev.Error, ev.Text)) = [(true, nestedRootLine)] ∧
    SimplifyDir "/work/my-long-project-name".toList = "/work/".toList ∧
    (ProcessHandlerReport sampleSystemTools (cmFileTimeCache.ofTimes sampleTimes) []
      "/work/my-long-project-name".toList "/b".toList
      (RunState builtinHandler
        [(QueueSel.BuildProcessingQueue, nestedRootLine ++ ['\n'])])).2.ErrorsAndWarnings.map
        (fun ev => (ev.Text, ev.SourceFile, ev.LineNumber)) =
      [("/.../my-long-project-name/.../x.c:3: error: e".toList,
        "my-long-project-namex.c".toList, 3)] ∧
    "/.../my-long-project-name/.../x.c".toList =
      "/.../".toList ++ "my-long-project-name".toList ++ '/' :: ".../x.c".toList ∧
    '/' ∉ "my-long-project-name".toList ∧
    (ProcessHandlerReport sampleSystemTools (cmFileTimeCache.ofTimes sampleTimes) []
      "/work/my-long-project-name".toList "/b".toList
      (RunState builtinHandler
        [(QueueSel.BuildProcessingQueue, nestedRootLine ++ ['\n'])])).1 =
      ReportBody.LogScraped
        [{ Name := "Error".toList, BuildLogLine := 1,
           Text := "/.../my-long-project-name/.../x.c:3: error: e".toList,
           SourceFile := some "my-long-project-namex.c".toList, SourceFileTail := none,
           SourceLineNumber := some 3, PreContext := [],
           PostContext := [[], MaximumReachedNotice], RepeatCount := "0".toList }] := by
  have hrun : RunState builtinHandler
      [(QueueSel.BuildProcessingQueue, nestedRootLine ++ ['\n'])] =
      (withQueues (CheckQuota (ProcessLines (InitializeBuildingStructures builtinHandler)
        [nestedRootLine])) [] [] ((0 + string_size (nestedRootLine ++ ['\n'])) % 2 ^ 64)).setQueue
        QueueSel.BuildProcessingQueue [] :=
    ProcessBuffer_eq (InitializeBuildingStructures builtinHandler) (nestedRootLine ++ ['\n'])
      QueueSel.BuildProcessingQueue [nestedRootLine] [] (by decide) (by decide) (by simp)
  rw [hrun]
  refine ⟨by decide!, by decide!, by decide!, by decide!, by decide!, by decide!⟩

/-- Where the code does what C13 says.  Every element that `GenerateXMLLogScraped` writes
is made from an event after its source location was looked up.  For an event whose extracted source path
(the match of the first rule that finds one, in forward-slash form) is the placeholder
`/.../` followed by a segment free of `/`, a `/` and a rest, and in which the placeholder
does not occur a second time, the source file recorded is the rest: the placeholder and
the one path segment after it are stripped.  The element shows it when it is not empty
and the line number is not negative. -/
theorem GenerateXMLLogScraped_placeholder (st : cmSystemTools) (srcdir : Str)
    (h : cmCTestBuildHandler) (cm : cmCTestBuildErrorWarning) (n : Nat)
    (file line seg rest : Str)
    (hpre : ∀ r ∈ h.ErrorWarningFileLineRegex.take n,
      (r.RegularExpression.find cm.Text).isSome = false)
    (hfind : (h.ErrorWarningFileLineRegex[n]?).bind (fun r =>
      (r.RegularExpression.find cm.Text).map (fun m => (m r.FileIndex, m r.LineIndex))) =
        some (file, line))
    (hpath : st.ConvertToUnixSlashes file = "/.../".toList ++ seg ++ '/' :: rest)
    (hseg : '/' ∉ seg)
    (hrest : hasSubstr "/.../".toList (seg ++ '/' :: rest) = false) :
    (∀ x ∈ (GenerateXMLLogScraped st srcdir h).1, ∃ ev ∈ h.ErrorsAndWarnings, ∃ nE nW,
      x = WriteBuildEvent (ExtractSourceLocation st srcdir h.ErrorWarningFileLineRegex ev)
        nE nW) ∧
    (ExtractSourceLocation st srcdir h.ErrorWarningFileLineRegex cm).SourceFile = rest ∧
    (ExtractSourceLocation st srcdir h.ErrorWarningFileLineRegex cm).LineNumber = atoi line ∧
    (∀ nE nW, rest ≠ [] → 0 ≤ atoi line →
      (WriteBuildEvent (ExtractSourceLocation st srcdir h.ErrorWarningFileLineRegex cm)
        nE nW).SourceFile = some rest) := by
  have hext := ExtractSourceLocation_at st srcdir h.ErrorWarningFileLineRegex cm n file line
    hpre hfind
  have hrel := RelativeSourceFile_placeholder st srcdir file seg rest hpath hseg hrest
  rw [hrel] at hext
  refine ⟨?_, by rw [hext], by rw [hext], ?_⟩
  · unfold GenerateXMLLogScraped
    exact GenerateXMLLogScrapedLoop_mem st srcdir _ _ _ _
  · intro nE nW hne hline
    rw [hext]
    have hloc : decide (rest ≠ [] ∧ atoi line ≥ 0) = true := by
      simp only [decide_eq_true_eq]
      exact ⟨hne, hline⟩
    unfold WriteBuildEvent
    simp only [hloc, if_true]

set_option maxRecDepth 100000 in
/-- The built-in rules, for an error in `/.../proj/src/x.c`, where the placeholder occurs
once: the source file recorded is `src/x.c`. -/
theorem GenerateXMLLogScraped_placeholder_witness :
    (∀ r ∈ builtinHandler.ErrorWarningFileLineRegex.take 1,
      (r.RegularExpression.find samplePlaceholderEvent.Text).isSome = false) ∧
    '/' ∉ "proj".toList ∧
    hasSubstr "/.../".toList ("proj".toList ++ '/' :: "src/x.c".toList) = false ∧
    (ExtractSourceLocation sampleSystemTools [] builtinHandler.ErrorWarningFileLineRegex
      samplePlaceholderEvent).SourceFile = "src/x.c".toList ∧
    (ExtractSourceLocation sampleSystemTools [] builtinHandler.ErrorWarningFileLineRegex
      samplePlaceholderEvent).LineNumber = atoi "3".toList := by
  have key := GenerateXMLLogScraped_placeholder sampleSystemTools [] builtinHandler
    samplePlaceholderEvent 1 "/.../proj/src/x.c".toList "3".toList "proj".toList
    "src/x.c".toList (by decide!) (by decide!) (by decide) (by decide) (by decide)
  exact ⟨by decide!, by decide, by decide, key.2.1, key.2.2.1⟩

/-! ### C27: the DAG checker -/

theorem chainLength_ancestors (c a : cmGeneratorExpressionDAGChecker) (ha : a ∈ ancestors c) :
    chainLength a < chainLength c := by
  induction c with
  | top t p => simp [ancestors] at ha
  | child q t p ih =>
    simp only [ancestors, List.mem_cons] at ha
    rcases ha with ha | ha
    · rw [ha]; simp [chainLength]
    · have := ih ha
      simp only [chainLength]
      omega

/-- An ancestor of a checker is not the checker. -/
theorem ancestors_ne (c a : cmGeneratorExpressionDAGChecker) (ha : a ∈ ancestors c) : a ≠ c := by
  intro h
  have := chainLength_ancestors c a ha
  rw [h] at this
  omega

theorem ancestors_eq (c : cmGeneratorExpressionDAGChecker) :
    ancestors c = match c.Parent with
      | none => []
      | some p => p :: ancestors p := by
  cases c <;> rfl

/-- The loop of `CheckGraph` stops at the first of the remaining ancestors that has the
pair, and compares it with `this->Parent`. -/
theorem CheckGraphLoop_find (this p : cmGeneratorExpressionDAGChecker) :
    CheckGraphLoop this p =
      match (p :: ancestors p).find? (samePair this) with
      | none => DAGCheckerResult.DAG
      | some a =>
        if some a = this.Parent then DAGCheckerResult.SELF_REFERENCE
        else DAGCheckerResult.CYCLIC_REFERENCE := by
  induction p with
  | top t q =>
    have hsp : samePair this (cmGeneratorExpressionDAGChecker.top t q) =
        decide (this.Target = t ∧ this.Property = q) := rfl
    by_cases hs : this.Target = t ∧ this.Property = q
    · rw [CheckGraphLoop, if_pos hs, List.find?_cons_of_pos _ (by rw [hsp]; exact decide_eq_true hs)]
    · rw [CheckGraphLoop, if_neg hs,
        List.find?_cons_of_neg _ (by rw [hsp]; simpa using hs)]
      rfl
  | child parent t q ih =>
    have hsp : samePair this (cmGeneratorExpressionDAGChecker.child parent t q) =
        decide (this.Target = t ∧ this.Property = q) := rfl
    by_cases hs : this.Target = t ∧ this.Property = q
    · rw [CheckGraphLoop, if_pos hs, List.find?_cons_of_pos _ (by rw [hsp]; exact decide_eq_true hs)]
    · have hr : List.find? (samePair this) (cmGeneratorExpressionDAGChecker.child parent t q ::
          ancestors (cmGeneratorExpressionDAGChecker.child parent t q)) =
          List.find? (samePair this) (parent :: ancestors parent) :=
        List.find?_cons_of_neg _ (by rw [hsp]; simpa using hs)
      rw [hr, CheckGraphLoop, if_neg hs, ih]

theorem nearestSamePair_none (this : cmGeneratorExpressionDAGChecker)
    (l : List cmGeneratorExpressionDAGChecker) :
    nearestSamePair this l = none ↔ ∀ a ∈ l, samePair this a = false := by
  induction l with
  | nil => simp [nearestSamePair]
  | cons a rest ih =>
    by_cases hs : samePair this a = true
    · simp [nearestSamePair, hs]
    · simp only [Bool.not_eq_true] at hs
      simp [nearestSamePair, hs, ih]

theorem find?_of_nearest (this : cmGeneratorExpressionDAGChecker)
    (l : List cmGeneratorExpressionDAGChecker) :
    (nearestSamePair this l = none ∧ l.find? (samePair this) = none) ∨
    (∃ a rest, l = a :: rest ∧ nearestSamePair this l = some 0 ∧
      l.find? (samePair this) = some a) ∨
    (∃ a rest k b, l = a :: rest ∧ nearestSamePair this l = some (k + 1) ∧
      l.find? (samePair this) = some b ∧ b ∈ rest) := by
  induction l with
  | nil => exact Or.inl ⟨rfl, rfl⟩
  | cons a rest ih =>
    by_cases hs : samePair this a = true
    · exact Or.inr (Or.inl ⟨a, rest, rfl, by simp [nearestSamePair, hs], by simp [hs]⟩)
    · simp only [Bool.not_eq_true] at hs
      have hfind : (a :: rest).find? (samePair this) = rest.find? (samePair this) :=
        List.find?_cons_of_neg _ (by simp [hs])
      have hnear : nearestSamePair this (a :: rest) =
          (nearestSamePair this rest).map (· + 1) := by
        simp [nearestSamePair, hs]
      rcases ih with ⟨h1, h2⟩ | ⟨b, r, hl, h1, h2⟩ | ⟨b, r, k, c, hl, h1, h2, h3⟩
      · exact Or.inl ⟨by rw [hnear, h1]; rfl, by rw [hfind, h2]⟩
      · refine Or.inr (Or.inr ⟨a, rest, 0, b, rfl, by rw [hnear, h1]; rfl, by rw [hfind, h2], ?_⟩)
        rw [hl]; simp
      · refine Or.inr (Or.inr ⟨a, rest, k + 1, c, rfl, by rw [hnear, h1]; rfl,
          by rw [hfind, h2], ?_⟩)
        rw [hl]; simp [h3]

/-- C27. `CheckGraph` is a total function on the finite chains of DAG checkers.  It
returns `SELF_REFERENCE` if and only if the nearest ancestor with the same
(Target, Property) pair is the immediate parent, `CYCLIC_REFERENCE` if and only if an
ancestor has the pair and the nearest such ancestor is not the immediate parent, and `DAG`
if and only if no ancestor has the pair. -/
theorem CheckGraph_result (this : cmGeneratorExpressionDAGChecker) :
    (CheckGraph this = DAGCheckerResult.SELF_REFERENCE ↔
      nearestSamePair this (ancestors this) = some 0) ∧
    (CheckGraph this = DAGCheckerResult.CYCLIC_REFERENCE ↔
      ∃ k, nearestSamePair this (ancestors this) = some (k + 1)) ∧
    (CheckGraph this = DAGCheckerResult.DAG ↔
      ∀ a ∈ ancestors this, samePair this a = false) := by
  rw [← nearestSamePair_none]
  cases hp : this.Parent with
  | none =>
    have ha : ancestors this = [] := by rw [ancestors_eq, hp]
    simp [CheckGraph, hp, ha, nearestSamePair]
  | some p =>
    have ha : ancestors this = p :: ancestors p := by rw [ancestors_eq, hp]
    have hc : CheckGraph this = CheckGraphLoop this p := by simp [CheckGraph, hp]
    rw [hc, CheckGraphLoop_find, ha]
    rcases find?_of_nearest this (p :: ancestors p) with
      ⟨h1, h2⟩ | ⟨b, r, hl, h1, h2⟩ | ⟨b, r, k, c, hl, h1, h2, h3⟩
    · rw [h1, h2]
      simp
    · rw [h1, h2]
      have hb : b = p := by
        simp only [List.cons.injEq] at hl
        exact hl.1.symm
      simp [hb, hp]
    · rw [h1, h2]
      have hr : r = ancestors p := by
        simp only [List.cons.injEq] at hl
        exact hl.2.symm
      have hne : c ≠ p := ancestors_ne p c (by rw [← hr]; exact h3)
      simp [hne, hp]

/-! ### C23: the order of the rules in a list -/

/-- The scan of a list of rules finds a match exactly when some rule of the list matches,
so two lists with the same rules give the same scan. -/
theorem scanRules_of_same_rules (line : Str) (a b : List RegularExpression)
    (hab : ∀ rx, rx ∈ a ↔ rx ∈ b) : scanRules line a = scanRules line b := by
  rw [Bool.eq_iff_iff, scanRules_iff, scanRules_iff]
  unfold Matches
  constructor
  · rintro ⟨rx, hm, hf⟩
    exact ⟨rx, (hab rx).mp hm, hf⟩
  · rintro ⟨rx, hm, hf⟩
    exact ⟨rx, (hab rx).mpr hm, hf⟩

/-- C23. The kind that `ProcessSingleLine` returns depends only on the set of the rules
in each of the four lists: when the lists `E`, `X`, `W` and `Y` hold the same rules as
`ErrorMatchRegex`, `ErrorExceptionRegex`, `WarningMatchRegex` and `WarningExceptionRegex`
of the handler, in whatever order (in particular when they are permutations of them),
every line gets the same kind with them, although each scan stops at its first match. -/
theorem ProcessSingleLine_rule_order (h : cmCTestBuildHandler)
    (E X W Y : List RegularExpression) (data : Str)
    (hE : ∀ rx, rx ∈ E ↔ rx ∈ h.ErrorMatchRegex)
    (hX : ∀ rx, rx ∈ X ↔ rx ∈ h.ErrorExceptionRegex)
    (hW : ∀ rx, rx ∈ W ↔ rx ∈ h.WarningMatchRegex)
    (hY : ∀ rx, rx ∈ Y ↔ rx ∈ h.WarningExceptionRegex) :
    ProcessSingleLine
        { h with ErrorMatchRegex := E, ErrorExceptionRegex := X, WarningMatchRegex := W,
                 WarningExceptionRegex := Y } data =
      ProcessSingleLine h data := by
  unfold ProcessSingleLine
  simp only [scanRules_of_same_rules _ E _ hE, scanRules_of_same_rules _ X _ hX,
    scanRules_of_same_rules _ W _ hW, scanRules_of_same_rules _ Y _ hY]

/-- C23 on the sample handler with two rules in each list: with each list reversed, a
line that the second Error rule and the first Warning rule match is an Error line as
before. -/
theorem ProcessSingleLine_rule_order_witness :
    sampleTwoRuleHandler.ErrorMatchRegex.reverse.Perm sampleTwoRuleHandler.ErrorMatchRegex ∧
    ProcessSingleLine
        { sampleTwoRuleHandler with
          ErrorMatchRegex := sampleTwoRuleHandler.ErrorMatchRegex.reverse
          ErrorExceptionRegex := sampleTwoRuleHandler.ErrorExceptionRegex.reverse
          WarningMatchRegex := sampleTwoRuleHandler.WarningMatchRegex.reverse
          WarningExceptionRegex := sampleTwoRuleHandler.WarningExceptionRegex.reverse }
        "x.c:3: fatal warning".toList =
      ProcessSingleLine sampleTwoRuleHandler "x.c:3: fatal warning".toList ∧
    ProcessSingleLine sampleTwoRuleHandler "x.c:3: fatal warning".toList =
      LineType.b_ERROR_LINE :=
  ⟨List.reverse_perm _,
    ProcessSingleLine_rule_order sampleTwoRuleHandler _ _ _ _ "x.c:3: fatal warning".toList
      (fun _ => List.mem_reverse) (fun _ => List.mem_reverse) (fun _ => List.mem_reverse)
      (fun _ => List.mem_reverse),
    by decide⟩

/-! ### C25: the totals and the event sequence -/

theorem countKind_of_map (kind : Bool) (a b : List cmCTestBuildErrorWarning)
    (hab : a.map (fun ev => ev.Error) = b.map (fun ev => ev.Error)) :
    countKind kind a = countKind kind b := by
  have key : ∀ l : List cmCTestBuildErrorWarning,
      countKind kind l = ((l.map (fun ev => ev.Error)).filter (fun e => e == kind)).length := by
    intro l
    induction l with
    | nil => rfl
    | cons x xs ih =>
      unfold countKind at ih ⊢
      by_cases hx : (x.Error == kind) = true
      · simp only [List.filter_cons, hx, if_true, List.length_cons, List.map_cons, ih]
      · simp only [List.filter_cons, hx, if_false, List.map_cons, ih, Bool.false_eq_true]
  rw [key a, key b, hab]

theorem TotalsInv_CheckQuota (h : cmCTestBuildHandler) (hinv : TotalsInv h) :
    TotalsInv (CheckQuota h) := by
  obtain ⟨h1, h2, h3, _, _⟩ := CheckQuota_fields h
  unfold TotalsInv
  rw [h1, h2, h3]
  exact hinv

theorem TotalsInv_ProcessBufferLine (h : cmCTestBuildHandler) (cur : List Char)
    (hinv : TotalsInv h) : TotalsInv (ProcessBufferLine h cur) := by
  obtain ⟨h1, h2, h3, _, _⟩ := ProcessBufferLine_totals h cur
  obtain ⟨he, hw⟩ := hinv
  unfold TotalsInv
  rw [h1, h2, he, hw]
  cases hl : ProcessSingleLine h (c_str cur) with
  | b_REGULAR_LINE =>
    rw [hl] at h3
    simp only [if_true, List.append_nil] at h3
    rw [countKind_of_map true _ _ h3, countKind_of_map false _ _ h3]
    simp
  | b_WARNING_LINE =>
    rw [hl] at h3
    have h3' : (ProcessBufferLine h cur).ErrorsAndWarnings.map (fun ev => ev.Error) =
        (h.ErrorsAndWarnings ++ [sampleEvent false 0 ""]).map (fun ev => ev.Error) := by
      rw [h3]
      simp [sampleEvent]
    rw [countKind_of_map true _ _ h3', countKind_of_map false _ _ h3', countKind_append,
      countKind_append, countKind_singleton, countKind_singleton]
    simp [sampleEvent]
  | b_ERROR_LINE =>
    rw [hl] at h3
    have h3' : (ProcessBufferLine h cur).ErrorsAndWarnings.map (fun ev => ev.Error) =
        (h.ErrorsAndWarnings ++ [sampleEvent true 0 ""]).map (fun ev => ev.Error) := by
      rw [h3]
      simp [sampleEvent]
    rw [countKind_of_map true _ _ h3', countKind_of_map false _ _ h3', countKind_append,
      countKind_append, countKind_singleton, countKind_singleton]
    simp [sampleEvent]

theorem TotalsInv_ReadChunks (h : cmCTestBuildHandler) (chunks : List (QueueSel × List Char))
    (hinv : TotalsInv h) : TotalsInv (ReadChunks h chunks) :=
  ReadChunks_preserves TotalsInv (fun _ _ _ _ hq => hq) TotalsInv_CheckQuota
    (fun g cur _ hq => TotalsInv_ProcessBufferLine _ cur (TotalsInv_CheckQuota g hq)) h chunks hinv

theorem TotalsInv_Initialize (h : cmCTestBuildHandler) :
    TotalsInv (InitializeBuildingStructures h) := by
  simp [TotalsInv, InitializeBuildingStructures, countKind]

theorem TotalsInv_push (h : cmCTestBuildHandler) (ev : cmCTestBuildErrorWarning)
    (hinv : TotalsInv h) :
    TotalsInv { h with
      ErrorsAndWarnings := h.ErrorsAndWarnings ++ [ev]
      TotalErrors := h.TotalErrors + (if ev.Error = true then 1 else 0)
      TotalWarnings := h.TotalWarnings + (if ev.Error = true then 0 else 1) } := by
  obtain ⟨he, hw⟩ := hinv
  unfold TotalsInv
  simp only [countKind_append, countKind_singleton, he, hw]
  cases ev.Error <;> simp

/-- The handler that `RunMakeCommand` leaves is the one in which the output was read,
with at most one event pushed by the handling of the exit status. -/
theorem RunMakeCommand_handler (h : cmCTestBuildHandler) (args : List Str)
    (tag binaryDir : Str) (retVal : Option Int) (chain : cmUVProcessChain)
    (launchDir : List Str) (hargs : args ≠ []) :
    (RunMakeCommand h args tag binaryDir retVal chain launchDir).handler =
      ReadOutput h tag binaryDir chain.chunks ∨
    (RunMakeCommand h args tag binaryDir retVal chain launchDir).handler =
      { ReadOutput h tag binaryDir chain.chunks with
        ErrorsAndWarnings :=
          (ReadOutput h tag binaryDir chain.chunks).ErrorsAndWarnings ++
            [NonZeroReturnWarning args]
        TotalWarnings := (ReadOutput h tag binaryDir chain.chunks).TotalWarnings + 1 } ∨
    (RunMakeCommand h args tag binaryDir retVal chain launchDir).handler =
      { ReadOutput h tag binaryDir chain.chunks with
        ErrorsAndWarnings :=
          (ReadOutput h tag binaryDir chain.chunks).ErrorsAndWarnings ++
            [SpawnError chain.GetException.2]
        TotalErrors := (ReadOutput h tag binaryDir chain.chunks).TotalErrors + 1 } := by
  unfold RunMakeCommand
  rw [if_neg hargs]
  simp only
  split_ifs <;> (repeat' split) <;>
    first
    | exact Or.inl rfl
    | exact Or.inr (Or.inl rfl)
    | exact Or.inr (Or.inr rfl)

/-- C25. In a call of `RunMakeCommand` that gets past the parsing of the command, the
totals agree with the event sequence from the reset on: after the block "Initialize
building structures", after every call of `ProcessBuffer` by a read callback (the chunks
read so far being any initial part of the chunks of the run), after each of the two
closing calls of `ProcessBuffer`, and in the handler that `RunMakeCommand` leaves, after
the handling of the exit status: `TotalErrors` is the number of events of kind Error and
`TotalWarnings` the number of events of kind Warning. -/
theorem RunMakeCommand_totals (h : cmCTestBuildHandler) (args : List Str)
    (tag binaryDir : Str) (retVal : Option Int) (chain : cmUVProcessChain)
    (launchDir : List Str) (hargs : args ≠ []) :
    TotalsInv (InitializeBuildingStructures (LaunchHelper tag binaryDir h)) ∧
    (∀ before after, chain.chunks = before ++ after →
      TotalsInv (ReadChunks (InitializeBuildingStructures (LaunchHelper tag binaryDir h))
        before)) ∧
    TotalsInv (ProcessBuffer
      (ReadChunks (InitializeBuildingStructures (LaunchHelper tag binaryDir h)) chain.chunks)
      [] QueueSel.BuildProcessingQueue) ∧
    TotalsInv (ReadOutput h tag binaryDir chain.chunks) ∧
    TotalsInv (RunMakeCommand h args tag binaryDir retVal chain launchDir).handler := by
  have h0 := TotalsInv_Initialize (LaunchHelper tag binaryDir h)
  have hread : ∀ cs, TotalsInv
      (ReadChunks (InitializeBuildingStructures (LaunchHelper tag binaryDir h)) cs) :=
    fun cs => TotalsInv_ReadChunks _ cs h0
  have hclose1 : TotalsInv (ProcessBuffer
      (ReadChunks (InitializeBuildingStructures (LaunchHelper tag binaryDir h)) chain.chunks)
      [] QueueSel.BuildProcessingQueue) :=
    TotalsInv_ReadChunks _ [(QueueSel.BuildProcessingQueue, [])] (hread chain.chunks)
  have hout : TotalsInv (ReadOutput h tag binaryDir chain.chunks) :=
    TotalsInv_ReadChunks _ [(QueueSel.BuildProcessingErrorQueue, [])] hclose1
  refine ⟨h0, fun before _ _ => hread before, hclose1, hout, ?_⟩
  rcases RunMakeCommand_handler h args tag binaryDir retVal chain launchDir hargs with
    hr | hr | hr
  · rw [hr]; exact hout
  · rw [hr]
    have := TotalsInv_push _ (NonZeroReturnWarning args) hout
    simpa [NonZeroReturnWarning] using this
  · rw [hr]
    have := TotalsInv_push _ (SpawnError chain.GetException.2) hout
    simpa [SpawnError] using this

/-- C25 on the sample handler: the build prints a warning line and an error line and
exits with code 2, which pushes one more Warning; the handler that `RunMakeCommand`
leaves has `TotalErrors = 1` and `TotalWarnings = 2`. -/
theorem RunMakeCommand_totals_witness :
    ["make".toList] ≠ [] ∧
    TotalsInv (RunMakeCommand sampleWindowHandler ["make".toList] [] "/b".toList (some 0)
      (sampleChain [(QueueSel.BuildProcessingQueue, "a.c:1: warning: w\n".toList),
        (QueueSel.BuildProcessingErrorQueue, "ld: error: x\n".toList)] 2) []).handler :=
  ⟨by decide,
    (RunMakeCommand_totals sampleWindowHandler ["make".toList] [] "/b".toList (some 0)
      (sampleChain [(QueueSel.BuildProcessingQueue, "a.c:1: warning: w\n".toList),
        (QueueSel.BuildProcessingErrorQueue, "ld: error: x\n".toList)] 2) []
      (by decide)).2.2.2.2⟩

/-! ### C26: the order of the fragments when every time is known -/

theorem FragmentCompare_of_some (FTC : cmFileTimeCache) (l r : Str) (a : Int)
    (ha : FTC.Compare l r = some a) :
    FragmentCompare FTC l r = true ↔ a < 0 ∨ (a = 0 ∧ l < r) := by
  unfold FragmentCompare
  rw [ha]
  by_cases h0 : a = 0
  · simp [h0]
  · simp [h0]

theorem TimeLE_of_some (FTC : cmFileTimeCache) (l r : Str) (a : Int)
    (ha : FTC.Compare l r = some a) : TimeLE FTC l r = true ↔ a ≤ 0 := by
  unfold TimeLE
  rw [ha]
  simp

theorem TimeLE_false_of_some (FTC : cmFileTimeCache) (l r : Str) (a : Int)
    (ha : FTC.Compare l r = some a) : TimeLE FTC l r = false ↔ 0 < a := by
  unfold TimeLE
  rw [ha]
  simp

/-- Two paths whose times can be compared consistently: the two results of `Compare`. -/
theorem Compare_pair (FTC : cmFileTimeCache) (S : List Str)
    (hdet : ∀ l ∈ S, ∀ r ∈ S, (FTC.Compare l r).isSome = true)
    (hcons : ∀ l ∈ S, ∀ r ∈ S, ∀ a b, FTC.Compare l r = some a → FTC.Compare r l = some b →
      (a < 0 ↔ 0 < b))
    (l r : Str) (hl : l ∈ S) (hr : r ∈ S) :
    ∃ a b, FTC.Compare l r = some a ∧ FTC.Compare r l = some b ∧ (a < 0 ↔ 0 < b) ∧
      (b < 0 ↔ 0 < a) := by
  obtain ⟨a, ha⟩ := Option.isSome_iff_exists.mp (hdet l hl r hr)
  obtain ⟨b, hb⟩ := Option.isSome_iff_exists.mp (hdet r hr l hl)
  exact ⟨a, b, ha, hb, hcons l hl r hr a b ha hb, hcons r hr l hl b a hb ha⟩

/-- `FragmentCompare` is the lexicographic order on (modification time, path) where the
times are compared consistently. -/
theorem FragmentCompare_lex (FTC : cmFileTimeCache) (S : List Str)
    (hdet : ∀ l ∈ S, ∀ r ∈ S, (FTC.Compare l r).isSome = true)
    (hcons : ∀ l ∈ S, ∀ r ∈ S, ∀ a b, FTC.Compare l r = some a → FTC.Compare r l = some b →
      (a < 0 ↔ 0 < b))
    (l r : Str) (hl : l ∈ S) (hr : r ∈ S) :
    FragmentCompare FTC l r = true ↔ TimePathLess FTC l r := by
  obtain ⟨a, b, ha, hb, h1, h2⟩ := Compare_pair FTC S hdet hcons l r hl hr
  unfold TimePathLess
  rw [FragmentCompare_of_some FTC l r a ha, TimeLE_of_some FTC l r a ha,
    TimeLE_of_some FTC r l b hb, TimeLE_false_of_some FTC r l b hb]
  constructor
  · rintro (h | ⟨h, hlt⟩)
    · exact Or.inl ⟨by omega, h1.mp h⟩
    · refine Or.inr ⟨by omega, ?_, hlt⟩
      by_contra hb0
      have : a < 0 := h1.mpr (by omega)
      omega
  · rintro (⟨_, h⟩ | ⟨h, h', hlt⟩)
    · exact Or.inl (h1.mpr h)
    · refine Or.inr ⟨?_, hlt⟩
      by_contra ha0
      have : 0 < b := h1.mp (by omega)
      omega

/-- `FragmentCompare` is transitive where the times are compared by a consistent total
preorder. -/
theorem FragmentCompare_trans_of_preorder (FTC : cmFileTimeCache) (S : List Str)
    (hdet : ∀ l ∈ S, ∀ r ∈ S, (FTC.Compare l r).isSome = true)
    (hcons : ∀ l ∈ S, ∀ r ∈ S, ∀ a b, FTC.Compare l r = some a → FTC.Compare r l = some b →
      (a < 0 ↔ 0 < b))
    (htrans : ∀ l ∈ S, ∀ r ∈ S, ∀ t ∈ S, TimeLE FTC l r = true → TimeLE FTC r t = true →
      TimeLE FTC l t = true)
    (l r t : Str) (hl : l ∈ S) (hr : r ∈ S) (ht : t ∈ S)
    (hlr : FragmentCompare FTC l r = true) (hrt : FragmentCompare FTC r t = true) :
    FragmentCompare FTC l t = true := by
  obtain ⟨a, a', ha, ha', c1, c2⟩ := Compare_pair FTC S hdet hcons l r hl hr
  obtain ⟨b, b', hb, hb', c3, c4⟩ := Compare_pair FTC S hdet hcons r t hr ht
  obtain ⟨c, c', hc, hc', c5, c6⟩ := Compare_pair FTC S hdet hcons l t hl ht
  have t1 := htrans l hl r hr t ht
  have t2 := htrans t ht l hl r hr
  have t3 := htrans r hr t ht l hl
  rw [TimeLE_of_some FTC l r a ha, TimeLE_of_some FTC r t b hb,
    TimeLE_of_some FTC l t c hc] at t1
  rw [TimeLE_of_some FTC t l c' hc', TimeLE_of_some FTC l r a ha,
    TimeLE_of_some FTC t r b' hb'] at t2
  rw [TimeLE_of_some FTC r t b hb, TimeLE_of_some FTC t l c' hc',
    TimeLE_of_some FTC r l a' ha'] at t3
  rw [FragmentCompare_of_some FTC l r a ha] at hlr
  rw [FragmentCompare_of_some FTC r t b hb] at hrt
  rw [FragmentCompare_of_some FTC l t c hc]
  have ha0 : a ≤ 0 := by rcases hlr with h | ⟨h, _⟩ <;> omega
  have hb0 : b ≤ 0 := by rcases hrt with h | ⟨h, _⟩ <;> omega
  have hc0 : c ≤ 0 := t1 ha0 hb0
  by_cases hc1 : c < 0
  · exact Or.inl hc1
  · have hceq : c = 0 := by omega
    have hc'0 : c' ≤ 0 := by
      by_contra hn
      have : c < 0 := c5.mpr (by omega)
      omega
    have hb'0 : b' ≤ 0 := t2 hc'0 ha0
    have ha'0 : a' ≤ 0 := t3 hb0 hc'0
    have hbeq : ¬ b < 0 := fun hn => by
      have := c3.mp hn
      omega
    have haeq : ¬ a < 0 := fun hn => by
      have := c1.mp hn
      omega
    have hlr' : l < r := by
      rcases hlr with h | ⟨_, h⟩
      · exact absurd h haeq
      · exact h
    have hrt' : r < t := by
      rcases hrt with h | ⟨_, h⟩
      · exact absurd h hbeq
      · exact h
    exact Or.inr ⟨hceq, lt_trans hlr' hrt'⟩

/-- `FragmentCompare` is irreflexive, asymmetric and total on distinct paths where the
times are compared consistently. -/
theorem FragmentCompare_total_of_consistent (FTC : cmFileTimeCache) (S : List Str)
    (hdet : ∀ l ∈ S, ∀ r ∈ S, (FTC.Compare l r).isSome = true)
    (hcons : ∀ l ∈ S, ∀ r ∈ S, ∀ a b, FTC.Compare l r = some a → FTC.Compare r l = some b →
      (a < 0 ↔ 0 < b)) :
    (∀ l ∈ S, FragmentCompare FTC l l = false) ∧
    (∀ l ∈ S, ∀ r ∈ S, FragmentCompare FTC l r = true → FragmentCompare FTC r l = false) ∧
    (∀ l ∈ S, ∀ r ∈ S, l ≠ r →
      FragmentCompare FTC l r = true ∨ FragmentCompare FTC r l = true) := by
  refine ⟨?_, ?_, ?_⟩
  · intro l hl
    obtain ⟨a, b, ha, hb, h1, h2⟩ := Compare_pair FTC S hdet hcons l l hl hl
    rw [Bool.eq_false_iff]
    intro hc
    rw [FragmentCompare_of_some FTC l l a ha] at hc
    have hab : a = b := by rw [ha] at hb; exact Option.some.inj hb
    rcases hc with h | ⟨_, h⟩
    · have := h1.mp h
      omega
    · exact lt_irrefl l h
  · intro l hl r hr hlr
    obtain ⟨a, b, ha, hb, h1, h2⟩ := Compare_pair FTC S hdet hcons l r hl hr
    rw [Bool.eq_false_iff]
    intro hrl
    rw [FragmentCompare_of_some FTC l r a ha] at hlr
    rw [FragmentCompare_of_some FTC r l b hb] at hrl
    rcases hlr with h | ⟨h, hlt⟩ <;> rcases hrl with h' | ⟨h', hlt'⟩
    · have := h1.mp h
      omega
    · have := h1.mp h
      omega
    · have := h2.mp h'
      omega
    · exact lt_asymm hlt hlt'
  · intro l hl r hr hne
    obtain ⟨a, b, ha, hb, h1, h2⟩ := Compare_pair FTC S hdet hcons l r hl hr
    rw [FragmentCompare_of_some FTC l r a ha, FragmentCompare_of_some FTC r l b hb]
    by_cases ha0 : a < 0
    · exact Or.inl (Or.inl ha0)
    · by_cases hb0 : b < 0
      · exact Or.inr (Or.inl hb0)
      · have haz : a = 0 := by
          by_contra hn
          have : b < 0 := h2.mpr (by omega)
          exact hb0 this
        have hbz : b = 0 := by
          by_contra hn
          have : a < 0 := h1.mpr (by omega)
          exact ha0 this
        rcases lt_trichotomy l r with h | h | h
        · exact Or.inl (Or.inr ⟨haz, h⟩)
        · exact absurd h hne
        · exact Or.inr (Or.inr ⟨hbz, h⟩)

/-- Inserting a path that the set does not hold, and that is comparable with every path
of the set, adds it to the set. -/
theorem perm_setInsert (comp : Str → Str → Bool) (x : Str) (l : List Str)
    (hconn : ∀ y ∈ l, x ≠ y → comp x y = true ∨ comp y x = true) (hx : x ∉ l) :
    (setInsert comp x l).Perm (x :: l) := by
  induction l with
  | nil => simp [setInsert]
  | cons y ys ih =>
    have hxy : x ≠ y := fun h => hx (by simp [h])
    have hxs : x ∉ ys := fun h => hx (by simp [h])
    unfold setInsert
    by_cases h1 : comp x y = true
    · rw [if_pos h1]
    · rw [if_neg h1]
      by_cases h2 : comp y x = true
      · rw [if_pos h2]
        exact ((ih (fun z hz => hconn z (by simp [hz])) hxs).cons y).trans (List.Perm.swap x y ys)
      · exfalso
        rcases hconn y (by simp) hxy with h | h
        · exact h1 h
        · exact h2 h

/-- The scan of the launch directory keeps every path it inserts, when the listing names
each file once and any two distinct fragment paths are comparable. -/
theorem perm_IdentifyFragments (FTC : cmFileTimeCache) (S : Str → Prop)
    (hconn : ∀ a b, S a → S b → a ≠ b →
      FragmentCompare FTC a b = true ∨ FragmentCompare FTC b a = true)
    (files : List Str) (nE nW : Int) (fragments : List Str) (h : cmCTestBuildHandler)
    (hnodup : files.Nodup)
    (hfiles : ∀ fname ∈ files, IsLaunchedErrorFile fname = true ∨
      IsLaunchedWarningFile fname = true → S (h.CTestLaunchDir ++ '/' :: fname))
    (hfr : ∀ p ∈ fragments, S p)
    (hnew : ∀ fname ∈ files, h.CTestLaunchDir ++ '/' :: fname ∉ fragments) :
    (IdentifyFragments FTC files nE nW fragments h).1.Perm
      (fragments ++ InsertedFragments h.CTestLaunchDir files nE nW) := by
  induction files generalizing nE nW fragments h with
  | nil => simp [IdentifyFragments, InsertedFragments]
  | cons f rest ih =>
    have hnd : rest.Nodup := (List.nodup_cons.mp hnodup).2
    have hf : f ∉ rest := (List.nodup_cons.mp hnodup).1
    have hrest : ∀ fname ∈ rest, IsLaunchedErrorFile fname = true ∨
        IsLaunchedWarningFile fname = true → S (h.CTestLaunchDir ++ '/' :: fname) :=
      fun fname hm => hfiles fname (by simp [hm])
    have hnewrest : ∀ fname ∈ rest, h.CTestLaunchDir ++ '/' :: fname ∉ fragments :=
      fun fname hm => hnew fname (by simp [hm])
    have hstep : ∀ (hS : S (h.CTestLaunchDir ++ '/' :: f)),
        (setInsert (FragmentCompare FTC) (h.CTestLaunchDir ++ '/' :: f) fragments).Perm
          ((h.CTestLaunchDir ++ '/' :: f) :: fragments) ∧
        (∀ p ∈ setInsert (FragmentCompare FTC) (h.CTestLaunchDir ++ '/' :: f) fragments, S p) ∧
        (∀ fname ∈ rest, h.CTestLaunchDir ++ '/' :: fname ∉
          setInsert (FragmentCompare FTC) (h.CTestLaunchDir ++ '/' :: f) fragments) := by
      intro hS
      refine ⟨perm_setInsert _ _ _ (fun y hy hne => hconn _ _ hS (hfr y hy) hne)
        (hnew f (by simp)), ?_, ?_⟩
      · intro p hp
        rcases mem_setInsert_imp _ _ _ _ hp with hp | hp
        · rw [hp]; exact hS
        · exact hfr p hp
      · intro fname hm hp
        rcases mem_setInsert_imp _ _ _ _ hp with hp | hp
        · have : fname = f := by
            have := List.append_cancel_left hp
            simpa using this
          exact hf (this ▸ hm)
        · exact hnewrest fname hm hp
    unfold IdentifyFragments InsertedFragments
    by_cases h1 : IsLaunchedErrorFile f = true ∧ nE ≠ 0
    · rw [if_pos h1, if_pos h1]
      obtain ⟨hp, hS', hnew'⟩ := hstep (hfiles f (by simp) (Or.inl h1.1))
      refine (ih (nE - 1) nW _ { h with TotalErrors := h.TotalErrors + 1 } hnd hrest hS'
        hnew').trans ?_
      exact (hp.append_right _).trans (by simpa using List.perm_middle.symm)
    · rw [if_neg h1, if_neg h1]
      by_cases h2 : IsLaunchedWarningFile f = true ∧ nW ≠ 0
      · rw [if_pos h2, if_pos h2]
        obtain ⟨hp, hS', hnew'⟩ := hstep (hfiles f (by simp) (Or.inr h2.1))
        refine (ih nE (nW - 1) _ { h with TotalWarnings := h.TotalWarnings + 1 } hnd hrest hS'
          hnew').trans ?_
        exact (hp.append_right _).trans (by simpa using List.perm_middle.symm)
      · rw [if_neg h2, if_neg h2]
        exact ih nE nW fragments h hnd hrest hfr hnewrest

/-- Every call of `fragments.insert` in the scan of the launch directory goes with an
increment of `TotalErrors` or of `TotalWarnings`. -/
theorem IdentifyFragments_totals (FTC : cmFileTimeCache) (files : List Str) (nE nW : Int)
    (fragments : List Str) (h : cmCTestBuildHandler) :
    (IdentifyFragments FTC files nE nW fragments h).2.TotalErrors +
        (IdentifyFragments FTC files nE nW fragments h).2.TotalWarnings =
      h.TotalErrors + h.TotalWarnings +
        (InsertedFragments h.CTestLaunchDir files nE nW).length := by
  induction files generalizing nE nW fragments h with
  | nil => simp [IdentifyFragments, InsertedFragments]
  | cons f rest ih =>
    unfold IdentifyFragments InsertedFragments
    by_cases h1 : IsLaunchedErrorFile f = true ∧ nE ≠ 0
    · rw [if_pos h1, if_pos h1, ih]
      simp only [List.length_cons]
      push_cast
      ring
    · rw [if_neg h1, if_neg h1]
      by_cases h2 : IsLaunchedWarningFile f = true ∧ nW ≠ 0
      · rw [if_pos h2, if_pos h2, ih]
        simp only [List.length_cons]
        push_cast
        ring
      · rw [if_neg h2, if_neg h2, ih]

theorem mem_FragmentFiles (dir : Str) (launchDir : List Str) (fname : Str)
    (hm : fname ∈ launchDir)
    (hk : IsLaunchedErrorFile fname = true ∨ IsLaunchedWarningFile fname = true) :
    dir ++ '/' :: fname ∈ FragmentFiles dir launchDir := by
  unfold FragmentFiles
  refine List.mem_map.mpr ⟨fname, List.mem_filter.mpr ⟨hm, ?_⟩, rfl⟩
  rcases hk with hk | hk <;> simp [hk]
theorem ofTimes_consistent (mtime : Str → Option Nat) (l r : Str) (a b : Int)
    (ha : (cmFileTimeCache.ofTimes mtime).Compare l r = some a)
    (hb : (cmFileTimeCache.ofTimes mtime).Compare r l = some b) : a < 0 ↔ 0 < b := by
  unfold cmFileTimeCache.ofTimes at ha hb
  simp only at ha hb
  cases hl : mtime l with
  | none => rw [hl] at ha; simp at ha
  | some x =>
    cases hr : mtime r with
    | none => rw [hl, hr] at ha; simp at ha
    | some y =>
      rw [hl, hr] at ha hb
      simp only [Option.some.injEq] at ha hb
      rw [← ha, ← hb]
      rcases Nat.lt_trichotomy x y with h | h | h
      · have h1 : ¬ y < x := by omega
        have h2 : ¬ y = x := by omega
        simp [h, h1, h2]
      · subst h
        simp
      · have h1 : ¬ x < y := by omega
        have h2 : ¬ x = y := by omega
        simp [h, h1, h2]

theorem ofTimes_TimeLE (mtime : Str → Option Nat) (l r : Str) :
    TimeLE (cmFileTimeCache.ofTimes mtime) l r = true ↔
      ∃ x y, mtime l = some x ∧ mtime r = some y ∧ x ≤ y := by
  unfold TimeLE cmFileTimeCache.ofTimes
  simp only
  cases hl : mtime l with
  | none => simp
  | some x =>
    cases hr : mtime r with
    | none => simp
    | some y =>
      simp only [Option.some.injEq, exists_and_left, exists_eq_left']
      rcases Nat.lt_trichotomy x y with h | h | h
      · simp [h]
        omega
      · subst h
        simp
      · have h1 : ¬ x < y := by omega
        have h2 : ¬ x = y := by omega
        simp [h1, h2]
        omega

theorem ofTimes_TimeLE_trans (mtime : Str → Option Nat) (l r t : Str)
    (h1 : TimeLE (cmFileTimeCache.ofTimes mtime) l r = true)
    (h2 : TimeLE (cmFileTimeCache.ofTimes mtime) r t = true) :
    TimeLE (cmFileTimeCache.ofTimes mtime) l t = true := by
  rw [ofTimes_TimeLE] at h1 h2 ⊢
  obtain ⟨x, y, hx, hy, hxy⟩ := h1
  obtain ⟨y', z, hy', hz, hyz⟩ := h2
  rw [hy] at hy'
  have : y = y' := Option.some.inj hy'
  exact ⟨x, z, hx, hz, by omega⟩

/-- C26. Let the listing of the launch directory name each file once, and let the
modification times of the fragment files be comparable by a consistent total preorder:
`Compare` succeeds on any two of their paths, its two results for a pair agree (the one
is negative exactly when the other is positive), and "not newer than" is transitive.
Then on the paths of the fragment files `FragmentCompare` is a strict total order
(irreflexive, asymmetric, transitive, and comparing any two distinct paths), and it is
the lexicographic order on (modification time, path).  Hence the fragment set keeps
every inserted path: the fragments that `GenerateXMLLaunched` emits are the selected
paths, each once, and their number is the number of paths selected, which is also the
number by which `TotalErrors` and `TotalWarnings` grow together. -/
theorem FragmentCompare_lexicographic (FTC : cmFileTimeCache) (launchDir : List Str)
    (h : cmCTestBuildHandler) (hnodup : launchDir.Nodup)
    (hdet : ∀ l ∈ FragmentFiles h.CTestLaunchDir launchDir,
      ∀ r ∈ FragmentFiles h.CTestLaunchDir launchDir, (FTC.Compare l r).isSome = true)
    (hcons : ∀ l ∈ FragmentFiles h.CTestLaunchDir launchDir,
      ∀ r ∈ FragmentFiles h.CTestLaunchDir launchDir,
      ∀ a b, FTC.Compare l r = some a → FTC.Compare r l = some b → (a < 0 ↔ 0 < b))
    (htrans : ∀ l ∈ FragmentFiles h.CTestLaunchDir launchDir,
      ∀ r ∈ FragmentFiles h.CTestLaunchDir launchDir,
      ∀ t ∈ FragmentFiles h.CTestLaunchDir launchDir,
      TimeLE FTC l r = true → TimeLE FTC r t = true → TimeLE FTC l t = true) :
    (∀ l ∈ FragmentFiles h.CTestLaunchDir launchDir, FragmentCompare FTC l l = false) ∧
    (∀ l ∈ FragmentFiles h.CTestLaunchDir launchDir,
      ∀ r ∈ FragmentFiles h.CTestLaunchDir launchDir,
      FragmentCompare FTC l r = true → FragmentCompare FTC r l = false) ∧
    (∀ l ∈ FragmentFiles h.CTestLaunchDir launchDir,
      ∀ r ∈ FragmentFiles h.CTestLaunchDir launchDir,
      ∀ t ∈ FragmentFiles h.CTestLaunchDir launchDir,
      FragmentCompare FTC l r = true → FragmentCompare FTC r t = true →
      FragmentCompare FTC l t = true) ∧
    (∀ l ∈ FragmentFiles h.CTestLaunchDir launchDir,
      ∀ r ∈ FragmentFiles h.CTestLaunchDir launchDir, l ≠ r →
      FragmentCompare FTC l r = true ∨ FragmentCompare FTC r l = true) ∧
    (∀ l ∈ FragmentFiles h.CTestLaunchDir launchDir,
      ∀ r ∈ FragmentFiles h.CTestLaunchDir launchDir,
      (FragmentCompare FTC l r = true ↔ TimePathLess FTC l r)) ∧
    (GenerateXMLLaunched FTC launchDir h).1.Perm (SelectedFragments launchDir h) ∧
    (GenerateXMLLaunched FTC launchDir h).1.length = (SelectedFragments launchDir h).length ∧
    ((GenerateXMLLaunched FTC launchDir h).1.length : Int) =
      ((GenerateXMLLaunched FTC launchDir h).2.TotalErrors - h.TotalErrors) +
        ((GenerateXMLLaunched FTC launchDir h).2.TotalWarnings - h.TotalWarnings) := by
  obtain ⟨hirr, hasym, htot⟩ :=
    FragmentCompare_total_of_consistent FTC (FragmentFiles h.CTestLaunchDir launchDir) hdet hcons
  have hperm : (GenerateXMLLaunched FTC launchDir h).1.Perm (SelectedFragments launchDir h) := by
    unfold GenerateXMLLaunched SelectedFragments
    by_cases hdir : h.CTestLaunchDir = []
    · rw [if_pos hdir, if_pos hdir]
    · rw [if_neg hdir, if_neg hdir]
      have := perm_IdentifyFragments FTC
        (fun p => p ∈ FragmentFiles h.CTestLaunchDir launchDir)
        (fun a b ha hb hne => htot a ha b hb hne) launchDir h.MaxErrors h.MaxWarnings [] h hnodup
        (fun fname hm hk => mem_FragmentFiles _ _ fname hm hk) (by simp) (by simp)
      simpa using this
  have hlen := hperm.length_eq
  refine ⟨hirr, hasym, ?_, htot, ?_, hperm, hlen, ?_⟩
  · intro l hl r hr t ht hlr hrt
    exact FragmentCompare_trans_of_preorder FTC _ hdet hcons htrans l r t hl hr ht hlr hrt
  · intro l hl r hr
    exact FragmentCompare_lex FTC _ hdet hcons l r hl hr
  · rw [hlen]
    unfold GenerateXMLLaunched SelectedFragments
    by_cases hdir : h.CTestLaunchDir = []
    · rw [if_pos hdir, if_pos hdir]
      simp
    · rw [if_neg hdir, if_neg hdir]
      have := IdentifyFragments_totals FTC launchDir h.MaxErrors h.MaxWarnings [] h
      omega

/-- C26 on a launch directory with three fragment files whose modification times are
all known: the three paths are emitted, `warning-2.xml` and `error-3.xml` (both modified
at time 1) before `error-1.xml` (modified at time 5). -/
theorem FragmentCompare_lexicographic_witness :
    sampleLaunchDir.Nodup ∧
    (∀ l ∈ FragmentFiles sampleLaunchWindowHandler.CTestLaunchDir sampleLaunchDir,
      ∀ r ∈ FragmentFiles sampleLaunchWindowHandler.CTestLaunchDir sampleLaunchDir,
      ((cmFileTimeCache.ofTimes sampleKnownTimes).Compare l r).isSome = true) ∧
    (GenerateXMLLaunched (cmFileTimeCache.ofTimes sampleKnownTimes) sampleLaunchDir
        sampleLaunchWindowHandler).1 =
      ["/b/error-3.xml".toList, "/b/warning-2.xml".toList, "/b/error-1.xml".toList] ∧
    (GenerateXMLLaunched (cmFileTimeCache.ofTimes sampleKnownTimes) sampleLaunchDir
        sampleLaunchWindowHandler).1.Perm
      (SelectedFragments sampleLaunchDir sampleLaunchWindowHandler) :=
  ⟨by decide, by decide, by decide,
    (FragmentCompare_lexicographic (cmFileTimeCache.ofTimes sampleKnownTimes) sampleLaunchDir
      sampleLaunchWindowHandler (by decide) (by decide)
      (fun l _ r _ a b ha hb => ofTimes_consistent sampleKnownTimes l r a b ha hb)
      (fun l _ r _ t _ h1 h2 => ofTimes_TimeLE_trans sampleKnownTimes l r t h1 h2)).2.2.2.2.2.1⟩

/-! ### C21: the lines of a stream -/

theorem ExtractedLines_line (l rest : List Char) (hl : '\n' ∉ l) :
    ExtractedLines (l ++ '\n' :: rest) = l :: ExtractedLines rest := by
  rw [ExtractedLines]
  split
  · rename_i x heq
    rw [span_newline_line l rest hl] at heq
    simp at heq
  · rename_i cur c rest' heq
    rw [span_newline_line l rest hl] at heq
    simp only [Prod.mk.injEq, List.cons.injEq] at heq
    obtain ⟨h1, _, h3⟩ := heq
    rw [h1, h3]

theorem ExtractedLines_tail (t : List Char) (ht : '\n' ∉ t) : ExtractedLines t = [] := by
  rw [ExtractedLines]
  split
  · rfl
  · rename_i cur c rest' heq
    rw [span_newline_none t ht] at heq
    simp at heq

/-- The lines extracted from a queue are its complete lines. -/
theorem ExtractedLines_unlines (ls : List Str) (t : List Char)
    (hls : ∀ l ∈ ls, '\n' ∉ l) (ht : '\n' ∉ t) : ExtractedLines (unlines ls ++ t) = ls := by
  induction ls with
  | nil => simpa [unlines] using ExtractedLines_tail t ht
  | cons l ls ih =>
    rw [unlines_cons, List.append_assoc, List.cons_append,
      ExtractedLines_line l _ (hls l (by simp)), ih (fun l' hl' => hls l' (by simp [hl']))]

/-- The queues after a call of `ProcessBuffer`: the queue of the stream holds what
follows the last newline, the other queue is as before. -/
theorem ProcessBuffer_queue (h : cmCTestBuildHandler) (data : List Char) (q : QueueSel)
    (ls : List Str) (t : List Char) (hq : h.queue q ++ data = unlines ls ++ t)
    (hls : ∀ l ∈ ls, '\n' ∉ l) (ht : '\n' ∉ t) :
    (ProcessBuffer h data q).queue q = t ∧
    ∀ r, r ≠ q → (ProcessBuffer h data q).queue r = h.queue r := by
  rw [ProcessBuffer_eq h data q ls t hq hls ht]
  cases q
  · refine ⟨rfl, fun r hr => ?_⟩
    cases r
    · exact absurd rfl hr
    · rfl
  · refine ⟨rfl, fun r hr => ?_⟩
    cases r
    · rfl
    · exact absurd rfl hr

theorem StreamBytes_cons_same (q : QueueSel) (d : List Char)
    (cs : List (QueueSel × List Char)) :
    StreamBytes q ((q, d) :: cs) = d ++ StreamBytes q cs := by
  simp [StreamBytes]

theorem StreamBytes_cons_other (q r : QueueSel) (d : List Char)
    (cs : List (QueueSel × List Char)) (hr : r ≠ q) :
    StreamBytes q ((r, d) :: cs) = StreamBytes q cs := by
  simp [StreamBytes, hr]

theorem StreamBytes_append (q : QueueSel) (a b : List (QueueSel × List Char)) :
    StreamBytes q (a ++ b) = StreamBytes q a ++ StreamBytes q b := by
  simp [StreamBytes]

theorem StreamBytes_closing (q : QueueSel) : StreamBytes q ClosingCalls = [] := by
  cases q <;> decide

theorem LinesOfStream_append (q : QueueSel) (a b : List (QueueSel × List Char)) :
    LinesOfStream q (a ++ b) = LinesOfStream q a ++ LinesOfStream q b := by
  simp [LinesOfStream]

theorem LinesOfStream_same (q : QueueSel) (ls : List (List Char)) :
    LinesOfStream q (ls.map (fun l => (q, l))) = ls := by
  induction ls with
  | nil => rfl
  | cons l ls ih =>
    simp only [LinesOfStream, List.map_cons, List.filter_cons, beq_self_eq_true, if_true] at ih ⊢
    rw [ih]

theorem LinesOfStream_other (q r : QueueSel) (ls : List (List Char)) (hr : r ≠ q) :
    LinesOfStream q (ls.map (fun l => (r, l))) = [] := by
  induction ls with
  | nil => rfl
  | cons l ls ih =>
    have hb : (r == q) = false := by simpa using hr
    simp only [LinesOfStream, List.map_cons, List.filter_cons, hb, Bool.false_eq_true,
      if_false] at ih ⊢
    exact ih

/-- The lines taken from the queue of a stream, whatever chunks arrive on the other
stream in between, are the complete lines of what the queue held followed by the bytes
of the stream; what follows the last newline stays in the queue. -/
theorem ReadChunksLines_stream (q : QueueSel) (chunks : List (QueueSel × List Char))
    (h : cmCTestBuildHandler) (ls : List Str) (t : List Char)
    (hq0 : '\n' ∉ h.queue q)
    (hbytes : h.queue q ++ StreamBytes q chunks = unlines ls ++ t)
    (hls : ∀ l ∈ ls, '\n' ∉ l) (ht : '\n' ∉ t) :
    LinesOfStream q (ReadChunksLines h chunks) = ls ∧ (ReadChunks h chunks).queue q = t := by
  induction chunks generalizing h ls with
  | nil =>
    have hb : unlines [] ++ h.queue q = unlines ls ++ t := by
      simpa [StreamBytes, unlines] using hbytes
    obtain ⟨h1, h2⟩ := unlines_unique [] ls (h.queue q) t (by simp) hls hq0 ht hb
    exact ⟨by rw [← h1]; rfl, h2⟩
  | cons c cs ih =>
    obtain ⟨r, d⟩ := c
    obtain ⟨ls1, t1, hq1, hls1, ht1⟩ := exists_unlines (h.queue r ++ d)
    obtain ⟨hqr, hqo⟩ := ProcessBuffer_queue h d r ls1 t1 hq1 hls1 ht1
    have hrun : ReadChunks h ((r, d) :: cs) = ReadChunks (ProcessBuffer h d r) cs := rfl
    have hlines : ReadChunksLines h ((r, d) :: cs) =
        ls1.map (fun l => (r, l)) ++ ReadChunksLines (ProcessBuffer h d r) cs := by
      rw [ReadChunksLines]
      simp only
      rw [hq1, ExtractedLines_unlines ls1 t1 hls1 ht1]
    rw [hrun, hlines, LinesOfStream_append]
    by_cases hr : r = q
    · subst hr
      obtain ⟨ls2, t2, hq2, hls2, ht2⟩ := exists_unlines (t1 ++ StreamBytes r cs)
      have hall : unlines (ls1 ++ ls2) ++ t2 = unlines ls ++ t := by
        rw [unlines_append, List.append_assoc, ← hq2, ← List.append_assoc, ← hq1, ← hbytes,
          StreamBytes_cons_same, List.append_assoc]
      have hmem : ∀ l ∈ ls1 ++ ls2, '\n' ∉ l := by
        intro l hl
        rcases List.mem_append.mp hl with hl | hl
        · exact hls1 l hl
        · exact hls2 l hl
      obtain ⟨hlseq, htt⟩ := unlines_unique (ls1 ++ ls2) ls t2 t hmem hls ht2 ht hall
      obtain ⟨i1, i2⟩ := ih (ProcessBuffer h d r) ls2 (by rw [hqr]; exact ht1)
        (by rw [hqr, ← htt]; exact hq2) hls2
      rw [LinesOfStream_same, i1, hlseq]
      exact ⟨rfl, i2⟩
    · have hqq : (ProcessBuffer h d r).queue q = h.queue q := hqo q (fun e => hr e.symm)
      obtain ⟨i1, i2⟩ := ih (ProcessBuffer h d r) ls (by rw [hqq]; exact hq0)
        (by rw [hqq, ← hbytes, StreamBytes_cons_other q r d cs hr]) hls
      rw [LinesOfStream_other q r ls1 hr, i1]
      exact ⟨rfl, i2⟩

/-- A run of `ProcessBuffer` calls is the line loop over the lines extracted, in the order
of extraction. -/
theorem ReadChunks_lines (c : QueueSel × List Char) (cs : List (QueueSel × List Char))
    (h : cmCTestBuildHandler) :
    ∃ out err size, ReadChunks h (c :: cs) =
      withQueues
        (CheckQuota (ProcessLines h ((ReadChunksLines h (c :: cs)).map Prod.snd))) out err
        size := by
  induction cs generalizing h c with
  | nil =>
    obtain ⟨r, d⟩ := c
    obtain ⟨ls1, t1, hq1, hls1, ht1⟩ := exists_unlines (h.queue r ++ d)
    have hlines : (ReadChunksLines h [(r, d)]).map Prod.snd = ls1 := by
      simp only [ReadChunksLines, List.append_nil, List.map_map]
      rw [hq1, ExtractedLines_unlines ls1 t1 hls1 ht1]
      simp
    rw [hlines]
    show ∃ out err size, ProcessBuffer h d r = _
    rw [ProcessBuffer_eq h d r ls1 t1 hq1 hls1 ht1]
    cases r
    · exact ⟨t1, h.BuildProcessingErrorQueue, _, rfl⟩
    · exact ⟨h.BuildProcessingQueue, t1, _, rfl⟩
  | cons c2 cs' ih =>
    obtain ⟨r, d⟩ := c
    obtain ⟨ls1, t1, hq1, hls1, ht1⟩ := exists_unlines (h.queue r ++ d)
    obtain ⟨o1, e1, hform⟩ : ∃ o1 e1,
        ProcessBuffer h d r = withQueues (CheckQuota (ProcessLines h ls1)) o1 e1
          ((h.BuildOutputLogSize + string_size d) % 2 ^ 64) := by
      rw [ProcessBuffer_eq h d r ls1 t1 hq1 hls1 ht1]
      cases r
      · exact ⟨t1, h.BuildProcessingErrorQueue, rfl⟩
      · exact ⟨h.BuildProcessingQueue, t1, rfl⟩
    obtain ⟨out, err, size, hih⟩ := ih c2 (ProcessBuffer h d r)
    refine ⟨out, err, size, ?_⟩
    have hlines : (ReadChunksLines h ((r, d) :: c2 :: cs')).map Prod.snd =
        ls1 ++ (ReadChunksLines (ProcessBuffer h d r) (c2 :: cs')).map Prod.snd := by
      rw [ReadChunksLines]
      simp only [List.map_append, List.map_map]
      rw [hq1, ExtractedLines_unlines ls1 t1 hls1 ht1]
      simp
    show ReadChunks (ProcessBuffer h d r) (c2 :: cs') = _
    rw [hih, hlines, ProcessLines_append]
    generalize List.map Prod.snd (ReadChunksLines (ProcessBuffer h d r) (c2 :: cs')) = L
    rw [hform, ProcessLines_withQueues, CheckQuota_withQueues, CheckQuota_ProcessLines_CheckQuota]
    rfl

theorem ReadOutput_eq_ReadChunks (h : cmCTestBuildHandler) (tag binaryDir : Str)
    (chunks : List (QueueSel × List Char)) :
    ReadOutput h tag binaryDir chunks =
      ReadChunks (InitializeBuildingStructures (LaunchHelper tag binaryDir h))
        (chunks ++ ClosingCalls) := by
  unfold ReadOutput ReadChunks ClosingCalls
  rw [List.foldl_append]
  rfl

theorem LaunchHelper_queue (h : cmCTestBuildHandler) (tag binaryDir : Str) :
    (LaunchHelper tag binaryDir h).BuildProcessingErrorQueue = h.BuildProcessingErrorQueue := by
  unfold LaunchHelper
  split_ifs <;> rfl
theorem Initialize_LaunchHelper_queue (h : cmCTestBuildHandler) (tag binaryDir : Str)
    (q : QueueSel) :
    (InitializeBuildingStructures (LaunchHelper tag binaryDir h)).queue q =
      (InitializeBuildingStructures h).queue q := by
  cases q
  · rfl
  · exact LaunchHelper_queue h tag binaryDir

/-- C21. In a call of `RunMakeCommand`, let a stream whose queue is empty when the
reading starts emit the bytes `unlines ls ++ t` (the lines `ls`, each followed by a
newline, and then `t` without a newline; the bytes are taken as `ProcessBuffer` receives
them from the read callback), cut into chunks anywhere and interleaved in any
way with the chunks of the other stream.  The lines that `ProcessBuffer` extracts from the
queue of that stream, in the read callbacks and in the two closing calls, are exactly the
lines `ls`, in order: each line once and whole, whether or not it was split across
chunks, and with no byte of the other stream in it.  The lines extracted from the two
queues, in the order of extraction, are what the line loop processes. -/
theorem RunLines_of_stream (h : cmCTestBuildHandler) (tag binaryDir : Str) (q : QueueSel)
    (chunks : List (QueueSel × List Char)) (ls : List Str) (t : List Char)
    (hq0 : (InitializeBuildingStructures h).queue q = [])
    (hbytes : StreamBytes q chunks = unlines ls ++ t)
    (hls : ∀ l ∈ ls, '\n' ∉ l) (ht : '\n' ∉ t) :
    LinesOfStream q (RunLines h tag binaryDir chunks) = ls ∧
    ∃ out err size, ReadOutput h tag binaryDir chunks =
      withQueues
        (CheckQuota (ProcessLines (InitializeBuildingStructures (LaunchHelper tag binaryDir h))
          ((RunLines h tag binaryDir chunks).map Prod.snd))) out err size := by
  have hq0' : (InitializeBuildingStructures (LaunchHelper tag binaryDir h)).queue q = [] := by
    rw [Initialize_LaunchHelper_queue]; exact hq0
  constructor
  · refine (ReadChunksLines_stream q (chunks ++ ClosingCalls)
      (InitializeBuildingStructures (LaunchHelper tag binaryDir h)) ls t (by rw [hq0']; simp)
      ?_ hls ht).1
    rw [hq0', StreamBytes_append, StreamBytes_closing, List.append_nil, List.nil_append]
    exact hbytes
  · rw [ReadOutput_eq_ReadChunks]
    unfold RunLines
    cases hc : chunks ++ ClosingCalls with
    | nil =>
      exfalso
      have := congrArg List.length hc
      simp [ClosingCalls] at this
    | cons c cs => exact ReadChunks_lines c cs _

/-- C21 on the sample handler: standard output brings `one`, `two` and the unterminated
`thr` in two chunks, with a chunk of standard error in between; the lines extracted from
the queue of standard output are `one` and `two`. -/
theorem RunLines_of_stream_witness :
    (InitializeBuildingStructures sampleHandler).queue QueueSel.BuildProcessingQueue = [] ∧
    StreamBytes QueueSel.BuildProcessingQueue
        [(QueueSel.BuildProcessingQueue, "one\ntw".toList),
          (QueueSel.BuildProcessingErrorQueue, "x\ny".toList),
          (QueueSel.BuildProcessingQueue, "o\nthr".toList)] =
      unlines ["one".toList, "two".toList] ++ "thr".toList ∧
    LinesOfStream QueueSel.BuildProcessingQueue
        (RunLines sampleHandler [] "/b".toList
          [(QueueSel.BuildProcessingQueue, "one\ntw".toList),
            (QueueSel.BuildProcessingErrorQueue, "x\ny".toList),
            (QueueSel.BuildProcessingQueue, "o\nthr".toList)]) =
      ["one".toList, "two".toList] :=
  ⟨rfl, by decide,
    (RunLines_of_stream sampleHandler [] "/b".toList QueueSel.BuildProcessingQueue
      [(QueueSel.BuildProcessingQueue, "one\ntw".toList),
        (QueueSel.BuildProcessingErrorQueue, "x\ny".toList),
        (QueueSel.BuildProcessingQueue, "o\nthr".toList)]
      ["one".toList, "two".toList] "thr".toList rfl (by decide) (by decide) (by decide)).1⟩

/-! ### What the two streams share -/

theorem SharedState_CheckQuota (h : cmCTestBuildHandler) :
    CheckQuota (SharedState h) = SharedState h := CheckQuota_idem _

theorem SharedState_withQueues (h : cmCTestBuildHandler) (out err : List Char) (size : Nat) :
    SharedState (withQueues h out err size) = SharedState h := rfl

theorem SharedState_setQueue (h : cmCTestBuildHandler) (q : QueueSel) (t : List Char) :
    SharedState (h.setQueue q t) = SharedState h := by
  cases q <;> rfl

theorem SharedState_lines (h : cmCTestBuildHandler) (ls : List (List Char)) :
    SharedState (CheckQuota (ProcessLines h ls)) = CheckQuota (ProcessLines (SharedState h) ls) := by
  unfold SharedState
  rw [CheckQuota_ProcessLines_CheckQuota, ProcessLines_withQueues, CheckQuota_withQueues,
    CheckQuota_withQueues, CheckQuota_idem]

/-- What a call of `ProcessBuffer` does to the shared state: the line loop over the lines
it extracts. -/
theorem SharedState_ProcessBuffer (h : cmCTestBuildHandler) (data : List Char) (q : QueueSel)
    (ls : List Str) (t : List Char) (hq : h.queue q ++ data = unlines ls ++ t)
    (hls : ∀ l ∈ ls, '\n' ∉ l) (ht : '\n' ∉ t) :
    SharedState (ProcessBuffer h data q) = CheckQuota (ProcessLines (SharedState h) ls) := by
  rw [ProcessBuffer_eq h data q ls t hq hls ht, SharedState_setQueue, SharedState_withQueues,
    SharedState_lines]

/-- After a call of `ProcessBuffer` the handler is its shared state with the two queues
and the size of the output. -/
theorem ProcessBuffer_shared_form (h : cmCTestBuildHandler) (data : List Char) (q : QueueSel) :
    ∃ out err size, ProcessBuffer h data q =
      withQueues (SharedState (ProcessBuffer h data q)) out err size := by
  obtain ⟨ls, out, err, size, _, heq⟩ := ProcessBuffer_exists h data q
  refine ⟨out, err, size, ?_⟩
  rw [heq, SharedState_withQueues]
  unfold SharedState
  rw [CheckQuota_withQueues, CheckQuota_idem]
  rfl

/-- Two runs that end with the same shared state differ in the queues and in the size of
the output only. -/
theorem ReadOutput_of_shared (h : cmCTestBuildHandler) (tag binaryDir : Str)
    (chunks1 chunks2 : List (QueueSel × List Char))
    (hs : SharedState (ReadOutput h tag binaryDir chunks1) =
      SharedState (ReadOutput h tag binaryDir chunks2)) :
    ∃ out err size, ReadOutput h tag binaryDir chunks1 =
      withQueues (ReadOutput h tag binaryDir chunks2) out err size := by
  have hform : ∀ chunks, ∃ out err size, ReadOutput h tag binaryDir chunks =
      withQueues (SharedState (ReadOutput h tag binaryDir chunks)) out err size := by
    intro chunks
    unfold ReadOutput
    exact ProcessBuffer_shared_form _ _ _
  obtain ⟨o1, e1, z1, h1⟩ := hform chunks1
  obtain ⟨o2, e2, z2, h2⟩ := hform chunks2
  refine ⟨o1, e1, z1, ?_⟩
  rw [h1]
  conv_rhs => rw [h2]
  rw [hs]
  rfl

theorem upToLastNewline_of_not_mem (d : List Char) (hd : '\n' ∉ d) : upToLastNewline d = [] := by
  cases d with
  | nil => rfl
  | cons c cs => rw [upToLastNewline, if_neg hd]

theorem upToLastNewline_append_of_not_mem (a b : List Char) (hb : '\n' ∉ b) :
    upToLastNewline (a ++ b) = upToLastNewline a := by
  induction a with
  | nil => simpa [upToLastNewline] using upToLastNewline_of_not_mem b hb
  | cons c cs ih =>
    have hiff : '\n' ∈ c :: (cs ++ b) ↔ '\n' ∈ c :: cs := by
      simp only [List.mem_cons, List.mem_append]
      tauto
    rw [List.cons_append, upToLastNewline, upToLastNewline, ih]
    by_cases hm : '\n' ∈ c :: cs
    · rw [if_pos hm, if_pos (hiff.mpr hm)]
    · rw [if_neg hm, if_neg (fun h => hm (hiff.mp h))]

theorem upToLastNewline_append_of_mem (a b : List Char) (hb : '\n' ∈ b) :
    upToLastNewline (a ++ b) = a ++ upToLastNewline b := by
  induction a with
  | nil => rfl
  | cons c cs ih =>
    have hm : '\n' ∈ c :: (cs ++ b) := by simp [hb]
    rw [List.cons_append, upToLastNewline, if_pos hm, ih]
    rfl

theorem upToLastNewline_split (d : List Char) :
    ∃ b, d = upToLastNewline d ++ b ∧ '\n' ∉ b := by
  induction d with
  | nil => exact ⟨[], rfl, by simp⟩
  | cons c cs ih =>
    by_cases hm : '\n' ∈ c :: cs
    · obtain ⟨b, hb, hnb⟩ := ih
      refine ⟨b, ?_, hnb⟩
      rw [upToLastNewline, if_pos hm, List.cons_append, ← hb]
    · exact ⟨c :: cs, by rw [upToLastNewline, if_neg hm]; rfl, hm⟩

theorem upToLastNewline_unlines (ls : List Str) (t : List Char) (ht : '\n' ∉ t) :
    upToLastNewline (unlines ls ++ t) = unlines ls := by
  rw [upToLastNewline_append_of_not_mem _ _ ht]
  induction ls with
  | nil => rfl
  | cons l ls ih =>
    rw [unlines_cons, upToLastNewline_append_of_mem l _ (by simp), upToLastNewline,
      if_pos (by simp), ih]

theorem StreamBytes_dropPartialLine (q : QueueSel) (chunks : List (QueueSel × List Char)) :
    StreamBytes q (dropPartialLine q chunks) = upToLastNewline (StreamBytes q chunks) := by
  induction chunks with
  | nil => rfl
  | cons c cs ih =>
    obtain ⟨r, d⟩ := c
    unfold dropPartialLine
    by_cases hr : r = q
    · subst hr
      by_cases hn : '\n' ∉ StreamBytes r cs
      · rw [if_pos ⟨rfl, hn⟩, StreamBytes_cons_same, StreamBytes_cons_same, ih,
          upToLastNewline_of_not_mem _ hn, List.append_nil,
          upToLastNewline_append_of_not_mem _ _ hn]
      · rw [if_neg (fun h => hn h.2), StreamBytes_cons_same, StreamBytes_cons_same, ih,
          upToLastNewline_append_of_mem _ _ (by simpa using hn)]
    · rw [if_neg (fun h => hr h.1), StreamBytes_cons_other q r d _ hr,
        StreamBytes_cons_other q r d _ hr, ih]

theorem dropPartialLine_closing (q : QueueSel) (chunks : List (QueueSel × List Char)) :
    dropPartialLine q (chunks ++ ClosingCalls) = dropPartialLine q chunks ++ ClosingCalls := by
  induction chunks with
  | nil => cases q <;> decide
  | cons c cs ih =>
    have hb : StreamBytes q (cs ++ ClosingCalls) = StreamBytes q cs := by
      rw [StreamBytes_append, StreamBytes_closing, List.append_nil]
    rw [List.cons_append, dropPartialLine, dropPartialLine, ih, hb]
    split_ifs <;> rfl

/-- Two states with the same shared state, from which a call of `ProcessBuffer` extracts
the same lines, have the same shared state after the call. -/
theorem SharedState_step (s s' : cmCTestBuildHandler) (d d' : List Char) (r : QueueSel)
    (ls : List Str) (t t' : List Char) (hs : SharedState s = SharedState s')
    (hq : s.queue r ++ d = unlines ls ++ t) (hq' : s'.queue r ++ d' = unlines ls ++ t')
    (hls : ∀ l ∈ ls, '\n' ∉ l) (ht : '\n' ∉ t) (ht' : '\n' ∉ t') :
    SharedState (ProcessBuffer s d r) = SharedState (ProcessBuffer s' d' r) := by
  rw [SharedState_ProcessBuffer s d r ls t hq hls ht,
    SharedState_ProcessBuffer s' d' r ls t' hq' hls ht', hs]

/-- The run without the unterminated last line of a stream goes through the same shared
states. -/
theorem SharedState_dropPartialLine (q : QueueSel) (chunks : List (QueueSel × List Char))
    (s s' : cmCTestBuildHandler) (hs : SharedState s = SharedState s')
    (hother : ∀ r, r ≠ q → s.queue r = s'.queue r)
    (hq : s.queue q = s'.queue q ∨
      ('\n' ∉ StreamBytes q chunks ∧ '\n' ∉ s.queue q ∧ '\n' ∉ s'.queue q)) :
    SharedState (ReadChunks s chunks) =
      SharedState (ReadChunks s' (dropPartialLine q chunks)) := by
  induction chunks generalizing s s' with
  | nil => exact hs
  | cons c cs ih =>
    obtain ⟨r, d⟩ := c
    have hrun : ∀ (x : cmCTestBuildHandler) (e : List Char) (l : List (QueueSel × List Char)),
        ReadChunks x ((r, e) :: l) = ReadChunks (ProcessBuffer x e r) l := fun _ _ _ => rfl
    unfold dropPartialLine
    by_cases hr : r = q
    · subst hr
      by_cases hn : '\n' ∉ StreamBytes r cs
      · rw [if_pos ⟨rfl, hn⟩, hrun, hrun]
        obtain ⟨b, hb, hnb⟩ := upToLastNewline_split d
        -- the two calls extract the same lines
        have key : ∃ ls t t', s.queue r ++ d = unlines ls ++ t ∧
            s'.queue r ++ upToLastNewline d = unlines ls ++ t' ∧ (∀ l ∈ ls, '\n' ∉ l) ∧
            '\n' ∉ t ∧ '\n' ∉ t' := by
          rcases hq with hq | ⟨hq1, hq2, hq3⟩
          · obtain ⟨ls, t', h1, h2, h3⟩ := exists_unlines (s'.queue r ++ upToLastNewline d)
            refine ⟨ls, t' ++ b, t', ?_, h1, h2, ?_, h3⟩
            · rw [← List.append_assoc, ← h1, hq, List.append_assoc, ← hb]
            · simp only [List.mem_append, not_or]
              exact ⟨h3, hnb⟩
          · have hd : '\n' ∉ d := by
              rw [StreamBytes_cons_same] at hq1
              simp only [List.mem_append, not_or] at hq1
              exact hq1.1
            refine ⟨[], s.queue r ++ d, s'.queue r, by simp [unlines], ?_, by simp, ?_, hq3⟩
            · rw [upToLastNewline_of_not_mem d hd]
              simp [unlines]
            · simp only [List.mem_append, not_or]
              exact ⟨hq2, hd⟩
        obtain ⟨ls, t, t', k1, k2, k3, k4, k5⟩ := key
        obtain ⟨a1, a2⟩ := ProcessBuffer_queue s d r ls t k1 k3 k4
        obtain ⟨b1, b2⟩ := ProcessBuffer_queue s' (upToLastNewline d) r ls t' k2 k3 k5
        refine ih _ _ (SharedState_step s s' d _ r ls t t' hs k1 k2 k3 k4 k5) ?_ ?_
        · intro x hx
          rw [a2 x hx, b2 x hx]
          exact hother x hx
        · exact Or.inr ⟨hn, by rw [a1]; exact k4, by rw [b1]; exact k5⟩
      · rw [if_neg (fun h => hn h.2), hrun, hrun]
        have hqq : s.queue r = s'.queue r := by
          rcases hq with hq | ⟨hq1, _, _⟩
          · exact hq
          · exfalso
            apply hn
            rw [StreamBytes_cons_same] at hq1
            simp only [List.mem_append, not_or] at hq1
            exact hq1.2
        obtain ⟨ls, t, k1, k3, k4⟩ := exists_unlines (s.queue r ++ d)
        have k2 : s'.queue r ++ d = unlines ls ++ t := by rw [← hqq]; exact k1
        obtain ⟨a1, a2⟩ := ProcessBuffer_queue s d r ls t k1 k3 k4
        obtain ⟨b1, b2⟩ := ProcessBuffer_queue s' d r ls t k2 k3 k4
        refine ih _ _ (SharedState_step s s' d d r ls t t hs k1 k2 k3 k4 k4) ?_ ?_
        · intro x hx
          rw [a2 x hx, b2 x hx]
          exact hother x hx
        · exact Or.inl (by rw [a1, b1])
    · rw [if_neg (fun h => hr h.1), hrun, hrun]
      have hqq : s.queue r = s'.queue r := hother r hr
      obtain ⟨ls, t, k1, k3, k4⟩ := exists_unlines (s.queue r ++ d)
      have k2 : s'.queue r ++ d = unlines ls ++ t := by rw [← hqq]; exact k1
      obtain ⟨a1, a2⟩ := ProcessBuffer_queue s d r ls t k1 k3 k4
      obtain ⟨b1, b2⟩ := ProcessBuffer_queue s' d r ls t k2 k3 k4
      have hqr : q ≠ r := fun e => hr e.symm
      refine ih _ _ (SharedState_step s s' d d r ls t t hs k1 k2 k3 k4 k4) ?_ ?_
      · intro x hx
        by_cases hxr : x = r
        · rw [hxr, a1, b1]
        · rw [a2 x hxr, b2 x hxr]
          exact hother x hx
      · rw [a2 q hqr, b2 q hqr, StreamBytes_cons_other q r d cs hr] at *
        exact hq
/-! ### C24: the unterminated last line of a stream -/

/-- C24. In a call of `RunMakeCommand`, let a stream whose queue is empty when the
reading starts emit the lines `ls`, each followed by a newline, and then the bytes `t`
without a newline (the bytes are taken as `ProcessBuffer` receives them from the read
callback), in chunks cut anywhere and interleaved in any way with the chunks of
the other stream.  `ProcessBuffer` extracts the lines `ls` from the queue of that stream
and nothing else; after the two closing calls the bytes `t` are still in that queue; and
the handler is the one of the run in which the stream ends after its last newline
(`dropPartialLine`), up to the two queues and the size of the output: the events with
their contexts, the pre-context buffer, the line counter, the totals and the quota flags
are the same, so the unterminated line has produced no event, no context line and no
increment of the line counter. -/
theorem ReadOutput_partial_line (h : cmCTestBuildHandler) (tag binaryDir : Str) (q : QueueSel)
    (chunks : List (QueueSel × List Char)) (ls : List Str) (t : List Char)
    (hq0 : (InitializeBuildingStructures h).queue q = [])
    (hbytes : StreamBytes q chunks = unlines ls ++ t)
    (hls : ∀ l ∈ ls, '\n' ∉ l) (ht : '\n' ∉ t) :
    LinesOfStream q (RunLines h tag binaryDir chunks) = ls ∧
    (ReadOutput h tag binaryDir chunks).queue q = t ∧
    StreamBytes q (dropPartialLine q chunks) = unlines ls ∧
    ∃ out err size, ReadOutput h tag binaryDir chunks =
      withQueues (ReadOutput h tag binaryDir (dropPartialLine q chunks)) out err size := by
  have hq0' : (InitializeBuildingStructures (LaunchHelper tag binaryDir h)).queue q = [] := by
    rw [Initialize_LaunchHelper_queue]; exact hq0
  have hstream := ReadChunksLines_stream q (chunks ++ ClosingCalls)
    (InitializeBuildingStructures (LaunchHelper tag binaryDir h)) ls t (by rw [hq0']; simp)
    (by
      rw [hq0', StreamBytes_append, StreamBytes_closing, List.append_nil, List.nil_append]
      exact hbytes) hls ht
  refine ⟨hstream.1, ?_, ?_, ?_⟩
  · rw [ReadOutput_eq_ReadChunks]
    exact hstream.2
  · rw [StreamBytes_dropPartialLine, hbytes, upToLastNewline_unlines ls t ht]
  · apply ReadOutput_of_shared
    rw [ReadOutput_eq_ReadChunks, ReadOutput_eq_ReadChunks, ← dropPartialLine_closing]
    exact SharedState_dropPartialLine q _ _ _ rfl (fun _ _ => rfl) (Or.inl rfl)

/-- C24 on the sample handler: standard output ends with the unterminated line
`b.c:2: error: e`, which the Error rule would match; after the run it is still in the
queue of standard output. -/
theorem ReadOutput_partial_line_witness :
    (InitializeBuildingStructures sampleHandler).queue QueueSel.BuildProcessingQueue = [] ∧
    StreamBytes QueueSel.BuildProcessingQueue samplePartialChunks =
      unlines ["a.c:1: warning: w".toList] ++ "b.c:2: error: e".toList ∧
    (ReadOutput sampleHandler [] "/b".toList samplePartialChunks).queue
        QueueSel.BuildProcessingQueue = "b.c:2: error: e".toList :=
  ⟨rfl, by decide,
    (ReadOutput_partial_line sampleHandler [] "/b".toList QueueSel.BuildProcessingQueue
      samplePartialChunks ["a.c:1: warning: w".toList] "b.c:2: error: e".toList rfl
      (by decide) (by decide) (by decide)).2.1⟩
/-! ### C22: what a stream sees of the other stream -/

theorem SharedState_events (h : cmCTestBuildHandler) :
    (SharedState h).ErrorsAndWarnings = h.ErrorsAndWarnings :=
  (CheckQuota_fields (withQueues h [] [] 0)).2.2.1

/-- A run in which every chunk is made of complete lines, from empty queues: the shared
state is the one of the line loop over the lines of the chunks, in order. -/
theorem ReadChunks_complete (cl : List (QueueSel × List Str)) (s : cmCTestBuildHandler)
    (hqs : ∀ r, s.queue r = []) (hcl : ∀ c ∈ cl, ∀ l ∈ c.2, '\n' ∉ l) :
    SharedState (ReadChunks s (cl.map (fun c => (c.1, unlines c.2)))) =
      CheckQuota (ProcessLines (SharedState s) (cl.map Prod.snd).flatten) := by
  induction cl generalizing s with
  | nil => exact (SharedState_CheckQuota s).symm
  | cons c rest ih =>
    obtain ⟨r, ls⟩ := c
    have hls : ∀ l ∈ ls, '\n' ∉ l := hcl (r, ls) (by simp)
    have hq : s.queue r ++ unlines ls = unlines ls ++ [] := by
      rw [hqs r, List.nil_append, List.append_nil]
    obtain ⟨a1, a2⟩ := ProcessBuffer_queue s (unlines ls) r ls [] hq hls (by simp)
    have hqs' : ∀ x, (ProcessBuffer s (unlines ls) r).queue x = [] := by
      intro x
      by_cases hx : x = r
      · rw [hx, a1]
      · rw [a2 x hx, hqs x]
    show SharedState (ReadChunks (ProcessBuffer s (unlines ls) r)
      (rest.map (fun c => (c.1, unlines c.2)))) = _
    rw [ih _ hqs' (fun c hc => hcl c (by simp [hc])),
      SharedState_ProcessBuffer s (unlines ls) r ls [] hq hls (by simp),
      CheckQuota_ProcessLines_CheckQuota, ← ProcessLines_append]
    simp

/-- C22 as stated fails: the line counter and the pre-context buffer are shared by the two
streams.  In both runs standard output brings the one line `a.c:1: error: e`; in the
second run standard error has brought the line `noise` before.  The event created from
the line of standard output has `LogLine` 1 and an empty pre-context in the first run,
`LogLine` 2 and the pre-context `noise` in the second. -/
theorem ReadOutput_streams_share_counterexample :
    sampleChunksQuiet.filter (fun c => c.1 == QueueSel.BuildProcessingQueue) =
      sampleChunksNoise.filter (fun c => c.1 == QueueSel.BuildProcessingQueue) ∧
    (ReadOutput sampleHandler [] "/b".toList sampleChunksQuiet).ErrorsAndWarnings =
      [sampleEvent true 1 "a.c:1: error: e"] ∧
    (ReadOutput sampleHandler [] "/b".toList sampleChunksNoise).ErrorsAndWarnings =
      [{ sampleEvent true 2 "a.c:1: error: e" with PreContext := "noise\n".toList }] := by
  have hqs : ∀ r, (InitializeBuildingStructures
      (LaunchHelper [] "/b".toList sampleHandler)).queue r = [] := by
    intro r
    cases r <;> rfl
  have h1 := ReadChunks_complete
    [(QueueSel.BuildProcessingQueue, ["a.c:1: error: e".toList]),
      (QueueSel.BuildProcessingQueue, []), (QueueSel.BuildProcessingErrorQueue, [])]
    _ hqs (by decide)
  have h2 := ReadChunks_complete
    [(QueueSel.BuildProcessingErrorQueue, ["noise".toList]),
      (QueueSel.BuildProcessingQueue, ["a.c:1: error: e".toList]),
      (QueueSel.BuildProcessingQueue, []), (QueueSel.BuildProcessingErrorQueue, [])]
    _ hqs (by decide)
  refine ⟨by decide, ?_, ?_⟩
  · rw [← SharedState_events, ReadOutput_eq_ReadChunks]
    have hc : sampleChunksQuiet ++ ClosingCalls =
        [(QueueSel.BuildProcessingQueue, ["a.c:1: error: e".toList]),
          (QueueSel.BuildProcessingQueue, []), (QueueSel.BuildProcessingErrorQueue, [])].map
          (fun c => (c.1, unlines c.2)) := by decide
    rw [hc, h1]
    decide
  · rw [← SharedState_events, ReadOutput_eq_ReadChunks]
    have hc : sampleChunksNoise ++ ClosingCalls =
        [(QueueSel.BuildProcessingErrorQueue, ["noise".toList]),
          (QueueSel.BuildProcessingQueue, ["a.c:1: error: e".toList]),
          (QueueSel.BuildProcessingQueue, []), (QueueSel.BuildProcessingErrorQueue, [])].map
          (fun c => (c.1, unlines c.2)) := by decide
    rw [hc, h2]
    decide

/-- There are two streams: two of them that differ from a third are the same. -/
theorem QueueSel_other (x r q : QueueSel) (hx : x ≠ q) (hr : r ≠ q) : x = r := by
  cases x <;> cases r <;> cases q <;>
    first
    | rfl
    | exact absurd rfl hx
    | exact absurd rfl hr

/-- The chunks of the other stream change nothing of the shared state as long as they
bring no newline. -/
theorem SharedState_filter (q : QueueSel) (chunks : List (QueueSel × List Char))
    (s s' : cmCTestBuildHandler) (hs : SharedState s = SharedState s')
    (hq : s.queue q = s'.queue q) (hother : ∀ r, r ≠ q → '\n' ∉ s.queue r)
    (hsilent : ∀ c ∈ chunks, c.1 ≠ q → '\n' ∉ c.2) :
    SharedState (ReadChunks s chunks) =
      SharedState (ReadChunks s' (chunks.filter (fun c => c.1 == q))) := by
  induction chunks generalizing s s' with
  | nil => exact hs
  | cons c cs ih =>
    obtain ⟨r, d⟩ := c
    have hrun : ∀ (x : cmCTestBuildHandler) (l : List (QueueSel × List Char)),
        ReadChunks x ((r, d) :: l) = ReadChunks (ProcessBuffer x d r) l := fun _ _ => rfl
    have hsil : ∀ c ∈ cs, c.1 ≠ q → '\n' ∉ c.2 := fun c hc => hsilent c (by simp [hc])
    by_cases hr : r = q
    · subst hr
      have hf : ((r, d) :: cs).filter (fun c => c.1 == r) =
          (r, d) :: cs.filter (fun c => c.1 == r) := by simp
      rw [hf, hrun, hrun]
      obtain ⟨ls, t, k1, k3, k4⟩ := exists_unlines (s.queue r ++ d)
      have k2 : s'.queue r ++ d = unlines ls ++ t := by rw [← hq]; exact k1
      obtain ⟨a1, a2⟩ := ProcessBuffer_queue s d r ls t k1 k3 k4
      obtain ⟨b1, b2⟩ := ProcessBuffer_queue s' d r ls t k2 k3 k4
      refine ih _ _ (SharedState_step s s' d d r ls t t hs k1 k2 k3 k4 k4) (by rw [a1, b1]) ?_
        hsil
      intro x hx
      rw [a2 x hx]
      exact hother x hx
    · have hf : ((r, d) :: cs).filter (fun c => c.1 == q) = cs.filter (fun c => c.1 == q) := by
        simp [hr]
      rw [hf, hrun]
      have hd : '\n' ∉ d := hsilent (r, d) (by simp) hr
      have hnl : '\n' ∉ s.queue r ++ d := by
        simp only [List.mem_append, not_or]
        exact ⟨hother r hr, hd⟩
      have k1 : s.queue r ++ d = unlines [] ++ (s.queue r ++ d) := by simp [unlines]
      obtain ⟨a1, a2⟩ := ProcessBuffer_queue s d r [] _ k1 (by simp) hnl
      have hqr : q ≠ r := fun e => hr e.symm
      refine ih _ _ ?_ (by rw [a2 q hqr]; exact hq) ?_ hsil
      · rw [SharedState_ProcessBuffer s d r [] _ k1 (by simp) hnl]
        show CheckQuota (SharedState s) = SharedState s'
        rw [SharedState_CheckQuota, hs]
      · intro x hx
        have hxr : x = r := QueueSel_other x r q hx hr
        rw [hxr, a1]
        exact hnl

theorem StreamBytes_of_filter (q : QueueSel) (a b : List (QueueSel × List Char))
    (hab : a.filter (fun c => c.1 == q) = b.filter (fun c => c.1 == q)) :
    StreamBytes q a = StreamBytes q b := by
  unfold StreamBytes
  rw [hab]

/-- C22, amended. The two streams have a character queue each and share the rest of the
state of `ProcessBuffer`: the line counter, the pre-context buffer, the post-context
count, the totals and the quota flags, as well as the event sequence.  For every pair of
runs of a handler (its queue of standard error empty, as the constructor leaves it) that
feed the same chunks on one stream, the lines extracted from the queue of that stream are
the same in both runs; and when in both runs the other stream brings no complete line
(no chunk of it holds a newline), the two runs leave the same handler up to the queues
and the size of the output, so the events have the same kind, `LogLine`, pre-context and
post-context in both runs. -/
theorem ReadOutput_silent_stream (h : cmCTestBuildHandler) (tag binaryDir : Str)
    (q : QueueSel) (chunks1 chunks2 : List (QueueSel × List Char))
    (hq0 : h.BuildProcessingErrorQueue = [])
    (hsame : chunks1.filter (fun c => c.1 == q) = chunks2.filter (fun c => c.1 == q)) :
    LinesOfStream q (RunLines h tag binaryDir chunks1) =
      LinesOfStream q (RunLines h tag binaryDir chunks2) ∧
    ((∀ c ∈ chunks1, c.1 ≠ q → '\n' ∉ c.2) → (∀ c ∈ chunks2, c.1 ≠ q → '\n' ∉ c.2) →
      (∃ out err size, ReadOutput h tag binaryDir chunks1 =
        withQueues (ReadOutput h tag binaryDir chunks2) out err size) ∧
      (ReadOutput h tag binaryDir chunks1).ErrorsAndWarnings =
        (ReadOutput h tag binaryDir chunks2).ErrorsAndWarnings) := by
  have hqs : ∀ r, (InitializeBuildingStructures (LaunchHelper tag binaryDir h)).queue r = [] := by
    intro r
    cases r
    · rfl
    · show (LaunchHelper tag binaryDir h).BuildProcessingErrorQueue = []
      rw [LaunchHelper_queue, hq0]
  constructor
  · obtain ⟨ls, t, k1, k3, k4⟩ := exists_unlines
      ((InitializeBuildingStructures (LaunchHelper tag binaryDir h)).queue q ++
        StreamBytes q (chunks1 ++ ClosingCalls))
    have k2 : (InitializeBuildingStructures (LaunchHelper tag binaryDir h)).queue q ++
        StreamBytes q (chunks2 ++ ClosingCalls) = unlines ls ++ t := by
      rw [← k1, StreamBytes_append, StreamBytes_append, StreamBytes_of_filter q _ _ hsame]
    unfold RunLines
    rw [(ReadChunksLines_stream q _ _ ls t (by rw [hqs q]; simp) k1 k3 k4).1,
      (ReadChunksLines_stream q _ _ ls t (by rw [hqs q]; simp) k2 k3 k4).1]
  · intro hs1 hs2
    have hsil : ∀ chunks : List (QueueSel × List Char), (∀ c ∈ chunks, c.1 ≠ q → '\n' ∉ c.2) →
        ∀ c ∈ chunks ++ ClosingCalls, c.1 ≠ q → '\n' ∉ c.2 := by
      intro chunks hc c hm hne
      rcases List.mem_append.mp hm with hm | hm
      · exact hc c hm hne
      · simp only [ClosingCalls, List.mem_cons, List.mem_singleton, List.not_mem_nil,
          or_false] at hm
        rcases hm with hm | hm <;> rw [hm] <;> simp
    have hshared : SharedState (ReadOutput h tag binaryDir chunks1) =
        SharedState (ReadOutput h tag binaryDir chunks2) := by
      rw [ReadOutput_eq_ReadChunks, ReadOutput_eq_ReadChunks,
        SharedState_filter q (chunks1 ++ ClosingCalls) _ _ rfl rfl
          (fun r _ => by rw [hqs r]; simp) (hsil chunks1 hs1),
        SharedState_filter q (chunks2 ++ ClosingCalls) _ _ rfl rfl
          (fun r _ => by rw [hqs r]; simp) (hsil chunks2 hs2),
        List.filter_append, List.filter_append, hsame]
    refine ⟨ReadOutput_of_shared h tag binaryDir chunks1 chunks2 hshared, ?_⟩
    rw [← SharedState_events, hshared, SharedState_events]

/-- C22 (amended) on the sample handler: in both runs standard output brings the same two
chunks, and standard error brings a chunk without a newline, at different moments; the
events of the two runs are the same. -/
theorem ReadOutput_silent_stream_witness :
    sampleHandler.BuildProcessingErrorQueue = [] ∧
    [(QueueSel.BuildProcessingQueue, "a.c:1: err".toList),
        (QueueSel.BuildProcessingErrorQueue, "ld: ".toList),
        (QueueSel.BuildProcessingQueue, "or: e\n".toList)].filter
        (fun c => c.1 == QueueSel.BuildProcessingQueue) =
      [(QueueSel.BuildProcessingErrorQueue, "cc1: ".toList),
        (QueueSel.BuildProcessingQueue, "a.c:1: err".toList),
        (QueueSel.BuildProcessingQueue, "or: e\n".toList)].filter
        (fun c => c.1 == QueueSel.BuildProcessingQueue) ∧
    (ReadOutput sampleHandler [] "/b".toList
        [(QueueSel.BuildProcessingQueue, "a.c:1: err".toList),
          (QueueSel.BuildProcessingErrorQueue, "ld: ".toList),
          (QueueSel.BuildProcessingQueue, "or: e\n".toList)]).ErrorsAndWarnings =
      (ReadOutput sampleHandler [] "/b".toList
        [(QueueSel.BuildProcessingErrorQueue, "cc1: ".toList),
          (QueueSel.BuildProcessingQueue, "a.c:1: err".toList),
          (QueueSel.BuildProcessingQueue, "or: e\n".toList)]).ErrorsAndWarnings :=
  ⟨rfl, by decide,
    ((ReadOutput_silent_stream sampleHandler [] "/b".toList QueueSel.BuildProcessingQueue
      [(QueueSel.BuildProcessingQueue, "a.c:1: err".toList),
        (QueueSel.BuildProcessingErrorQueue, "ld: ".toList),
        (QueueSel.BuildProcessingQueue, "or: e\n".toList)]
      [(QueueSel.BuildProcessingErrorQueue, "cc1: ".toList),
        (QueueSel.BuildProcessingQueue, "a.c:1: err".toList),
        (QueueSel.BuildProcessingQueue, "or: e\n".toList)]
      rfl (by decide)).2 (by decide) (by decide)).2⟩

/-! ### C20: launcher mode without fragments -/

theorem CleanupStrings_kinds (d : Str) (ew : List cmCTestBuildErrorWarning) :
    (CleanupStrings d ew).map (fun e => e.Error) = ew.map (fun e => e.Error) := by
  unfold CleanupStrings
  split_ifs
  · simp [List.map_map, Function.comp_def]
  · rfl

theorem CleanupStrings_nil (d : Str) : CleanupStrings d [] = [] := by
  unfold CleanupStrings
  split_ifs <;> rfl

/-- With a tag, a run of a handler in launcher mode stays in launcher mode, records no
event from the output and leaves the totals at zero. -/
theorem ReadOutput_launcher (h : cmCTestBuildHandler) (tag binaryDir : Str)
    (chunks : List (QueueSel × List Char)) (hl : h.UseCTestLaunch = true) (htag : tag ≠ []) :
    LauncherInv 0 0 0 (ReadOutput h tag binaryDir chunks) := by
  have h0 : LauncherInv 0 0 0 (InitializeBuildingStructures (LaunchHelper tag binaryDir h)) := by
    unfold LaunchHelper
    rw [if_neg htag]
    exact ⟨hl, rfl, rfl, rfl⟩
  rw [ReadOutput_eq_ReadChunks]
  exact LauncherInv_ReadChunks 0 0 0 _ _ h0

/-- The handler that `RunMakeCommand` leaves in launcher mode: the one in which the output
was read, with the Error event of a spawn failure when the process could not be spawned. -/
theorem RunMakeCommand_launcher_handler (h : cmCTestBuildHandler) (args : List Str)
    (tag binaryDir : Str) (retVal : Option Int) (chain : cmUVProcessChain)
    (launchDir : List Str) (hargs : args ≠ [])
    (hmode : (ReadOutput h tag binaryDir chain.chunks).UseCTestLaunch = true) :
    (RunMakeCommand h args tag binaryDir retVal chain launchDir).handler =
      if chain.Finished = true ∧ chain.GetException.1 = ExceptionCode.Spawn then
        { ReadOutput h tag binaryDir chain.chunks with
          ErrorsAndWarnings :=
            (ReadOutput h tag binaryDir chain.chunks).ErrorsAndWarnings ++
              [SpawnError chain.GetException.2]
          TotalErrors := (ReadOutput h tag binaryDir chain.chunks).TotalErrors + 1 }
      else ReadOutput h tag binaryDir chain.chunks := by
  unfold RunMakeCommand
  rw [if_neg hargs]
  simp only [hmode, if_true]
  by_cases hfin : chain.Finished = true
  · cases hexc : chain.GetException.1 with
    | None =>
      simp only [hfin, if_true, true_and, reduceCtorEq, if_false]
      cases retVal with
      | none => rfl
      | some r =>
        simp only
        split_ifs <;> rfl
    | Spawn => simp only [hfin, if_true, and_self]
    | Other => simp only [hfin, if_true, true_and, reduceCtorEq, if_false]
  · simp only [hfin, Bool.false_eq_true, if_false, false_and]

/-- C20, counterexample.  The sample handler in launcher mode, a command that cannot be
spawned, an empty fragment directory: `GenerateXMLLaunched` emits no fragment, and the
handler it leaves has `TotalErrors = 1` and the Error event of the spawn failure, which
`RunMakeCommand` records in every mode. -/
theorem GenerateXMLLaunched_no_fragments_counterexample :
    sampleLaunchHandler.UseCTestLaunch = true ∧
    (RunMakeCommand sampleLaunchHandler ["make".toList] "T".toList "/b".toList (some 0)
        (sampleSpawnFailure "no such file") []).handler.UseCTestLaunch = true ∧
    (GenerateXMLLaunched (cmFileTimeCache.ofTimes sampleTimes) []
        (RunMakeCommand sampleLaunchHandler ["make".toList] "T".toList "/b".toList (some 0)
          (sampleSpawnFailure "no such file") []).handler).1 = [] ∧
    (GenerateXMLLaunched (cmFileTimeCache.ofTimes sampleTimes) []
        (RunMakeCommand sampleLaunchHandler ["make".toList] "T".toList "/b".toList (some 0)
          (sampleSpawnFailure "no such file") []).handler).2.TotalErrors = 1 ∧
    (GenerateXMLLaunched (cmFileTimeCache.ofTimes sampleTimes) []
        (RunMakeCommand sampleLaunchHandler ["make".toList] "T".toList "/b".toList (some 0)
          (sampleSpawnFailure "no such file") []).handler).2.ErrorsAndWarnings =
      [SpawnError "no such file".toList] := by
  have e1 : RunMakeCommand sampleLaunchHandler ["make".toList] "T".toList "/b".toList (some 0)
      (sampleSpawnFailure "no such file") [] =
      { result := true
        handler :=
          { CheckQuota (CheckQuota (InitializeBuildingStructures
              (LaunchHelper "T".toList "/b".toList sampleLaunchHandler))) with
            ErrorsAndWarnings := [SpawnError "no such file".toList]
            TotalErrors := 1 }
        retVal := some 0
        reporter := none } := by
    unfold RunMakeCommand
    simp only [sampleSpawnFailure]
    rw [ReadOutput_nil _ _ _ (by decide)]
    rfl
  rw [e1]
  exact ⟨rfl, rfl, rfl, rfl, rfl⟩

/-- C20, amended.  In a run in launcher mode (the handler is in launcher mode and there is
a tag), let the fragment directory hold no file named `error-*.xml` or `warning-*.xml`
when the report is written (in particular, let it be empty).  `GenerateXMLLaunched` emits
no fragment and returns the handler as it got it, whatever the handler is: it touches
neither the totals nor the event sequence, and it has no failure path.  The body of the
report is empty and `TotalWarnings` is zero; `TotalErrors` is zero and no event is recorded
unless the build process could not be spawned, in which case the one Error event that
`RunMakeCommand` has recorded and counted is still there and `TotalErrors` is one. -/
theorem GenerateXMLLaunched_no_fragments (st : cmSystemTools) (FTC : cmFileTimeCache)
    (fragmentDir : List Str) (SourceDirectory BuildDirectory : Str)
    (h : cmCTestBuildHandler) (args : List Str) (tag binaryDir : Str) (retVal : Option Int)
    (chain : cmUVProcessChain) (launchDir : List Str)
    (hargs : args ≠ []) (hl : h.UseCTestLaunch = true) (htag : tag ≠ [])
    (hdir : ∀ f ∈ fragmentDir,
      IsLaunchedErrorFile f = false ∧ IsLaunchedWarningFile f = false) :
    (∀ g : cmCTestBuildHandler, GenerateXMLLaunched FTC fragmentDir g = ([], g)) ∧
    (ProcessHandlerReport st FTC fragmentDir SourceDirectory BuildDirectory
      (RunMakeCommand h args tag binaryDir retVal chain launchDir).handler).1 =
      ReportBody.Launched [] ∧
    (ProcessHandlerReport st FTC fragmentDir SourceDirectory BuildDirectory
      (RunMakeCommand h args tag binaryDir retVal chain launchDir).handler).2.TotalWarnings =
      0 ∧
    (¬ (chain.Finished = true ∧ chain.GetException.1 = ExceptionCode.Spawn) →
      (ProcessHandlerReport st FTC fragmentDir SourceDirectory BuildDirectory
        (RunMakeCommand h args tag binaryDir retVal chain launchDir).handler).2.TotalErrors =
        0 ∧
      (ProcessHandlerReport st FTC fragmentDir SourceDirectory BuildDirectory
        (RunMakeCommand h args tag binaryDir retVal chain
          launchDir).handler).2.ErrorsAndWarnings = []) ∧
    (chain.Finished = true ∧ chain.GetException.1 = ExceptionCode.Spawn →
      (ProcessHandlerReport st FTC fragmentDir SourceDirectory BuildDirectory
        (RunMakeCommand h args tag binaryDir retVal chain launchDir).handler).2.TotalErrors =
        1 ∧
      (ProcessHandlerReport st FTC fragmentDir SourceDirectory BuildDirectory
        (RunMakeCommand h args tag binaryDir retVal chain
          launchDir).handler).2.ErrorsAndWarnings.map (fun e => e.Error) = [true]) := by
  have key : ∀ g : cmCTestBuildHandler, GenerateXMLLaunched FTC fragmentDir g = ([], g) := by
    intro g
    unfold GenerateXMLLaunched
    split_ifs
    · rfl
    · exact IdentifyFragments_none FTC fragmentDir hdir _ _ _ _
  obtain ⟨hmode, hlen, hE, hW⟩ := ReadOutput_launcher h tag binaryDir chain.chunks hl htag
  have hnil : (ReadOutput h tag binaryDir chain.chunks).ErrorsAndWarnings = [] :=
    List.length_eq_zero.mp hlen
  have hh := RunMakeCommand_launcher_handler h args tag binaryDir retVal chain launchDir hargs
    hmode
  have hrep : ∀ g : cmCTestBuildHandler, g.UseCTestLaunch = true →
      ProcessHandlerReport st FTC fragmentDir SourceDirectory BuildDirectory g =
        (ReportBody.Launched [],
          { g with
            ErrorsAndWarnings :=
              (CleanupStrings (SimplifyDir BuildDirectory)
                (CleanupStrings (SimplifyDir SourceDirectory) g.ErrorsAndWarnings)) }) := by
    intro g hg
    unfold ProcessHandlerReport
    simp only [hg, if_true, key]
  have hgm : (RunMakeCommand h args tag binaryDir retVal chain launchDir).handler.UseCTestLaunch =
      true := by
    rw [hh]
    split_ifs <;> exact hmode
  rw [hrep _ hgm]
  by_cases hsp : chain.Finished = true ∧ chain.GetException.1 = ExceptionCode.Spawn
  · rw [if_pos hsp] at hh
    rw [hh]
    refine ⟨key, rfl, hW, fun hn => absurd hsp hn, fun _ => ⟨?_, ?_⟩⟩
    · show (ReadOutput h tag binaryDir chain.chunks).TotalErrors + 1 = 1
      rw [hE]
      rfl
    · show (CleanupStrings _ (CleanupStrings _ _)).map (fun e => e.Error) = [true]
      rw [CleanupStrings_kinds, CleanupStrings_kinds]
      show ((ReadOutput h tag binaryDir chain.chunks).ErrorsAndWarnings ++
        [SpawnError chain.GetException.2]).map (fun e => e.Error) = [true]
      rw [hnil]
      rfl
  · rw [if_neg hsp] at hh
    rw [hh]
    refine ⟨key, rfl, hW, fun _ => ⟨hE, ?_⟩, fun hs => absurd hs hsp⟩
    show CleanupStrings _ (CleanupStrings _ _) = []
    rw [hnil, CleanupStrings_nil, CleanupStrings_nil]

/-- C20 (amended) on the sample handler in launcher mode: the build prints an error line
and exits with code 2, the fragment directory holds only files that are no fragments.
The body of the report is empty and `TotalErrors` is zero. -/
theorem GenerateXMLLaunched_no_fragments_witness :
    ["make".toList] ≠ [] ∧ sampleLaunchHandler.UseCTestLaunch = true ∧ "T".toList ≠ [] ∧
    (∀ f ∈ ["CTestLaunchConfig.cmake".toList, "error-1.txt".toList, "warning.xml".toList],
      IsLaunchedErrorFile f = false ∧ IsLaunchedWarningFile f = false) ∧
    (ProcessHandlerReport sampleSystemTools (cmFileTimeCache.ofTimes sampleTimes)
      ["CTestLaunchConfig.cmake".toList, "error-1.txt".toList, "warning.xml".toList]
      "/s".toList "/b".toList
      (RunMakeCommand sampleLaunchHandler ["make".toList] "T".toList "/b".toList (some 0)
        (sampleChain [(QueueSel.BuildProcessingQueue, "a.c:1: error: e\n".toList)] 2)
        ["CTestLaunchConfig.cmake".toList]).handler).1 = ReportBody.Launched [] ∧
    (ProcessHandlerReport sampleSystemTools (cmFileTimeCache.ofTimes sampleTimes)
      ["CTestLaunchConfig.cmake".toList, "error-1.txt".toList, "warning.xml".toList]
      "/s".toList "/b".toList
      (RunMakeCommand sampleLaunchHandler ["make".toList] "T".toList "/b".toList (some 0)
        (sampleChain [(QueueSel.BuildProcessingQueue, "a.c:1: error: e\n".toList)] 2)
        ["CTestLaunchConfig.cmake".toList]).handler).2.TotalErrors = 0 := by
  have key := GenerateXMLLaunched_no_fragments sampleSystemTools
    (cmFileTimeCache.ofTimes sampleTimes)
    ["CTestLaunchConfig.cmake".toList, "error-1.txt".toList, "warning.xml".toList]
    "/s".toList "/b".toList sampleLaunchHandler ["make".toList] "T".toList "/b".toList (some 0)
    (sampleChain [(QueueSel.BuildProcessingQueue, "a.c:1: error: e\n".toList)] 2)
    ["CTestLaunchConfig.cmake".toList] (by decide) rfl (by decide) (by decide)
  exact ⟨by decide, rfl, by decide, by decide, key.2.1, (key.2.2.2.1 (by decide)).1⟩

end CTestBuild
